import Mathlib

/-!
# log-narrator: core, framing and analysis

A shallow embedding of the core types, the multiline framer and the analysis
components of log-narrator (C++), followed by theorems about it.

Conventions of the embedding

* `std::vector<T>` is `List T`; a loop over a vector is a recursion or a fold
  over the list, the loop variables being the accumulator.
* `size_t`, `uint64_t` and `uint8_t` values are `Nat` (counts and ids of an
  in-memory event list; wrap-around is not reachable).
* `std::chrono::system_clock::time_point` is an `Int` number of clock ticks
  since the epoch; a tick is a nanosecond (`ticks_per_second`), as in
  libstdc++. Durations keep the unit of their C++ type (`seconds`, `minutes`)
  and are converted to ticks where C++ converts them. Signed overflow of the
  64 bit tick count is not modelled.
* `std::optional<T>` is `Option T`.
* `std::unordered_map<std::string, std::string>` (the tag map) is an
  association list read with `find`.
* `std::unordered_set<std::string>` is a duplicate-free list in order of first
  insertion. The C++ iteration order is unspecified; no theorem below depends
  on the order of such a list, only on membership.
* A `std::map` or `std::unordered_map` is an association list. A map that the
  code iterates over (`pattern_counts`, `time_index_`) is kept in ascending key
  order; a map that is only read by key is kept in order of first insertion.
* Undefined behaviour of the C++ code (the read of an empty optional, an index
  out of range, an integer division by zero, an iterator moved past the end)
  is the result `none` of a function that returns an `Option`.
* `double` is a type with the operations of the class `DoubleArith`; `Rounded`
  is the instance "exact arithmetic, then rounding".
* `std::regex_replace` and `std::sort` are parameters (`StdLib`): the source
  of the repository does not fix their results.
* `std::string` is `String`, its `size()` the number of bytes of the UTF-8
  encoding; `std::toupper`, `std::tolower` and `std::isspace` are those of the
  "C" locale, which act on ASCII characters only.
-/

namespace Logstory

/-! ## core -/

/-- The enum `core::Severity` of `severity.hpp`, in declaration order. -/
inductive Severity where
  | UNKNOWN
  | TRACE
  | DEBUG
  | INFO
  | WARN
  | ERROR
  | FATAL
  deriving DecidableEq, Repr

/-- The underlying integer of a `Severity`, which `<`, `>` and `std::max`
compare. -/
def Severity.toNat : Severity → Nat
  | .UNKNOWN => 0
  | .TRACE => 1
  | .DEBUG => 2
  | .INFO => 3
  | .WARN => 4
  | .ERROR => 5
  | .FATAL => 6

/-- The function `std::max(a, b)` on severities: `(a < b) ? b : a`. -/
def Severity.max (a b : Severity) : Severity :=
  if a.toNat < b.toNat then b else a

/-- The function `to_string(Severity)` of `severity.cpp`. -/
def to_string (sev : Severity) : String :=
  match sev with
  | .TRACE => "TRACE"
  | .DEBUG => "DEBUG"
  | .INFO => "INFO"
  | .WARN => "WARN"
  | .ERROR => "ERROR"
  | .FATAL => "FATAL"
  | .UNKNOWN => "UNKNOWN"

/-- The upper-cased copy of a string made by `std::transform` with
`std::toupper`: the letters `a` to `z` change, nothing else does. -/
def upper_str (str : String) : List Char :=
  str.data.map Char.toUpper

/-- The function `severity_from_string` of `severity.cpp`. -/
def severity_from_string (str : String) : Severity :=
  let upper := upper_str str
  if upper = "TRACE".data ∨ upper = "VERBOSE".data then Severity.TRACE
  else if upper = "DEBUG".data ∨ upper = "DBG".data then Severity.DEBUG
  else if upper = "INFO".data ∨ upper = "INFORMATION".data then Severity.INFO
  else if upper = "WARN".data ∨ upper = "WARNING".data then Severity.WARN
  else if upper = "ERROR".data ∨ upper = "ERR".data then Severity.ERROR
  else if upper = "FATAL".data ∨ upper = "CRITICAL".data ∨ upper = "SEVERE".data then
    Severity.FATAL
  else Severity.UNKNOWN

/-- A `system_clock::time_point`, in ticks since the epoch. -/
abbrev TimePoint := Int

/-- Ticks of `system_clock` per second (nanosecond resolution). -/
def ticks_per_second : Int := 1000000000

/-- Ticks per minute. -/
def ticks_per_minute : Int := 60 * ticks_per_second

/-- The struct `core::Timestamp` of `time.hpp`. -/
structure Timestamp where
  tp : TimePoint
  confidence : Nat
  tz_known : Bool
  deriving DecidableEq, Repr

/-- The method `Timestamp::is_valid`: `confidence > 0`. -/
def Timestamp.is_valid (t : Timestamp) : Bool :=
  decide (t.confidence > 0)

/-- The struct `core::SourceRef` of `source_ref.hpp`. -/
structure SourceRef where
  source_path : String
  start_line : Nat
  end_line : Nat
  deriving DecidableEq, Repr

/-- The alias `core::EventId` (`uint64_t`). -/
abbrev EventId := Nat

/-- The alias `core::TagMap`. -/
abbrev TagMap := List (String × String)

/-- The lookup `tags.find(key)`; `none` is `tags.end()`. -/
def TagMap.find (tags : TagMap) (key : String) : Option String :=
  List.lookup key tags

/-- The struct `core::Event` of `event.hpp`. -/
structure Event where
  id : EventId
  ts : Option Timestamp
  sev : Severity
  message : String
  src : SourceRef
  tags : TagMap
  raw : String
  deriving DecidableEq, Repr

/-- The test `event.ts.has_value() && event.ts->is_valid()`. -/
def Event.has_valid_ts (e : Event) : Bool :=
  match e.ts with
  | some t => t.is_valid
  | none => false

/-- One `unique_ids.insert(id)` on a `std::unordered_set<std::string>`. -/
def unordered_set_insert (s : List String) (x : String) : List String :=
  if x ∈ s then s else s ++ [x]

/-- The lookup `event_map.find(event_id)` after the loop
`for (event : events) event_map[event.id] = &event;`: the last event of the
input that carries the id. -/
def event_map_find (events : List Event) (event_id : EventId) : Option Event :=
  events.foldl (fun r e => if e.id = event_id then some e else r) none

/-! ## analysis: episodes -/

/-- The struct `analysis::Episode` of `episode.hpp`. -/
structure Episode where
  id : Nat
  event_ids : List EventId
  start_time : Option TimePoint
  end_time : Option TimePoint
  correlation_ids : List String
  highlights : List EventId
  max_severity : Severity
  deriving DecidableEq, Repr

/-- The constructor `Episode(uint64_t episode_id)`. -/
def Episode.new (episode_id : Nat) : Episode :=
  { id := episode_id, event_ids := [], start_time := none, end_time := none,
    correlation_ids := [], highlights := [], max_severity := Severity.UNKNOWN }

/-- The method `Episode::empty`. -/
def Episode.empty (e : Episode) : Bool :=
  e.event_ids.isEmpty

/-- The struct `EpisodeConfig`; `time_gap_threshold` is in seconds. -/
structure EpisodeConfig where
  time_gap_threshold : Int
  merge_by_correlation : Bool
  deriving DecidableEq, Repr

/-- The default `EpisodeConfig`: five minutes, merging enabled. -/
def EpisodeConfig.default : EpisodeConfig :=
  { time_gap_threshold := 300, merge_by_correlation := true }

/-- The data members of the class `EpisodeBuilder`. -/
structure EpisodeBuilder where
  config_ : EpisodeConfig
  next_episode_id_ : Nat
  deriving DecidableEq, Repr

/-- The constructor `EpisodeBuilder(config)`: the id counter starts at 1. -/
def EpisodeBuilder.new (config : EpisodeConfig) : EpisodeBuilder :=
  { config_ := config, next_episode_id_ := 1 }

namespace EpisodeBuilder

/-- The method `EpisodeBuilder::has_time_gap`. The gap is a tick count and the
threshold is converted from seconds to ticks by the comparison. -/
def has_time_gap (config : EpisodeConfig) (prev next : Event) : Bool :=
  match prev.ts, next.ts with
  | some p, some n =>
    if !p.is_valid || !n.is_valid then false
    else
      let gap := n.tp - p.tp
      decide (gap > config.time_gap_threshold * ticks_per_second)
  | _, _ => false

/-- The method `EpisodeBuilder::get_correlation_ids`. -/
def get_correlation_ids (event : Event) : List String :=
  let ids : List String := []
  let ids := match event.tags.find "request_id" with
    | some v => ids ++ [v]
    | none => ids
  match event.tags.find "trace_id" with
  | some v => ids ++ [v]
  | none => ids

/-- The method `EpisodeBuilder::share_correlation_ids`. -/
def share_correlation_ids (ep1 ep2 : Episode) : Bool :=
  ep1.correlation_ids.any (fun id1 => ep2.correlation_ids.any (fun id2 => decide (id1 = id2)))

/-- The method `EpisodeBuilder::merge_episodes`. -/
def merge_episodes (ep1 ep2 : Episode) : Episode :=
  let unique_ids := ep1.correlation_ids.foldl unordered_set_insert []
  let unique_ids := ep2.correlation_ids.foldl unordered_set_insert unique_ids
  { id := ep1.id
    event_ids := ep1.event_ids ++ ep2.event_ids
    start_time := ep1.start_time
    end_time := ep2.end_time
    correlation_ids := unique_ids
    highlights := ep1.highlights ++ ep2.highlights
    max_severity := Severity.max ep1.max_severity ep2.max_severity }

/-- The local variables of the scan in `identify_highlights`. -/
structure HighlightScan where
  first_error_id : EventId
  max_severity_id : EventId
  max_sev : Severity
  deriving DecidableEq, Repr

/-- The part of the loop body of `identify_highlights` that follows the
lookup of the event: the two `if` statements. -/
def highlight_update (st : HighlightScan) (event : Event) : HighlightScan :=
  let st1 : HighlightScan :=
    if st.first_error_id = 0 ∧ (event.sev = Severity.ERROR ∨ event.sev = Severity.FATAL) then
      { st with first_error_id := event.id }
    else st
  if event.sev.toNat > st1.max_sev.toNat then
    { st1 with max_sev := event.sev, max_severity_id := event.id }
  else st1

/-- One iteration of the loop over `episode.event_ids` in
`identify_highlights`: an id that the map does not hold is skipped. -/
def highlight_step (events : List Event) (st : HighlightScan) (event_id : EventId) :
    HighlightScan :=
  match event_map_find events event_id with
  | none => st
  | some event => highlight_update st event

/-- The method `EpisodeBuilder::identify_highlights`; the episode is passed by
reference in C++ and returned here. -/
def identify_highlights (episode : Episode) (events : List Event) : Episode :=
  if episode.event_ids.isEmpty then episode
  else
    let st := episode.event_ids.foldl (highlight_step events)
      { first_error_id := 0, max_severity_id := 0, max_sev := Severity.UNKNOWN }
    let hl := episode.highlights
    let hl := if st.first_error_id ≠ 0 then hl ++ [st.first_error_id] else hl
    let hl := if st.max_severity_id ≠ 0 ∧ st.max_severity_id ≠ st.first_error_id then
        hl ++ [st.max_severity_id]
      else hl
    { episode with highlights := hl }

/-- The variables written by the loop of `update_metadata`. -/
structure MetadataScan where
  unique_corr_ids : List String
  max_sev : Severity
  start_time : Option TimePoint
  end_time : Option TimePoint
  deriving DecidableEq, Repr

/-- One iteration of the loop over `episode.event_ids` in `update_metadata`. -/
def metadata_step (events : List Event) (st : MetadataScan) (event_id : EventId) :
    MetadataScan :=
  match event_map_find events event_id with
  | none => st
  | some event =>
    let corr := (get_correlation_ids event).foldl unordered_set_insert st.unique_corr_ids
    let sev := Severity.max st.max_sev event.sev
    match event.ts with
    | some t =>
      if t.is_valid then
        match st.start_time with
        | none =>
          { unique_corr_ids := corr, max_sev := sev,
            start_time := some t.tp, end_time := some t.tp }
        | some s =>
          -- `end_time` is engaged whenever `start_time` is: both are set together
          { unique_corr_ids := corr, max_sev := sev,
            start_time := some (min s t.tp),
            end_time := st.end_time.map (fun e => max e t.tp) }
      else { st with unique_corr_ids := corr, max_sev := sev }
    | none => { st with unique_corr_ids := corr, max_sev := sev }

/-- The method `EpisodeBuilder::update_metadata`. -/
def update_metadata (episode : Episode) (events : List Event) : Episode :=
  if episode.event_ids.isEmpty then episode
  else
    let st := episode.event_ids.foldl (metadata_step events)
      { unique_corr_ids := [], max_sev := Severity.UNKNOWN,
        start_time := episode.start_time, end_time := episode.end_time }
    { episode with
      start_time := st.start_time
      end_time := st.end_time
      correlation_ids := st.unique_corr_ids
      max_severity := st.max_sev }

/-- The two calls that finalize an episode in `build`. -/
def finalize (episode : Episode) (events : List Event) : Episode :=
  identify_highlights (update_metadata episode events) events

/-- The variables of phase 1 of `build`. -/
structure BuildState where
  episodes : List Episode
  current_episode : Episode
  next_episode_id_ : Nat
  deriving DecidableEq, Repr

/-- The flag `start_new` of the phase 1 loop of `build`; `prev` is
`events[i - 1]`, absent when `i = 0`. -/
def start_new (config : EpisodeConfig) (st : BuildState) (prev : Option Event)
    (event : Event) : Bool :=
  match prev with
  | some p => if !st.current_episode.empty then has_time_gap config p event else false
  | none => false

/-- One iteration of the phase 1 loop of `build`; `prev` is `events[i - 1]`,
absent when `i = 0`. -/
def build_step (config : EpisodeConfig) (events : List Event) (st : BuildState)
    (prev : Option Event) (event : Event) : BuildState :=
  let st1 : BuildState :=
    if start_new config st prev event then
      { episodes := st.episodes ++ [finalize st.current_episode events]
        current_episode := Episode.new st.next_episode_id_
        next_episode_id_ := st.next_episode_id_ + 1 }
    else st
  { st1 with
    current_episode :=
      { st1.current_episode with event_ids := st1.current_episode.event_ids ++ [event.id] } }

/-- The phase 1 loop of `build` from index `i` on: `rest` is `events[i..]` and
`prev` is `events[i - 1]`. -/
def build_loop (config : EpisodeConfig) (events : List Event) :
    Option Event → List Event → BuildState → BuildState
  | _, [], st => st
  | prev, event :: rest, st =>
    build_loop config events (some event) rest (build_step config events st prev event)

/-- Phase 1 of `build` on a non-empty input: the loop and the push of the last
episode. Returns the episodes and the advanced id counter. -/
def segment (config : EpisodeConfig) (next_id : Nat) (events : List Event) :
    List Episode × Nat :=
  let st := build_loop config events none events
    { episodes := [], current_episode := Episode.new next_id, next_episode_id_ := next_id + 1 }
  let episodes :=
    if !st.current_episode.empty then st.episodes ++ [finalize st.current_episode events]
    else st.episodes
  (episodes, st.next_episode_id_)

/-- One iteration of the phase 2 loop of `build`, on the vector `merged`. -/
def merge_step (merged : List Episode) (ep : Episode) : List Episode :=
  match merged.getLast? with
  | some back =>
    if share_correlation_ids back ep then merged.dropLast ++ [merge_episodes back ep]
    else merged ++ [ep]
  | none => merged ++ [ep]

/-- Phase 2 of `build`: `merged` starts as `[episodes[0]]` and the loop runs
over `episodes[1..]`. -/
def merge_phase (episodes : List Episode) : List Episode :=
  match episodes with
  | [] => []
  | ep0 :: rest => rest.foldl merge_step [ep0]

/-- The method `EpisodeBuilder::build`: the episodes and the builder after the
call (its id counter advances). -/
def build (b : EpisodeBuilder) (events : List Event) : List Episode × EpisodeBuilder :=
  if events.isEmpty then ([], b)
  else
    let r := segment b.config_ b.next_episode_id_ events
    let b1 : EpisodeBuilder := { b with next_episode_id_ := r.2 }
    if b.config_.merge_by_correlation && decide (r.1.length > 1) then (merge_phase r.1, b1)
    else (r.1, b1)

end EpisodeBuilder

/-! ## analysis: event index -/

/-- The statement `m[key].push_back(v)` on a `std::unordered_map`, kept as an
association list in order of first insertion; the map is only read by key. -/
def map_push_back {K V : Type} [DecidableEq K] (key : K) (v : V) :
    List (K × List V) → List (K × List V)
  | [] => [(key, [v])]
  | (k, vs) :: rest =>
    if k = key then (k, vs ++ [v]) :: rest else (k, vs) :: map_push_back key v rest

/-- The statement `m[key].push_back(v)` on a `std::map` with `int64_t` keys,
kept as an association list in ascending key order, the order in which the
code iterates over it. -/
def ordered_map_push_back {V : Type} (key : Int) (v : V) :
    List (Int × List V) → List (Int × List V)
  | [] => [(key, [v])]
  | (k, vs) :: rest =>
    if k = key then (k, vs ++ [v]) :: rest
    else if key < k then (key, [v]) :: (k, vs) :: rest
    else (k, vs) :: ordered_map_push_back key v rest

/-- The data members of the class `EventIndex`. -/
structure EventIndex where
  events_ : List Event
  severity_index_ : List (Severity × List EventId)
  correlation_index_ : List (String × List EventId)
  time_index_ : List (Int × List EventId)
  deriving DecidableEq, Repr

namespace EventIndex

/-- The method `EventIndex::time_to_bucket`: `duration_cast<minutes>` of the
ticks since the epoch, which truncates toward zero. -/
def time_to_bucket (tp : TimePoint) : Int :=
  Int.tdiv tp ticks_per_minute

/-- The three `if (it != event.tags.end())` blocks of `build` for one event. -/
def index_correlation (event : Event) (m : List (String × List EventId)) :
    List (String × List EventId) :=
  let m :=
    match event.tags.find "request_id" with
    | some v => map_push_back v event.id m
    | none => m
  let m :=
    match event.tags.find "trace_id" with
    | some v => map_push_back v event.id m
    | none => m
  match event.tags.find "uuid" with
  | some v => map_push_back v event.id m
  | none => m

/-- The time index part of the loop body of `build`. -/
def index_time (event : Event) (m : List (Int × List EventId)) : List (Int × List EventId) :=
  match event.ts with
  | some ts =>
    if ts.is_valid then ordered_map_push_back (time_to_bucket ts.tp) event.id m else m
  | none => m

/-- The body of the loop of `build`. -/
def index_event (idx : EventIndex) (event : Event) : EventIndex :=
  { idx with
    severity_index_ := map_push_back event.sev event.id idx.severity_index_
    correlation_index_ := index_correlation event idx.correlation_index_
    time_index_ := index_time event idx.time_index_ }

/-- The method `EventIndex::build`. It replaces `events_` and clears the three
indices first, so the index before the call does not matter. -/
def build (events : List Event) : EventIndex :=
  events.foldl index_event
    { events_ := events, severity_index_ := [], correlation_index_ := [], time_index_ := [] }

/-- The method `EventIndex::get_by_severity`. -/
def get_by_severity (idx : EventIndex) (sev : Severity) : List EventId :=
  match idx.severity_index_.lookup sev with
  | some ids => ids
  | none => []

/-- The method `EventIndex::get_by_correlation_id`. -/
def get_by_correlation_id (idx : EventIndex) (corr_id : String) : List EventId :=
  match idx.correlation_index_.lookup corr_id with
  | some ids => ids
  | none => []

/-- The iterator `m.lower_bound(key)` as a position: the first entry whose key
is not less than `key`. -/
def lower_bound {V : Type} (m : List (Int × V)) (key : Int) : Nat :=
  (m.takeWhile (fun kv => decide (kv.1 < key))).length

/-- The iterator `m.upper_bound(key)` as a position: the first entry whose key
is greater than `key`. -/
def upper_bound {V : Type} (m : List (Int × V)) (key : Int) : Nat :=
  (m.takeWhile (fun kv => decide (kv.1 ≤ key))).length

/-- The method `EventIndex::get_by_time_range`. The loop walks from `it` to
`end_it`; when `it` is behind `end_it` it runs past the end of the map, which is
undefined behaviour (`none`). -/
def get_by_time_range (idx : EventIndex) (start finish : TimePoint) : Option (List EventId) :=
  let start_bucket := time_to_bucket start
  let end_bucket := time_to_bucket finish
  let it := lower_bound idx.time_index_ start_bucket
  let end_it := upper_bound idx.time_index_ end_bucket
  if it ≤ end_it then
    some (((idx.time_index_.drop it).take (end_it - it)).map Prod.snd).flatten
  else none

/-- The method `EventIndex::count_by_severity`. -/
def count_by_severity (idx : EventIndex) (sev : Severity) : Nat :=
  match idx.severity_index_.lookup sev with
  | some ids => ids.length
  | none => 0

end EventIndex

/-! ## analysis: statistics and anomalies -/

/-- The arithmetic of the C++ type `double` that the analysis code uses, kept
abstract: a theorem stated for every `DoubleArith D` holds whatever the
rounding, infinities and NaN do. `ofRat q` is the conversion of an integer or
of a decimal literal of value `q`. `le a b` is `a <= b` and `lt a b` is
`a < b`. -/
class DoubleArith (D : Type) where
  ofRat : ℚ → D
  add : D → D → D
  sub : D → D → D
  mul : D → D → D
  div : D → D → D
  le : D → D → Bool
  lt : D → D → Bool

/-- Exact rational arithmetic: `double` without rounding. A division by zero
gives 0 here, not an infinity or NaN. -/
instance : DoubleArith ℚ where
  ofRat := fun q => q
  add := fun a b => a + b
  sub := fun a b => a - b
  mul := fun a b => a * b
  div := fun a b => a / b
  le := fun a b => decide (a ≤ b)
  lt := fun a b => decide (a < b)

/-- The finite values of `double` with a rounding function `rnd`: a value is
the rational number it stands for, and every operation computes the exact
result and rounds it. With `rnd` the rounding to the nearest `double` this is
IEEE arithmetic as long as no operation overflows or divides by zero. -/
structure Rounded (rnd : ℚ → ℚ) where
  val : ℚ

instance (rnd : ℚ → ℚ) : DoubleArith (Rounded rnd) where
  ofRat := fun q => ⟨rnd q⟩
  add := fun a b => ⟨rnd (a.val + b.val)⟩
  sub := fun a b => ⟨rnd (a.val - b.val)⟩
  mul := fun a b => ⟨rnd (a.val * b.val)⟩
  div := fun a b => ⟨rnd (a.val / b.val)⟩
  le := fun a b => decide (a.val ≤ b.val)
  lt := fun a b => decide (a.val < b.val)

/-- The function `std::min(a, b)`: `(b < a) ? b : a`. -/
def DoubleArith.min {D : Type} [DoubleArith D] (a b : D) : D :=
  if DoubleArith.lt b a then b else a

/-- The function `std::max(a, b)`: `(a < b) ? b : a`. -/
def DoubleArith.max {D : Type} [DoubleArith D] (a b : D) : D :=
  if DoubleArith.lt a b then b else a

/-- The struct `TimeSeriesPoint` of `stats.hpp`. -/
structure TimeSeriesPoint where
  timestamp : TimePoint
  count : Nat
  deriving DecidableEq, Repr

/-- The struct `TimeSeries` of `stats.hpp`; `bucket_size` is in minutes. -/
structure TimeSeries where
  points : List TimeSeriesPoint
  bucket_size : Int
  deriving DecidableEq, Repr

/-- The method `TimeSeries::total_count`. -/
def TimeSeries.total_count (s : TimeSeries) : Nat :=
  s.points.foldl (fun total point => total + point.count) 0

/-- The struct `FrequentPattern` of `stats.hpp`. -/
structure FrequentPattern where
  pattern : String
  count : Nat
  max_severity : Severity
  deriving DecidableEq, Repr

/-- The struct `Stats` of `stats.hpp`; each `std::map` is an association list
read with `List.lookup`. -/
structure Stats where
  severity_counts : List (Severity × Nat)
  severity_time_series : List (Severity × TimeSeries)
  source_counts : List (String × Nat)
  frequent_patterns : List FrequentPattern
  total_events : Nat
  start_time : Option TimePoint
  end_time : Option TimePoint
  deriving DecidableEq, Repr

/-- The default `Stats`: empty maps, no patterns, zero total, no times. -/
def Stats.empty : Stats :=
  { severity_counts := [], severity_time_series := [], source_counts := [],
    frequent_patterns := [], total_events := 0, start_time := none, end_time := none }

/-- The constructor `TimeSeries(bs)`. -/
def TimeSeries.new (bs : Int) : TimeSeries :=
  { points := [], bucket_size := bs }

/-- The `std::find_if` of `add_event` and what follows it: the count of the
first point whose timestamp is `bucket_start` is incremented; without such a
point, `TimeSeriesPoint(bucket_start, 1)` is pushed back. -/
def bump_point (bucket_start : TimePoint) : List TimeSeriesPoint → List TimeSeriesPoint
  | [] => [{ timestamp := bucket_start, count := 1 }]
  | p :: rest =>
    if p.timestamp = bucket_start then { p with count := p.count + 1 } :: rest
    else p :: bump_point bucket_start rest

/-- The method `TimeSeries::add_event`. `epoch / bucket_duration` divides the
two tick counts as C++ integers, truncating toward zero; `none` is the division
by zero of a zero bucket size. -/
def TimeSeries.add_event (s : TimeSeries) (tp : TimePoint) : Option TimeSeries :=
  let epoch := tp
  let bucket_duration := s.bucket_size
  if bucket_duration * ticks_per_minute = 0 then none
  else
    let bucket_count := Int.tdiv epoch (bucket_duration * ticks_per_minute)
    let bucket_start := bucket_count * bucket_duration * ticks_per_minute
    some { s with points := bump_point bucket_start s.points }

/-- The statement `m[key]++` on a `std::map` with `size_t` values, kept as an
association list in order of first insertion. The maps of `Stats` are only read
by key. -/
def map_increment {K : Type} [DecidableEq K] (key : K) : List (K × Nat) → List (K × Nat)
  | [] => [(key, 1)]
  | (k, v) :: rest =>
    if k = key then (k, v + 1) :: rest else (k, v) :: map_increment key rest

/-- The statement `m[sev].add_event(tp)` on the time series map; `operator[]`
creates a default `TimeSeries()` (bucket size 1) for a missing key. -/
def series_add_event (sev : Severity) (tp : TimePoint) :
    List (Severity × TimeSeries) → Option (List (Severity × TimeSeries))
  | [] => ((TimeSeries.new 1).add_event tp).map (fun s => [(sev, s)])
  | (k, s) :: rest =>
    if k = sev then (s.add_event tp).map (fun s1 => (k, s1) :: rest)
    else (series_add_event sev tp rest).map (fun m => (k, s) :: m)

/-- The struct `StatsConfig`; `time_bucket_size` is in minutes. -/
structure StatsConfig where
  time_bucket_size : Int
  top_n_patterns : Nat
  min_pattern_length : Nat
  deriving DecidableEq, Repr

/-- The default `StatsConfig`. -/
def StatsConfig.default : StatsConfig :=
  { time_bucket_size := 1, top_n_patterns := 10, min_pattern_length := 10 }

/-- The functions of the C++ standard library that `StatsBuilder` calls and
whose results the source of the repository does not fix: `std::regex_replace`
(input, regular expression, replacement) and `std::sort` on the pattern vector
with the comparison `a.count > b.count`. -/
structure StdLib where
  regex_replace : String → String → String → String
  std_sort : List FrequentPattern → List FrequentPattern

namespace StatsBuilder

/-- The statements of `process_event` that count the severity and the source
path of the event. -/
def count_event (event : Event) (stats : Stats) : Stats :=
  let stats := { stats with severity_counts := map_increment event.sev stats.severity_counts }
  if event.src.source_path ≠ "" then
    { stats with source_counts := map_increment event.src.source_path stats.source_counts }
  else stats

/-- The statements of `process_event` that widen `start_time` and `end_time`
to the time point `tp`. -/
def widen_times (tp : TimePoint) (stats : Stats) : Stats :=
  let stats :=
    match stats.start_time with
    | none => { stats with start_time := some tp }
    | some start => if tp < start then { stats with start_time := some tp } else stats
  match stats.end_time with
  | none => { stats with end_time := some tp }
  | some e => if tp > e then { stats with end_time := some tp } else stats

/-- The statements of `process_event` that update the time series of the
severity of the event. -/
def update_time_series (config : StatsConfig) (sev : Severity) (tp : TimePoint)
    (series : List (Severity × TimeSeries)) : Option (List (Severity × TimeSeries)) :=
  let series :=
    if (series.lookup sev).isNone then series ++ [(sev, TimeSeries.new config.time_bucket_size)]
    else series
  series_add_event sev tp series

/-- The method `StatsBuilder::process_event`; `none` is undefined behaviour (a
zero bucket size). -/
def process_event (config : StatsConfig) (event : Event) (stats : Stats) : Option Stats :=
  let stats := count_event event stats
  match event.ts with
  | none => some stats
  | some ts =>
    let tp := ts.tp
    let stats := widen_times tp stats
    match update_time_series config event.sev tp stats.severity_time_series with
    | none => none
    | some series => some { stats with severity_time_series := series }

/-- The loop `for (event : events) process_event(event, stats)`. -/
def process_events (config : StatsConfig) : List Event → Stats → Option Stats
  | [], stats => some stats
  | event :: rest, stats =>
    match process_event config event stats with
    | none => none
    | some stats => process_events config rest stats

/-- The method `StatsBuilder::extract_pattern`. -/
def extract_pattern (lib : StdLib) (message : String) : String :=
  let pattern := message
  let pattern := lib.regex_replace pattern
    ("[0-9a-fA-F]\x7b8\x7d-[0-9a-fA-F]\x7b4\x7d-[0-9a-fA-F]\x7b4\x7d-[0-9a-fA-F]\x7b4\x7d-" ++
      "[0-9a-fA-F]\x7b12\x7d") "<UUID>"
  let pattern := lib.regex_replace pattern "0x[0-9a-fA-F]+" "<HEX>"
  let pattern := lib.regex_replace pattern "-?\\d+\\.?\\d*" "<NUM>"
  let pattern := lib.regex_replace pattern "\"[^\"]+\"" "<STR>"
  pattern

/-- The update of an entry of `pattern_counts` for one message: the count is
incremented and the severity raised to that of the event. -/
def pattern_entry_update (sev : Severity) (entry : Nat × Severity) : Nat × Severity :=
  let entry := (entry.1 + 1, entry.2)
  if sev.toNat > entry.2.toNat then (entry.1, sev) else entry

/-- The access `pattern_counts[pattern]` followed by the update of the entry.
`pattern_counts` is a `std::map` with `std::string` keys, kept as an association
list in key order, since the code iterates over it; the order of the keys is
the lexicographic order of their characters. A missing key is created with the
value `(0, UNKNOWN)`. -/
def pattern_counts_visit (pattern : String) (sev : Severity) :
    List (String × (Nat × Severity)) → List (String × (Nat × Severity))
  | [] => [(pattern, pattern_entry_update sev (0, Severity.UNKNOWN))]
  | (k, v) :: rest =>
    if k = pattern then (k, pattern_entry_update sev v) :: rest
    else if pattern.data < k.data then
      (pattern, pattern_entry_update sev (0, Severity.UNKNOWN)) :: (k, v) :: rest
    else (k, v) :: pattern_counts_visit pattern sev rest

/-- The first loop of `compute_frequent_patterns`: the map `pattern_counts`. -/
def count_patterns (lib : StdLib) (config : StatsConfig) (events : List Event) :
    List (String × (Nat × Severity)) :=
  events.foldl
    (fun pattern_counts event =>
      if event.message.utf8ByteSize ≥ config.min_pattern_length then
        let pattern := extract_pattern lib event.message
        if pattern ≠ "" then pattern_counts_visit pattern event.sev pattern_counts
        else pattern_counts
      else pattern_counts)
    []

/-- The method `StatsBuilder::compute_frequent_patterns`. -/
def compute_frequent_patterns (lib : StdLib) (config : StatsConfig) (events : List Event)
    (stats : Stats) : Stats :=
  let pattern_counts := count_patterns lib config events
  let patterns : List FrequentPattern :=
    pattern_counts.map
      (fun kv => { pattern := kv.1, count := kv.2.1, max_severity := kv.2.2 })
  let patterns := lib.std_sort patterns
  let n := min config.top_n_patterns patterns.length
  { stats with frequent_patterns := patterns.take n }

/-- The method `StatsBuilder::build`. -/
def build (lib : StdLib) (config : StatsConfig) (events : List Event) : Option Stats :=
  let stats := Stats.empty
  if events.isEmpty then some stats
  else
    let stats := { stats with total_events := events.length }
    match process_events config events stats with
    | none => none
    | some stats => some (compute_frequent_patterns lib config events stats)

end StatsBuilder

/-- The enum `Anomaly::Type`. -/
inductive AnomalyType where
  | ERROR_BURST
  | RESTART_LOOP
  | MISSING_HEARTBEAT
  deriving DecidableEq, Repr

/-- The struct `Anomaly` of `anomaly_detector.hpp`. -/
structure Anomaly (D : Type) where
  type : AnomalyType
  description : String
  evidence_ids : List EventId
  confidence : D
  start_time : Option TimePoint
  end_time : Option TimePoint

/-- The struct `ErrorBurstConfig`; `window_size` is in minutes. -/
structure ErrorBurstConfig (D : Type) where
  window_size : Int
  threshold_multiplier : D
  min_errors_for_burst : Nat

namespace ErrorBurstDetector

variable {D : Type} [DoubleArith D]

/-- The method `ErrorBurstDetector::compute_baseline_rate`. -/
def compute_baseline_rate (stats : Stats) : D :=
  match stats.severity_time_series.lookup Severity.ERROR with
  | none => DoubleArith.ofRat 0
  | some series =>
    if series.points.isEmpty then DoubleArith.ofRat 0
    else
      let total_errors := series.total_count
      let num_buckets := series.points.length
      if num_buckets = 0 then DoubleArith.ofRat 0
      else DoubleArith.div (DoubleArith.ofRat (total_errors : ℚ))
        (DoubleArith.ofRat (num_buckets : ℚ))

/-- The body of the `if` of `find_bursts`: the anomaly pushed for a qualifying
point. -/
def burst_anomaly (error_series : TimeSeries) (threshold : D) (point : TimeSeriesPoint) :
    Anomaly D :=
  let ratio : D := DoubleArith.div (DoubleArith.ofRat (point.count : ℚ)) threshold
  { type := AnomalyType.ERROR_BURST
    description := "Error burst detected: " ++ toString point.count ++ " errors in " ++
      toString error_series.bucket_size ++ " minutes"
    evidence_ids := []
    confidence := DoubleArith.min (DoubleArith.ofRat 1) (DoubleArith.div ratio (DoubleArith.ofRat 2))
    start_time := some point.timestamp
    end_time := some (point.timestamp + error_series.bucket_size * ticks_per_minute) }

/-- The method `ErrorBurstDetector::find_bursts`. -/
def find_bursts (config : ErrorBurstConfig D) (error_series : TimeSeries) (baseline : D) :
    List (Anomaly D) :=
  let threshold : D := DoubleArith.mul baseline config.threshold_multiplier
  error_series.points.foldl
    (fun bursts point =>
      if decide (point.count ≥ config.min_errors_for_burst) &&
          DoubleArith.le threshold (DoubleArith.ofRat (point.count : ℚ)) then
        bursts ++ [burst_anomaly error_series threshold point]
      else bursts)
    []

/-- The method `ErrorBurstDetector::detect`. -/
def detect (config : ErrorBurstConfig D) (_events : List Event) (stats : Stats) :
    List (Anomaly D) :=
  match stats.severity_time_series.lookup Severity.ERROR with
  | none => []
  | some error_series =>
    if error_series.points.isEmpty then []
    else
      let baseline : D := compute_baseline_rate stats
      find_bursts config error_series baseline

end ErrorBurstDetector

/-- The struct `RestartLoopConfig`; `time_window` is in minutes. -/
structure RestartLoopConfig where
  min_restart_count : Nat
  time_window : Int
  restart_keywords : List String
  deriving DecidableEq, Repr

/-- The default `RestartLoopConfig`. -/
def RestartLoopConfig.default : RestartLoopConfig :=
  { min_restart_count := 3
    time_window := 10
    restart_keywords := ["starting", "started", "shutdown", "stopping", "stopped",
      "restarting", "restart", "initializing", "initialized"] }

/-- Whether `needle` is an initial segment of `text`. -/
def starts_with : List Char → List Char → Bool
  | _, [] => true
  | [], _ :: _ => false
  | c :: cs, k :: ks => decide (c = k) && starts_with cs ks

/-- The test `text.find(needle) != std::string::npos`. -/
def find_substr : List Char → List Char → Bool
  | [], needle => starts_with [] needle
  | c :: cs, needle => starts_with (c :: cs) needle || find_substr cs needle

/-- The lower-cased copy of a message made by `std::transform` with
`std::tolower`: the letters `A` to `Z` change, nothing else does. -/
def lower_msg (message : String) : List Char :=
  message.data.map Char.toLower

/-- The test `lower_msg.find(keyword) != npos` for a keyword. -/
def message_has (message : String) (keyword : String) : Bool :=
  find_substr (lower_msg message) keyword.data

namespace RestartLoopDetector

variable {D : Type} [DoubleArith D]

/-- The method `RestartLoopDetector::is_restart_event`. -/
def is_restart_event (config : RestartLoopConfig) (event : Event) : Bool :=
  config.restart_keywords.any (fun keyword => message_has event.message keyword)

/-- The inner loop of `find_loops` over `j`; `rest` is `restart_indices[j..]`.
The result is `none` when an index lies outside `events` (undefined behaviour
in C++). -/
def collect_window (events : List Event) (window_end : TimePoint) :
    List Nat → List EventId → Option (List EventId)
  | [], evidence => some evidence
  | idx :: rest, evidence =>
    match events[idx]? with
    | none => none
    | some evt =>
      match evt.ts with
      | none => collect_window events window_end rest evidence
      | some t =>
        if t.tp ≤ window_end then collect_window events window_end rest (evidence ++ [evt.id])
        else some evidence

/-- The anomaly pushed by `find_loops`. -/
def loop_anomaly (config : RestartLoopConfig) (start_time end_time : TimePoint)
    (evidence : List EventId) : Anomaly D :=
  { type := AnomalyType.RESTART_LOOP
    description := "Restart loop detected: " ++ toString evidence.length ++ " restarts in " ++
      toString config.time_window ++ " minutes"
    evidence_ids := evidence
    confidence := DoubleArith.min (DoubleArith.ofRat 1)
      (DoubleArith.div (DoubleArith.ofRat (evidence.length : ℚ))
        (DoubleArith.mul (DoubleArith.ofRat (config.min_restart_count : ℚ)) (DoubleArith.ofRat 2)))
    start_time := some start_time
    end_time := some end_time }

/-- The outer loop of `find_loops` from index `i` on. Each iteration advances
`i` by at least one, so `fuel = restart_indices.size() - i` iterations always
reach the end of the loop. The result is `none` where C++ has undefined
behaviour: an index outside `events`, or `ts->tp` on an event whose `ts` is
empty (the end time is read at `restart_indices[i + evidence.size() - 1]`). -/
def find_loops_from (config : RestartLoopConfig) (restart_indices : List Nat)
    (events : List Event) : Nat → Nat → List (Anomaly D) → Option (List (Anomaly D))
  | 0, _, loops => some loops
  | fuel + 1, i, loops =>
    match restart_indices[i]? with
    | none => some loops
    | some start_idx =>
      match events[start_idx]? with
      | none => none
      | some start_event =>
        match start_event.ts with
        | none => find_loops_from config restart_indices events fuel (i + 1) loops
        | some ts =>
          let start_time := ts.tp
          let window_end := start_time + config.time_window * ticks_per_minute
          match collect_window events window_end (restart_indices.drop (i + 1))
              [start_event.id] with
          | none => none
          | some evidence =>
            if evidence.length ≥ config.min_restart_count then
              match restart_indices[i + evidence.length - 1]? with
              | none => none
              | some last_idx =>
                match events[last_idx]? with
                | none => none
                | some last_event =>
                  match last_event.ts with
                  | none => none
                  | some last_ts =>
                    find_loops_from config restart_indices events fuel
                      (i + (evidence.length - 1) + 1)
                      (loops ++ [loop_anomaly config start_time last_ts.tp evidence])
            else find_loops_from config restart_indices events fuel (i + 1) loops

/-- The method `RestartLoopDetector::find_loops`. -/
def find_loops (config : RestartLoopConfig) (restart_indices : List Nat)
    (events : List Event) : Option (List (Anomaly D)) :=
  find_loops_from config restart_indices events restart_indices.length 0 []

/-- The first loop of `detect`: the indices of the restart events. -/
def restart_indices_of (config : RestartLoopConfig) (events : List Event) : List Nat :=
  (List.range events.length).filter
    (fun i => match events[i]? with
      | some e => is_restart_event config e
      | none => false)

/-- The method `RestartLoopDetector::detect`; `none` is undefined behaviour of
the C++ code. -/
def detect (config : RestartLoopConfig) (events : List Event) : Option (List (Anomaly D)) :=
  let restart_indices := restart_indices_of config events
  if restart_indices.length < config.min_restart_count then some []
  else find_loops config restart_indices events

end RestartLoopDetector

/-! ## io: multiline framer -/

/-- The struct `io::RawLine` of `raw_line.hpp`. -/
structure RawLine where
  text : String
  source_path : String
  line_no : Nat
  deriving DecidableEq, Repr

/-- The struct `io::Record` of `record.hpp`. -/
structure Record where
  src : SourceRef
  text : String
  deriving DecidableEq, Repr

/-- The struct `MultilineFramerConfig`. -/
structure MultilineFramerConfig where
  max_lines_per_record : Nat
  max_chars_per_record : Nat
  deriving DecidableEq, Repr

/-- The default `MultilineFramerConfig`. -/
def MultilineFramerConfig.default : MultilineFramerConfig :=
  { max_lines_per_record := 1000, max_chars_per_record := 100000 }

/-- The constructor `SourceRef(path, line)`. -/
def SourceRef.at_line (path : String) (line : Nat) : SourceRef :=
  { source_path := path, start_line := line, end_line := line }

namespace MultilineFramer

/-- The function `std::isspace` in the "C" locale: space, `\t`, `\n`, `\v`,
`\f` and `\r`. -/
def isspace (c : Char) : Bool :=
  c = ' ' || c = '\t' || c = '\n' || c = Char.ofNat 11 || c = Char.ofNat 12 || c = '\r'

/-- The method `MultilineFramer::starts_with_whitespace`. -/
def starts_with_whitespace (text : String) : Bool :=
  match text.data with
  | [] => false
  | c :: _ => isspace c

/-- The method `MultilineFramer::looks_like_error`. -/
def looks_like_error (text : String) : Bool :=
  let error_keywords : List String :=
    ["Exception", "Error", "ERROR", "FATAL", "SEVERE", "Traceback", "Stack trace",
     "stacktrace", "Caused by", "exception in", "failed", "Unhandled", "RuntimeException",
     "NullPointerException"]
  error_keywords.any (fun keyword => find_substr text.data keyword.data)

/-- The method `MultilineFramer::is_continuation`; `text.find(p) == 0` is
`starts_with text p`. -/
def is_continuation (prev_record : Record) (next_line : RawLine) : Bool :=
  let text := next_line.text
  if text.data.isEmpty then false
  else if starts_with text.data "at ".data || starts_with text.data "\tat ".data then true
  else if starts_with text.data "Caused by:".data then true
  else if starts_with text.data "Traceback".data then true
  else if starts_with text.data "  File \"".data then true
  else if starts_with text.data "    at ".data || starts_with text.data "\t... ".data ||
      starts_with text.data "... ".data then true
  else if starts_with_whitespace text && looks_like_error prev_record.text then true
  else false

/-- The variables of the loop of `frame`. -/
structure FrameState where
  out_records : List Record
  current_src : SourceRef
  current_text : String
  lines_in_record : Nat
  deriving DecidableEq, Repr

/-- The flag `should_merge` of the loop of `frame` after the check of the
safety limits. Sizes are byte counts, as `std::string::size`. -/
def should_merge (config : MultilineFramerConfig) (st : FrameState) (line : RawLine) : Bool :=
  let temp_record : Record := { src := st.current_src, text := st.current_text }
  let should_merge := is_continuation temp_record line
  if should_merge then
    if st.lines_in_record ≥ config.max_lines_per_record ∨
        st.current_text.utf8ByteSize + line.text.utf8ByteSize + 1 ≥
          config.max_chars_per_record then false
    else should_merge
  else should_merge

/-- The body of the loop of `frame` for the line `lines[i]`. -/
def frame_step (config : MultilineFramerConfig) (st : FrameState) (line : RawLine) :
    FrameState :=
  if should_merge config st line then
    { st with
      current_text := st.current_text.push '\n' ++ line.text
      current_src := { st.current_src with end_line := line.line_no }
      lines_in_record := st.lines_in_record + 1 }
  else
    { out_records := st.out_records ++ [{ src := st.current_src, text := st.current_text }]
      current_src := SourceRef.at_line line.source_path line.line_no
      current_text := line.text
      lines_in_record := 1 }

/-- The method `MultilineFramer::frame`; the records written to `out_records`
are returned. -/
def frame (config : MultilineFramerConfig) (lines : List RawLine) : List Record :=
  match lines with
  | [] => []
  | first :: rest =>
    let st := rest.foldl (frame_step config)
      { out_records := []
        current_src := SourceRef.at_line first.source_path first.line_no
        current_text := first.text
        lines_in_record := 1 }
    st.out_records ++ [{ src := st.current_src, text := st.current_text }]

end MultilineFramer

/-! ## rules -/

/-- The enum `FindingSeverity` of `finding.hpp`. -/
inductive FindingSeverity where
  | LOW
  | MEDIUM
  | HIGH
  | CRITICAL
  deriving DecidableEq, Repr

/-- The struct `Evidence` of `finding.hpp`. -/
structure Evidence where
  event_id : EventId
  description : String
  deriving DecidableEq, Repr

/-- The struct `Finding` of `finding.hpp`. -/
structure Finding (D : Type) where
  id : String
  title : String
  summary : String
  severity : FindingSeverity
  confidence : D
  evidence : List Evidence
  start_time : Option TimePoint
  end_time : Option TimePoint

/-- The method `Finding::add_evidence`. -/
def Finding.add_evidence {D : Type} (f : Finding D) (event_id : EventId) (description : String) :
    Finding D :=
  { f with evidence := f.evidence ++ [{ event_id := event_id, description := description }] }

/-- The struct `RuleContext` of `rule.hpp`: four borrowed pointers, `none` for
`nullptr`. -/
structure RuleContext (D : Type) where
  events : Option (List Event)
  stats : Option Stats
  episodes : Option (List Episode)
  anomalies : Option (List (Anomaly D))

/-- The default `RuleContext`: every pointer is `nullptr`. -/
def RuleContext.absent (D : Type) : RuleContext D :=
  { events := none, stats := none, episodes := none, anomalies := none }

namespace CrashLoopRule

variable {D : Type} [DoubleArith D]

/-- The finding built for one RESTART_LOOP anomaly; `n` is `findings.size()`. -/
def crash_loop_finding (n : Nat) (anomaly : Anomaly D) : Finding D :=
  let finding : Finding D :=
    { id := "crash-loop-" ++ toString (n + 1)
      title := "Crash Loop Detected"
      summary := anomaly.description
      severity := FindingSeverity.CRITICAL
      confidence := anomaly.confidence
      evidence := []
      start_time := anomaly.start_time
      end_time := anomaly.end_time }
  anomaly.evidence_ids.foldl (fun f event_id => f.add_evidence event_id "Restart event") finding

/-- The method `CrashLoopRule::evaluate`. -/
def evaluate (context : RuleContext D) : List (Finding D) :=
  match context.anomalies with
  | none => []
  | some anomalies =>
    anomalies.foldl
      (fun findings anomaly =>
        if anomaly.type = AnomalyType.RESTART_LOOP then
          findings ++ [crash_loop_finding findings.length anomaly]
        else findings)
      []

end CrashLoopRule

namespace RetryToTimeoutRule

variable {D : Type} [DoubleArith D]

/-- The method `RetryToTimeoutRule::is_retry_event`. -/
def is_retry_event (event : Event) : Bool :=
  message_has event.message "retry" || message_has event.message "retrying" ||
    message_has event.message "attempt"

/-- The method `RetryToTimeoutRule::is_timeout_event`. -/
def is_timeout_event (event : Event) : Bool :=
  message_has event.message "timeout" || message_has event.message "timed out"

/-- The loop `while (j < events.size() && is_retry_event(events[j]))`; `rest`
is `events[j..]`. Returns the final `j` and `retry_ids`. -/
def count_retries : List Event → Nat → List EventId → Nat × List EventId
  | [], j, retry_ids => (j, retry_ids)
  | e :: rest, j, retry_ids =>
    if is_retry_event e then count_retries rest (j + 1) (retry_ids ++ [e.id])
    else (j, retry_ids)

/-- The finding built for a run of retries starting at `first` and followed by
the timeout event `last`; `n` is `findings.size()`. -/
def retry_finding (n : Nat) (first last : Event) (retry_ids : List EventId) : Finding D :=
  let finding : Finding D :=
    { id := "retry-timeout-" ++ toString (n + 1)
      title := "Retries Leading to Timeout"
      summary := "Detected " ++ toString retry_ids.length ++
        " retry attempts followed by a timeout"
      severity := FindingSeverity.HIGH
      confidence := DoubleArith.min (DoubleArith.ofRat 1)
        (DoubleArith.add (DoubleArith.ofRat (1 / 2))
          (DoubleArith.mul (DoubleArith.ofRat (retry_ids.length : ℚ)) (DoubleArith.ofRat (1 / 10))))
      evidence := []
      start_time := first.ts.map (fun t => t.tp)
      end_time := last.ts.map (fun t => t.tp) }
  let finding := retry_ids.foldl (fun f retry_id => f.add_evidence retry_id "Retry attempt") finding
  finding.add_evidence last.id "Final timeout"

/-- The loop of `evaluate` from index `i` on. Each iteration advances `i` by at
least one, so `fuel = events.size() - i` iterations always reach the end. -/
def scan (events : List Event) : Nat → Nat → List (Finding D) → List (Finding D)
  | 0, _, findings => findings
  | fuel + 1, i, findings =>
    match events[i]? with
    | none => findings
    | some first =>
      if !is_retry_event first then scan events fuel (i + 1) findings
      else
        let r := count_retries (events.drop (i + 1)) (i + 1) [first.id]
        let j := r.1
        let retry_ids := r.2
        match events[j]? with
        | some last =>
          if is_timeout_event last then
            scan events fuel (j + 1) (findings ++ [retry_finding findings.length first last retry_ids])
          else scan events fuel (i + 1) findings
        | none => scan events fuel (i + 1) findings

/-- The method `RetryToTimeoutRule::evaluate`. -/
def evaluate (context : RuleContext D) : List (Finding D) :=
  match context.events with
  | none => []
  | some events =>
    if events.isEmpty then []
    else scan events events.length 0 []

end RetryToTimeoutRule

namespace ErrorBurstAfterChangeRule

variable {D : Type} [DoubleArith D]

/-- The method `ErrorBurstAfterChangeRule::is_change_event`. -/
def is_change_event (event : Event) : Bool :=
  message_has event.message "deploy" || message_has event.message "deployment" ||
    message_has event.message "config" || message_has event.message "configuration" ||
    message_has event.message "release" || message_has event.message "rollout" ||
    message_has event.message "upgrade" || message_has event.message "migration"

/-- The method `ErrorBurstAfterChangeRule::find_change_events`. -/
def find_change_events (events : List Event) : List Nat :=
  (List.range events.length).filter
    (fun i => match events[i]? with
      | some e => is_change_event e
      | none => false)

/-- The variables of the search for the nearest preceding change event;
`min_gap` is in seconds. -/
structure NearestScan where
  nearest_change_idx : Option Nat
  min_gap : Int
  deriving DecidableEq, Repr

/-- One iteration of the loop over `change_indices`; `none` is an index outside
`events`. -/
def nearest_step (events : List Event) (burst_time : TimePoint) (st : NearestScan)
    (change_idx : Nat) : Option NearestScan :=
  match events[change_idx]? with
  | none => none
  | some change =>
    match change.ts with
    | none => some st
    | some t =>
      let change_time := t.tp
      if change_time ≥ burst_time then some st
      else
        let gap := Int.tdiv (burst_time - change_time) ticks_per_second
        if gap ≤ 30 * 60 ∧ gap < st.min_gap then
          some { nearest_change_idx := some change_idx, min_gap := gap }
        else some st

/-- The loop over `change_indices`, started with `min_gap` of 24 hours. -/
def nearest_change (events : List Event) (burst_time : TimePoint) :
    List Nat → NearestScan → Option NearestScan
  | [], st => some st
  | change_idx :: rest, st =>
    match nearest_step events burst_time st change_idx with
    | none => none
    | some st1 => nearest_change events burst_time rest st1

/-- The loop that adds up to five error events of the burst as evidence;
`none` is the read of `*anomaly.end_time` when `end_time` is empty. -/
def add_burst_errors (burst_time : TimePoint) (end_time : Option TimePoint) :
    List Event → Nat → Finding D → Option (Finding D)
  | [], _, finding => some finding
  | event :: rest, error_count, finding =>
    if event.sev = Severity.ERROR then
      match event.ts with
      | none => add_burst_errors burst_time end_time rest error_count finding
      | some t =>
        if t.tp ≥ burst_time then
          match end_time with
          | none => none
          | some e =>
            if t.tp ≤ e then
              let finding := finding.add_evidence event.id "Error during burst"
              if error_count + 1 ≥ 5 then some finding
              else add_burst_errors burst_time end_time rest (error_count + 1) finding
            else add_burst_errors burst_time end_time rest error_count finding
        else add_burst_errors burst_time end_time rest error_count finding
    else add_burst_errors burst_time end_time rest error_count finding

/-- The body of the loop over the anomalies of `evaluate`. -/
def evaluate_anomaly (events : List Event) (change_indices : List Nat)
    (findings : List (Finding D)) (anomaly : Anomaly D) : Option (List (Finding D)) :=
  if anomaly.type ≠ AnomalyType.ERROR_BURST then some findings
  else
    match anomaly.start_time with
    | none => some findings
    | some burst_time =>
      match nearest_change events burst_time change_indices
          { nearest_change_idx := none, min_gap := 24 * 3600 } with
      | none => none
      | some st =>
        match st.nearest_change_idx with
        | none => some findings
        | some idx =>
          match events[idx]? with
          | none => none
          | some change =>
            match change.ts with
            | none => none
            | some change_ts =>
              let gap_minutes : D :=
                DoubleArith.div (DoubleArith.ofRat (st.min_gap : ℚ)) (DoubleArith.ofRat 60)
              let finding : Finding D :=
                { id := "error-burst-after-change-" ++ toString (findings.length + 1)
                  title := "Error Burst Following Deployment/Config Change"
                  summary := "Error spike detected " ++ toString st.min_gap ++
                    " seconds after a deployment or configuration change"
                  severity := FindingSeverity.HIGH
                  confidence := DoubleArith.max (DoubleArith.ofRat (1 / 2))
                    (DoubleArith.sub (DoubleArith.ofRat 1)
                      (DoubleArith.div gap_minutes (DoubleArith.ofRat 30)))
                  evidence := []
                  start_time := some change_ts.tp
                  end_time := anomaly.end_time }
              let finding := finding.add_evidence change.id "Deployment or config change"
              match add_burst_errors burst_time anomaly.end_time events 0 finding with
              | none => none
              | some finding => some (findings ++ [finding])

/-- The loop over the anomalies of `evaluate`. -/
def evaluate_loop (events : List Event) (change_indices : List Nat) :
    List (Anomaly D) → List (Finding D) → Option (List (Finding D))
  | [], findings => some findings
  | anomaly :: rest, findings =>
    match evaluate_anomaly events change_indices findings anomaly with
    | none => none
    | some findings1 => evaluate_loop events change_indices rest findings1

/-- The method `ErrorBurstAfterChangeRule::evaluate`; `none` is undefined
behaviour of the C++ code (the read of an empty optional). -/
def evaluate (context : RuleContext D) : Option (List (Finding D)) :=
  match context.events, context.anomalies with
  | some events, some anomalies =>
    let change_indices := find_change_events events
    if change_indices.isEmpty then some []
    else evaluate_loop events change_indices anomalies []
  | _, _ => some []

end ErrorBurstAfterChangeRule

/-- An object of a class derived from `Rule` (`rule.hpp`): the values of its
`id()`, `name()` and `priority()` and its `evaluate`, whose result is `none`
where the C++ code has undefined behaviour. -/
structure Rule (D : Type) where
  id : String
  name : String
  priority : Int
  evaluate : RuleContext D → Option (List (Finding D))

/-- The class `CrashLoopRule` as a `Rule`. -/
def CrashLoopRule.rule (D : Type) [DoubleArith D] : Rule D :=
  { id := "crash-loop", name := "Crash Loop Detection", priority := 90
    evaluate := fun context => some (CrashLoopRule.evaluate context) }

/-- The class `ErrorBurstAfterChangeRule` as a `Rule`. -/
def ErrorBurstAfterChangeRule.rule (D : Type) [DoubleArith D] : Rule D :=
  { id := "error-burst-after-change", name := "Error Burst After Deployment/Config Change"
    priority := 85
    evaluate := fun context => ErrorBurstAfterChangeRule.evaluate context }

/-- The class `RetryToTimeoutRule` as a `Rule`. -/
def RetryToTimeoutRule.rule (D : Type) [DoubleArith D] : Rule D :=
  { id := "retry-to-timeout", name := "Retry Leading to Timeout", priority := 70
    evaluate := fun context => some (RetryToTimeoutRule.evaluate context) }

/-- The insertion of `x` in front of a list sorted by `comp`, where `x` stood
before every element of the list: `x` goes behind the elements that `comp`
puts before it and in front of all others. -/
def ordered_insert {α : Type} (comp : α → α → Bool) (x : α) : List α → List α
  | [] => [x]
  | y :: ys => if comp y x then y :: ordered_insert comp x ys else x :: y :: ys

/-- The function `std::stable_sort` with the comparison `comp` ("goes before").
Its contract fixes the result: the elements sorted by `comp`, elements that
`comp` does not order keeping their relative order. Insertion from the right
computes that list. -/
def stable_sort {α : Type} (comp : α → α → Bool) : List α → List α
  | [] => []
  | x :: xs => ordered_insert comp x (stable_sort comp xs)

/-- The assignment `m[key] = value` on a `std::map` kept as an association
list: the value of an existing key is replaced, a new key is added. -/
def map_assign {V : Type} (m : List (String × V)) (key : String) (value : V) :
    List (String × V) :=
  if m.any (fun kv => decide (kv.1 = key)) then
    m.map (fun kv => if kv.1 = key then (key, value) else kv)
  else m ++ [(key, value)]

/-- The data members of the class `RuleRegistry`; a `Rule*` is the rule. -/
structure RuleRegistry (D : Type) where
  rules_ : List (Rule D)
  rule_map_ : List (String × Rule D)

namespace RuleRegistry

variable {D : Type}

/-- The default constructor: no rules. -/
def new (D : Type) : RuleRegistry D :=
  { rules_ := [], rule_map_ := [] }

/-- The method `RuleRegistry::sort_rules_by_priority`. -/
def sort_rules_by_priority (reg : RuleRegistry D) : RuleRegistry D :=
  let rules := stable_sort (fun a b : Rule D => decide (a.priority > b.priority)) reg.rules_
  { rules_ := rules
    rule_map_ := rules.foldl (fun m rule => map_assign m rule.id rule) [] }

/-- The method `RuleRegistry::register_rule`; `none` is a null pointer. -/
def register_rule (reg : RuleRegistry D) (rule : Option (Rule D)) : RuleRegistry D :=
  match rule with
  | none => reg
  | some r =>
    sort_rules_by_priority
      { rules_ := reg.rules_ ++ [r], rule_map_ := map_assign reg.rule_map_ r.id r }

/-- The loop of `evaluate_all`; `none` when the `evaluate` of a rule has
undefined behaviour. -/
def evaluate_all_loop (context : RuleContext D) :
    List (Rule D) → List (Finding D) → Option (List (Finding D))
  | [], all_findings => some all_findings
  | rule :: rest, all_findings =>
    match rule.evaluate context with
    | none => none
    | some findings => evaluate_all_loop context rest (all_findings ++ findings)

/-- The method `RuleRegistry::evaluate_all`. -/
def evaluate_all (reg : RuleRegistry D) (context : RuleContext D) :
    Option (List (Finding D)) :=
  evaluate_all_loop context reg.rules_ []

/-- The method `RuleRegistry::get_rule`; `none` is `nullptr`. -/
def get_rule (reg : RuleRegistry D) (rule_id : String) : Option (Rule D) :=
  reg.rule_map_.lookup rule_id

/-- The method `RuleRegistry::get_all_rules`. -/
def get_all_rules (reg : RuleRegistry D) : List (Rule D) :=
  reg.rules_

/-- The method `RuleRegistry::clear`. -/
def clear (_reg : RuleRegistry D) : RuleRegistry D :=
  { rules_ := [], rule_map_ := [] }

/-- The method `RuleRegistry::size`. -/
def size (reg : RuleRegistry D) : Nat :=
  reg.rules_.length

end RuleRegistry

/-! ## libstdc++: `std::sort`

The C++ standard fixes the result of `std::sort` only up to the order of
equivalent elements. The definitions of this section follow the implementation
of GCC's libstdc++ (`bits/stl_algo.h` and `bits/stl_heap.h`, GCC 12): introsort
with a final insertion sort. A range `[first, last)` of the vector `v` is given
by two positions; a read outside the vector, which the C++ code never makes,
leaves the vector unchanged. -/

namespace Libstdcxx

variable {α : Type}

/-- The call `comp(first + i, first + j)` on iterators into the vector `v`. -/
def comp_at (comp : α → α → Bool) (v : List α) (i j : Nat) : Bool :=
  match v[i]?, v[j]? with
  | some a, some b => comp a b
  | _, _ => false

/-- The call `std::iter_swap(first + i, first + j)`. -/
def iter_swap (v : List α) (i j : Nat) : List α :=
  match v[i]?, v[j]? with
  | some a, some b => (v.set i b).set j a
  | _, _ => v

/-- The function `std::__move_median_to_first` of `bits/stl_algo.h`. -/
def move_median_to_first (comp : α → α → Bool) (v : List α) (result a b c : Nat) : List α :=
  if comp_at comp v a b then
    if comp_at comp v b c then iter_swap v result b
    else if comp_at comp v a c then iter_swap v result c
    else iter_swap v result a
  else if comp_at comp v a c then iter_swap v result a
  else if comp_at comp v b c then iter_swap v result c
  else iter_swap v result b

/-- The loop `while (comp(first, pivot)) ++first;` of `__unguarded_partition`. -/
def skip_before_pivot (comp : α → α → Bool) (v : List α) (pivot : Nat) : Nat → Nat → Nat
  | 0, first => first
  | fuel + 1, first =>
    if comp_at comp v first pivot then skip_before_pivot comp v pivot fuel (first + 1)
    else first

/-- The loop `while (comp(pivot, last)) --last;` of `__unguarded_partition`. -/
def skip_after_pivot (comp : α → α → Bool) (v : List α) (pivot : Nat) : Nat → Nat → Nat
  | 0, last => last
  | fuel + 1, last =>
    if comp_at comp v pivot last then skip_after_pivot comp v pivot fuel (last - 1)
    else last

/-- The function `std::__unguarded_partition` of `bits/stl_algo.h`: the vector
after the swaps and the returned iterator. Every iteration of the outer loop
advances `first`, so `fuel = v.size()` iterations reach the `return`. -/
def unguarded_partition (comp : α → α → Bool) (pivot : Nat) :
    Nat → List α → Nat → Nat → List α × Nat
  | 0, v, first, _ => (v, first)
  | fuel + 1, v, first, last =>
    let first := skip_before_pivot comp v pivot v.length first
    let last := last - 1
    let last := skip_after_pivot comp v pivot v.length last
    if ¬ (first < last) then (v, first)
    else unguarded_partition comp pivot fuel (iter_swap v first last) (first + 1) last

/-- The function `std::__unguarded_partition_pivot` of `bits/stl_algo.h`. -/
def unguarded_partition_pivot (comp : α → α → Bool) (v : List α) (first last : Nat) :
    List α × Nat :=
  let mid := first + (last - first) / 2
  let v := move_median_to_first comp v first (first + 1) mid (last - 1)
  unguarded_partition comp first v.length v (first + 1) last

/-- The function `std::__push_heap` of `bits/stl_heap.h`; the hole moves toward
the root, so `fuel = holeIndex + 1` iterations suffice. -/
def push_heap (comp : α → α → Bool) (first topIndex : Nat) (value : α) :
    Nat → List α → Nat → List α
  | 0, v, holeIndex => v.set (first + holeIndex) value
  | fuel + 1, v, holeIndex =>
    let parent := (holeIndex - 1) / 2
    match v[first + parent]? with
    | some p =>
      if holeIndex > topIndex ∧ comp p value then
        push_heap comp first topIndex value fuel (v.set (first + holeIndex) p) parent
      else v.set (first + holeIndex) value
    | none => v.set (first + holeIndex) value

/-- The first loop of `std::__adjust_heap`: the hole moves down to a leaf. The
result is the vector, `holeIndex` and `secondChild`. -/
def sift_hole_down (comp : α → α → Bool) (first len : Nat) :
    Nat → List α → Nat → Nat → List α × Nat × Nat
  | 0, v, holeIndex, secondChild => (v, holeIndex, secondChild)
  | fuel + 1, v, holeIndex, secondChild =>
    if secondChild < (len - 1) / 2 then
      let secondChild := 2 * (secondChild + 1)
      let secondChild :=
        if comp_at comp v (first + secondChild) (first + (secondChild - 1)) then secondChild - 1
        else secondChild
      match v[first + secondChild]? with
      | some c =>
        sift_hole_down comp first len fuel (v.set (first + holeIndex) c) secondChild secondChild
      | none => (v, holeIndex, secondChild)
    else (v, holeIndex, secondChild)

/-- The function `std::__adjust_heap` of `bits/stl_heap.h`. `_Distance` is a
signed type: `(len - 2) / 2` is computed in `Int`, the other quotients have
the same value in `Nat`. -/
def adjust_heap (comp : α → α → Bool) (v : List α) (first holeIndex len : Nat) (value : α) :
    List α :=
  let topIndex := holeIndex
  let r := sift_hole_down comp first len len v holeIndex holeIndex
  let v := r.1
  let holeIndex := r.2.1
  let secondChild := r.2.2
  let r2 : List α × Nat :=
    if (len : Int) % 2 = 0 ∧ (secondChild : Int) = Int.tdiv ((len : Int) - 2) 2 then
      let secondChild := 2 * (secondChild + 1)
      match v[first + (secondChild - 1)]? with
      | some c => (v.set (first + holeIndex) c, secondChild - 1)
      | none => (v, holeIndex)
    else (v, holeIndex)
  push_heap comp first topIndex value (r2.2 + 1) r2.1 r2.2

/-- The function `std::__pop_heap` of `bits/stl_heap.h`. -/
def pop_heap (comp : α → α → Bool) (v : List α) (first last result : Nat) : List α :=
  match v[result]?, v[first]? with
  | some value, some top => adjust_heap comp (v.set result top) first 0 (last - first) value
  | _, _ => v

/-- The loop of `std::__make_heap`, from `parent` down to 0. -/
def make_heap_loop (comp : α → α → Bool) (first len : Nat) : Nat → List α → List α
  | 0, v =>
    match v[first]? with
    | some value => adjust_heap comp v first 0 len value
    | none => v
  | parent + 1, v =>
    match v[first + (parent + 1)]? with
    | some value => make_heap_loop comp first len parent (adjust_heap comp v first (parent + 1) len value)
    | none => v

/-- The function `std::__make_heap` of `bits/stl_heap.h`. -/
def make_heap (comp : α → α → Bool) (v : List α) (first last : Nat) : List α :=
  if last - first < 2 then v
  else
    let len := last - first
    make_heap_loop comp first len ((len - 2) / 2) v

/-- The function `std::__sort_heap` of `bits/stl_heap.h`; `fuel` is the number
of elements. -/
def sort_heap (comp : α → α → Bool) (first : Nat) : Nat → List α → Nat → List α
  | 0, v, _ => v
  | fuel + 1, v, last =>
    if last - first > 1 then
      let last := last - 1
      sort_heap comp first fuel (pop_heap comp v first last last) last
    else v

/-- The function `std::__heap_select` of `bits/stl_algo.h`. -/
def heap_select (comp : α → α → Bool) (v : List α) (first middle last : Nat) : List α :=
  let v := make_heap comp v first middle
  (List.range' middle (last - middle)).foldl
    (fun v i => if comp_at comp v i first then pop_heap comp v first middle i else v) v

/-- The function `std::__partial_sort` of `bits/stl_algo.h`. -/
def partial_sort (comp : α → α → Bool) (v : List α) (first middle last : Nat) : List α :=
  let v := heap_select comp v first middle last
  sort_heap comp first v.length v middle

/-- The function `std::__introsort_loop` of `bits/stl_algo.h`, with
`_S_threshold = 16`. The range shrinks with every call, so `fuel = v.size()`
calls are enough. -/
def introsort_loop (comp : α → α → Bool) : Nat → List α → Nat → Nat → Nat → List α
  | 0, v, _, _, _ => v
  | fuel + 1, v, first, last, depth_limit =>
    if last - first > 16 then
      if depth_limit = 0 then partial_sort comp v first last last
      else
        let depth_limit := depth_limit - 1
        let r := unguarded_partition_pivot comp v first last
        let v := introsort_loop comp fuel r.1 r.2 last depth_limit
        introsort_loop comp fuel v first r.2 depth_limit
    else v

/-- The loop of `std::__unguarded_linear_insert`, the value `val` being
compared with the element before the hole `last`. -/
def linear_insert_loop (comp : α → α → Bool) (val : α) : Nat → List α → Nat → Nat → List α
  | 0, v, last, _ => v.set last val
  | fuel + 1, v, last, next =>
    match v[next]? with
    | some x =>
      if comp val x then linear_insert_loop comp val fuel (v.set last x) next (next - 1)
      else v.set last val
    | none => v.set last val

/-- The function `std::__unguarded_linear_insert` of `bits/stl_algo.h`. -/
def unguarded_linear_insert (comp : α → α → Bool) (v : List α) (last : Nat) : List α :=
  match v[last]? with
  | some val => linear_insert_loop comp val last v last (last - 1)
  | none => v

/-- The three statements of `std::__insertion_sort` for an element that goes
before the first: `val = *i; move_backward(first, i, i + 1); *first = val`. -/
def move_to_first (v : List α) (first i : Nat) : List α :=
  match v[i]? with
  | some val => v.take first ++ val :: ((v.drop first).take (i - first) ++ v.drop (i + 1))
  | none => v

/-- The function `std::__insertion_sort` of `bits/stl_algo.h`. -/
def insertion_sort (comp : α → α → Bool) (v : List α) (first last : Nat) : List α :=
  if first = last then v
  else
    (List.range' (first + 1) (last - (first + 1))).foldl
      (fun v i =>
        if comp_at comp v i first then move_to_first v first i
        else unguarded_linear_insert comp v i) v

/-- The function `std::__unguarded_insertion_sort` of `bits/stl_algo.h`. -/
def unguarded_insertion_sort (comp : α → α → Bool) (v : List α) (first last : Nat) : List α :=
  (List.range' first (last - first)).foldl (fun v i => unguarded_linear_insert comp v i) v

/-- The function `std::__final_insertion_sort` of `bits/stl_algo.h`. -/
def final_insertion_sort (comp : α → α → Bool) (v : List α) (first last : Nat) : List α :=
  if last - first > 16 then
    let v := insertion_sort comp v first (first + 16)
    unguarded_insertion_sort comp v (first + 16) last
  else insertion_sort comp v first last

/-- The function `std::sort(v.begin(), v.end(), comp)` as libstdc++ implements
it (`std::__sort` of `bits/stl_algo.h`); `std::__lg` is the binary logarithm
rounded down. -/
def sort (comp : α → α → Bool) (v : List α) : List α :=
  if v.length = 0 then v
  else
    let v1 := introsort_loop comp v.length v 0 v.length (Nat.log2 v.length * 2)
    final_insertion_sort comp v1 0 v.length

end Libstdcxx

/-! ## Notions used to state the properties -/

/-- The concatenation, in order, of the member lists of the episodes. -/
def member_ids (episodes : List Episode) : List EventId :=
  (episodes.map (fun ep => ep.event_ids)).flatten

/-- Position `pos` counts the events in the concatenated member lists; the
result is the index of the episode whose member list holds that position. -/
def episode_of_position : List Episode → Nat → Nat
  | [], _ => 0
  | ep :: rest, pos =>
    if pos < ep.event_ids.length then 0
    else episode_of_position rest (pos - ep.event_ids.length) + 1

/-- The events of the input that an episode's member ids name, in member
order. -/
def episode_members (events : List Event) (ep : Episode) : List Event :=
  ep.event_ids.filterMap (fun event_id => events.find? (fun e => decide (e.id = event_id)))

/-- The earliest member whose severity is ERROR or FATAL. -/
def first_error_member (members : List Event) : Option Event :=
  members.find? (fun e => decide (e.sev = Severity.ERROR ∨ e.sev = Severity.FATAL))

/-- The earliest member whose severity no other member exceeds. -/
def max_severity_member (members : List Event) : Option Event :=
  members.find? (fun e => members.all (fun e' => decide (e'.sev.toNat ≤ e.sev.toNat)))

/-- The highlights of an episode in the words of the specification: the
earliest ERROR or FATAL member, then the member of maximal severity if it is a
different event. -/
def highlights_as_specified (members : List Event) : List EventId :=
  let first := (first_error_member members).map (fun e => e.id)
  first.toList ++
    (match max_severity_member members with
     | some m => if first = some m.id then [] else [m.id]
     | none => [])

/-- The highlights that `identify_highlights` computes for members with
non-zero ids: as specified, except that a member of maximal severity whose
severity is UNKNOWN is not a highlight. -/
def highlights_above_unknown (members : List Event) : List EventId :=
  let first := (first_error_member members).map (fun e => e.id)
  first.toList ++
    (match max_severity_member members with
     | some m => if m.sev = Severity.UNKNOWN ∨ first = some m.id then [] else [m.id]
     | none => [])

/-- The restart events of the input that carry a timestamp (`ts.has_value()`,
whatever the confidence). -/
def timestamped_restarts (config : RestartLoopConfig) (events : List Event) : List Event :=
  events.filter (fun e => RestartLoopDetector.is_restart_event config e && e.ts.isSome)

/-- The restart events of the input that carry a timestamp in the sense of the
data model: `ts` has a value and its confidence is above 0. -/
def valid_restarts (config : RestartLoopConfig) (events : List Event) : List Event :=
  events.filter (fun e => RestartLoopDetector.is_restart_event config e && e.has_valid_ts)

/-- The number of ERROR_BURST anomalies in a result. -/
def count_bursts {D : Type} (anomalies : List (Anomaly D)) : Nat :=
  anomalies.countP (fun a => decide (a.type = AnomalyType.ERROR_BURST))

/-- The burst test of the specification for a point of the ERROR series: the
count is at least the configured minimum and at least the mean count of the
points times the configured multiplier. -/
def is_burst {D : Type} [DoubleArith D] (config : ErrorBurstConfig D) (series : TimeSeries)
    (point : TimeSeriesPoint) : Bool :=
  let total : Nat := (series.points.map (fun p => p.count)).sum
  let baseline : D :=
    DoubleArith.div (DoubleArith.ofRat (total : ℚ)) (DoubleArith.ofRat (series.points.length : ℚ))
  decide (config.min_errors_for_burst ≤ point.count) &&
    DoubleArith.le (DoubleArith.mul baseline config.threshold_multiplier)
      (DoubleArith.ofRat (point.count : ℚ))

/-- The episode with its id raised by `d`; all other fields unchanged. -/
def with_id_offset (d : Nat) (ep : Episode) : Episode :=
  { ep with id := ep.id + d }

/-- The correlation ids of an episode are right for the input `events`: the
list has no duplicate and a string is in it exactly when it is the
`request_id` or the `trace_id` tag value of a member event. -/
def correlation_ok (events : List Event) (ep : Episode) : Prop :=
  ep.correlation_ids.Nodup ∧
    ∀ x : String, x ∈ ep.correlation_ids ↔
      ∃ e ∈ episode_members events ep,
        e.tags.find "request_id" = some x ∨ e.tags.find "trace_id" = some x

/-- The events of the list are in non-decreasing order of their timestamps
(events without a timestamp are not compared). -/
def time_ordered (l : List Event) : Prop :=
  l.Pairwise (fun e f => ∀ te tf : Timestamp, e.ts = some te → f.ts = some tf → te.tp ≤ tf.tp)

/-- The maximal runs of consecutive retry-keyword events of an event list, in
input order, each with the event that immediately follows it (`none` when the
run ends the input); `run` is the run collected so far. -/
def retry_runs : List Event → List Event → List (List Event × Option Event)
  | [], run => if run.isEmpty then [] else [(run, none)]
  | e :: rest, run =>
    if RetryToTimeoutRule.is_retry_event e then retry_runs rest (run ++ [e])
    else if run.isEmpty then retry_runs rest []
    else (run, some e) :: retry_runs rest []

/-- The evidence of the finding of a run and its follower: the ids of the run in
input order, then the id of the follower, when the follower is a
timeout-keyword event; no finding otherwise. -/
def retry_run_evidence (p : List Event × Option Event) : Option (List EventId) :=
  match p.2 with
  | some t =>
    if RetryToTimeoutRule.is_timeout_event t then some (p.1.map (fun e => e.id) ++ [t.id])
    else none
  | none => none

/-- The evidence lists of the retry-to-timeout findings as specified: one for
each maximal run of retry-keyword events that is immediately followed by a
timeout-keyword event. -/
def retry_timeout_evidence (events : List Event) : List (List EventId) :=
  (retry_runs events []).filterMap retry_run_evidence

/-- The event ids of the evidence of a finding, in order. -/
def Finding.evidence_ids {D : Type} (f : Finding D) : List EventId :=
  f.evidence.map (fun ev => ev.event_id)

/-- The gap of an event to a burst start as `ErrorBurstAfterChangeRule`
measures it: for an event with a timestamp strictly before the burst start, the
distance in whole seconds (rounded down), when that is at most 30 minutes. -/
def change_gap (burst_time : TimePoint) (e : Event) : Option Int :=
  match e.ts with
  | none => none
  | some t =>
    if t.tp < burst_time ∧ Int.tdiv (burst_time - t.tp) ticks_per_second ≤ 30 * 60 then
      some (Int.tdiv (burst_time - t.tp) ticks_per_second)
    else none

/-- The change-keyword events of the input that have a gap to the burst start. -/
def nearby_changes (events : List Event) (burst_time : TimePoint) : List Event :=
  events.filter
    (fun e => ErrorBurstAfterChangeRule.is_change_event e && (change_gap burst_time e).isSome)

/-- An ERROR_BURST anomaly with a start time and a change event near it. -/
def has_nearby_change {D : Type} (events : List Event) (a : Anomaly D) : Bool :=
  decide (a.type = AnomalyType.ERROR_BURST) &&
    match a.start_time with
    | none => false
    | some burst_time => !(nearby_changes events burst_time).isEmpty

/-- The confidence that `ErrorBurstAfterChangeRule::evaluate` computes, as a
function of the gap in whole seconds:
`std::max(0.5, 1.0 - ((min_gap.count() / 60.0) / 30.0))`. -/
def change_confidence {D : Type} [DoubleArith D] (min_gap : Int) : D :=
  DoubleArith.max (DoubleArith.ofRat (1 / 2))
    (DoubleArith.sub (DoubleArith.ofRat 1)
      (DoubleArith.div (DoubleArith.div (DoubleArith.ofRat (min_gap : ℚ)) (DoubleArith.ofRat 60))
        (DoubleArith.ofRat 30)))

/-- The finding `f` is the one the rule emits for the burst `a`: it starts at
a nearest change event (in whole seconds) near the burst start, that event is
its first evidence entry, it ends where the burst ends, and its confidence is
`change_confidence` of the gap. -/
def change_finding_ok {D : Type} [DoubleArith D] (events : List Event) (f : Finding D)
    (a : Anomaly D) : Prop :=
  ∃ burst_time change g,
    a.start_time = some burst_time ∧ change ∈ events ∧
    ErrorBurstAfterChangeRule.is_change_event change = true ∧
    change_gap burst_time change = some g ∧
    (∀ c ∈ events, ErrorBurstAfterChangeRule.is_change_event c = true →
      ∀ g1, change_gap burst_time c = some g1 → g ≤ g1) ∧
    f.start_time = change.ts.map (fun t => t.tp) ∧
    f.evidence.head? =
      some { event_id := change.id, description := "Deployment or config change" } ∧
    f.end_time = a.end_time ∧
    f.confidence = change_confidence g

/-- A change-keyword event with a timestamp strictly before the burst start and
at most 30 minutes before it, the distance being measured exactly. -/
def within_lookback (burst_time : TimePoint) (e : Event) : Bool :=
  ErrorBurstAfterChangeRule.is_change_event e &&
    match e.ts with
    | none => false
    | some t => decide (t.tp < burst_time ∧ burst_time - t.tp ≤ 30 * ticks_per_minute)

/-- The messages that `compute_frequent_patterns` counts, in input order, each
as its normalized pattern and the severity of its event: the message has at
least `min_pattern_length` bytes and its pattern is not empty. -/
def qualifying_messages (lib : StdLib) (config : StatsConfig) (events : List Event) :
    List (String × Severity) :=
  events.filterMap
    (fun e =>
      if e.message.utf8ByteSize ≥ config.min_pattern_length then
        if StatsBuilder.extract_pattern lib e.message ≠ "" then
          some (StatsBuilder.extract_pattern lib e.message, e.sev)
        else none
      else none)

/-- The number of qualifying messages that normalize to the pattern `p`. -/
def pattern_count (q : List (String × Severity)) (p : String) : Nat :=
  q.countP (fun x => decide (x.1 = p))

/-- The maximum severity among the qualifying messages that normalize to `p`
(`UNKNOWN` when there is none). -/
def pattern_max_severity (q : List (String × Severity)) (p : String) : Severity :=
  (q.filter (fun x => decide (x.1 = p))).foldl (fun m x => Severity.max m x.2) Severity.UNKNOWN

/-- The contract of `std::sort` with the comparison `a.count > b.count`: the
result is a permutation of the input in which no element is followed by one
that the comparison puts before it. The order of elements of equal count is
not specified. -/
def sort_contract (std_sort : List FrequentPattern → List FrequentPattern) : Prop :=
  ∀ l, (std_sort l).Perm l ∧ (std_sort l).Pairwise (fun a b => ¬ b.count > a.count)

/-- The list `fp` is a top-`n` selection of the patterns of the qualifying
messages `q`: it has `min n d` entries for `d` distinct patterns, in
non-increasing count, with distinct patterns; each entry carries a pattern of
`q`, the number of messages of that pattern and their maximum severity; and no
pattern left out has a larger count than an entry. -/
def top_patterns (q : List (String × Severity)) (n : Nat) (fp : List FrequentPattern) : Prop :=
  fp.length = min n (q.map Prod.fst).dedup.length ∧
  fp.Pairwise (fun a b => a.count ≥ b.count) ∧
  (fp.map (fun e => e.pattern)).Nodup ∧
  (∀ e ∈ fp, e.pattern ∈ q.map Prod.fst ∧ e.count = pattern_count q e.pattern ∧
    e.max_severity = pattern_max_severity q e.pattern) ∧
  (∀ p ∈ q.map Prod.fst, p ∉ fp.map (fun e => e.pattern) →
    ∀ e ∈ fp, pattern_count q p ≤ e.count)

/-- The event has a valid timestamp and `time_to_bucket` maps it to `b`. -/
def in_time_bucket (b : Int) (e : Event) : Bool :=
  match e.ts with
  | some ts => ts.is_valid && decide (EventIndex.time_to_bucket ts.tp = b)
  | none => false

/-- The 13 names that `severity_from_string` recognises, with the severity of
each. -/
def severity_names : List (String × Severity) :=
  [("TRACE", Severity.TRACE), ("VERBOSE", Severity.TRACE), ("DEBUG", Severity.DEBUG),
   ("DBG", Severity.DEBUG), ("INFO", Severity.INFO), ("INFORMATION", Severity.INFO),
   ("WARN", Severity.WARN), ("WARNING", Severity.WARN), ("ERROR", Severity.ERROR),
   ("ERR", Severity.ERROR), ("FATAL", Severity.FATAL), ("CRITICAL", Severity.FATAL),
   ("SEVERE", Severity.FATAL)]

/-- The severity of the recognised name that is the list of characters
`upper`, `UNKNOWN` when `upper` is not a recognised name. -/
def severity_of_name (upper : List Char) : Severity :=
  match severity_names.find? (fun p => decide (p.1.data = upper)) with
  | some p => p.2
  | none => Severity.UNKNOWN

/-- The number of the tags `request_id`, `trace_id` and `uuid` of the event
whose value is `k`. -/
def correlation_hits (e : Event) (k : String) : Nat :=
  (["request_id", "trace_id", "uuid"].filter
    (fun t => decide (e.tags.find t = some k))).length

/-- The number of populated buckets of the ERROR time series: its points with
a count of at least one; 0 without an ERROR series. -/
def populated_error_buckets (stats : Stats) : Nat :=
  match stats.severity_time_series.lookup Severity.ERROR with
  | none => 0
  | some series => (series.points.filter (fun p => decide (1 ≤ p.count))).length

/-- The record of a group of lines, a first line and the lines merged into
it: the path and number of the first line, the number of the last line, and the
texts of the lines joined by line feeds. -/
def record_of_group (g : RawLine × List RawLine) : Record :=
  { src :=
      { source_path := g.1.source_path
        start_line := g.1.line_no
        end_line := g.2.foldl (fun _ l => l.line_no) g.1.line_no }
    text := g.2.foldl (fun t l => t.push '\n' ++ l.text) g.1.text }

/-- The limits as `frame` keeps them for a group: a group of one line is not
checked; a group of several lines has at most `max_lines_per_record` lines and
its text has fewer than `max_chars_per_record` bytes. -/
def group_within_limits (config : MultilineFramerConfig) (g : RawLine × List RawLine) : Prop :=
  g.2 = [] ∨
    (g.2.length + 1 ≤ config.max_lines_per_record ∧
      (record_of_group g).text.utf8ByteSize < config.max_chars_per_record)

/-- One step of the merge of the specification with a running accumulator:
`st.1` holds the finished groups and `st.2` the current group of phase 1
episodes. The episode `ep` joins the current group when its correlation-id set
intersects the union of the sets of the episodes of the group; otherwise the
group is finished and `ep` starts a new one. -/
def running_merge_step (st : List (List Episode) × List Episode) (ep : Episode) :
    List (List Episode) × List Episode :=
  if ∃ x ∈ ep.correlation_ids, ∃ p ∈ st.2, x ∈ p.correlation_ids then (st.1, st.2 ++ [ep])
  else (st.1 ++ [st.2], [ep])

/-- The current group after the phase 1 episodes `e0 :: rest`: the phase 1
episodes merged so far into the running accumulator. -/
def running_group (e0 : Episode) (rest : List Episode) : List Episode :=
  (rest.foldl running_merge_step ([], [e0])).2

/-- The groups into which the running merge divides the phase 1 episodes. -/
def running_groups : List Episode → List (List Episode)
  | [] => []
  | e0 :: rest => (rest.foldl running_merge_step ([], [e0])).1 ++ [running_group e0 rest]

/-- The output episode `o` is the merge of the group `g`: its members are the
members of the episodes of `g` in order and its correlation-id set is the union
of their sets. -/
def merged_as (o : Episode) (g : List Episode) : Prop :=
  o.event_ids = member_ids g ∧ ∀ x, x ∈ o.correlation_ids ↔ ∃ p ∈ g, x ∈ p.correlation_ids

/-! ### Inputs of the examples -/

/-- The default constructor `Event()`. -/
def Event.new : Event :=
  { id := 0, ts := none, sev := Severity.UNKNOWN, message := "",
    src := { source_path := "", start_line := 0, end_line := 0 }, tags := [], raw := "" }

/-- The helper `create_event` of `test_episode_builder.cpp`: an event with a
valid timestamp (confidence 100). -/
def create_event (id : EventId) (sev : Severity) (tp : TimePoint) : Event :=
  { Event.new with
    id := id, sev := sev, ts := some { tp := tp, confidence := 100, tz_known := false },
    raw := "Event " ++ toString id }

/-- The helper `create_test_event` of `test_stats.cpp`. -/
def create_test_event (id : EventId) (sev : Severity) (msg : String) (tp : TimePoint) : Event :=
  { Event.new with
    id := id, sev := sev, message := msg,
    ts := some { tp := tp, confidence := 100, tz_known := false },
    src := { source_path := "test.log", start_line := 0, end_line := 0 }, raw := msg }

/-- An event without a timestamp, as the tests build them from `Event()`. -/
def create_untimed_event (id : EventId) (sev : Severity) (msg : String) : Event :=
  { Event.new with id := id, sev := sev, message := msg }

/-- An `EpisodeBuilder` with the given threshold (seconds) and merge flag. -/
def builder_with (threshold : Int) (merge : Bool) : EpisodeBuilder :=
  EpisodeBuilder.new { time_gap_threshold := threshold, merge_by_correlation := merge }

/-- An event of `create_event` with tags added, as the merge tests build
them. -/
def create_tagged_event (id : EventId) (sev : Severity) (tp : TimePoint) (tags : TagMap) :
    Event :=
  { create_event id sev tp with tags := tags }

/-- Three events ten minutes apart: the first carries the correlation ids `a`
and `c`, the second `a`, the third `c`. -/
def chained_events : List Event :=
  [create_tagged_event 1 Severity.INFO 0 [("request_id", "a"), ("trace_id", "c")],
   create_tagged_event 2 Severity.INFO (600 * ticks_per_second) [("request_id", "a")],
   create_tagged_event 3 Severity.INFO (1200 * ticks_per_second) [("request_id", "c")]]

/-- The first episode that phase 1 makes of `chained_events` with a threshold
of 60 s and the id counter at 1. -/
def chained_episode_1 : Episode :=
  { id := 1, event_ids := [1], start_time := some 0, end_time := some 0,
    correlation_ids := ["a", "c"], highlights := [1], max_severity := Severity.INFO }

/-- The second episode that phase 1 makes of `chained_events`. -/
def chained_episode_2 : Episode :=
  { id := 2, event_ids := [2], start_time := some (600 * ticks_per_second),
    end_time := some (600 * ticks_per_second),
    correlation_ids := ["a"], highlights := [2], max_severity := Severity.INFO }

/-- The third episode that phase 1 makes of `chained_events`. -/
def chained_episode_3 : Episode :=
  { id := 3, event_ids := [3], start_time := some (1200 * ticks_per_second),
    end_time := some (1200 * ticks_per_second),
    correlation_ids := ["c"], highlights := [3], max_severity := Severity.INFO }

/-- A `Stats` that holds only an ERROR time series with one-minute buckets. -/
def stats_of_error_points (points : List TimeSeriesPoint) : Stats :=
  { severity_counts := [], source_counts := [], frequent_patterns := [], total_events := 0,
    start_time := none, end_time := none,
    severity_time_series := [(Severity.ERROR, { points := points, bucket_size := 1 })] }

/-- The timestamps of the members that have a valid one, in member order. -/
def valid_times (members : List Event) : List TimePoint :=
  members.filterMap (fun e => match e.ts with
    | some t => if t.is_valid then some t.tp else none
    | none => none)

/-- Three events with unique ids and valid timestamps, not in time order: the
first at 1000 s, the second at 0 s, the third at 400 s; the first and the
third carry the same request id. -/
def unordered_events : List Event :=
  [create_tagged_event 1 Severity.INFO (1000 * ticks_per_second) [("request_id", "r")],
   create_event 2 Severity.INFO 0,
   create_tagged_event 3 Severity.INFO (400 * ticks_per_second) [("request_id", "r")]]

/-- A restart event with a timestamp, at `minutes` minutes after the epoch. -/
def restart_at (id : EventId) (minutes : Int) : Event :=
  create_test_event id Severity.INFO "Server starting" (minutes * ticks_per_minute)

/-- A restart event without a timestamp. -/
def restart_untimed (id : EventId) : Event :=
  create_untimed_event id Severity.INFO "Server starting"

/-- A restart event whose timestamp has confidence 0, which `is_valid`
rejects. -/
def restart_unconfident (id : EventId) (minutes : Int) : Event :=
  { create_untimed_event id Severity.INFO "Server starting" with
    ts := some { tp := minutes * ticks_per_minute, confidence := 0, tz_known := false } }

/-- The evidence ids, start time and end time of each anomaly of a result. -/
def anomaly_spans {D : Type} (r : Option (List (Anomaly D))) :
    Option (List (List EventId × Option TimePoint × Option TimePoint)) :=
  r.map (fun loops => loops.map (fun a => (a.evidence_ids, a.start_time, a.end_time)))

/-- A context with a deployment event at 0 and an ERROR event five minutes
later, and an ERROR_BURST anomaly that starts at the ERROR event and has no
end time. -/
def open_burst_context : RuleContext ℚ :=
  { events := some
      [create_test_event 1 Severity.INFO "Deploy v2" 0,
       create_test_event 2 Severity.ERROR "request failed" (5 * ticks_per_minute)]
    stats := none
    episodes := none
    anomalies := some
      [{ type := AnomalyType.ERROR_BURST, description := "burst", evidence_ids := [],
         confidence := 1, start_time := some (5 * ticks_per_minute), end_time := none }] }

/-- An ERROR_BURST anomaly of one minute that starts `millis` milliseconds
after the epoch. -/
def burst_at (D : Type) [DoubleArith D] (millis : Int) : Anomaly D :=
  { type := AnomalyType.ERROR_BURST, description := "burst", evidence_ids := [],
    confidence := DoubleArith.ofRat 1, start_time := some (millis * 1000000),
    end_time := some (millis * 1000000 + ticks_per_minute) }

/-- A deployment event at the epoch and an ERROR event `millis` milliseconds
later. -/
def deploy_then_error (millis : Int) : List Event :=
  [create_test_event 1 Severity.INFO "Deployment started" 0,
   create_test_event 2 Severity.ERROR "request failed" (millis * 1000000)]

/-- The start time and the evidence ids of each finding of a result. -/
def finding_spans {D : Type} (r : Option (List (Finding D))) :
    Option (List (Option TimePoint × List EventId)) :=
  r.map (fun fs => fs.map (fun f => (f.start_time, f.evidence_ids)))

/-- A standard library for the examples: `regex_replace` finds no match and
returns its input, `std_sort` keeps elements of equal count in their order. -/
def plain_lib : StdLib :=
  { regex_replace := fun input _ _ => input
    std_sort := stable_sort (fun a b => decide (a.count > b.count)) }

/-- The standard library of GCC: `std_sort` is the `std::sort` of libstdc++ with
the comparison `a.count > b.count` of `compute_frequent_patterns`;
`regex_replace` finds no match and returns its input, as `std::regex_replace`
does on a message without digit, quote, hex literal or UUID. -/
def libstdcxx_lib : StdLib :=
  { regex_replace := fun input _ _ => input
    std_sort := Libstdcxx.sort (fun a b => decide (a.count > b.count)) }

/-- Seventeen events with the messages "task a finished" to "task q finished",
which have no digit, quote, hex literal or UUID, so that each message is its
own pattern. -/
def tied_events : List Event :=
  (List.range 17).map (fun i =>
    create_test_event (i + 1) Severity.INFO
      ("task " ++ String.singleton (Char.ofNat (97 + i)) ++ " finished") 0)

/-- The pattern and the count of each frequent pattern of a result. -/
def pattern_counts_of (r : Option Stats) : Option (List (String × Nat)) :=
  r.map (fun s => s.frequent_patterns.map (fun e => (e.pattern, e.count)))

/-- Three events of `test_stats.cpp`: two errors and a warning. -/
def stats_events : List Event :=
  [create_test_event 1 Severity.ERROR "Connection failed to server" 0,
   create_test_event 2 Severity.WARN "Timeout after a while" ticks_per_minute,
   create_test_event 3 Severity.ERROR "Connection failed to server" (2 * ticks_per_minute)]

/-- Four events with unique ids and valid timestamps: 1000 s, 1400 s, 0 s and
301 s; the first, the second and the fourth carry the same request id. -/
def backward_chain_events : List Event :=
  [create_tagged_event 1 Severity.INFO (1000 * ticks_per_second) [("request_id", "r")],
   create_tagged_event 2 Severity.INFO (1400 * ticks_per_second) [("request_id", "r")],
   create_event 3 Severity.INFO 0,
   create_tagged_event 4 Severity.INFO (301 * ticks_per_second) [("request_id", "r")]]

/-- The events of the test `ErrorBurstDetector detects error spike` with the
start time `t0` for `now`: ten ERROR events one per minute from `t0` on, then
ten ERROR events at `t0` plus `later` minutes (15 in the test). -/
def error_spike_events (t0 : TimePoint) (later : Int) : List Event :=
  (List.range 10).map (fun i =>
      create_test_event i Severity.ERROR "Error" (t0 + (i : Int) * ticks_per_minute)) ++
    (List.range 10).map (fun i =>
      create_test_event (i + 10) Severity.ERROR "Burst error" (t0 + later * ticks_per_minute))

/-- The configuration of the same test: `min_errors_for_burst = 5` and
`threshold_multiplier = 2.0`; the window size keeps its default of 5. -/
def error_spike_config : ErrorBurstConfig ℚ :=
  { window_size := 5, threshold_multiplier := 2, min_errors_for_burst := 5 }

/-- The type, start time and end time of each anomaly of a list. -/
def anomaly_times {D : Type} (l : List (Anomaly D)) :
    List (AnomalyType × Option TimePoint × Option TimePoint) :=
  l.map (fun a => (a.type, a.start_time, a.end_time))

/-- The configuration `error_spike_config` in the arithmetic without
rounding. -/
def exact_spike_config : ErrorBurstConfig (Rounded id) :=
  { window_size := 5, threshold_multiplier := ⟨2⟩, min_errors_for_burst := 5 }

/-- Statistics whose ERROR series has three buckets, with 1, 1 and 10
events. -/
def spike_stats : Stats :=
  stats_of_error_points
    [{ timestamp := 0, count := 1 }, { timestamp := ticks_per_minute, count := 1 },
     { timestamp := 2 * ticks_per_minute, count := 10 }]

/-- The configuration of the test "respects max_chars_per_record limit": 50
bytes per record, the default 1000 lines. -/
def short_record_config : MultilineFramerConfig :=
  { max_lines_per_record := 1000, max_chars_per_record := 50 }

/-- One raw line of 60 bytes. -/
def long_line : RawLine :=
  { text := "ERROR Exception occurred in a handler with a very long name."
    source_path := "test.log", line_no := 1 }

/-- The class `TestRule` of `test_rules.cpp`: one finding per call. -/
def test_rule (id : String) (priority : Int) : Rule ℚ :=
  { id := id, name := "Test Rule", priority := priority
    evaluate := fun _ =>
      some [{ id := id ++ "-finding", title := "Test Finding from " ++ id, summary := "",
              severity := FindingSeverity.MEDIUM, confidence := 0, evidence := [],
              start_time := none, end_time := none }] }

/-! ### Helpers of the proofs -/

/-- The state of the loop of `frame` after the lines `processed`. -/
def frame_inv (config : MultilineFramerConfig) (processed : List RawLine)
    (st : MultilineFramer.FrameState) : Prop :=
  ∃ (done : List (RawLine × List RawLine)) (g : RawLine × List RawLine),
    (done.map (fun g => g.1 :: g.2)).flatten ++ (g.1 :: g.2) = processed ∧
    st.out_records = done.map record_of_group ∧
    st.current_src = (record_of_group g).src ∧
    st.current_text = (record_of_group g).text ∧
    st.lines_in_record = g.2.length + 1 ∧
    (∀ d ∈ done, group_within_limits config d) ∧ group_within_limits config g

/-- Every point of the series has a count of at least one. -/
def points_populated (points : List TimeSeriesPoint) : Prop :=
  ∀ q ∈ points, 1 ≤ q.count

/-- Every series that a lookup in the map finds has a point, and each of its
points has a count of at least one. -/
def series_populated (m : List (Severity × TimeSeries)) : Prop :=
  ∀ k s, m.lookup k = some s → s.points ≠ [] ∧ points_populated s.points

/-- The ids stored under the key `k` of an index (none for a missing key). -/
def ids_at {K : Type} [DecidableEq K] (m : List (K × List EventId)) (k : K) : List EventId :=
  (m.lookup k).getD []

/-- Every time series of the map has a non-zero bucket size. -/
def series_ok (m : List (Severity × TimeSeries)) : Prop :=
  ∀ p ∈ m, p.2.bucket_size ≠ 0

/-- The initial values of the scan of `identify_highlights`. -/
def highlight_init : EpisodeBuilder.HighlightScan :=
  { first_error_id := 0, max_severity_id := 0, max_sev := Severity.UNKNOWN }

/-- The events with a timestamp found at the given indices of `events`. -/
def timestamped_at (events : List Event) (indices : List Nat) : List Event :=
  indices.filterMap
    (fun idx => match events[idx]? with
      | some e => if e.ts.isSome then some e else none
      | none => none)

/-- A RESTART_LOOP anomaly whose evidence is the ids of at least `minimum`
events that form a subsequence of `pool`. -/
def loop_evidence_ok {D : Type} (minimum : Nat) (pool : List Event) (a : Anomaly D) : Prop :=
  a.type = AnomalyType.RESTART_LOOP ∧
    ∃ sub : List Event, List.Sublist sub pool ∧
      a.evidence_ids = sub.map (fun e => e.id) ∧ minimum ≤ sub.length

/-- The index of the block that holds position `pos`, for consecutive blocks
of the given lengths. -/
def block_of_position : List Nat → Nat → Nat
  | [], _ => 0
  | n :: rest, pos => if pos < n then 0 else block_of_position rest (pos - n) + 1

/-- The lengths of the member lists of the episodes. -/
def member_counts (episodes : List Episode) : List Nat :=
  episodes.map (fun ep => ep.event_ids.length)

/-- The lengths of the member lists of the episodes of a phase 1 state: the
pushed episodes, then the current one. -/
def EpisodeBuilder.BuildState.counts (st : EpisodeBuilder.BuildState) : List Nat :=
  member_counts st.episodes ++ [st.current_episode.event_ids.length]

/-- The episode `o` stands for the group `g` of consecutive phase 1 episodes:
it has the id of the first one and its member list is their concatenation. -/
def merged_from (o : Episode) (g : List Episode) : Prop :=
  g.head?.map (fun ep => ep.id) = some o.id ∧ o.event_ids = member_ids g

/-- The invariant of the id counter in phase 1, for a counter that started at
`m`: the ids given so far are `m, m + 1, ...` in order. -/
def ids_from (m : Nat) (st : EpisodeBuilder.BuildState) : Prop :=
  st.episodes.map (fun ep => ep.id) ++ [st.current_episode.id] =
      List.range' m (st.episodes.length + 1) ∧
    st.next_episode_id_ = m + st.episodes.length + 1

/-- A phase 1 state with every id and the id counter raised by `d`. -/
def EpisodeBuilder.BuildState.offset (d : Nat) (st : EpisodeBuilder.BuildState) :
    EpisodeBuilder.BuildState :=
  { episodes := st.episodes.map (with_id_offset d)
    current_episode := with_id_offset d st.current_episode
    next_episode_id_ := st.next_episode_id_ + d }

/-- A RESTART_LOOP anomaly that starts at the time of its anchor and whose
evidence is the anchor followed by events of `pool`, in the order of `pool`,
each with a timestamp that is at most the end of the window of the anchor. -/
def loop_window_ok {D : Type} (config : RestartLoopConfig) (pool : List Event)
    (a : Anomaly D) : Prop :=
  ∃ (anchor : Event) (t0 : Timestamp) (sub : List Event),
    List.Sublist (anchor :: sub) pool ∧ anchor.ts = some t0 ∧
      a.start_time = some t0.tp ∧ a.evidence_ids = (anchor :: sub).map (fun e => e.id) ∧
      ∀ e ∈ sub, ∃ t : Timestamp,
        e.ts = some t ∧ t.tp ≤ t0.tp + config.time_window * ticks_per_minute

/-! ## Lemmas -/

section Lemmas

open EpisodeBuilder

theorem identify_highlights_event_ids (ep : Episode) (events : List Event) :
    (identify_highlights ep events).event_ids = ep.event_ids := by
  unfold identify_highlights
  split <;> rfl

theorem update_metadata_event_ids (ep : Episode) (events : List Event) :
    (update_metadata ep events).event_ids = ep.event_ids := by
  unfold update_metadata
  split <;> rfl

theorem finalize_event_ids (ep : Episode) (events : List Event) :
    (finalize ep events).event_ids = ep.event_ids := by
  simp [finalize, identify_highlights_event_ids, update_metadata_event_ids]

theorem member_ids_append (a b : List Episode) :
    member_ids (a ++ b) = member_ids a ++ member_ids b := by
  simp [member_ids]

theorem member_ids_singleton (ep : Episode) : member_ids [ep] = ep.event_ids := by
  simp [member_ids]

theorem build_step_member_ids (config : EpisodeConfig) (events : List Event) (st : BuildState)
    (prev : Option Event) (event : Event) :
    member_ids (build_step config events st prev event).episodes ++
        (build_step config events st prev event).current_episode.event_ids =
      member_ids st.episodes ++ st.current_episode.event_ids ++ [event.id] := by
  unfold build_step
  by_cases h : start_new config st prev event = true
  · simp [h, member_ids_append, member_ids_singleton, finalize_event_ids, Episode.new]
  · simp [h]

theorem build_loop_member_ids (config : EpisodeConfig) (events : List Event) :
    ∀ (rest : List Event) (prev : Option Event) (st : BuildState),
      member_ids (build_loop config events prev rest st).episodes ++
          (build_loop config events prev rest st).current_episode.event_ids =
        member_ids st.episodes ++ st.current_episode.event_ids ++ rest.map (fun e => e.id) := by
  intro rest
  induction rest with
  | nil => intro prev st; simp [build_loop]
  | cons e rest ih =>
    intro prev st
    simp only [build_loop]
    rw [ih, build_step_member_ids]
    simp

theorem segment_member_ids (config : EpisodeConfig) (next_id : Nat) (events : List Event) :
    member_ids (EpisodeBuilder.segment config next_id events).1 = events.map (fun e => e.id) := by
  have h := build_loop_member_ids config events events none
    { episodes := [], current_episode := Episode.new next_id, next_episode_id_ := next_id + 1 }
  unfold EpisodeBuilder.segment
  simp only []
  split
  · rw [member_ids_append, member_ids_singleton, finalize_event_ids, h]
    simp [member_ids, Episode.new]
  · rename_i hc
    simp [Episode.empty] at hc
    rw [hc] at h
    simpa [member_ids, Episode.new] using h

theorem merge_episodes_event_ids (a b : Episode) :
    (merge_episodes a b).event_ids = a.event_ids ++ b.event_ids := rfl

theorem merge_step_member_ids (merged : List Episode) (ep : Episode) :
    member_ids (merge_step merged ep) = member_ids merged ++ ep.event_ids := by
  unfold merge_step
  cases h : merged.getLast? with
  | none => simp [member_ids_append, member_ids_singleton]
  | some back =>
    have hm : merged.dropLast ++ [back] = merged := List.dropLast_append_getLast? back h
    by_cases hs : share_correlation_ids back ep = true
    · simp only [hs, if_true]
      rw [member_ids_append, member_ids_singleton, merge_episodes_event_ids]
      conv_rhs => rw [← hm]
      simp [member_ids_append, member_ids_singleton]
    · simp [hs, member_ids_append, member_ids_singleton]

theorem foldl_merge_step_member_ids :
    ∀ (rest merged : List Episode),
      member_ids (rest.foldl merge_step merged) = member_ids merged ++ member_ids rest := by
  intro rest
  induction rest with
  | nil => intro merged; simp [member_ids]
  | cons e rest ih =>
    intro merged
    simp only [List.foldl_cons]
    rw [ih, merge_step_member_ids]
    simp [member_ids]

theorem merge_phase_member_ids (episodes : List Episode) :
    member_ids (merge_phase episodes) = member_ids episodes := by
  cases episodes with
  | nil => rfl
  | cons e rest =>
    simp only [merge_phase]
    rw [foldl_merge_step_member_ids]
    simp [member_ids]

theorem episode_of_position_eq_block (episodes : List Episode) (pos : Nat) :
    episode_of_position episodes pos = block_of_position (member_counts episodes) pos := by
  induction episodes generalizing pos with
  | nil => rfl
  | cons ep rest ih =>
    simp only [episode_of_position, member_counts, List.map_cons, block_of_position]
    split
    · rfl
    · rw [ih]; rfl

theorem block_cons (n : Nat) (rest : List Nat) (pos : Nat) :
    block_of_position (n :: rest) pos =
      if pos < n then 0 else block_of_position rest (pos - n) + 1 := rfl

theorem block_append_left (l l' : List Nat) (pos : Nat) (h : pos < l.sum) :
    block_of_position (l ++ l') pos = block_of_position l pos := by
  induction l generalizing pos with
  | nil => simp at h
  | cons n rest ih =>
    rw [List.cons_append, block_cons, block_cons]
    split
    · rfl
    · rename_i hn
      simp only [List.sum_cons] at h
      rw [ih (pos - n) (by omega)]

theorem block_append_right (l l' : List Nat) (pos : Nat) (h : l.sum ≤ pos) :
    block_of_position (l ++ l') pos = l.length + block_of_position l' (pos - l.sum) := by
  induction l generalizing pos with
  | nil => simp
  | cons n rest ih =>
    simp only [List.sum_cons] at h
    rw [List.cons_append, block_cons, List.sum_cons, List.length_cons]
    have hn : ¬ pos < n := by omega
    rw [if_neg hn, ih (pos - n) (by omega)]
    have : pos - n - rest.sum = pos - (n + rest.sum) := by omega
    rw [this]
    omega

theorem block_single (n pos : Nat) (h : pos < n) : block_of_position [n] pos = 0 := by
  simp [block_of_position, h]

theorem block_grow_last (l : List Nat) (c n pos : Nat) (h : pos < l.sum + c) :
    block_of_position (l ++ [c + n]) pos = block_of_position (l ++ [c]) pos := by
  by_cases hp : pos < l.sum
  · rw [block_append_left _ _ _ hp, block_append_left _ _ _ hp]
  · rw [block_append_right _ _ _ (by omega), block_append_right _ _ _ (by omega),
      block_single _ _ (by omega), block_single _ _ (by omega)]

theorem block_last (l : List Nat) (c pos : Nat) (h1 : l.sum ≤ pos) (h2 : pos < l.sum + c) :
    block_of_position (l ++ [c]) pos = l.length := by
  rw [block_append_right _ _ _ h1, block_single _ _ (by omega)]
  rfl

theorem member_counts_append (a b : List Episode) :
    member_counts (a ++ b) = member_counts a ++ member_counts b := by
  simp [member_counts]

theorem start_new_eq (config : EpisodeConfig) (st : BuildState) (prev event : Event)
    (h : st.current_episode.event_ids ≠ []) :
    start_new config st (some prev) event = has_time_gap config prev event := by
  simp [start_new, Episode.empty, h]

theorem build_step_counts (config : EpisodeConfig) (events : List Event) (st : BuildState)
    (prev : Option Event) (event : Event) :
    (build_step config events st prev event).counts =
      if start_new config st prev event = true then st.counts ++ [1]
      else member_counts st.episodes ++ [st.current_episode.event_ids.length + 1] := by
  unfold build_step
  by_cases h : start_new config st prev event = true
  · simp [h, BuildState.counts, member_counts, finalize_event_ids, Episode.new]
  · simp [h, BuildState.counts]

theorem build_step_current_ne (config : EpisodeConfig) (events : List Event) (st : BuildState)
    (prev : Option Event) (event : Event) :
    (build_step config events st prev event).current_episode.event_ids ≠ [] := by
  unfold build_step
  simp

theorem build_loop_current_ne (config : EpisodeConfig) (events : List Event) :
    ∀ (rest : List Event) (prev : Option Event) (st : BuildState),
      st.current_episode.event_ids ≠ [] →
      (build_loop config events prev rest st).current_episode.event_ids ≠ [] := by
  intro rest
  induction rest with
  | nil => intro prev st h; simpa [build_loop] using h
  | cons e rest ih =>
    intro prev st _
    simp only [build_loop]
    exact ih _ _ (build_step_current_ne config events st prev e)

theorem counts_sum (st : BuildState) :
    st.counts.sum = (member_counts st.episodes).sum + st.current_episode.event_ids.length := by
  simp [BuildState.counts]

theorem build_step_counts_sum (config : EpisodeConfig) (events : List Event) (st : BuildState)
    (prev : Option Event) (event : Event) :
    (build_step config events st prev event).counts.sum = st.counts.sum + 1 := by
  rw [build_step_counts]
  split
  · simp
  · simp [BuildState.counts]; omega

theorem build_step_block_stable (config : EpisodeConfig) (events : List Event) (st : BuildState)
    (prev : Option Event) (event : Event) (pos : Nat) (h : pos < st.counts.sum) :
    block_of_position (build_step config events st prev event).counts pos =
      block_of_position st.counts pos := by
  rw [build_step_counts]
  split
  · exact block_append_left _ _ _ h
  · rw [counts_sum] at h
    exact block_grow_last _ _ _ _ h

theorem build_loop_block_stable (config : EpisodeConfig) (events : List Event) :
    ∀ (rest : List Event) (prev : Option Event) (st : BuildState) (pos : Nat),
      pos < st.counts.sum →
      block_of_position (build_loop config events prev rest st).counts pos =
        block_of_position st.counts pos := by
  intro rest
  induction rest with
  | nil => intro prev st pos _; rfl
  | cons e rest ih =>
    intro prev st pos h
    simp only [build_loop]
    rw [ih _ _ pos (by rw [build_step_counts_sum]; omega)]
    exact build_step_block_stable config events st prev e pos h

theorem build_step_boundary (config : EpisodeConfig) (events : List Event) (st : BuildState)
    (prev event : Event) (h : st.current_episode.event_ids ≠ []) :
    block_of_position (build_step config events st (some prev) event).counts st.counts.sum =
      block_of_position (build_step config events st (some prev) event).counts
          (st.counts.sum - 1) +
        (if has_time_gap config prev event = true then 1 else 0) := by
  have hc : 0 < st.current_episode.event_ids.length := List.length_pos.mpr h
  have hcounts : st.counts =
      member_counts st.episodes ++ [st.current_episode.event_ids.length] := rfl
  have hsum := counts_sum st
  rw [build_step_counts, start_new_eq config st prev event h]
  by_cases hg : has_time_gap config prev event = true
  · rw [if_pos hg, if_pos hg, block_last _ _ _ (le_refl _) (by omega),
      block_append_left _ _ _ (by omega), hcounts,
      block_last _ _ _ (by rw [← hcounts]; omega) (by rw [← hcounts]; omega)]
    simp
  · rw [if_neg hg, if_neg hg, hsum, block_last _ _ _ (by omega) (by omega),
      block_last _ _ _ (by omega) (by omega)]
    simp

theorem build_loop_boundary (config : EpisodeConfig) (events : List Event) :
    ∀ (rest : List Event) (prev : Event) (st : BuildState),
      st.current_episode.event_ids ≠ [] →
      ∀ (r1 : List Event) (e f : Event) (r2 : List Event),
        prev :: rest = r1 ++ e :: f :: r2 →
        block_of_position (build_loop config events (some prev) rest st).counts
            (st.counts.sum + r1.length) =
          block_of_position (build_loop config events (some prev) rest st).counts
              (st.counts.sum + r1.length - 1) +
            (if has_time_gap config e f = true then 1 else 0) := by
  intro rest
  induction rest with
  | nil =>
    intro prev st _ r1 e f r2 h
    have := congrArg List.length h
    simp at this
    omega
  | cons x rest ih =>
    intro prev st hne r1 e f r2 h
    simp only [build_loop]
    cases r1 with
    | nil =>
      simp only [List.nil_append, List.cons.injEq] at h
      obtain ⟨rfl, rfl, rfl⟩ := h
      have hs := build_step_counts_sum config events st (some prev) x
      rw [build_loop_block_stable config events _ _ _ _ (by rw [hs]; simp),
        build_loop_block_stable config events _ _ _ _ (by rw [hs]; simp; omega)]
      simpa using build_step_boundary config events st prev x hne
    | cons y r1 =>
      simp only [List.cons_append, List.cons.injEq] at h
      obtain ⟨rfl, h⟩ := h
      have := ih x (build_step config events st (some prev) x)
        (build_step_current_ne config events st (some prev) x) r1 e f r2 h
      rw [build_step_counts_sum] at this
      have e1 : st.counts.sum + (prev :: r1).length = st.counts.sum + 1 + r1.length := by
        simp; omega
      rw [e1]
      exact this

theorem segment_counts (config : EpisodeConfig) (next_id : Nat) (e0 : Event)
    (rest : List Event) :
    member_counts (EpisodeBuilder.segment config next_id (e0 :: rest)).1 =
      (build_loop config (e0 :: rest) (some e0) rest
        (build_step config (e0 :: rest)
          { episodes := [], current_episode := Episode.new next_id,
            next_episode_id_ := next_id + 1 } none e0)).counts := by
  unfold EpisodeBuilder.segment
  simp only [build_loop]
  have hne := build_loop_current_ne config (e0 :: rest) rest (some e0) _
    (build_step_current_ne config (e0 :: rest)
      { episodes := [], current_episode := Episode.new next_id,
        next_episode_id_ := next_id + 1 } none e0)
  simp [Episode.empty, hne, BuildState.counts, member_counts, finalize_event_ids]

/-- Phase 1 places two consecutive events in different episodes exactly when
`has_time_gap` holds for them. -/
theorem segment_boundary (config : EpisodeConfig) (next_id : Nat) (events pre : List Event)
    (e f : Event) (post : List Event) (h : events = pre ++ e :: f :: post) :
    episode_of_position (EpisodeBuilder.segment config next_id events).1 (pre.length + 1) =
      episode_of_position (EpisodeBuilder.segment config next_id events).1 pre.length +
        (if has_time_gap config e f = true then 1 else 0) := by
  cases events with
  | nil =>
    have := congrArg List.length h
    simp at this
    omega
  | cons e0 rest =>
    rw [episode_of_position_eq_block, episode_of_position_eq_block, segment_counts]
    have hst : (build_step config (e0 :: rest)
        { episodes := [], current_episode := Episode.new next_id,
          next_episode_id_ := next_id + 1 } none e0).counts.sum = 1 := by
      rw [build_step_counts_sum]
      simp [BuildState.counts, member_counts, Episode.new]
    have := build_loop_boundary config (e0 :: rest) rest e0 _
      (build_step_current_ne config (e0 :: rest)
        { episodes := [], current_episode := Episode.new next_id,
          next_episode_id_ := next_id + 1 } none e0) pre e f post h
    rw [hst] at this
    have e1 : 1 + pre.length = pre.length + 1 := by omega
    have e2 : 1 + pre.length - 1 = pre.length := by omega
    rw [e1] at this
    rw [e1] at e2
    rw [e2] at this
    exact this

theorem has_time_gap_invalid (config : EpisodeConfig) (e f : Event)
    (h : e.has_valid_ts = false ∨ f.has_valid_ts = false) : has_time_gap config e f = false := by
  unfold has_time_gap
  unfold Event.has_valid_ts at h
  cases he : e.ts <;> cases hf : f.ts <;> simp_all

theorem has_time_gap_valid (config : EpisodeConfig) (e f : Event) (te tf : Timestamp)
    (he : e.ts = some te) (hf : f.ts = some tf) (hve : te.is_valid = true)
    (hvf : tf.is_valid = true) :
    has_time_gap config e f =
      decide (tf.tp - te.tp > config.time_gap_threshold * ticks_per_second) := by
  unfold has_time_gap
  simp [he, hf, hve, hvf]

theorem block_merge_same (l : List Nat) (c n : Nat) (t : List Nat) :
    ∀ (p q : Nat),
      block_of_position (l ++ c :: n :: t) p = block_of_position (l ++ c :: n :: t) q →
      block_of_position (l ++ (c + n) :: t) p = block_of_position (l ++ (c + n) :: t) q := by
  induction l with
  | nil =>
    intro p q h
    simp only [List.nil_append, block_cons, Nat.sub_sub] at h ⊢
    split_ifs at h ⊢ <;> omega
  | cons m l ih =>
    intro p q h
    simp only [List.cons_append, block_cons] at h ⊢
    by_cases hp : p < m <;> by_cases hq : q < m <;>
      simp only [hp, hq, if_true, if_false] at h ⊢
    all_goals first | omega | skip
    have h3 := ih (p - m) (q - m) (by omega)
    omega

theorem merge_step_ne_nil (merged : List Episode) (ep : Episode) :
    merge_step merged ep ≠ [] := by
  unfold merge_step
  cases merged.getLast? with
  | none => simp
  | some back => simp only []; split <;> simp

theorem merge_step_counts (merged : List Episode) (ep back : Episode)
    (h : merged.getLast? = some back) :
    member_counts (merge_step merged ep) =
      if share_correlation_ids back ep = true then
        member_counts merged.dropLast ++ [back.event_ids.length + ep.event_ids.length]
      else member_counts merged ++ [ep.event_ids.length] := by
  unfold merge_step
  rw [h]
  simp only []
  split <;> simp [member_counts, merge_episodes_event_ids]

theorem counts_dropLast (merged : List Episode) (back : Episode)
    (h : merged.getLast? = some back) :
    member_counts merged = member_counts merged.dropLast ++ [back.event_ids.length] := by
  have hm : merged.dropLast ++ [back] = merged := List.dropLast_append_getLast? back h
  conv_lhs => rw [← hm]
  simp [member_counts]

theorem getLast?_of_ne_nil (merged : List Episode) (h : merged ≠ []) :
    ∃ back, merged.getLast? = some back := by
  cases hl : merged.getLast? with
  | none => exact absurd (List.getLast?_eq_none_iff.mp hl) h
  | some back => exact ⟨back, rfl⟩

theorem foldl_merge_step_same :
    ∀ (rest merged : List Episode), merged ≠ [] → ∀ (p q : Nat),
      block_of_position (member_counts (merged ++ rest)) p =
        block_of_position (member_counts (merged ++ rest)) q →
      block_of_position (member_counts (rest.foldl merge_step merged)) p =
        block_of_position (member_counts (rest.foldl merge_step merged)) q := by
  intro rest
  induction rest with
  | nil => intro merged _ p q h; simpa using h
  | cons e rest ih =>
    intro merged hne p q h
    simp only [List.foldl_cons]
    apply ih _ (merge_step_ne_nil merged e)
    obtain ⟨back, hb⟩ := getLast?_of_ne_nil merged hne
    rw [member_counts_append, merge_step_counts merged e back hb]
    rw [member_counts_append, counts_dropLast merged back hb] at h
    by_cases hs : share_correlation_ids back e = true
    · rw [if_pos hs]
      simp only [member_counts, List.map_cons, List.append_assoc, List.singleton_append] at h ⊢
      exact block_merge_same _ _ _ _ p q h
    · rw [if_neg hs, counts_dropLast merged back hb]
      simpa [member_counts] using h

theorem merge_phase_same (episodes : List Episode) (p q : Nat)
    (h : episode_of_position episodes p = episode_of_position episodes q) :
    episode_of_position (merge_phase episodes) p = episode_of_position (merge_phase episodes) q := by
  cases episodes with
  | nil => exact h
  | cons e rest =>
    rw [episode_of_position_eq_block, episode_of_position_eq_block] at h ⊢
    simp only [merge_phase]
    exact foldl_merge_step_same rest [e] (by simp) p q (by simpa using h)

theorem build_same_of_segment_same (b : EpisodeBuilder) (events : List Event) (p q : Nat)
    (h : episode_of_position (EpisodeBuilder.segment b.config_ b.next_episode_id_ events).1 p =
      episode_of_position (EpisodeBuilder.segment b.config_ b.next_episode_id_ events).1 q) :
    episode_of_position (build b events).1 p = episode_of_position (build b events).1 q := by
  unfold build
  split
  · rfl
  · simp only []
    split
    · exact merge_phase_same _ p q h
    · exact h

theorem build_without_merge (threshold : Int) (next_id : Nat) (events : List Event)
    (h : events ≠ []) :
    (build { config_ := { time_gap_threshold := threshold, merge_by_correlation := false },
             next_episode_id_ := next_id } events).1 =
      (EpisodeBuilder.segment { time_gap_threshold := threshold, merge_by_correlation := false }
        next_id events).1 := by
  unfold build
  simp [h]

theorem build_loop_no_gap (config : EpisodeConfig) (events : List Event) :
    ∀ (rest : List Event) (prev : Option Event) (st : BuildState),
      (∀ e ∈ rest, e.has_valid_ts = false) →
      (build_loop config events prev rest st).episodes = st.episodes := by
  intro rest
  induction rest with
  | nil => intro prev st _; rfl
  | cons e rest ih =>
    intro prev st h
    simp only [build_loop]
    rw [ih _ _ (fun x hx => h x (List.mem_cons_of_mem _ hx))]
    have hs : start_new config st prev e = false := by
      unfold start_new
      cases prev with
      | none => rfl
      | some p =>
        simp only []
        rw [has_time_gap_invalid config p e (Or.inr (h e (List.mem_cons_self _ _)))]
        simp
    simp [build_step, hs]

theorem start_new_true_ne (config : EpisodeConfig) (st : BuildState) (prev : Option Event)
    (event : Event) (h : start_new config st prev event = true) :
    st.current_episode.event_ids ≠ [] := by
  unfold start_new at h
  cases prev with
  | none => simp at h
  | some p =>
    simp only [Episode.empty] at h
    intro hc
    simp [hc] at h

theorem build_step_episodes_ne (config : EpisodeConfig) (events : List Event) (st : BuildState)
    (prev : Option Event) (event : Event) (h : ∀ ep ∈ st.episodes, ep.event_ids ≠ []) :
    ∀ ep ∈ (build_step config events st prev event).episodes, ep.event_ids ≠ [] := by
  unfold build_step
  by_cases hs : start_new config st prev event = true
  · simp only [hs, if_true]
    intro ep hep
    rcases List.mem_append.mp hep with h1 | h1
    · exact h ep h1
    · simp only [List.mem_singleton] at h1
      rw [h1, finalize_event_ids]
      exact start_new_true_ne config st prev event hs
  · simpa [hs] using h

theorem build_loop_episodes_ne (config : EpisodeConfig) (events : List Event) :
    ∀ (rest : List Event) (prev : Option Event) (st : BuildState),
      (∀ ep ∈ st.episodes, ep.event_ids ≠ []) →
      ∀ ep ∈ (build_loop config events prev rest st).episodes, ep.event_ids ≠ [] := by
  intro rest
  induction rest with
  | nil => intro prev st h; simpa [build_loop] using h
  | cons e rest ih =>
    intro prev st h
    simp only [build_loop]
    exact ih _ _ (build_step_episodes_ne config events st prev e h)

/-- Every episode of phase 1 has a member. -/
theorem segment_episodes_ne (config : EpisodeConfig) (next_id : Nat) (events : List Event) :
    ∀ ep ∈ (EpisodeBuilder.segment config next_id events).1, ep.event_ids ≠ [] := by
  have h := build_loop_episodes_ne config events events none
    { episodes := [], current_episode := Episode.new next_id, next_episode_id_ := next_id + 1 }
    (by simp)
  unfold EpisodeBuilder.segment
  simp only []
  split
  · rename_i hc
    intro ep hep
    rcases List.mem_append.mp hep with h1 | h1
    · exact h ep h1
    · simp only [List.mem_singleton] at h1
      rw [h1, finalize_event_ids]
      simpa [Episode.empty] using hc
  · exact h

theorem mem_foldl_unordered_set_insert (l : List String) :
    ∀ (s : List String) (x : String),
      x ∈ l.foldl unordered_set_insert s ↔ x ∈ s ∨ x ∈ l := by
  induction l with
  | nil => intro s x; simp
  | cons y l ih =>
    intro s x
    simp only [List.foldl_cons, ih, unordered_set_insert, List.mem_cons]
    by_cases hy : y ∈ s
    · simp only [hy, if_true]
      constructor
      · rintro (h | h)
        · exact Or.inl h
        · exact Or.inr (Or.inr h)
      · rintro (h | h | h)
        · exact Or.inl h
        · exact Or.inl (h ▸ hy)
        · exact Or.inr h
    · simp only [hy, if_false, List.mem_append, List.mem_singleton]
      tauto

theorem mem_merge_episodes_correlation_ids (a b : Episode) (x : String) :
    x ∈ (merge_episodes a b).correlation_ids ↔
      x ∈ a.correlation_ids ∨ x ∈ b.correlation_ids := by
  simp [merge_episodes, mem_foldl_unordered_set_insert]

theorem share_correlation_ids_iff (a b : Episode) :
    share_correlation_ids a b = true ↔
      ∃ x, x ∈ a.correlation_ids ∧ x ∈ b.correlation_ids := by
  simp [share_correlation_ids]

theorem merge_step_getLast (merged : List Episode) (ep back : Episode)
    (h : merged.getLast? = some back) :
    (merge_step merged ep).getLast? =
      some (if share_correlation_ids back ep = true then merge_episodes back ep else ep) := by
  unfold merge_step
  rw [h]
  simp only []
  split <;> simp

theorem merge_step_counts_sum (merged : List Episode) (ep : Episode) :
    (member_counts (merge_step merged ep)).sum =
      (member_counts merged).sum + ep.event_ids.length := by
  cases hl : merged.getLast? with
  | none =>
    simp [merge_step, hl, member_counts]
  | some back =>
    rw [merge_step_counts merged ep back hl]
    have hc := counts_dropLast merged back hl
    split
    · rw [hc]; simp; omega
    · simp

theorem merge_step_block_stable (merged : List Episode) (ep : Episode) (pos : Nat)
    (h : pos < (member_counts merged).sum) :
    block_of_position (member_counts (merge_step merged ep)) pos =
      block_of_position (member_counts merged) pos := by
  cases hl : merged.getLast? with
  | none =>
    have : merged = [] := List.getLast?_eq_none_iff.mp hl
    subst this
    simp [member_counts] at h
  | some back =>
    rw [merge_step_counts merged ep back hl]
    have hc := counts_dropLast merged back hl
    split
    · rw [hc] at h ⊢
      simp only [List.sum_append, List.sum_singleton] at h
      exact block_grow_last _ _ _ _ h
    · exact block_append_left _ _ _ h

theorem foldl_merge_step_block_stable :
    ∀ (rest merged : List Episode) (pos : Nat), pos < (member_counts merged).sum →
      block_of_position (member_counts (rest.foldl merge_step merged)) pos =
        block_of_position (member_counts merged) pos := by
  intro rest
  induction rest with
  | nil => intro merged pos _; rfl
  | cons e rest ih =>
    intro merged pos h
    simp only [List.foldl_cons]
    rw [ih _ pos (by rw [merge_step_counts_sum]; omega)]
    exact merge_step_block_stable merged e pos h

theorem merge_step_boundary (merged : List Episode) (back b : Episode)
    (hl : merged.getLast? = some back) (hback : back.event_ids ≠ []) (hb : b.event_ids ≠ []) :
    (block_of_position (member_counts (merge_step merged b)) ((member_counts merged).sum - 1) =
        block_of_position (member_counts (merge_step merged b)) (member_counts merged).sum) ↔
      share_correlation_ids back b = true := by
  have hc := counts_dropLast merged back hl
  have h1 : 0 < back.event_ids.length := List.length_pos.mpr hback
  have h2 : 0 < b.event_ids.length := List.length_pos.mpr hb
  have hsum : (member_counts merged).sum =
      (member_counts merged.dropLast).sum + back.event_ids.length := by
    rw [hc]; simp
  rw [merge_step_counts merged b back hl]
  by_cases hs : share_correlation_ids back b = true
  · rw [if_pos hs, hsum, block_last _ _ _ (by omega) (by omega),
      block_last _ _ _ (by omega) (by omega)]
    simp [hs]
  · rw [if_neg hs, block_last _ _ _ (le_refl _) (by omega),
      block_append_left _ _ _ (by omega)]
    have e1 : block_of_position (member_counts merged) ((member_counts merged).sum - 1) =
        (member_counts merged.dropLast).length := by
      rw [hsum, hc]
      exact block_last _ _ _ (by omega) (by omega)
    rw [e1, hc]
    simp [hs]

theorem foldl_merge_step_boundary :
    ∀ (r1 merged : List Episode) (back b : Episode) (r2 : List Episode),
      merged.getLast? = some back → back.event_ids ≠ [] →
      (∀ ep ∈ r1, ep.event_ids ≠ []) → b.event_ids ≠ [] →
      ∃ acc, (r1.foldl merge_step merged).getLast? = some acc ∧
        ((block_of_position (member_counts ((r1 ++ b :: r2).foldl merge_step merged))
              ((member_counts merged).sum + (member_counts r1).sum - 1) =
            block_of_position (member_counts ((r1 ++ b :: r2).foldl merge_step merged))
              ((member_counts merged).sum + (member_counts r1).sum)) ↔
          share_correlation_ids acc b = true) := by
  intro r1
  induction r1 with
  | nil =>
    intro merged back b r2 hl hback _ hb
    refine ⟨back, hl, ?_⟩
    have h2 : 0 < b.event_ids.length := List.length_pos.mpr hb
    have hpos : 0 < (member_counts merged).sum := by
      rw [counts_dropLast merged back hl]
      have := List.length_pos.mpr hback
      simp; omega
    have e0 : (member_counts ([] : List Episode)).sum = 0 := rfl
    rw [e0, Nat.add_zero]
    simp only [List.nil_append, List.foldl_cons]
    have hs := merge_step_counts_sum merged b
    rw [foldl_merge_step_block_stable r2 (merge_step merged b)
        ((member_counts merged).sum - 1) (by omega),
      foldl_merge_step_block_stable r2 (merge_step merged b)
        (member_counts merged).sum (by omega)]
    exact merge_step_boundary merged back b hl hback hb
  | cons x r1 ih =>
    intro merged back b r2 hl hback hr1 hb
    have hx : x.event_ids ≠ [] := hr1 x (List.mem_cons_self _ _)
    have hl2 := merge_step_getLast merged x back hl
    have hback2 : (if share_correlation_ids back x = true then merge_episodes back x
        else x).event_ids ≠ [] := by
      split
      · rw [merge_episodes_event_ids]; simp [hback]
      · exact hx
    obtain ⟨acc, hacc, hiff⟩ := ih (merge_step merged x) _ b r2 hl2 hback2
      (fun ep hep => hr1 ep (List.mem_cons_of_mem _ hep)) hb
    refine ⟨acc, by simpa using hacc, ?_⟩
    rw [merge_step_counts_sum] at hiff
    have e1 : (member_counts merged).sum + (member_counts (x :: r1)).sum =
        (member_counts merged).sum + x.event_ids.length + (member_counts r1).sum := by
      simp [member_counts]; omega
    rw [e1]
    simpa using hiff

theorem foldl_merge_step_superset :
    ∀ (r1 merged : List Episode) (acc a : Episode),
      (r1.foldl merge_step merged).getLast? = some acc →
      (r1.getLast? = some a ∨
        (r1 = [] ∧ ∃ back, merged.getLast? = some back ∧
          ∀ x ∈ a.correlation_ids, x ∈ back.correlation_ids)) →
      ∀ x ∈ a.correlation_ids, x ∈ acc.correlation_ids := by
  intro r1
  induction r1 with
  | nil =>
    intro merged acc a hacc h
    rcases h with h | ⟨_, back, hb, hsub⟩
    · simp at h
    · simp only [List.foldl_nil] at hacc
      rw [hb] at hacc
      cases hacc
      exact hsub
  | cons y r1 ih =>
    intro merged acc a hacc h
    simp only [List.foldl_cons] at hacc
    apply ih (merge_step merged y) acc a hacc
    rcases h with h | ⟨h, _⟩
    · cases r1 with
      | nil =>
        right
        simp only [List.getLast?_singleton, Option.some.injEq] at h
        subst h
        refine ⟨rfl, ?_⟩
        cases hl : merged.getLast? with
        | none =>
          refine ⟨y, ?_, fun x hx => hx⟩
          simp [merge_step, hl]
        | some back =>
          refine ⟨_, merge_step_getLast merged y back hl, ?_⟩
          intro x hx
          split
          · exact (mem_merge_episodes_correlation_ids back y x).mpr (Or.inr hx)
          · exact hx
      | cons z r1 =>
        left
        simpa [List.getLast?_cons_cons] using h
    · simp at h

theorem foldl_push_filter {α β : Type} (c : α → Bool) (g : α → β) :
    ∀ (l : List α) (init : List β),
      l.foldl (fun acc x => if c x = true then acc ++ [g x] else acc) init =
        init ++ (l.filter c).map g := by
  intro l
  induction l with
  | nil => intro init; simp
  | cons x l ih =>
    intro init
    simp only [List.foldl_cons, ih]
    by_cases hc : c x = true
    · simp [hc, List.filter_cons]
    · simp [hc, List.filter_cons]

theorem total_count_eq_sum (series : TimeSeries) :
    series.total_count = (series.points.map (fun p => p.count)).sum := by
  unfold TimeSeries.total_count
  have h : ∀ (l : List TimeSeriesPoint) (n : Nat),
      l.foldl (fun total point => total + point.count) n =
        n + (l.map (fun p => p.count)).sum := by
    intro l
    induction l with
    | nil => intro n; simp
    | cons x l ih => intro n; simp [ih]; omega
  simpa using h series.points 0

theorem find_bursts_eq {D : Type} [DoubleArith D] (config : ErrorBurstConfig D)
    (series : TimeSeries) (baseline : D) :
    ErrorBurstDetector.find_bursts config series baseline =
      (series.points.filter
        (fun point => decide (point.count ≥ config.min_errors_for_burst) &&
          DoubleArith.le (DoubleArith.mul baseline config.threshold_multiplier)
            (DoubleArith.ofRat (point.count : ℚ)))).map
        (ErrorBurstDetector.burst_anomaly series
          (DoubleArith.mul baseline config.threshold_multiplier)) := by
  unfold ErrorBurstDetector.find_bursts
  simp only []
  rw [foldl_push_filter]
  simp

theorem detect_eq {D : Type} [DoubleArith D] (config : ErrorBurstConfig D)
    (events : List Event) (stats : Stats) :
    ErrorBurstDetector.detect config events stats =
      match stats.severity_time_series.lookup Severity.ERROR with
      | none => []
      | some series =>
        (series.points.filter (is_burst config series)).map
          (ErrorBurstDetector.burst_anomaly series
            (DoubleArith.mul
              (DoubleArith.div
                (DoubleArith.ofRat (((series.points.map (fun p => p.count)).sum : Nat) : ℚ))
                (DoubleArith.ofRat ((series.points.length : Nat) : ℚ)))
              config.threshold_multiplier)) := by
  unfold ErrorBurstDetector.detect
  cases hl : stats.severity_time_series.lookup Severity.ERROR with
  | none => rfl
  | some series =>
    simp only []
    by_cases hp : series.points = []
    · simp [hp]
    · have hlen : series.points.length ≠ 0 := by
        simpa using hp
      have hbase : (ErrorBurstDetector.compute_baseline_rate stats : D) =
          DoubleArith.div
            (DoubleArith.ofRat (((series.points.map (fun p => p.count)).sum : Nat) : ℚ))
            (DoubleArith.ofRat ((series.points.length : Nat) : ℚ)) := by
        unfold ErrorBurstDetector.compute_baseline_rate
        simp [hl, hp, total_count_eq_sum]
      simp only [List.isEmpty_eq_true, hp, if_false]
      rw [find_bursts_eq, hbase]
      rfl

theorem count_bursts_detect {D : Type} [DoubleArith D] (config : ErrorBurstConfig D)
    (events : List Event) (stats : Stats) :
    count_bursts (ErrorBurstDetector.detect config events stats) =
      match stats.severity_time_series.lookup Severity.ERROR with
      | none => 0
      | some series => (series.points.filter (is_burst config series)).length := by
  rw [detect_eq]
  cases stats.severity_time_series.lookup Severity.ERROR with
  | none => rfl
  | some series =>
    simp only [count_bursts, List.countP_map]
    rw [List.countP_eq_length.mpr]
    intro a _
    simp [ErrorBurstDetector.burst_anomaly]

theorem range_filterMap_lookup {α β : Type} (g : α → Option β) (l : List α) :
    (List.range l.length).filterMap
        (fun i => match l[i]? with
          | some e => g e
          | none => none) = l.filterMap g := by
  induction l using List.reverseRecOn with
  | nil => rfl
  | append_singleton l x ih =>
    rw [List.length_append, List.length_singleton, List.range_succ, List.filterMap_append,
      List.filterMap_append]
    congr 1
    · rw [← ih]
      apply List.filterMap_congr
      intro i hi
      rw [List.getElem?_append_left (List.mem_range.mp hi)]
    · rw [List.filterMap_cons, List.filterMap_cons, List.getElem?_concat_length]
      rfl

theorem restart_indices_valid (config : RestartLoopConfig) (events : List Event) :
    ∀ idx ∈ RestartLoopDetector.restart_indices_of config events,
      ∃ e, events[idx]? = some e := by
  intro idx h
  unfold RestartLoopDetector.restart_indices_of at h
  have h1 := (List.mem_filter.mp h).1
  have h2 : idx < events.length := List.mem_range.mp h1
  exact ⟨events[idx], List.getElem?_eq_getElem h2⟩

theorem timestamped_at_restart_indices (config : RestartLoopConfig) (events : List Event) :
    timestamped_at events (RestartLoopDetector.restart_indices_of config events) =
      timestamped_restarts config events := by
  unfold timestamped_at RestartLoopDetector.restart_indices_of timestamped_restarts
  rw [List.filterMap_filter]
  have h := range_filterMap_lookup
    (Option.guard (fun e : Event =>
      (RestartLoopDetector.is_restart_event config e && e.ts.isSome) = true)) events
  rw [← List.filterMap_eq_filter, ← h]
  apply List.filterMap_congr
  intro i _
  cases events[i]? with
  | none => simp
  | some e =>
    by_cases h1 : RestartLoopDetector.is_restart_event config e = true <;>
      by_cases h2 : e.ts.isSome = true <;> simp [h1, h2, Option.guard]

theorem timestamped_at_cons_some (events : List Event) (idx : Nat) (rest : List Nat)
    (e : Event) (t : Timestamp) (h : events[idx]? = some e) (ht : e.ts = some t) :
    timestamped_at events (idx :: rest) = e :: timestamped_at events rest := by
  simp [timestamped_at, List.filterMap_cons, h, ht]

theorem timestamped_at_cons_none (events : List Event) (idx : Nat) (rest : List Nat)
    (e : Event) (h : events[idx]? = some e) (ht : e.ts = none) :
    timestamped_at events (idx :: rest) = timestamped_at events rest := by
  simp [timestamped_at, List.filterMap_cons, h, ht]

theorem collect_window_spec (events : List Event) (window_end : TimePoint) :
    ∀ (rest : List Nat) (evidence : List EventId),
      (∀ idx ∈ rest, ∃ e, events[idx]? = some e) →
      ∃ sub : List Event, List.Sublist sub (timestamped_at events rest) ∧
        RestartLoopDetector.collect_window events window_end rest evidence =
          some (evidence ++ sub.map (fun e => e.id)) := by
  intro rest
  induction rest with
  | nil =>
    intro evidence _
    exact ⟨[], List.Sublist.slnil, by simp [RestartLoopDetector.collect_window]⟩
  | cons idx rest ih =>
    intro evidence hvalid
    obtain ⟨e, he⟩ := hvalid idx (List.mem_cons_self _ _)
    have hrest : ∀ i ∈ rest, ∃ e, events[i]? = some e :=
      fun i hi => hvalid i (List.mem_cons_of_mem _ hi)
    cases ht : e.ts with
    | none =>
      obtain ⟨sub, hsub, hcw⟩ := ih evidence hrest
      refine ⟨sub, ?_, ?_⟩
      · rw [timestamped_at_cons_none events idx rest e he ht]
        exact hsub
      · simp only [RestartLoopDetector.collect_window, he, ht]
        exact hcw
    | some t =>
      rw [timestamped_at_cons_some events idx rest e t he ht]
      by_cases hw : t.tp ≤ window_end
      · obtain ⟨sub, hsub, hcw⟩ := ih (evidence ++ [e.id]) hrest
        refine ⟨e :: sub, List.Sublist.cons₂ e hsub, ?_⟩
        simp only [RestartLoopDetector.collect_window, he, ht, hw, if_true]
        rw [hcw]
        simp
      · refine ⟨[], List.nil_sublist _, ?_⟩
        simp [RestartLoopDetector.collect_window, he, ht, hw]

theorem find_loops_from_spec {D : Type} [DoubleArith D] (config : RestartLoopConfig)
    (restart_indices : List Nat) (events : List Event)
    (hvalid : ∀ idx ∈ restart_indices, ∃ e, events[idx]? = some e) :
    ∀ (fuel i : Nat) (loops : List (Anomaly D)),
      (∀ a ∈ loops,
        loop_evidence_ok config.min_restart_count (timestamped_at events restart_indices) a) →
      (∀ out, RestartLoopDetector.find_loops_from config restart_indices events fuel i loops =
          some out →
        ∀ a ∈ out,
          loop_evidence_ok config.min_restart_count (timestamped_at events restart_indices) a) ∧
      (RestartLoopDetector.find_loops_from config restart_indices events fuel i loops = none →
        config.min_restart_count ≤ (timestamped_at events restart_indices).length) := by
  intro fuel
  induction fuel with
  | zero =>
    intro i loops hl
    simp only [RestartLoopDetector.find_loops_from]
    refine ⟨?_, by simp⟩
    intro out ho
    cases ho
    exact hl
  | succ fuel ih =>
    intro i loops hl
    rw [RestartLoopDetector.find_loops_from]
    cases hri : restart_indices[i]? with
    | none =>
      refine ⟨?_, by simp⟩
      intro out ho
      cases ho
      exact hl
    | some start_idx =>
      have hi : i < restart_indices.length := (List.getElem?_eq_some.mp hri).1
      obtain ⟨start_event, hse⟩ := hvalid start_idx (List.getElem?_mem hri)
      simp only [hse]
      cases hts : start_event.ts with
      | none => exact ih (i + 1) loops hl
      | some ts =>
        simp only []
        have hdrop : restart_indices.drop i = start_idx :: restart_indices.drop (i + 1) := by
          rw [List.drop_eq_getElem_cons hi]
          congr 1
          exact (List.getElem?_eq_some.mp hri).2
        have hvalid2 : ∀ idx ∈ restart_indices.drop (i + 1), ∃ e, events[idx]? = some e :=
          fun idx hidx => hvalid idx (List.mem_of_mem_drop hidx)
        obtain ⟨sub, hsub, hcw⟩ := collect_window_spec events
          (ts.tp + config.time_window * ticks_per_minute) (restart_indices.drop (i + 1))
          [start_event.id] hvalid2
        rw [hcw]
        simp only []
        have hpool : List.Sublist (start_event :: sub) (timestamped_at events restart_indices) := by
          have h1 : List.Sublist (start_event :: sub)
              (timestamped_at events (restart_indices.drop i)) := by
            rw [hdrop, timestamped_at_cons_some events start_idx _ start_event ts hse hts]
            exact List.Sublist.cons₂ _ hsub
          exact h1.trans (List.Sublist.filterMap _ (List.drop_sublist i restart_indices))
        have hlen : ([start_event.id] ++ sub.map (fun e => e.id)).length =
            (start_event :: sub).length := by
          simp
        by_cases hge : ([start_event.id] ++ sub.map (fun e => e.id)).length ≥
            config.min_restart_count
        · have hmin : config.min_restart_count ≤
              (timestamped_at events restart_indices).length := by
            have := hpool.length_le
            omega
          simp only [hge, if_true]
          cases restart_indices[i + ([start_event.id] ++ sub.map (fun e => e.id)).length - 1]? with
          | none => exact ⟨by simp, fun _ => hmin⟩
          | some last_idx =>
            simp only []
            cases events[last_idx]? with
            | none => exact ⟨by simp, fun _ => hmin⟩
            | some last_event =>
              simp only []
              cases last_event.ts with
              | none => exact ⟨by simp, fun _ => hmin⟩
              | some last_ts =>
                simp only []
                apply ih
                intro a ha
                rcases List.mem_append.mp ha with h1 | h1
                · exact hl a h1
                · simp only [List.mem_singleton] at h1
                  subst h1
                  refine ⟨rfl, start_event :: sub, hpool, ?_, ?_⟩
                  · simp [RestartLoopDetector.loop_anomaly]
                  · omega
        · simp only [hge, if_false]
          exact ih (i + 1) loops hl

/-- The fuel of `find_loops` is enough: once `fuel` covers the indices that are
left, more fuel does not change the result. -/
theorem find_loops_from_fuel {D : Type} [DoubleArith D] (config : RestartLoopConfig)
    (restart_indices : List Nat) (events : List Event) :
    ∀ (fuel i : Nat) (loops : List (Anomaly D)), restart_indices.length ≤ i + fuel →
      ∀ extra : Nat,
        RestartLoopDetector.find_loops_from config restart_indices events (fuel + extra) i loops =
          RestartLoopDetector.find_loops_from config restart_indices events fuel i loops := by
  intro fuel
  induction fuel with
  | zero =>
    intro i loops h extra
    have hnone : restart_indices[i]? = none := List.getElem?_eq_none (by omega)
    cases extra with
    | zero => rfl
    | succ extra =>
      have e : 0 + (extra + 1) = extra + 1 := by omega
      rw [e]
      simp only [RestartLoopDetector.find_loops_from, hnone]
  | succ fuel ih =>
    intro i loops h extra
    have e : fuel + 1 + extra = (fuel + extra) + 1 := by omega
    rw [e, RestartLoopDetector.find_loops_from, RestartLoopDetector.find_loops_from]
    dsimp only
    repeat' split
    all_goals first
      | rfl
      | exact ih _ _ (by omega) extra

theorem foldl_skip_no_match (event_id : EventId) :
    ∀ (events : List Event) (r : Option Event), (∀ e ∈ events, e.id ≠ event_id) →
      events.foldl (fun r e => if e.id = event_id then some e else r) r = r := by
  intro events
  induction events with
  | nil => intro r _; rfl
  | cons e es ih =>
    intro r h
    simp only [List.foldl_cons, h e (List.mem_cons_self _ _), if_false]
    exact ih r (fun x hx => h x (List.mem_cons_of_mem _ hx))

theorem event_map_find_eq_find (event_id : EventId) :
    ∀ (events : List Event), (events.map (fun e => e.id)).Nodup →
      event_map_find events event_id = events.find? (fun e => decide (e.id = event_id)) := by
  intro events
  induction events with
  | nil => intro _; rfl
  | cons e es ih =>
    intro hn
    simp only [List.map_cons, List.nodup_cons] at hn
    unfold event_map_find
    simp only [List.foldl_cons, List.find?_cons]
    by_cases he : e.id = event_id
    · simp only [he, if_true, decide_True]
      apply foldl_skip_no_match
      intro x hx hxe
      apply hn.1
      rw [he, ← hxe]
      exact List.mem_map_of_mem _ hx
    · simp only [he, if_false, decide_False]
      exact ih hn.2

theorem foldl_highlight_step (events : List Event) :
    ∀ (ids : List EventId) (st : HighlightScan),
      ids.foldl (highlight_step events) st =
        (ids.filterMap (event_map_find events)).foldl highlight_update st := by
  intro ids
  induction ids with
  | nil => intro st; rfl
  | cons i ids ih =>
    intro st
    simp only [List.foldl_cons, List.filterMap_cons, highlight_step]
    cases event_map_find events i with
    | none => exact ih st
    | some e => simp only [List.foldl_cons]; exact ih _

theorem filterMap_event_map_find (events : List Event) (ep : Episode)
    (hn : (events.map (fun e => e.id)).Nodup) :
    ep.event_ids.filterMap (event_map_find events) = episode_members events ep := by
  unfold episode_members
  apply List.filterMap_congr
  intro i _
  exact event_map_find_eq_find i events hn

theorem episode_members_mem (events : List Event) (ep : Episode) :
    ∀ e ∈ episode_members events ep, e ∈ events := by
  intro e he
  unfold episode_members at he
  obtain ⟨i, _, hi⟩ := List.mem_filterMap.mp he
  exact List.mem_of_find?_eq_some hi

theorem highlight_update_first (st : HighlightScan) (e : Event) :
    (highlight_update st e).first_error_id =
      if st.first_error_id = 0 ∧ (e.sev = Severity.ERROR ∨ e.sev = Severity.FATAL) then e.id
      else st.first_error_id := by
  unfold highlight_update
  by_cases h1 : st.first_error_id = 0 ∧ (e.sev = Severity.ERROR ∨ e.sev = Severity.FATAL) <;>
    by_cases h2 : e.sev.toNat > st.max_sev.toNat <;> simp [h1, h2]

theorem highlight_update_max_sev (st : HighlightScan) (e : Event) :
    (highlight_update st e).max_sev =
      if e.sev.toNat > st.max_sev.toNat then e.sev else st.max_sev := by
  unfold highlight_update
  by_cases h1 : st.first_error_id = 0 ∧ (e.sev = Severity.ERROR ∨ e.sev = Severity.FATAL) <;>
    by_cases h2 : e.sev.toNat > st.max_sev.toNat <;> simp [h1, h2]

theorem highlight_update_max_id (st : HighlightScan) (e : Event) :
    (highlight_update st e).max_severity_id =
      if e.sev.toNat > st.max_sev.toNat then e.id else st.max_severity_id := by
  unfold highlight_update
  by_cases h1 : st.first_error_id = 0 ∧ (e.sev = Severity.ERROR ∨ e.sev = Severity.FATAL) <;>
    by_cases h2 : e.sev.toNat > st.max_sev.toNat <;> simp [h1, h2]

theorem first_error_member_append (ms : List Event) (e : Event) :
    first_error_member (ms ++ [e]) =
      match first_error_member ms with
      | some m => some m
      | none => if e.sev = Severity.ERROR ∨ e.sev = Severity.FATAL then some e else none := by
  unfold first_error_member
  rw [List.find?_append]
  cases ms.find? (fun e => decide (e.sev = Severity.ERROR ∨ e.sev = Severity.FATAL)) with
  | some m => rfl
  | none =>
    by_cases h : e.sev = Severity.ERROR ∨ e.sev = Severity.FATAL
    · simp [h]
    · simp [h]

theorem first_error_member_mem (ms : List Event) (m : Event)
    (h : first_error_member ms = some m) : m ∈ ms :=
  List.mem_of_find?_eq_some h

theorem highlight_fold_first (ms : List Event) (h0 : ∀ e ∈ ms, e.id ≠ 0) :
    (ms.foldl highlight_update highlight_init).first_error_id =
      ((first_error_member ms).map (fun e => e.id)).getD 0 := by
  induction ms using List.reverseRecOn with
  | nil => rfl
  | append_singleton ms e ih =>
    have ih := ih (fun x hx => h0 x (List.mem_append_left _ hx))
    rw [List.foldl_append, List.foldl_cons, List.foldl_nil, highlight_update_first, ih,
      first_error_member_append]
    cases hf : first_error_member ms with
    | some m =>
      have hm : m.id ≠ 0 := h0 m (List.mem_append_left _ (first_error_member_mem ms m hf))
      simp [hm]
    | none =>
      by_cases h : e.sev = Severity.ERROR ∨ e.sev = Severity.FATAL
      · simp [h]
      · simp [h]

theorem highlight_fold_bound (ms : List Event) :
    ∀ e ∈ ms, e.sev.toNat ≤ (ms.foldl highlight_update highlight_init).max_sev.toNat := by
  induction ms using List.reverseRecOn with
  | nil => intro e he; simp at he
  | append_singleton ms x ih =>
    intro e he
    rw [List.foldl_append, List.foldl_cons, List.foldl_nil, highlight_update_max_sev]
    rcases List.mem_append.mp he with h | h
    · have := ih e h
      split_ifs <;> omega
    · simp only [List.mem_singleton] at h
      subst h
      split_ifs <;> omega

theorem highlight_fold_max (ms : List Event) :
    ((ms.foldl highlight_update highlight_init).max_sev = Severity.UNKNOWN ∧
      (ms.foldl highlight_update highlight_init).max_severity_id = 0) ∨
    (∃ pre m post, ms = pre ++ m :: post ∧
      m.sev = (ms.foldl highlight_update highlight_init).max_sev ∧
      m.id = (ms.foldl highlight_update highlight_init).max_severity_id ∧
      m.sev ≠ Severity.UNKNOWN ∧ ∀ e ∈ pre, e.sev.toNat < m.sev.toNat) := by
  induction ms using List.reverseRecOn with
  | nil => left; exact ⟨rfl, rfl⟩
  | append_singleton ms x ih =>
    rw [List.foldl_append, List.foldl_cons, List.foldl_nil, highlight_update_max_sev,
      highlight_update_max_id]
    by_cases hx : x.sev.toNat > (ms.foldl highlight_update highlight_init).max_sev.toNat
    · right
      simp only [hx, if_true]
      refine ⟨ms, x, [], rfl, rfl, rfl, ?_, ?_⟩
      · intro hu
        rw [hu] at hx
        simp [Severity.toNat] at hx
      · intro e he
        have := highlight_fold_bound ms e he
        omega
    · simp only [hx, if_false]
      rcases ih with h | ⟨pre, m, post, h1, h2, h3, h4, h5⟩
      · left; exact h
      · right
        exact ⟨pre, m, post ++ [x], by rw [h1]; simp, h2, h3, h4, h5⟩

theorem find?_append_first {α : Type} (p : α → Bool) (pre : List α) (m : α) (post : List α)
    (hpre : ∀ e ∈ pre, p e = false) (hm : p m = true) :
    (pre ++ m :: post).find? p = some m := by
  induction pre with
  | nil => simp [hm]
  | cons a pre ih =>
    rw [List.cons_append, List.find?_cons, hpre a (List.mem_cons_self _ _)]
    exact ih (fun e he => hpre e (List.mem_cons_of_mem _ he))

theorem severity_toNat_eq_zero (s : Severity) (h : s.toNat = 0) : s = Severity.UNKNOWN := by
  cases s <;> simp [Severity.toNat] at h ⊢

/-- The scan of `identify_highlights` over members with non-zero ids yields
the highlights `highlights_above_unknown`. -/
theorem highlight_fold_result (ms : List Event) (h0 : ∀ e ∈ ms, e.id ≠ 0) :
    ((if (ms.foldl highlight_update highlight_init).first_error_id ≠ 0 then
          [(ms.foldl highlight_update highlight_init).first_error_id]
        else []) ++
      (if (ms.foldl highlight_update highlight_init).max_severity_id ≠ 0 ∧
          (ms.foldl highlight_update highlight_init).max_severity_id ≠
            (ms.foldl highlight_update highlight_init).first_error_id then
          [(ms.foldl highlight_update highlight_init).max_severity_id]
        else [])) = highlights_above_unknown ms := by
  have ha := highlight_fold_first ms h0
  have hb := highlight_fold_bound ms
  have hfirst : (if (ms.foldl highlight_update highlight_init).first_error_id ≠ 0 then
        [(ms.foldl highlight_update highlight_init).first_error_id]
      else []) = ((first_error_member ms).map (fun e => e.id)).toList := by
    rw [ha]
    cases hf : first_error_member ms with
    | none => simp
    | some m =>
      have hm : m.id ≠ 0 := h0 m (first_error_member_mem ms m hf)
      simp [hm]
  unfold highlights_above_unknown
  simp only []
  rw [hfirst]
  congr 1
  rcases highlight_fold_max ms with ⟨h1, h2⟩ | ⟨pre, m, post, h1, h2, h3, h4, h5⟩
  · rw [h2]
    simp only [ne_eq, not_true_eq_false, false_and, if_false]
    cases hmax : max_severity_member ms with
    | none => rfl
    | some m =>
      have hm : m ∈ ms := List.mem_of_find?_eq_some hmax
      have := hb m hm
      rw [h1] at this
      have hz : m.sev = Severity.UNKNOWN :=
        severity_toNat_eq_zero _ (by simpa [Severity.toNat] using this)
      simp [hz]
  · have hmax : max_severity_member ms = some m := by
      unfold max_severity_member
      conv_lhs => arg 2; rw [h1]
      apply find?_append_first
      · intro e he
        simp only [List.all_eq_false]
        refine ⟨m, by rw [h1]; simp, ?_⟩
        have := h5 e he
        simp only [decide_eq_true_eq]
        omega
      · simp only [List.all_eq_true, decide_eq_true_eq]
        intro e he
        rw [h2]
        exact hb e he
    rw [hmax, ← h3, ha]
    have hid : m.id ≠ 0 := h0 m (by rw [h1]; simp)
    simp only [h4, false_or]
    cases hf : first_error_member ms with
    | none => simp [hid]
    | some f =>
      simp only [Option.map_some', Option.getD_some, Option.some.injEq]
      by_cases hfm : f.id = m.id
      · simp [hfm]
      · have : ¬ m.id = f.id := fun h => hfm h.symm
        simp [hid, hfm, this]

theorem update_metadata_highlights (ep : Episode) (events : List Event) :
    (update_metadata ep events).highlights = ep.highlights := by
  unfold update_metadata
  split <;> rfl

theorem episode_members_congr (events : List Event) (a b : Episode)
    (h : a.event_ids = b.event_ids) : episode_members events a = episode_members events b := by
  unfold episode_members
  rw [h]

theorem identify_highlights_spec (ep : Episode) (events : List Event)
    (hh : ep.highlights = [])
    (hn : (events.map (fun e => e.id)).Nodup) (h0 : ∀ e ∈ events, e.id ≠ 0) :
    (identify_highlights ep events).highlights =
      highlights_above_unknown (episode_members events ep) := by
  unfold identify_highlights
  by_cases he : ep.event_ids = []
  · simp [he, hh, episode_members, highlights_above_unknown, first_error_member,
      max_severity_member]
  · have hm : ∀ e ∈ episode_members events ep, e.id ≠ 0 :=
      fun e hmem => h0 e (episode_members_mem events ep e hmem)
    have hres := highlight_fold_result (episode_members events ep) hm
    rw [← filterMap_event_map_find events ep hn, ← foldl_highlight_step] at hres
    simp only [List.isEmpty_eq_true, he, if_false, hh, List.nil_append]
    rw [← filterMap_event_map_find events ep hn, ← hres]
    unfold highlight_init
    split_ifs <;> simp

theorem finalize_highlights (ep : Episode) (events : List Event)
    (hh : ep.highlights = [])
    (hn : (events.map (fun e => e.id)).Nodup) (h0 : ∀ e ∈ events, e.id ≠ 0) :
    (finalize ep events).highlights =
      highlights_above_unknown (episode_members events (finalize ep events)) := by
  rw [episode_members_congr events (finalize ep events) (update_metadata ep events)
    (by rw [finalize_event_ids, update_metadata_event_ids])]
  unfold finalize
  exact identify_highlights_spec _ events (by rw [update_metadata_highlights, hh]) hn h0

theorem build_step_highlights (config : EpisodeConfig) (events : List Event) (st : BuildState)
    (prev : Option Event) (event : Event)
    (hn : (events.map (fun e => e.id)).Nodup) (h0 : ∀ e ∈ events, e.id ≠ 0)
    (h : st.current_episode.highlights = [] ∧
      ∀ ep ∈ st.episodes,
        ep.highlights = highlights_above_unknown (episode_members events ep)) :
    (build_step config events st prev event).current_episode.highlights = [] ∧
      ∀ ep ∈ (build_step config events st prev event).episodes,
        ep.highlights = highlights_above_unknown (episode_members events ep) := by
  unfold build_step
  by_cases hs : start_new config st prev event = true
  · simp only [hs, if_true]
    refine ⟨rfl, ?_⟩
    intro ep hep
    rcases List.mem_append.mp hep with h1 | h1
    · exact h.2 ep h1
    · simp only [List.mem_singleton] at h1
      rw [h1]
      exact finalize_highlights _ events h.1 hn h0
  · simp only [hs, Bool.false_eq_true, if_false]
    exact h

theorem build_loop_highlights (config : EpisodeConfig) (events : List Event)
    (hn : (events.map (fun e => e.id)).Nodup) (h0 : ∀ e ∈ events, e.id ≠ 0) :
    ∀ (rest : List Event) (prev : Option Event) (st : BuildState),
      (st.current_episode.highlights = [] ∧
        ∀ ep ∈ st.episodes,
          ep.highlights = highlights_above_unknown (episode_members events ep)) →
      (build_loop config events prev rest st).current_episode.highlights = [] ∧
        ∀ ep ∈ (build_loop config events prev rest st).episodes,
          ep.highlights = highlights_above_unknown (episode_members events ep) := by
  intro rest
  induction rest with
  | nil => intro prev st h; simpa [build_loop] using h
  | cons e rest ih =>
    intro prev st h
    simp only [build_loop]
    exact ih _ _ (build_step_highlights config events st prev e hn h0 h)

theorem segment_highlights (config : EpisodeConfig) (next_id : Nat) (events : List Event)
    (hn : (events.map (fun e => e.id)).Nodup) (h0 : ∀ e ∈ events, e.id ≠ 0) :
    ∀ ep ∈ (EpisodeBuilder.segment config next_id events).1,
      ep.highlights = highlights_above_unknown (episode_members events ep) := by
  have h := build_loop_highlights config events hn h0 events none
    { episodes := [], current_episode := Episode.new next_id, next_episode_id_ := next_id + 1 }
    ⟨rfl, by simp⟩
  unfold EpisodeBuilder.segment
  simp only []
  split
  · intro ep hep
    rcases List.mem_append.mp hep with h1 | h1
    · exact h.2 ep h1
    · simp only [List.mem_singleton] at h1
      rw [h1]
      exact finalize_highlights _ events h.1 hn h0
  · exact h.2

theorem identify_highlights_id (ep : Episode) (events : List Event) :
    (identify_highlights ep events).id = ep.id := by
  unfold identify_highlights
  split <;> rfl

theorem update_metadata_id (ep : Episode) (events : List Event) :
    (update_metadata ep events).id = ep.id := by
  unfold update_metadata
  split <;> rfl

theorem finalize_id (ep : Episode) (events : List Event) : (finalize ep events).id = ep.id := by
  simp [finalize, identify_highlights_id, update_metadata_id]

theorem build_step_ids_from (config : EpisodeConfig) (events : List Event) (m : Nat)
    (st : BuildState) (prev : Option Event) (event : Event) (h : ids_from m st) :
    ids_from m (build_step config events st prev event) := by
  unfold build_step
  unfold ids_from at h ⊢
  obtain ⟨h1, h2⟩ := h
  by_cases hs : start_new config st prev event = true
  · simp only [hs, if_true, List.map_append, List.map_cons, List.map_nil, finalize_id,
      List.length_append, List.length_singleton, Episode.new]
    refine ⟨?_, by omega⟩
    rw [List.range'_concat, h1, h2]
    simp
    omega
  · simp only [hs, Bool.false_eq_true, if_false]
    exact ⟨h1, h2⟩

theorem build_loop_ids_from (config : EpisodeConfig) (events : List Event) (m : Nat) :
    ∀ (rest : List Event) (prev : Option Event) (st : BuildState),
      ids_from m st → ids_from m (build_loop config events prev rest st) := by
  intro rest
  induction rest with
  | nil => intro prev st h; simpa [build_loop] using h
  | cons e rest ih =>
    intro prev st h
    simp only [build_loop]
    exact ih _ _ (build_step_ids_from config events m st prev e h)

/-- The state of phase 1 after the loop, on a non-empty input. -/
theorem segment_cons (config : EpisodeConfig) (m : Nat) (e0 : Event) (rest : List Event) :
    EpisodeBuilder.segment config m (e0 :: rest) =
      ((build_loop config (e0 :: rest) none (e0 :: rest)
          { episodes := [], current_episode := Episode.new m,
            next_episode_id_ := m + 1 }).episodes ++
        [finalize (build_loop config (e0 :: rest) none (e0 :: rest)
          { episodes := [], current_episode := Episode.new m,
            next_episode_id_ := m + 1 }).current_episode (e0 :: rest)],
       (build_loop config (e0 :: rest) none (e0 :: rest)
          { episodes := [], current_episode := Episode.new m,
            next_episode_id_ := m + 1 }).next_episode_id_) := by
  have hcur := build_loop_current_ne config (e0 :: rest) rest (some e0) _
    (build_step_current_ne config (e0 :: rest)
      { episodes := [], current_episode := Episode.new m, next_episode_id_ := m + 1 } none e0)
  unfold EpisodeBuilder.segment
  simp only [build_loop] at hcur ⊢
  simp [Episode.empty, hcur]

/-- Phase 1 numbers its episodes `m, m + 1, ...` and returns the counter
advanced by their number. -/
theorem segment_ids (config : EpisodeConfig) (m : Nat) (events : List Event)
    (hne : events ≠ []) :
    (EpisodeBuilder.segment config m events).1.map (fun ep => ep.id) =
        List.range' m (EpisodeBuilder.segment config m events).1.length ∧
      (EpisodeBuilder.segment config m events).2 =
        m + (EpisodeBuilder.segment config m events).1.length := by
  cases events with
  | nil => exact absurd rfl hne
  | cons e0 rest =>
    have h := build_loop_ids_from config (e0 :: rest) m (e0 :: rest) none
      { episodes := [], current_episode := Episode.new m, next_episode_id_ := m + 1 }
      ⟨by simp [Episode.new], by simp⟩
    unfold ids_from at h
    rw [segment_cons]
    simp only [List.map_append, List.map_cons, List.map_nil, finalize_id, List.length_append,
      List.length_singleton]
    exact ⟨h.1, by omega⟩

theorem merge_step_concat (merged : List Episode) (back ep : Episode) :
    merge_step (merged ++ [back]) ep =
      if share_correlation_ids back ep = true then merged ++ [merge_episodes back ep]
      else merged ++ [back] ++ [ep] := by
  unfold merge_step
  rw [List.getLast?_concat, List.dropLast_concat]

theorem foldl_merge_step_groups :
    ∀ (rest merged : List Episode) (back : Episode) (groups : List (List Episode))
      (g : List Episode),
      List.Forall₂ merged_from merged groups → merged_from back g →
      ∃ groups' : List (List Episode),
        groups'.flatten = (groups ++ [g]).flatten ++ rest ∧
          List.Forall₂ merged_from (rest.foldl merge_step (merged ++ [back])) groups' := by
  intro rest
  induction rest with
  | nil =>
    intro merged back groups g hm hb
    refine ⟨groups ++ [g], by simp, ?_⟩
    exact List.rel_append hm (List.Forall₂.cons hb List.Forall₂.nil)
  | cons e rest ih =>
    intro merged back groups g hm hb
    simp only [List.foldl_cons]
    rw [merge_step_concat]
    by_cases hs : share_correlation_ids back e = true
    · rw [if_pos hs]
      have hb2 : merged_from (merge_episodes back e) (g ++ [e]) := by
        obtain ⟨h1, h2⟩ := hb
        constructor
        · cases g with
          | nil => simp at h1
          | cons a g => simpa [merge_episodes] using h1
        · rw [merge_episodes_event_ids, h2, member_ids_append, member_ids_singleton]
      obtain ⟨groups', hf, hall⟩ := ih merged (merge_episodes back e) groups (g ++ [e]) hm hb2
      exact ⟨groups', by rw [hf]; simp, hall⟩
    · rw [if_neg hs]
      have hm2 : List.Forall₂ merged_from (merged ++ [back]) (groups ++ [g]) :=
        List.rel_append hm (List.Forall₂.cons hb List.Forall₂.nil)
      have hb2 : merged_from e [e] := ⟨rfl, by rw [member_ids_singleton]⟩
      obtain ⟨groups', hf, hall⟩ := ih (merged ++ [back]) e (groups ++ [g]) [e] hm2 hb2
      exact ⟨groups', by rw [hf]; simp, hall⟩

theorem merge_phase_groups (episodes : List Episode) :
    ∃ groups : List (List Episode),
      groups.flatten = episodes ∧ List.Forall₂ merged_from (merge_phase episodes) groups := by
  cases episodes with
  | nil => exact ⟨[], rfl, List.Forall₂.nil⟩
  | cons e0 rest =>
    obtain ⟨groups', hf, hall⟩ := foldl_merge_step_groups rest [] e0 [] [e0] List.Forall₂.nil
      ⟨rfl, by rw [member_ids_singleton]⟩
    exact ⟨groups', by simpa using hf, by simpa [merge_phase] using hall⟩

theorem merge_step_ids (merged : List Episode) (ep : Episode) :
    ∃ s : List Nat, List.Sublist s [ep.id] ∧
      (merge_step merged ep).map (fun e => e.id) = merged.map (fun e => e.id) ++ s := by
  cases hl : merged.getLast? with
  | none => exact ⟨[ep.id], List.Sublist.refl _, by simp [merge_step, hl]⟩
  | some back =>
    have hm : merged.dropLast ++ [back] = merged := List.dropLast_append_getLast? back hl
    by_cases hs : share_correlation_ids back ep = true
    · refine ⟨[], List.nil_sublist _, ?_⟩
      rw [← hm, merge_step_concat, if_pos hs]
      simp [merge_episodes]
    · refine ⟨[ep.id], List.Sublist.refl _, ?_⟩
      rw [← hm, merge_step_concat, if_neg hs]
      simp

theorem foldl_merge_step_ids :
    ∀ (rest merged : List Episode),
      ∃ s : List Nat, List.Sublist s (rest.map (fun e => e.id)) ∧
        (rest.foldl merge_step merged).map (fun e => e.id) = merged.map (fun e => e.id) ++ s := by
  intro rest
  induction rest with
  | nil => intro merged; exact ⟨[], List.Sublist.refl _, by simp⟩
  | cons e rest ih =>
    intro merged
    obtain ⟨s1, hs1, h1⟩ := merge_step_ids merged e
    obtain ⟨s2, hs2, h2⟩ := ih (merge_step merged e)
    refine ⟨s1 ++ s2, ?_, ?_⟩
    · exact List.Sublist.append hs1 hs2
    · simp only [List.foldl_cons]
      rw [h2, h1, List.append_assoc]

theorem merge_phase_ids (episodes : List Episode) :
    List.Sublist ((merge_phase episodes).map (fun e => e.id)) (episodes.map (fun e => e.id)) ∧
      ((merge_phase episodes).map (fun e => e.id)).head? =
        (episodes.map (fun e => e.id)).head? := by
  cases episodes with
  | nil => exact ⟨List.Sublist.refl _, rfl⟩
  | cons e0 rest =>
    obtain ⟨s, hs, h⟩ := foldl_merge_step_ids rest [e0]
    simp only [merge_phase]
    rw [h]
    exact ⟨by simpa using List.Sublist.append (List.Sublist.refl [e0.id]) hs, by simp⟩

theorem segment_nil (config : EpisodeConfig) (m : Nat) :
    (EpisodeBuilder.segment config m []).1 = [] := by
  simp [EpisodeBuilder.segment, build_loop, Episode.empty, Episode.new]

theorem build_with_merge (threshold : Int) (next_id : Nat) (events : List Event) :
    (build { config_ := { time_gap_threshold := threshold, merge_by_correlation := true },
             next_episode_id_ := next_id } events).1 =
      merge_phase
        (EpisodeBuilder.segment { time_gap_threshold := threshold, merge_by_correlation := true }
          next_id events).1 := by
  unfold build
  cases events with
  | nil => simp [segment_nil, merge_phase]
  | cons e rest =>
    simp only [List.isEmpty_cons, Bool.false_eq_true, if_false, Bool.true_and]
    split
    · rfl
    · rename_i h
      simp only [decide_eq_true_eq, not_lt] at h
      generalize (EpisodeBuilder.segment
        { time_gap_threshold := threshold, merge_by_correlation := true } next_id
        (e :: rest)).1 = p at h ⊢
      match p, h with
      | [], _ => rfl
      | [a], _ => rfl
      | a :: b :: l, h => simp at h

theorem with_id_offset_event_ids (d : Nat) (ep : Episode) :
    (with_id_offset d ep).event_ids = ep.event_ids := rfl

theorem finalize_offset (d : Nat) (ep : Episode) (events : List Event) :
    finalize (with_id_offset d ep) events = with_id_offset d (finalize ep events) := by
  unfold finalize identify_highlights update_metadata with_id_offset
  by_cases h : ep.event_ids = []
  · simp [h]
  · simp [h]

theorem start_new_offset (config : EpisodeConfig) (d : Nat) (st : BuildState)
    (prev : Option Event) (event : Event) :
    start_new config (st.offset d) prev event = start_new config st prev event := rfl

theorem build_step_offset (config : EpisodeConfig) (events : List Event) (d : Nat)
    (st : BuildState) (prev : Option Event) (event : Event) :
    build_step config events (st.offset d) prev event =
      (build_step config events st prev event).offset d := by
  unfold build_step
  rw [start_new_offset]
  by_cases hs : start_new config st prev event = true
  · simp only [hs, if_true]
    simp only [BuildState.offset, List.map_append, List.map_cons, List.map_nil, finalize_offset,
      BuildState.mk.injEq]
    refine ⟨trivial, ?_, ?_⟩
    · simp [with_id_offset, Episode.new]
    · omega
  · simp only [hs, Bool.false_eq_true, if_false]
    rfl

theorem build_loop_offset (config : EpisodeConfig) (events : List Event) (d : Nat) :
    ∀ (rest : List Event) (prev : Option Event) (st : BuildState),
      build_loop config events prev rest (st.offset d) =
        (build_loop config events prev rest st).offset d := by
  intro rest
  induction rest with
  | nil => intro prev st; rfl
  | cons e rest ih =>
    intro prev st
    simp only [build_loop]
    rw [build_step_offset, ih]

theorem segment_offset (config : EpisodeConfig) (m d : Nat) (events : List Event) :
    EpisodeBuilder.segment config (m + d) events =
      ((EpisodeBuilder.segment config m events).1.map (with_id_offset d),
        (EpisodeBuilder.segment config m events).2 + d) := by
  have h0 : BuildState.mk [] (Episode.new (m + d)) (m + d + 1) =
      BuildState.offset d (BuildState.mk [] (Episode.new m) (m + 1)) := by
    simp only [BuildState.offset, with_id_offset, Episode.new, List.map_nil,
      BuildState.mk.injEq, true_and]
    omega
  unfold EpisodeBuilder.segment
  simp only []
  rw [h0, build_loop_offset]
  by_cases hc : (build_loop config events none events
      { episodes := [], current_episode := Episode.new m,
        next_episode_id_ := m + 1 }).current_episode.event_ids = []
  · simp [BuildState.offset, Episode.empty, with_id_offset_event_ids, hc]
  · simp [BuildState.offset, Episode.empty, with_id_offset_event_ids, hc, finalize_offset]

theorem merge_step_offset (d : Nat) (merged : List Episode) (ep : Episode) :
    merge_step (merged.map (with_id_offset d)) (with_id_offset d ep) =
      (merge_step merged ep).map (with_id_offset d) := by
  unfold merge_step
  rw [List.getLast?_map]
  cases merged.getLast? with
  | none => simp
  | some back =>
    simp only [Option.map_some']
    have hs : share_correlation_ids (with_id_offset d back) (with_id_offset d ep) =
        share_correlation_ids back ep := rfl
    rw [hs]
    split
    · simp only [List.map_append, List.map_dropLast, List.map_cons, List.map_nil]
      rfl
    · simp

theorem foldl_merge_step_offset (d : Nat) :
    ∀ (rest merged : List Episode),
      (rest.map (with_id_offset d)).foldl merge_step (merged.map (with_id_offset d)) =
        (rest.foldl merge_step merged).map (with_id_offset d) := by
  intro rest
  induction rest with
  | nil => intro merged; rfl
  | cons e rest ih =>
    intro merged
    simp only [List.map_cons, List.foldl_cons]
    rw [merge_step_offset, ih]

theorem merge_phase_offset (d : Nat) (episodes : List Episode) :
    merge_phase (episodes.map (with_id_offset d)) =
      (merge_phase episodes).map (with_id_offset d) := by
  cases episodes with
  | nil => rfl
  | cons e rest =>
    simp only [List.map_cons, merge_phase]
    exact foldl_merge_step_offset d rest [e]

theorem build_offset (config : EpisodeConfig) (m d : Nat) (events : List Event) :
    (build { config_ := config, next_episode_id_ := m + d } events).1 =
      (build { config_ := config, next_episode_id_ := m } events).1.map (with_id_offset d) := by
  unfold build
  by_cases he : events = []
  · simp [he]
  · simp only [List.isEmpty_eq_true, he, if_false]
    rw [segment_offset]
    simp only [List.length_map]
    split
    · exact merge_phase_offset d _
    · rfl

theorem build_next (b : EpisodeBuilder) (events : List Event) :
    (build b events).2 =
      { config_ := b.config_
        next_episode_id_ := b.next_episode_id_ +
          (EpisodeBuilder.segment b.config_ b.next_episode_id_ events).1.length } := by
  unfold build
  by_cases he : events = []
  · subst he
    simp [segment_nil]
  · simp only [List.isEmpty_eq_true, he, if_false]
    have h := (segment_ids b.config_ b.next_episode_id_ events he).2
    split <;> simp [h]

theorem mem_get_correlation_ids (e : Event) (x : String) :
    x ∈ get_correlation_ids e ↔
      (e.tags.find "request_id" = some x ∨ e.tags.find "trace_id" = some x) := by
  unfold get_correlation_ids
  cases h1 : e.tags.find "request_id" <;> cases h2 : e.tags.find "trace_id" <;>
    simp [eq_comm]

theorem nodup_unordered_set_insert (s : List String) (x : String) (h : s.Nodup) :
    (unordered_set_insert s x).Nodup := by
  unfold unordered_set_insert
  split
  · exact h
  · rename_i hx
    rw [List.nodup_append]
    refine ⟨h, List.nodup_singleton x, ?_⟩
    intro a ha hb
    simp only [List.mem_singleton] at hb
    exact hx (hb ▸ ha)

theorem nodup_foldl_unordered_set_insert (l : List String) :
    ∀ s : List String, s.Nodup → (l.foldl unordered_set_insert s).Nodup := by
  induction l with
  | nil => intro s h; exact h
  | cons y l ih =>
    intro s h
    exact ih _ (nodup_unordered_set_insert s y h)

theorem metadata_step_corr (events : List Event) (st : MetadataScan) (event_id : EventId) :
    (metadata_step events st event_id).unique_corr_ids =
      match event_map_find events event_id with
      | none => st.unique_corr_ids
      | some e => (get_correlation_ids e).foldl unordered_set_insert st.unique_corr_ids := by
  unfold metadata_step
  cases event_map_find events event_id with
  | none => rfl
  | some e =>
    simp only []
    cases e.ts with
    | none => rfl
    | some t =>
      simp only []
      split
      · cases st.start_time <;> rfl
      · rfl

theorem foldl_metadata_step_corr (events : List Event) :
    ∀ (ids : List EventId) (st : MetadataScan), st.unique_corr_ids.Nodup →
      (ids.foldl (metadata_step events) st).unique_corr_ids.Nodup ∧
        ∀ x : String, x ∈ (ids.foldl (metadata_step events) st).unique_corr_ids ↔
          (x ∈ st.unique_corr_ids ∨
            ∃ i ∈ ids, ∃ e, event_map_find events i = some e ∧ x ∈ get_correlation_ids e) := by
  intro ids
  induction ids with
  | nil => intro st h; exact ⟨h, by simp⟩
  | cons i ids ih =>
    intro st h
    simp only [List.foldl_cons]
    have hstep := metadata_step_corr events st i
    have hn : (metadata_step events st i).unique_corr_ids.Nodup := by
      rw [hstep]
      cases event_map_find events i with
      | none => exact h
      | some e => exact nodup_foldl_unordered_set_insert _ _ h
    obtain ⟨h1, h2⟩ := ih (metadata_step events st i) hn
    refine ⟨h1, ?_⟩
    intro x
    rw [h2 x, hstep]
    cases hf : event_map_find events i with
    | none =>
      simp only [List.mem_cons, exists_eq_or_imp, hf]
      simp
    | some e =>
      simp only [mem_foldl_unordered_set_insert, List.mem_cons, exists_eq_or_imp, hf,
        Option.some.injEq, exists_eq_left']
      tauto

theorem identify_highlights_correlation_ids (ep : Episode) (events : List Event) :
    (identify_highlights ep events).correlation_ids = ep.correlation_ids := by
  unfold identify_highlights
  split <;> rfl

theorem update_metadata_corr (ep : Episode) (events : List Event) (h : ep.event_ids ≠ []) :
    (update_metadata ep events).correlation_ids.Nodup ∧
      ∀ x : String, x ∈ (update_metadata ep events).correlation_ids ↔
        ∃ i ∈ ep.event_ids, ∃ e, event_map_find events i = some e ∧
          x ∈ get_correlation_ids e := by
  have hf := foldl_metadata_step_corr events ep.event_ids
    { unique_corr_ids := [], max_sev := Severity.UNKNOWN,
      start_time := ep.start_time, end_time := ep.end_time } List.nodup_nil
  unfold update_metadata
  simp only [List.isEmpty_eq_true, h, if_false]
  refine ⟨hf.1, ?_⟩
  intro x
  rw [hf.2 x]
  simp

theorem exists_member_iff (events : List Event) (ep : Episode)
    (hn : (events.map (fun e => e.id)).Nodup) (p : Event → Prop) :
    (∃ i ∈ ep.event_ids, ∃ e, event_map_find events i = some e ∧ p e) ↔
      ∃ e ∈ episode_members events ep, p e := by
  rw [← filterMap_event_map_find events ep hn]
  constructor
  · rintro ⟨i, hi, e, he, hp⟩
    exact ⟨e, List.mem_filterMap.mpr ⟨i, hi, he⟩, hp⟩
  · rintro ⟨e, he, hp⟩
    obtain ⟨i, hi, hie⟩ := List.mem_filterMap.mp he
    exact ⟨i, hi, e, hie, hp⟩

theorem finalize_correlation_ok (ep : Episode) (events : List Event)
    (hn : (events.map (fun e => e.id)).Nodup) (h : ep.event_ids ≠ []) :
    correlation_ok events (finalize ep events) := by
  have hu := update_metadata_corr ep events h
  unfold correlation_ok
  rw [episode_members_congr events (finalize ep events) ep (finalize_event_ids ep events)]
  unfold finalize
  rw [identify_highlights_correlation_ids]
  refine ⟨hu.1, ?_⟩
  intro x
  rw [hu.2 x, ← exists_member_iff events ep hn]
  simp only [mem_get_correlation_ids]

theorem build_step_correlation_ok (config : EpisodeConfig) (events : List Event)
    (st : BuildState) (prev : Option Event) (event : Event)
    (hn : (events.map (fun e => e.id)).Nodup)
    (h : ∀ ep ∈ st.episodes, correlation_ok events ep) :
    ∀ ep ∈ (build_step config events st prev event).episodes, correlation_ok events ep := by
  unfold build_step
  by_cases hs : start_new config st prev event = true
  · simp only [hs, if_true]
    intro ep hep
    rcases List.mem_append.mp hep with h1 | h1
    · exact h ep h1
    · simp only [List.mem_singleton] at h1
      rw [h1]
      exact finalize_correlation_ok _ events hn (start_new_true_ne config st prev event hs)
  · simpa [hs] using h

theorem build_loop_correlation_ok (config : EpisodeConfig) (events : List Event)
    (hn : (events.map (fun e => e.id)).Nodup) :
    ∀ (rest : List Event) (prev : Option Event) (st : BuildState),
      (∀ ep ∈ st.episodes, correlation_ok events ep) →
      ∀ ep ∈ (build_loop config events prev rest st).episodes, correlation_ok events ep := by
  intro rest
  induction rest with
  | nil => intro prev st h; simpa [build_loop] using h
  | cons e rest ih =>
    intro prev st h
    simp only [build_loop]
    exact ih _ _ (build_step_correlation_ok config events st prev e hn h)

theorem segment_correlation_ok (config : EpisodeConfig) (next_id : Nat) (events : List Event)
    (hn : (events.map (fun e => e.id)).Nodup) :
    ∀ ep ∈ (EpisodeBuilder.segment config next_id events).1, correlation_ok events ep := by
  cases events with
  | nil => simp [segment_nil]
  | cons e0 rest =>
    have h := build_loop_correlation_ok config (e0 :: rest) hn (e0 :: rest) none
      { episodes := [], current_episode := Episode.new next_id, next_episode_id_ := next_id + 1 }
      (by simp)
    have hcur := build_loop_current_ne config (e0 :: rest) rest (some e0) _
      (build_step_current_ne config (e0 :: rest)
        { episodes := [], current_episode := Episode.new next_id,
          next_episode_id_ := next_id + 1 } none e0)
    rw [segment_cons]
    intro ep hep
    rcases List.mem_append.mp hep with h1 | h1
    · exact h ep h1
    · simp only [List.mem_singleton] at h1
      rw [h1]
      exact finalize_correlation_ok _ _ hn hcur

theorem episode_members_merge (events : List Event) (a b : Episode) :
    episode_members events (merge_episodes a b) =
      episode_members events a ++ episode_members events b := by
  unfold episode_members
  rw [merge_episodes_event_ids, List.filterMap_append]

theorem merge_episodes_nodup (a b : Episode) : (merge_episodes a b).correlation_ids.Nodup := by
  unfold merge_episodes
  exact nodup_foldl_unordered_set_insert _ _
    (nodup_foldl_unordered_set_insert _ _ List.nodup_nil)

theorem merge_episodes_correlation_ok (events : List Event) (a b : Episode)
    (ha : correlation_ok events a) (hb : correlation_ok events b) :
    correlation_ok events (merge_episodes a b) := by
  refine ⟨merge_episodes_nodup a b, ?_⟩
  intro x
  rw [mem_merge_episodes_correlation_ids, ha.2 x, hb.2 x, episode_members_merge]
  simp only [List.mem_append]
  constructor
  · rintro (⟨e, he, hp⟩ | ⟨e, he, hp⟩)
    · exact ⟨e, Or.inl he, hp⟩
    · exact ⟨e, Or.inr he, hp⟩
  · rintro ⟨e, he | he, hp⟩
    · exact Or.inl ⟨e, he, hp⟩
    · exact Or.inr ⟨e, he, hp⟩

theorem merge_step_correlation_ok (events : List Event) (merged : List Episode) (ep : Episode)
    (hm : ∀ x ∈ merged, correlation_ok events x) (he : correlation_ok events ep) :
    ∀ x ∈ merge_step merged ep, correlation_ok events x := by
  unfold merge_step
  cases hl : merged.getLast? with
  | none =>
    intro x hx
    rcases List.mem_append.mp hx with h1 | h1
    · exact hm x h1
    · simp only [List.mem_singleton] at h1
      exact h1 ▸ he
  | some back =>
    have hback : back ∈ merged := List.mem_of_mem_getLast? hl
    simp only []
    split
    · intro x hx
      rcases List.mem_append.mp hx with h1 | h1
      · exact hm x (List.mem_of_mem_dropLast h1)
      · simp only [List.mem_singleton] at h1
        rw [h1]
        exact merge_episodes_correlation_ok events back ep (hm back hback) he
    · intro x hx
      rcases List.mem_append.mp hx with h1 | h1
      · exact hm x h1
      · simp only [List.mem_singleton] at h1
        exact h1 ▸ he

theorem foldl_merge_step_correlation_ok (events : List Event) :
    ∀ (rest merged : List Episode),
      (∀ x ∈ merged, correlation_ok events x) → (∀ x ∈ rest, correlation_ok events x) →
      ∀ x ∈ rest.foldl merge_step merged, correlation_ok events x := by
  intro rest
  induction rest with
  | nil => intro merged hm _; simpa using hm
  | cons e rest ih =>
    intro merged hm hr
    simp only [List.foldl_cons]
    exact ih _ (merge_step_correlation_ok events merged e hm (hr e (List.mem_cons_self _ _)))
      (fun x hx => hr x (List.mem_cons_of_mem _ hx))

theorem merge_phase_correlation_ok (events : List Event) (episodes : List Episode)
    (h : ∀ x ∈ episodes, correlation_ok events x) :
    ∀ x ∈ merge_phase episodes, correlation_ok events x := by
  cases episodes with
  | nil => simp [merge_phase]
  | cons e rest =>
    simp only [merge_phase]
    exact foldl_merge_step_correlation_ok events rest [e]
      (fun x hx => h x (by simp only [List.mem_singleton] at hx; rw [hx]; exact List.mem_cons_self _ _))
      (fun x hx => h x (List.mem_cons_of_mem _ hx))

theorem collect_window_bound (events : List Event) (window_end : TimePoint) :
    ∀ (rest : List Nat) (evidence : List EventId),
      (∀ idx ∈ rest, ∃ e, events[idx]? = some e) →
      ∃ sub : List Event, List.Sublist sub (timestamped_at events rest) ∧
        RestartLoopDetector.collect_window events window_end rest evidence =
          some (evidence ++ sub.map (fun e => e.id)) ∧
        ∀ e ∈ sub, ∃ t : Timestamp, e.ts = some t ∧ t.tp ≤ window_end := by
  intro rest
  induction rest with
  | nil =>
    intro evidence _
    exact ⟨[], List.Sublist.slnil, by simp [RestartLoopDetector.collect_window], by simp⟩
  | cons idx rest ih =>
    intro evidence hvalid
    obtain ⟨e, he⟩ := hvalid idx (List.mem_cons_self _ _)
    have hrest : ∀ i ∈ rest, ∃ e, events[i]? = some e :=
      fun i hi => hvalid i (List.mem_cons_of_mem _ hi)
    cases ht : e.ts with
    | none =>
      obtain ⟨sub, hsub, hcw, hb⟩ := ih evidence hrest
      refine ⟨sub, ?_, ?_, hb⟩
      · rw [timestamped_at_cons_none events idx rest e he ht]
        exact hsub
      · simp only [RestartLoopDetector.collect_window, he, ht]
        exact hcw
    | some t =>
      rw [timestamped_at_cons_some events idx rest e t he ht]
      by_cases hw : t.tp ≤ window_end
      · obtain ⟨sub, hsub, hcw, hb⟩ := ih (evidence ++ [e.id]) hrest
        refine ⟨e :: sub, List.Sublist.cons₂ e hsub, ?_, ?_⟩
        · simp only [RestartLoopDetector.collect_window, he, ht, hw, if_true]
          rw [hcw]
          simp
        · intro x hx
          rcases List.mem_cons.mp hx with h1 | h1
          · rw [h1]
            exact ⟨t, ht, hw⟩
          · exact hb x h1
      · refine ⟨[], List.nil_sublist _, ?_, by simp⟩
        simp [RestartLoopDetector.collect_window, he, ht, hw]

theorem find_loops_from_window {D : Type} [DoubleArith D] (config : RestartLoopConfig)
    (restart_indices : List Nat) (events : List Event)
    (hvalid : ∀ idx ∈ restart_indices, ∃ e, events[idx]? = some e) :
    ∀ (fuel i : Nat) (loops : List (Anomaly D)),
      (∀ a ∈ loops, loop_window_ok config (timestamped_at events restart_indices) a) →
      ∀ out, RestartLoopDetector.find_loops_from config restart_indices events fuel i loops =
          some out →
        ∀ a ∈ out, loop_window_ok config (timestamped_at events restart_indices) a := by
  intro fuel
  induction fuel with
  | zero =>
    intro i loops hl out ho
    simp only [RestartLoopDetector.find_loops_from] at ho
    cases ho
    exact hl
  | succ fuel ih =>
    intro i loops hl out ho
    rw [RestartLoopDetector.find_loops_from] at ho
    cases hri : restart_indices[i]? with
    | none =>
      rw [hri] at ho
      cases ho
      exact hl
    | some start_idx =>
      have hi : i < restart_indices.length := (List.getElem?_eq_some.mp hri).1
      obtain ⟨start_event, hse⟩ := hvalid start_idx (List.getElem?_mem hri)
      rw [hri] at ho
      simp only [hse] at ho
      cases hts : start_event.ts with
      | none =>
        rw [hts] at ho
        exact ih (i + 1) loops hl out ho
      | some ts =>
        rw [hts] at ho
        simp only [] at ho
        have hdrop : restart_indices.drop i = start_idx :: restart_indices.drop (i + 1) := by
          rw [List.drop_eq_getElem_cons hi]
          congr 1
          exact (List.getElem?_eq_some.mp hri).2
        have hvalid2 : ∀ idx ∈ restart_indices.drop (i + 1), ∃ e, events[idx]? = some e :=
          fun idx hidx => hvalid idx (List.mem_of_mem_drop hidx)
        obtain ⟨sub, hsub, hcw, hbound⟩ := collect_window_bound events
          (ts.tp + config.time_window * ticks_per_minute) (restart_indices.drop (i + 1))
          [start_event.id] hvalid2
        rw [hcw] at ho
        simp only [] at ho
        have hpool : List.Sublist (start_event :: sub) (timestamped_at events restart_indices) := by
          have h1 : List.Sublist (start_event :: sub)
              (timestamped_at events (restart_indices.drop i)) := by
            rw [hdrop, timestamped_at_cons_some events start_idx _ start_event ts hse hts]
            exact List.Sublist.cons₂ _ hsub
          exact h1.trans (List.Sublist.filterMap _ (List.drop_sublist i restart_indices))
        by_cases hge : ([start_event.id] ++ sub.map (fun e => e.id)).length ≥
            config.min_restart_count
        · simp only [hge, if_true] at ho
          cases h1 : restart_indices[i + ([start_event.id] ++
              sub.map (fun e => e.id)).length - 1]? with
          | none => rw [h1] at ho; cases ho
          | some last_idx =>
            rw [h1] at ho
            simp only [] at ho
            cases h2 : events[last_idx]? with
            | none => rw [h2] at ho; cases ho
            | some last_event =>
              rw [h2] at ho
              simp only [] at ho
              cases h3 : last_event.ts with
              | none => rw [h3] at ho; cases ho
              | some last_ts =>
                rw [h3] at ho
                simp only [] at ho
                apply ih _ _ _ out ho
                intro a ha
                rcases List.mem_append.mp ha with h4 | h4
                · exact hl a h4
                · simp only [List.mem_singleton] at h4
                  subst h4
                  exact ⟨start_event, ts, sub, hpool, hts, rfl,
                    by simp [RestartLoopDetector.loop_anomaly], hbound⟩
        · simp only [hge, if_false] at ho
          exact ih (i + 1) loops hl out ho

theorem option_eq_some_getD {α : Type} (o : Option α) (d : α) (h : o.isSome = true) :
    o = some (o.getD d) := by
  cases o with
  | none => simp at h
  | some a => rfl

/-! ### The rule registry -/

theorem perm_ordered_insert {α : Type} (comp : α → α → Bool) (x : α) (l : List α) :
    (ordered_insert comp x l).Perm (x :: l) := by
  induction l with
  | nil => exact List.Perm.refl _
  | cons y ys ih =>
    unfold ordered_insert
    by_cases h : comp y x = true
    · rw [if_pos h]
      exact (List.Perm.cons y ih).trans (List.Perm.swap x y ys)
    · rw [if_neg h]

theorem perm_stable_sort {α : Type} (comp : α → α → Bool) (l : List α) :
    (stable_sort comp l).Perm l := by
  induction l with
  | nil => exact List.Perm.refl _
  | cons x xs ih =>
    unfold stable_sort
    exact (perm_ordered_insert comp x _).trans (List.Perm.cons x ih)

theorem pairwise_ordered_insert {D : Type} (x : Rule D) (l : List (Rule D))
    (h : l.Pairwise (fun a b => a.priority ≥ b.priority)) :
    (ordered_insert (fun a b : Rule D => decide (a.priority > b.priority)) x l).Pairwise
      (fun a b => a.priority ≥ b.priority) := by
  induction l with
  | nil => simp [ordered_insert]
  | cons y ys ih =>
    unfold ordered_insert
    rw [List.pairwise_cons] at h
    by_cases hc : decide (y.priority > x.priority) = true
    · rw [if_pos hc, List.pairwise_cons]
      refine ⟨?_, ih h.2⟩
      intro z hz
      rcases List.mem_cons.mp ((perm_ordered_insert _ x ys).mem_iff.mp hz) with hz | hz
      · rw [hz]
        exact le_of_lt (of_decide_eq_true hc)
      · exact h.1 z hz
    · rw [if_neg hc, List.pairwise_cons]
      have hxy : y.priority ≤ x.priority := by
        have := fun hlt : y.priority > x.priority => hc (decide_eq_true hlt)
        exact not_lt.mp this
      refine ⟨?_, List.pairwise_cons.mpr h⟩
      intro z hz
      rcases List.mem_cons.mp hz with hz | hz
      · rw [hz]
        exact hxy
      · exact le_trans (h.1 z hz) hxy

theorem pairwise_stable_sort {D : Type} (l : List (Rule D)) :
    (stable_sort (fun a b : Rule D => decide (a.priority > b.priority)) l).Pairwise
      (fun a b => a.priority ≥ b.priority) := by
  induction l with
  | nil => simp [stable_sort]
  | cons x xs ih =>
    unfold stable_sort
    exact pairwise_ordered_insert x _ ih

theorem filter_ordered_insert {D : Type} (p : Int) (x : Rule D) (l : List (Rule D)) :
    (ordered_insert (fun a b : Rule D => decide (a.priority > b.priority)) x l).filter
        (fun r => decide (r.priority = p))
      = (x :: l).filter (fun r => decide (r.priority = p)) := by
  induction l with
  | nil => rfl
  | cons y ys ih =>
    unfold ordered_insert
    by_cases hc : decide (y.priority > x.priority) = true
    · rw [if_pos hc, List.filter_cons, ih]
      have hlt : y.priority > x.priority := of_decide_eq_true hc
      by_cases hy : y.priority = p
      · have hx : ¬ x.priority = p := by omega
        simp [List.filter_cons, hy, hx]
      · simp [List.filter_cons, hy]
    · rw [if_neg hc]

theorem filter_stable_sort {D : Type} (p : Int) (l : List (Rule D)) :
    (stable_sort (fun a b : Rule D => decide (a.priority > b.priority)) l).filter
        (fun r => decide (r.priority = p))
      = l.filter (fun r => decide (r.priority = p)) := by
  induction l with
  | nil => rfl
  | cons x xs ih =>
    unfold stable_sort
    rw [filter_ordered_insert, List.filter_cons, List.filter_cons, ih]

theorem register_rule_none {D : Type} (reg : RuleRegistry D) :
    RuleRegistry.register_rule reg none = reg := rfl

theorem register_rule_some {D : Type} (reg : RuleRegistry D) (r : Rule D) :
    (RuleRegistry.register_rule reg (some r)).rules_
      = stable_sort (fun a b : Rule D => decide (a.priority > b.priority))
          (reg.rules_ ++ [r]) := rfl

theorem evaluate_all_loop_eq {D : Type} (context : RuleContext D) (rules : List (Rule D))
    (all_findings : List (Finding D)) :
    RuleRegistry.evaluate_all_loop context rules all_findings =
      if rules.all (fun r => (r.evaluate context).isSome) then
        some (all_findings ++ (rules.map (fun r => (r.evaluate context).getD [])).flatten)
      else none := by
  induction rules generalizing all_findings with
  | nil => simp [RuleRegistry.evaluate_all_loop]
  | cons rule rest ih =>
    unfold RuleRegistry.evaluate_all_loop
    cases h : rule.evaluate context with
    | none => simp [h]
    | some findings =>
      simp only [ih, List.all_cons, h, Option.isSome_some, Bool.true_and, List.map_cons,
        Option.getD_some, List.flatten_cons, List.append_assoc]

/-! ### The crash loop rule -/

theorem foldl_add_evidence {D : Type} (description : String) (ids : List EventId)
    (f : Finding D) :
    ids.foldl (fun f event_id => f.add_evidence event_id description) f =
      { f with evidence := f.evidence ++
          ids.map (fun event_id => { event_id := event_id, description := description }) } := by
  induction ids generalizing f with
  | nil => simp
  | cons i rest ih =>
    rw [List.foldl_cons, ih]
    simp [Finding.add_evidence]

theorem crash_loop_finding_fields {D : Type} [DoubleArith D] (n : Nat) (a : Anomaly D) :
    (CrashLoopRule.crash_loop_finding n a).severity = FindingSeverity.CRITICAL ∧
    (CrashLoopRule.crash_loop_finding n a).confidence = a.confidence ∧
    (CrashLoopRule.crash_loop_finding n a).start_time = a.start_time ∧
    (CrashLoopRule.crash_loop_finding n a).end_time = a.end_time ∧
    (CrashLoopRule.crash_loop_finding n a).evidence.map (fun ev => ev.event_id) =
      a.evidence_ids := by
  unfold CrashLoopRule.crash_loop_finding
  rw [foldl_add_evidence]
  refine ⟨rfl, rfl, rfl, rfl, ?_⟩
  simp only [List.nil_append, List.map_map]
  exact List.map_id _

/-! ### The retry-to-timeout rule -/

theorem count_retries_eq (l : List Event) (j : Nat) (retry_ids : List EventId) :
    RetryToTimeoutRule.count_retries l j retry_ids =
      (j + (l.takeWhile RetryToTimeoutRule.is_retry_event).length,
        retry_ids ++ (l.takeWhile RetryToTimeoutRule.is_retry_event).map (fun e => e.id)) := by
  induction l generalizing j retry_ids with
  | nil => simp [RetryToTimeoutRule.count_retries]
  | cons e rest ih =>
    unfold RetryToTimeoutRule.count_retries
    by_cases h : RetryToTimeoutRule.is_retry_event e = true
    · rw [if_pos h, ih, List.takeWhile_cons_of_pos h]
      simp only [List.length_cons, List.map_cons, List.append_assoc, List.singleton_append,
        Prod.mk.injEq, and_true]
      omega
    · rw [if_neg h, List.takeWhile_cons_of_neg h]
      simp

theorem drop_length_takeWhile {α : Type} (p : α → Bool) (l : List α) :
    l.drop (l.takeWhile p).length = l.dropWhile p := by
  induction l with
  | nil => rfl
  | cons a rest ih =>
    by_cases h : p a = true
    · rw [List.takeWhile_cons_of_pos h, List.dropWhile_cons_of_pos h]
      simpa using ih
    · rw [List.takeWhile_cons_of_neg h, List.dropWhile_cons_of_neg h]
      rfl

theorem retry_runs_cons (e : Event) (rest run : List Event) :
    retry_runs (e :: rest) run =
      if RetryToTimeoutRule.is_retry_event e then retry_runs rest (run ++ [e])
      else if run.isEmpty then retry_runs rest []
      else (run, some e) :: retry_runs rest [] := by
  rw [retry_runs]

theorem retry_runs_split (l run : List Event) :
    retry_runs l run =
      match l.dropWhile RetryToTimeoutRule.is_retry_event with
      | [] =>
        if (run ++ l.takeWhile RetryToTimeoutRule.is_retry_event).isEmpty then []
        else [(run ++ l.takeWhile RetryToTimeoutRule.is_retry_event, none)]
      | e :: rest =>
        if (run ++ l.takeWhile RetryToTimeoutRule.is_retry_event).isEmpty then
          retry_runs rest []
        else (run ++ l.takeWhile RetryToTimeoutRule.is_retry_event, some e) ::
          retry_runs rest [] := by
  induction l generalizing run with
  | nil => simp [retry_runs]
  | cons a rest ih =>
    rw [retry_runs_cons]
    by_cases h : RetryToTimeoutRule.is_retry_event a = true
    · rw [if_pos h, ih, List.takeWhile_cons_of_pos h, List.dropWhile_cons_of_pos h]
      simp
    · rw [if_neg h, List.takeWhile_cons_of_neg h, List.dropWhile_cons_of_neg h]
      simp

theorem retry_finding_evidence_ids {D : Type} [DoubleArith D] (n : Nat) (first last : Event)
    (retry_ids : List EventId) :
    (RetryToTimeoutRule.retry_finding n first last retry_ids : Finding D).evidence_ids =
      retry_ids ++ [last.id] := by
  unfold RetryToTimeoutRule.retry_finding Finding.evidence_ids
  simp only []
  rw [foldl_add_evidence]
  simp only [Finding.add_evidence, List.nil_append, List.map_append, List.map_map, List.map_cons,
    List.map_nil]
  congr 1
  exact List.map_id _

theorem getElem?_length_takeWhile {α : Type} (p : α → Bool) (l : List α) :
    l[(l.takeWhile p).length]? = (l.dropWhile p).head? := by
  rw [← drop_length_takeWhile, List.head?_drop]

theorem retry_evidence_all_retry (l : List Event)
    (h : l.dropWhile RetryToTimeoutRule.is_retry_event = []) (run : List Event) :
    (retry_runs l run).filterMap retry_run_evidence = [] := by
  rw [retry_runs_split, h]
  simp only []
  split_ifs <;> simp [retry_run_evidence]

theorem retry_evidence_follower (l : List Event) (e : Event) (rest : List Event)
    (h : l.dropWhile RetryToTimeoutRule.is_retry_event = e :: rest) (run : List Event)
    (hrun : run ≠ []) :
    (retry_runs l run).filterMap retry_run_evidence =
      if RetryToTimeoutRule.is_timeout_event e then
        ((run ++ l.takeWhile RetryToTimeoutRule.is_retry_event).map (fun e => e.id) ++ [e.id]) ::
          retry_timeout_evidence rest
      else retry_timeout_evidence rest := by
  rw [retry_runs_split, h]
  simp only []
  rw [if_neg (by simp [hrun])]
  unfold retry_timeout_evidence
  by_cases ht : RetryToTimeoutRule.is_timeout_event e = true
  · rw [if_pos ht, List.filterMap_cons]
    simp [retry_run_evidence, ht]
  · rw [if_neg ht, List.filterMap_cons]
    simp [retry_run_evidence, ht]

theorem retry_evidence_skip_run (l : List Event) (e : Event) (rest : List Event)
    (h : l.dropWhile RetryToTimeoutRule.is_retry_event = e :: rest)
    (ht : RetryToTimeoutRule.is_timeout_event e = false) :
    retry_timeout_evidence l = retry_timeout_evidence rest := by
  unfold retry_timeout_evidence
  rw [retry_runs_split l [], h]
  simp only []
  split_ifs
  · rfl
  · rw [List.filterMap_cons]
    simp [retry_run_evidence, ht]

theorem retry_timeout_evidence_nil : retry_timeout_evidence [] = [] := rfl

theorem retry_timeout_evidence_skip (first : Event) (l : List Event)
    (h : RetryToTimeoutRule.is_retry_event first = false) :
    retry_timeout_evidence (first :: l) = retry_timeout_evidence l := by
  unfold retry_timeout_evidence
  rw [retry_runs_cons]
  simp [h]

theorem scan_evidence {D : Type} [DoubleArith D] (events : List Event) :
    ∀ (fuel i : Nat) (fs : List (Finding D)), events.length - i ≤ fuel →
      (RetryToTimeoutRule.scan events fuel i fs).map Finding.evidence_ids =
        fs.map Finding.evidence_ids ++ retry_timeout_evidence (events.drop i) := by
  intro fuel
  induction fuel with
  | zero =>
    intro i fs h
    have hi : events.length ≤ i := by omega
    rw [List.drop_eq_nil_of_le hi, retry_timeout_evidence_nil]
    simp [RetryToTimeoutRule.scan]
  | succ fuel ih =>
    intro i fs h
    rw [RetryToTimeoutRule.scan]
    cases hget : events[i]? with
    | none =>
      have hi : events.length ≤ i := List.getElem?_eq_none_iff.mp hget
      rw [List.drop_eq_nil_of_le hi, retry_timeout_evidence_nil]
      simp
    | some first =>
      obtain ⟨hlt, hfirst⟩ := List.getElem?_eq_some.mp hget
      have hdrop : events.drop i = first :: events.drop (i + 1) := by
        rw [List.drop_eq_getElem_cons hlt, hfirst]
      simp only []
      by_cases hr : RetryToTimeoutRule.is_retry_event first = true
      · simp only [hr, Bool.not_true, Bool.false_eq_true, if_false, count_retries_eq]
        have hj : events[i + 1 +
            (List.takeWhile RetryToTimeoutRule.is_retry_event (events.drop (i + 1))).length]? =
            (List.dropWhile RetryToTimeoutRule.is_retry_event (events.drop (i + 1))).head? := by
          rw [← getElem?_length_takeWhile, List.getElem?_drop]
        rw [hj, hdrop]
        have hrest : events.drop (i + 1 +
            (List.takeWhile RetryToTimeoutRule.is_retry_event (events.drop (i + 1))).length + 1) =
            (List.dropWhile RetryToTimeoutRule.is_retry_event (events.drop (i + 1))).tail := by
          rw [← drop_length_takeWhile, List.tail_drop, List.drop_drop]
          congr 1
        cases hdw : List.dropWhile RetryToTimeoutRule.is_retry_event (events.drop (i + 1)) with
        | nil =>
          simp only [List.head?_nil]
          rw [ih (i + 1) fs (by omega)]
          congr 1
          unfold retry_timeout_evidence
          rw [retry_runs_cons, if_pos hr, retry_evidence_all_retry _ hdw,
            retry_evidence_all_retry _ hdw]
        | cons e rest =>
          rw [hdw] at hrest
          simp only [List.head?_cons, List.tail_cons] at hrest ⊢
          have hspec : retry_timeout_evidence (first :: events.drop (i + 1)) =
              if RetryToTimeoutRule.is_timeout_event e then
                (([first] ++ (events.drop (i + 1)).takeWhile
                  RetryToTimeoutRule.is_retry_event).map (fun e => e.id) ++ [e.id]) ::
                  retry_timeout_evidence rest
              else retry_timeout_evidence rest := by
            unfold retry_timeout_evidence
            rw [retry_runs_cons, if_pos hr, List.nil_append]
            exact retry_evidence_follower _ e rest hdw [first] (by simp)
          rw [hspec]
          by_cases ht : RetryToTimeoutRule.is_timeout_event e = true
          · rw [if_pos ht, if_pos ht, ih _ _ (by omega), hrest]
            simp [retry_finding_evidence_ids]
          · rw [if_neg ht, if_neg ht, ih (i + 1) fs (by omega)]
            congr 1
            exact retry_evidence_skip_run _ e rest hdw (by simpa using ht)
      · simp only [hr, Bool.not_false, if_true]
        rw [ih (i + 1) fs (by omega), hdrop,
          retry_timeout_evidence_skip first _ (by simpa using hr)]

/-! ### The error-burst-after-change rule -/

theorem nearest_step_spec (events : List Event) (burst_time : TimePoint)
    (st : ErrorBurstAfterChangeRule.NearestScan) (idx : Nat) (change : Event)
    (hidx : events[idx]? = some change) :
    ∃ st1, ErrorBurstAfterChangeRule.nearest_step events burst_time st idx = some st1 ∧
      st1.min_gap ≤ st.min_gap ∧
      (∀ g, change_gap burst_time change = some g → st1.min_gap ≤ g) ∧
      (st1 = st ∨
        (change_gap burst_time change = some st1.min_gap ∧
          st1.nearest_change_idx = some idx)) := by
  unfold ErrorBurstAfterChangeRule.nearest_step change_gap
  rw [hidx]
  simp only []
  cases hts : change.ts with
  | none => exact ⟨st, rfl, le_refl _, by simp, Or.inl rfl⟩
  | some t =>
    simp only []
    by_cases hge : t.tp ≥ burst_time
    · rw [if_pos hge]
      refine ⟨st, rfl, le_refl _, ?_, Or.inl rfl⟩
      intro g hg
      rw [if_neg (fun h => absurd h.1 (not_lt.mpr hge))] at hg
      cases hg
    · rw [if_neg hge]
      have hlt : t.tp < burst_time := lt_of_not_ge hge
      by_cases hgap : Int.tdiv (burst_time - t.tp) ticks_per_second ≤ 30 * 60 ∧
          Int.tdiv (burst_time - t.tp) ticks_per_second < st.min_gap
      · rw [if_pos hgap]
        refine ⟨_, rfl, le_of_lt hgap.2, ?_, Or.inr ⟨?_, rfl⟩⟩
        · intro g hg
          rw [if_pos ⟨hlt, hgap.1⟩] at hg
          cases hg
          exact le_refl _
        · rw [if_pos ⟨hlt, hgap.1⟩]
      · rw [if_neg hgap]
        refine ⟨st, rfl, le_refl _, ?_, Or.inl rfl⟩
        intro g hg
        by_cases h30 : Int.tdiv (burst_time - t.tp) ticks_per_second ≤ 30 * 60
        · rw [if_pos ⟨hlt, h30⟩] at hg
          cases hg
          have : ¬ Int.tdiv (burst_time - t.tp) ticks_per_second < st.min_gap :=
            fun h => hgap ⟨h30, h⟩
          omega
        · rw [if_neg (fun h => h30 h.2)] at hg
          cases hg

theorem nearest_change_spec (events : List Event) (burst_time : TimePoint) :
    ∀ (idxs : List Nat) (st : ErrorBurstAfterChangeRule.NearestScan),
      (∀ i ∈ idxs, i < events.length) →
      ∃ st1, ErrorBurstAfterChangeRule.nearest_change events burst_time idxs st = some st1 ∧
        st1.min_gap ≤ st.min_gap ∧
        (∀ j ∈ idxs, ∀ c, events[j]? = some c →
          ∀ g, change_gap burst_time c = some g → st1.min_gap ≤ g) ∧
        (st1 = st ∨
          ∃ i ∈ idxs, ∃ c, events[i]? = some c ∧
            change_gap burst_time c = some st1.min_gap ∧
            st1.nearest_change_idx = some i) := by
  intro idxs
  induction idxs with
  | nil =>
    intro st _
    exact ⟨st, rfl, le_refl _, by simp, Or.inl rfl⟩
  | cons idx rest ih =>
    intro st hvalid
    have hlt : idx < events.length := hvalid idx (List.mem_cons_self _ _)
    have hidx : events[idx]? = some events[idx] := List.getElem?_eq_getElem hlt
    obtain ⟨st1, hstep, hle1, hmin1, hcase1⟩ :=
      nearest_step_spec events burst_time st idx _ hidx
    obtain ⟨st2, hrest, hle2, hmin2, hcase2⟩ :=
      ih st1 (fun i hi => hvalid i (List.mem_cons_of_mem _ hi))
    refine ⟨st2, ?_, le_trans hle2 hle1, ?_, ?_⟩
    · rw [ErrorBurstAfterChangeRule.nearest_change, hstep]
      exact hrest
    · intro j hj c hc g hg
      rcases List.mem_cons.mp hj with hj | hj
      · subst hj
        rw [hidx] at hc
        cases hc
        exact le_trans hle2 (hmin1 g hg)
      · exact hmin2 j hj c hc g hg
    · rcases hcase2 with h2 | ⟨i, hi, c, hc, hg, hn⟩
      · subst h2
        rcases hcase1 with h1 | ⟨hg, hn⟩
        · exact Or.inl h1
        · exact Or.inr ⟨idx, List.mem_cons_self _ _, _, hidx, hg, hn⟩
      · exact Or.inr ⟨i, List.mem_cons_of_mem _ hi, c, hc, hg, hn⟩

theorem change_gap_some (burst_time : TimePoint) (c : Event) (g : Int)
    (h : change_gap burst_time c = some g) :
    g ≤ 30 * 60 ∧ ∃ t, c.ts = some t ∧ t.tp < burst_time ∧
      g = Int.tdiv (burst_time - t.tp) ticks_per_second := by
  unfold change_gap at h
  cases hts : c.ts with
  | none =>
    rw [hts] at h
    cases h
  | some t =>
    rw [hts] at h
    simp only [] at h
    by_cases hc : t.tp < burst_time ∧ Int.tdiv (burst_time - t.tp) ticks_per_second ≤ 30 * 60
    · rw [if_pos hc] at h
      cases h
      exact ⟨hc.2, t, rfl, hc.1, rfl⟩
    · rw [if_neg hc] at h
      cases h

theorem find_change_events_mem (events : List Event) (i : Nat)
    (h : i ∈ ErrorBurstAfterChangeRule.find_change_events events) :
    i < events.length ∧
      ∃ c, events[i]? = some c ∧ ErrorBurstAfterChangeRule.is_change_event c = true := by
  unfold ErrorBurstAfterChangeRule.find_change_events at h
  rw [List.mem_filter] at h
  obtain ⟨hr, hc⟩ := h
  have hlt : i < events.length := List.mem_range.mp hr
  refine ⟨hlt, events[i], List.getElem?_eq_getElem hlt, ?_⟩
  rw [List.getElem?_eq_getElem hlt] at hc
  exact hc

theorem find_change_events_complete (events : List Event) (c : Event) (hc : c ∈ events)
    (hchange : ErrorBurstAfterChangeRule.is_change_event c = true) :
    ∃ i ∈ ErrorBurstAfterChangeRule.find_change_events events, events[i]? = some c := by
  obtain ⟨i, hlt, hi⟩ := List.getElem_of_mem hc
  refine ⟨i, ?_, ?_⟩
  · unfold ErrorBurstAfterChangeRule.find_change_events
    rw [List.mem_filter]
    refine ⟨List.mem_range.mpr hlt, ?_⟩
    rw [List.getElem?_eq_getElem hlt, hi]
    exact hchange
  · rw [List.getElem?_eq_getElem hlt, hi]

theorem add_burst_errors_evidence {D : Type} (burst_time : TimePoint)
    (end_time : Option TimePoint) :
    ∀ (l : List Event) (n : Nat) (f f1 : Finding D),
      ErrorBurstAfterChangeRule.add_burst_errors burst_time end_time l n f = some f1 →
      ∃ extra, f1 = { f with evidence := f.evidence ++ extra } := by
  intro l
  induction l with
  | nil =>
    intro n f f1 h
    rw [ErrorBurstAfterChangeRule.add_burst_errors] at h
    cases h
    exact ⟨[], by simp⟩
  | cons e rest ih =>
    intro n f f1 h
    rw [ErrorBurstAfterChangeRule.add_burst_errors] at h
    split at h
    · split at h
      · exact ih n f f1 h
      · split at h
        · split at h
          · cases h
          · split at h
            · split at h
              · cases h
                exact ⟨_, rfl⟩
              · obtain ⟨extra, hx⟩ := ih _ _ f1 h
                refine ⟨{ event_id := e.id, description := "Error during burst" } :: extra, ?_⟩
                rw [hx]
                simp [Finding.add_evidence]
            · exact ih n f f1 h
        · exact ih n f f1 h
    · exact ih n f f1 h

theorem add_burst_errors_total {D : Type} (burst_time : TimePoint) (e : TimePoint) :
    ∀ (l : List Event) (n : Nat) (f : Finding D),
      ∃ f1, ErrorBurstAfterChangeRule.add_burst_errors burst_time (some e) l n f = some f1 := by
  intro l
  induction l with
  | nil =>
    intro n f
    exact ⟨f, by rw [ErrorBurstAfterChangeRule.add_burst_errors]⟩
  | cons ev rest ih =>
    intro n f
    rw [ErrorBurstAfterChangeRule.add_burst_errors]
    split
    · split
      · exact ih n f
      · split
        · simp only []
          split
          · split
            · exact ⟨_, rfl⟩
            · exact ih _ _
          · exact ih n f
        · exact ih n f
    · exact ih n f

theorem evaluate_anomaly_other {D : Type} [DoubleArith D] (events : List Event)
    (idxs : List Nat) (fs : List (Finding D)) (a : Anomaly D)
    (h : a.type ≠ AnomalyType.ERROR_BURST ∨ a.start_time = none) :
    ErrorBurstAfterChangeRule.evaluate_anomaly events idxs fs a = some fs := by
  unfold ErrorBurstAfterChangeRule.evaluate_anomaly
  by_cases ht : a.type ≠ AnomalyType.ERROR_BURST
  · rw [if_pos ht]
  · rw [if_neg ht]
    rcases h with h | h
    · exact absurd h ht
    · rw [h]

theorem evaluate_anomaly_burst {D : Type} [DoubleArith D] (events : List Event)
    (fs : List (Finding D)) (a : Anomaly D) (burst_time : TimePoint)
    (htype : a.type = AnomalyType.ERROR_BURST) (hstart : a.start_time = some burst_time) :
    (nearby_changes events burst_time = [] ∧
      ErrorBurstAfterChangeRule.evaluate_anomaly events
        (ErrorBurstAfterChangeRule.find_change_events events) fs a = some fs) ∨
    (nearby_changes events burst_time ≠ [] ∧
      ∃ f0 : Finding D,
        (∃ change g, change ∈ events ∧
          ErrorBurstAfterChangeRule.is_change_event change = true ∧
          change_gap burst_time change = some g ∧
          (∀ c ∈ events, ErrorBurstAfterChangeRule.is_change_event c = true →
            ∀ g1, change_gap burst_time c = some g1 → g ≤ g1) ∧
          f0.start_time = change.ts.map (fun t => t.tp) ∧
          f0.evidence =
            [{ event_id := change.id, description := "Deployment or config change" }] ∧
          f0.end_time = a.end_time ∧
          f0.confidence = change_confidence g) ∧
        ErrorBurstAfterChangeRule.evaluate_anomaly events
            (ErrorBurstAfterChangeRule.find_change_events events) fs a =
          (ErrorBurstAfterChangeRule.add_burst_errors burst_time a.end_time events 0 f0).map
            (fun f => fs ++ [f])) := by
  obtain ⟨st1, hnc, -, hmin, hcase⟩ :=
    nearest_change_spec events burst_time (ErrorBurstAfterChangeRule.find_change_events events)
      { nearest_change_idx := none, min_gap := 24 * 3600 }
      (fun i hi => (find_change_events_mem events i hi).1)
  have hall : ∀ c ∈ events, ErrorBurstAfterChangeRule.is_change_event c = true →
      ∀ g1, change_gap burst_time c = some g1 → st1.min_gap ≤ g1 := by
    intro c hc hchange g1 hg1
    obtain ⟨j, hj, hjc⟩ := find_change_events_complete events c hc hchange
    exact hmin j hj c hjc g1 hg1
  unfold ErrorBurstAfterChangeRule.evaluate_anomaly
  rw [if_neg (not_not.mpr htype)]
  simp only [hstart, hnc]
  cases hn : st1.nearest_change_idx with
  | none =>
    left
    refine ⟨?_, rfl⟩
    unfold nearby_changes
    rw [List.filter_eq_nil_iff]
    intro c hc hboth
    rw [Bool.and_eq_true, Option.isSome_iff_exists] at hboth
    obtain ⟨hchange, g1, hg1⟩ := hboth
    have h1 := hall c hc hchange g1 hg1
    have h2 := (change_gap_some burst_time c g1 hg1).1
    rcases hcase with h | ⟨i, -, c1, -, -, hi⟩
    · rw [h] at h1
      simp only [] at h1
      omega
    · rw [hn] at hi
      cases hi
  | some idx =>
    right
    rcases hcase with h | ⟨i, hi, change, hic, hg, hni⟩
    · rw [h] at hn
      cases hn
    · rw [hn] at hni
      cases hni
      obtain ⟨-, change1, hic1, hchange⟩ := find_change_events_mem events idx hi
      rw [hic] at hic1
      cases hic1
      obtain ⟨-, t, hts, -, -⟩ := change_gap_some burst_time change _ hg
      have hmem : change ∈ events := List.getElem?_mem hic
      refine ⟨?_, ?_⟩
      · intro hnil
        have : change ∈ nearby_changes events burst_time := by
          unfold nearby_changes
          rw [List.mem_filter]
          exact ⟨hmem, by simp [hchange, hg]⟩
        rw [hnil] at this
        cases this
      · simp only [hic, hts]
        have hmap : ∀ o : Option (Finding D),
            (match o with
              | none => none
              | some finding => some (fs ++ [finding])) = o.map (fun f => fs ++ [f]) := by
          intro o
          cases o <;> rfl
        rw [hmap]
        refine ⟨_, ?_, rfl⟩
        refine ⟨change, st1.min_gap, hmem, hchange, hg, hall, ?_, ?_, rfl, rfl⟩
        · simp [Finding.add_evidence, hts]
        · simp [Finding.add_evidence]

theorem evaluate_anomaly_sound {D : Type} [DoubleArith D] (events : List Event)
    (fs : List (Finding D)) (a : Anomaly D) (out : List (Finding D))
    (h : ErrorBurstAfterChangeRule.evaluate_anomaly events
      (ErrorBurstAfterChangeRule.find_change_events events) fs a = some out) :
    (has_nearby_change events a = false ∧ out = fs) ∨
    (has_nearby_change events a = true ∧ ∃ f, out = fs ++ [f] ∧ change_finding_ok events f a) := by
  by_cases htype : a.type = AnomalyType.ERROR_BURST
  · cases hstart : a.start_time with
    | none =>
      rw [evaluate_anomaly_other events _ fs a (Or.inr hstart)] at h
      cases h
      exact Or.inl ⟨by simp [has_nearby_change, hstart], rfl⟩
    | some burst_time =>
      rcases evaluate_anomaly_burst events fs a burst_time htype hstart with
        ⟨hnil, he⟩ | ⟨hne, f0, ⟨change, g, hmem, hchange, hg, hminimal, hs, hev, hend, hconf⟩, he⟩
      · rw [he] at h
        cases h
        exact Or.inl ⟨by simp [has_nearby_change, hstart, hnil], rfl⟩
      · rw [he] at h
        cases hadd : ErrorBurstAfterChangeRule.add_burst_errors burst_time a.end_time events 0 f0 with
        | none =>
          rw [hadd] at h
          cases h
        | some f1 =>
          rw [hadd] at h
          simp only [Option.map_some', Option.some.injEq] at h
          obtain ⟨extra, hx⟩ := add_burst_errors_evidence _ _ _ _ _ _ hadd
          right
          refine ⟨?_, f1, h.symm, burst_time, change, g, hstart, hmem, hchange, hg, hminimal,
            ?_, ?_, ?_, ?_⟩
          · cases hnc : nearby_changes events burst_time with
            | nil => exact absurd hnc hne
            | cons c rest => simp [has_nearby_change, hstart, htype, hnc]
          · rw [hx]
            exact hs
          · rw [hx]
            simp [hev]
          · rw [hx]
            exact hend
          · rw [hx]
            exact hconf
  · rw [evaluate_anomaly_other events _ fs a (Or.inl htype)] at h
    cases h
    exact Or.inl ⟨by simp [has_nearby_change, htype], rfl⟩

theorem evaluate_anomaly_total {D : Type} [DoubleArith D] (events : List Event)
    (fs : List (Finding D)) (a : Anomaly D)
    (hend : a.type = AnomalyType.ERROR_BURST → a.start_time.isSome = true →
      a.end_time.isSome = true) :
    ∃ out, ErrorBurstAfterChangeRule.evaluate_anomaly events
      (ErrorBurstAfterChangeRule.find_change_events events) fs a = some out := by
  by_cases htype : a.type = AnomalyType.ERROR_BURST
  · cases hstart : a.start_time with
    | none => exact ⟨fs, evaluate_anomaly_other events _ fs a (Or.inr hstart)⟩
    | some burst_time =>
      rcases evaluate_anomaly_burst events fs a burst_time htype hstart with
        ⟨-, he⟩ | ⟨-, f0, -, he⟩
      · exact ⟨fs, he⟩
      · obtain ⟨e, he1⟩ := Option.isSome_iff_exists.mp (hend htype (by simp [hstart]))
        obtain ⟨f1, hf1⟩ := @add_burst_errors_total D burst_time e events 0 f0
        rw [he, he1, hf1]
        exact ⟨_, rfl⟩
  · exact ⟨fs, evaluate_anomaly_other events _ fs a (Or.inl htype)⟩

theorem evaluate_loop_sound {D : Type} [DoubleArith D] (events : List Event) :
    ∀ (anomalies : List (Anomaly D)) (fs out : List (Finding D)),
      ErrorBurstAfterChangeRule.evaluate_loop events
        (ErrorBurstAfterChangeRule.find_change_events events) anomalies fs = some out →
      ∃ new, out = fs ++ new ∧
        List.Forall₂ (change_finding_ok events) new
          (anomalies.filter (has_nearby_change events)) := by
  intro anomalies
  induction anomalies with
  | nil =>
    intro fs out h
    rw [ErrorBurstAfterChangeRule.evaluate_loop] at h
    cases h
    exact ⟨[], by simp, List.Forall₂.nil⟩
  | cons a rest ih =>
    intro fs out h
    rw [ErrorBurstAfterChangeRule.evaluate_loop] at h
    cases hstep : ErrorBurstAfterChangeRule.evaluate_anomaly events
        (ErrorBurstAfterChangeRule.find_change_events events) fs a with
    | none =>
      rw [hstep] at h
      cases h
    | some fs1 =>
      rw [hstep] at h
      obtain ⟨new, hout, hrel⟩ := ih fs1 out h
      rcases evaluate_anomaly_sound events fs a fs1 hstep with ⟨hno, hfs⟩ | ⟨hyes, f, hfs, hok⟩
      · refine ⟨new, by rw [hout, hfs], ?_⟩
        rw [List.filter_cons_of_neg (by simp [hno])]
        exact hrel
      · refine ⟨f :: new, by rw [hout, hfs]; simp, ?_⟩
        rw [List.filter_cons_of_pos hyes]
        exact List.Forall₂.cons hok hrel

theorem evaluate_loop_total {D : Type} [DoubleArith D] (events : List Event) :
    ∀ (anomalies : List (Anomaly D)) (fs : List (Finding D)),
      (∀ a ∈ anomalies, a.type = AnomalyType.ERROR_BURST → a.start_time.isSome = true →
        a.end_time.isSome = true) →
      ∃ out, ErrorBurstAfterChangeRule.evaluate_loop events
        (ErrorBurstAfterChangeRule.find_change_events events) anomalies fs = some out := by
  intro anomalies
  induction anomalies with
  | nil =>
    intro fs _
    exact ⟨fs, by rw [ErrorBurstAfterChangeRule.evaluate_loop]⟩
  | cons a rest ih =>
    intro fs hend
    obtain ⟨fs1, h1⟩ := evaluate_anomaly_total events fs a (hend a (List.mem_cons_self _ _))
    obtain ⟨out, h2⟩ := ih fs1 (fun b hb => hend b (List.mem_cons_of_mem _ hb))
    refine ⟨out, ?_⟩
    rw [ErrorBurstAfterChangeRule.evaluate_loop, h1]
    exact h2

theorem no_nearby_change_of_no_change {D : Type} (events : List Event)
    (h : ErrorBurstAfterChangeRule.find_change_events events = []) (anomalies : List (Anomaly D)) :
    anomalies.filter (has_nearby_change events) = [] := by
  rw [List.filter_eq_nil_iff]
  intro a _ hnear
  unfold has_nearby_change at hnear
  rw [Bool.and_eq_true] at hnear
  cases hstart : a.start_time with
  | none =>
    rw [hstart] at hnear
    exact absurd hnear.2 (by simp)
  | some burst_time =>
    rw [hstart] at hnear
    simp only [] at hnear
    have hne : nearby_changes events burst_time ≠ [] := by
      intro hnil
      rw [hnil] at hnear
      exact absurd hnear.2 (by simp)
    obtain ⟨c, hc⟩ := List.exists_mem_of_ne_nil _ hne
    unfold nearby_changes at hc
    rw [List.mem_filter, Bool.and_eq_true] at hc
    obtain ⟨i, hi, -⟩ := find_change_events_complete events c hc.1 hc.2.1
    rw [h] at hi
    cases hi

theorem error_burst_evaluate_sound {D : Type} [DoubleArith D] (events : List Event)
    (stats : Option Stats) (episodes : Option (List Episode)) (anomalies : List (Anomaly D))
    (out : List (Finding D))
    (h : ErrorBurstAfterChangeRule.evaluate
      { events := some events, stats := stats, episodes := episodes,
        anomalies := some anomalies } = some out) :
    List.Forall₂ (change_finding_ok events) out
      (anomalies.filter (has_nearby_change events)) := by
  unfold ErrorBurstAfterChangeRule.evaluate at h
  simp only [] at h
  by_cases hempty : (ErrorBurstAfterChangeRule.find_change_events events).isEmpty = true
  · rw [if_pos hempty] at h
    cases h
    rw [no_nearby_change_of_no_change events (List.isEmpty_iff.mp hempty)]
    exact List.Forall₂.nil
  · rw [if_neg hempty] at h
    obtain ⟨new, hout, hrel⟩ := evaluate_loop_sound events anomalies [] out h
    rw [hout]
    exact hrel

theorem error_burst_evaluate_total {D : Type} [DoubleArith D] (events : List Event)
    (stats : Option Stats) (episodes : Option (List Episode)) (anomalies : List (Anomaly D))
    (hend : ∀ a ∈ anomalies, a.type = AnomalyType.ERROR_BURST → a.start_time.isSome = true →
      a.end_time.isSome = true) :
    ∃ out, ErrorBurstAfterChangeRule.evaluate
      { events := some events, stats := stats, episodes := episodes,
        anomalies := some anomalies } = some out := by
  unfold ErrorBurstAfterChangeRule.evaluate
  simp only []
  by_cases hempty : (ErrorBurstAfterChangeRule.find_change_events events).isEmpty = true
  · rw [if_pos hempty]
    exact ⟨[], rfl⟩
  · rw [if_neg hempty]
    exact evaluate_loop_total events anomalies [] hend

/-! ### The confidence of the error-burst-after-change rule -/

theorem change_confidence_val (rnd : ℚ → ℚ) (g : Int) :
    (change_confidence g : Rounded rnd).val =
      max (rnd (1 / 2)) (rnd (rnd 1 - rnd (rnd (rnd (g : ℚ) / rnd 60) / rnd 30))) := by
  unfold change_confidence DoubleArith.max
  simp only [DoubleArith.lt, DoubleArith.ofRat, DoubleArith.sub, DoubleArith.div]
  by_cases h : rnd (1 / 2) < rnd (rnd 1 - rnd (rnd (rnd (g : ℚ) / rnd 60) / rnd 30))
  · rw [if_pos (by simpa using h), max_eq_right (le_of_lt h)]
  · rw [if_neg (by simpa using h), max_eq_left (not_lt.mp h)]

theorem rounded_pos (rnd : ℚ → ℚ) (hmono : Monotone rnd) (h1 : rnd 1 = 1) (q : ℚ)
    (hq : 1 ≤ q) : 0 < rnd q :=
  lt_of_lt_of_le (by rw [h1]; exact zero_lt_one) (hmono hq)

theorem change_confidence_antitone (rnd : ℚ → ℚ) (hmono : Monotone rnd) (h1 : rnd 1 = 1)
    (g1 g2 : Int) (h : g1 ≤ g2) :
    (change_confidence g2 : Rounded rnd).val ≤ (change_confidence g1 : Rounded rnd).val := by
  rw [change_confidence_val, change_confidence_val]
  have h60 : (0 : ℚ) ≤ rnd 60 := le_of_lt (rounded_pos rnd hmono h1 60 (by norm_num))
  have h30 : (0 : ℚ) ≤ rnd 30 := le_of_lt (rounded_pos rnd hmono h1 30 (by norm_num))
  have hg : rnd (g1 : ℚ) ≤ rnd (g2 : ℚ) := hmono (Int.cast_le.mpr h)
  have hx : rnd (rnd (rnd (g1 : ℚ) / rnd 60) / rnd 30) ≤
      rnd (rnd (rnd (g2 : ℚ) / rnd 60) / rnd 30) :=
    hmono (div_le_div_of_nonneg_right (hmono (div_le_div_of_nonneg_right hg h60)) h30)
  exact max_le_max (le_refl _) (hmono (sub_le_sub_left hx _))

theorem change_confidence_range (rnd : ℚ → ℚ) (hmono : Monotone rnd) (h0 : rnd 0 = 0)
    (hhalf : rnd (1 / 2) = 1 / 2) (h1 : rnd 1 = 1) (g : Int) (hg : 0 ≤ g) :
    rnd (1 / 2) ≤ (change_confidence g : Rounded rnd).val ∧
      (change_confidence g : Rounded rnd).val ≤ rnd 1 := by
  rw [change_confidence_val]
  refine ⟨le_max_left _ _, max_le ?_ ?_⟩
  · rw [hhalf, h1]
    norm_num
  · have h60 : (0 : ℚ) ≤ rnd 60 := le_of_lt (rounded_pos rnd hmono h1 60 (by norm_num))
    have h30 : (0 : ℚ) ≤ rnd 30 := le_of_lt (rounded_pos rnd hmono h1 30 (by norm_num))
    have hg0 : (0 : ℚ) ≤ rnd (g : ℚ) := by
      rw [← h0]
      exact hmono (Int.cast_nonneg.mpr hg)
    have hx1 : (0 : ℚ) ≤ rnd (rnd (g : ℚ) / rnd 60) := by
      rw [← h0]
      exact hmono (div_nonneg hg0 h60)
    have hx : (0 : ℚ) ≤ rnd (rnd (rnd (g : ℚ) / rnd 60) / rnd 30) := by
      rw [← h0]
      exact hmono (div_nonneg hx1 h30)
    exact hmono (by rw [h1]; linarith)

theorem tdiv_seconds_mono (d1 d2 : Int) (h0 : 0 ≤ d1) (h : d1 ≤ d2) :
    Int.tdiv d1 ticks_per_second ≤ Int.tdiv d2 ticks_per_second := by
  have hpos : (0 : Int) < ticks_per_second := by decide
  rw [Int.tdiv_eq_ediv h0 (le_of_lt hpos), Int.tdiv_eq_ediv (le_trans h0 h) (le_of_lt hpos)]
  exact Int.ediv_le_ediv hpos h

/-! ### The statistics builder -/

theorem lookup_cons_self {K V : Type} [DecidableEq K] (k : K) (v : V) (rest : List (K × V)) :
    List.lookup k ((k, v) :: rest) = some v := by
  rw [List.lookup_cons]
  simp

theorem lookup_cons_ne {K V : Type} [DecidableEq K] (k k1 : K) (v : V) (rest : List (K × V))
    (h : k ≠ k1) : List.lookup k ((k1, v) :: rest) = List.lookup k rest := by
  rw [List.lookup_cons]
  have hb : (k == k1) = false := by simpa using h
  rw [hb]

theorem lookup_map_increment {K : Type} [DecidableEq K] (key k : K) (m : List (K × Nat)) :
    (map_increment key m).lookup k =
      if k = key then some ((m.lookup key).getD 0 + 1) else m.lookup k := by
  induction m with
  | nil =>
    unfold map_increment
    by_cases h : k = key
    · rw [if_pos h, h, lookup_cons_self]
      rfl
    · rw [if_neg h, lookup_cons_ne _ _ _ _ h]
  | cons kv rest ih =>
    obtain ⟨k1, v1⟩ := kv
    unfold map_increment
    by_cases h1 : k1 = key
    · rw [if_pos h1]
      by_cases h : k = key
      · rw [if_pos h, h, ← h1, lookup_cons_self, lookup_cons_self]
        rfl
      · have hk : k ≠ k1 := by rw [h1]; exact h
        rw [if_neg h, lookup_cons_ne _ _ _ _ hk, lookup_cons_ne _ _ _ _ hk]
    · rw [if_neg h1]
      have hkey : key ≠ k1 := fun e => h1 e.symm
      by_cases hk : k = k1
      · have h : ¬ k = key := by rw [hk]; exact h1
        rw [if_neg h, hk, lookup_cons_self, lookup_cons_self]
      · rw [lookup_cons_ne _ _ _ _ hk, ih, lookup_cons_ne _ _ _ _ hk,
          lookup_cons_ne _ _ _ _ hkey]

theorem sum_map_increment {K : Type} [DecidableEq K] (key : K) (m : List (K × Nat)) :
    ((map_increment key m).map Prod.snd).sum = (m.map Prod.snd).sum + 1 := by
  induction m with
  | nil => simp [map_increment]
  | cons kv rest ih =>
    obtain ⟨k1, v1⟩ := kv
    unfold map_increment
    by_cases h1 : k1 = key
    · rw [if_pos h1]
      simp only [List.map_cons, List.sum_cons]
      omega
    · rw [if_neg h1]
      simp only [List.map_cons, List.sum_cons, ih]
      omega

theorem count_event_fields (e : Event) (s : Stats) :
    (StatsBuilder.count_event e s).severity_counts = map_increment e.sev s.severity_counts ∧
    (StatsBuilder.count_event e s).source_counts =
      (if e.src.source_path ≠ "" then map_increment e.src.source_path s.source_counts
        else s.source_counts) ∧
    (StatsBuilder.count_event e s).total_events = s.total_events ∧
    (StatsBuilder.count_event e s).severity_time_series = s.severity_time_series ∧
    (StatsBuilder.count_event e s).start_time = s.start_time ∧
    (StatsBuilder.count_event e s).end_time = s.end_time := by
  unfold StatsBuilder.count_event
  by_cases h : e.src.source_path = ""
  · simp [h]
  · simp [h]

theorem widen_times_fields (tp : TimePoint) (s : Stats) :
    (StatsBuilder.widen_times tp s).severity_counts = s.severity_counts ∧
    (StatsBuilder.widen_times tp s).source_counts = s.source_counts ∧
    (StatsBuilder.widen_times tp s).total_events = s.total_events ∧
    (StatsBuilder.widen_times tp s).severity_time_series = s.severity_time_series := by
  unfold StatsBuilder.widen_times
  simp only []
  split <;> split <;> (try split) <;> (try split) <;> exact ⟨rfl, rfl, rfl, rfl⟩

theorem add_event_total (s : TimeSeries) (tp : TimePoint) (h : s.bucket_size ≠ 0) :
    ∃ s1, s.add_event tp = some s1 ∧ s1.bucket_size = s.bucket_size := by
  unfold TimeSeries.add_event
  have hne : ¬ s.bucket_size * ticks_per_minute = 0 := by
    intro h0
    rcases mul_eq_zero.mp h0 with h1 | h1
    · exact h h1
    · exact absurd h1 (by decide)
  simp only [if_neg hne]
  exact ⟨_, rfl, rfl⟩

theorem series_add_event_total (sev : Severity) (tp : TimePoint) :
    ∀ m : List (Severity × TimeSeries), series_ok m →
      ∃ m1, series_add_event sev tp m = some m1 ∧ series_ok m1 := by
  intro m
  induction m with
  | nil =>
    intro _
    obtain ⟨s1, hs1, hb⟩ := add_event_total (TimeSeries.new 1) tp (by decide)
    refine ⟨[(sev, s1)], by rw [series_add_event, hs1]; rfl, ?_⟩
    intro p hp
    rw [List.mem_singleton] at hp
    rw [hp]
    simp only []
    rw [hb]
    decide
  | cons kv rest ih =>
    intro hok
    obtain ⟨k, s⟩ := kv
    have hs : s.bucket_size ≠ 0 := hok (k, s) (List.mem_cons_self _ _)
    have hrest : series_ok rest := fun p hp => hok p (List.mem_cons_of_mem _ hp)
    rw [series_add_event]
    by_cases hk : k = sev
    · rw [if_pos hk]
      obtain ⟨s1, hs1, hb⟩ := add_event_total s tp hs
      refine ⟨(k, s1) :: rest, by rw [hs1]; rfl, ?_⟩
      intro p hp
      rcases List.mem_cons.mp hp with hp | hp
      · rw [hp]
        simp only []
        rw [hb]
        exact hs
      · exact hrest p hp
    · rw [if_neg hk]
      obtain ⟨m1, hm1, hok1⟩ := ih hrest
      refine ⟨(k, s) :: m1, by rw [hm1]; rfl, ?_⟩
      intro p hp
      rcases List.mem_cons.mp hp with hp | hp
      · rw [hp]
        exact hs
      · exact hok1 p hp

theorem update_time_series_total (config : StatsConfig) (hb : config.time_bucket_size ≠ 0)
    (sev : Severity) (tp : TimePoint) (m : List (Severity × TimeSeries)) (hok : series_ok m) :
    ∃ m1, StatsBuilder.update_time_series config sev tp m = some m1 ∧ series_ok m1 := by
  unfold StatsBuilder.update_time_series
  simp only []
  split
  · apply series_add_event_total
    intro p hp
    rcases List.mem_append.mp hp with hp | hp
    · exact hok p hp
    · rw [List.mem_singleton] at hp
      rw [hp]
      exact hb
  · exact series_add_event_total sev tp m hok

theorem process_event_spec (config : StatsConfig) (hb : config.time_bucket_size ≠ 0)
    (e : Event) (s : Stats) (hok : series_ok s.severity_time_series) :
    ∃ s1, StatsBuilder.process_event config e s = some s1 ∧
      series_ok s1.severity_time_series ∧
      s1.severity_counts = map_increment e.sev s.severity_counts ∧
      s1.source_counts =
        (if e.src.source_path ≠ "" then map_increment e.src.source_path s.source_counts
          else s.source_counts) ∧
      s1.total_events = s.total_events := by
  obtain ⟨hc1, hc2, hc3, hc4, -, -⟩ := count_event_fields e s
  unfold StatsBuilder.process_event
  simp only []
  cases hts : e.ts with
  | none =>
    refine ⟨_, rfl, ?_, hc1, hc2, hc3⟩
    rw [hc4]
    exact hok
  | some ts =>
    simp only []
    obtain ⟨hw1, hw2, hw3, hw4⟩ := widen_times_fields ts.tp (StatsBuilder.count_event e s)
    obtain ⟨m1, hm1, hok1⟩ := update_time_series_total config hb e.sev ts.tp
      (StatsBuilder.widen_times ts.tp (StatsBuilder.count_event e s)).severity_time_series
      (by rw [hw4, hc4]; exact hok)
    rw [hm1]
    refine ⟨_, rfl, hok1, ?_, ?_, ?_⟩
    · simp only []
      rw [hw1, hc1]
    · simp only []
      rw [hw2, hc2]
    · simp only []
      rw [hw3, hc3]

theorem process_events_spec (config : StatsConfig) (hb : config.time_bucket_size ≠ 0) :
    ∀ (events : List Event) (s : Stats), series_ok s.severity_time_series →
      ∃ s1, StatsBuilder.process_events config events s = some s1 ∧
        s1.total_events = s.total_events ∧
        (∀ k, (s1.severity_counts.lookup k).getD 0 =
          (s.severity_counts.lookup k).getD 0 + events.countP (fun e => decide (e.sev = k))) ∧
        (s1.severity_counts.map Prod.snd).sum =
          (s.severity_counts.map Prod.snd).sum + events.length ∧
        (∀ p, p ≠ "" → (s1.source_counts.lookup p).getD 0 =
          (s.source_counts.lookup p).getD 0 +
            events.countP (fun e => decide (e.src.source_path = p))) := by
  intro events
  induction events with
  | nil =>
    intro s _
    exact ⟨s, rfl, rfl, by simp, by simp, by simp⟩
  | cons e rest ih =>
    intro s hok
    obtain ⟨s1, h1, hok1, hsev, hsrc, htot⟩ := process_event_spec config hb e s hok
    obtain ⟨s2, h2, htot2, hsev2, hsum2, hsrc2⟩ := ih s1 hok1
    refine ⟨s2, ?_, ?_, ?_, ?_, ?_⟩
    · rw [StatsBuilder.process_events, h1]
      exact h2
    · rw [htot2, htot]
    · intro k
      rw [hsev2 k, hsev, lookup_map_increment, List.countP_cons]
      by_cases hk : k = e.sev
      · rw [if_pos hk, hk]
        simp only [Option.getD_some, decide_True, if_true]
        omega
      · have hk1 : ¬ e.sev = k := fun h => hk h.symm
        rw [if_neg hk]
        simp only [hk1, decide_False, Bool.false_eq_true, if_false]
        omega
    · rw [hsum2, hsev, sum_map_increment, List.length_cons]
      omega
    · intro p hp
      rw [hsrc2 p hp, hsrc, List.countP_cons]
      by_cases hpath : e.src.source_path = p
      · have hne : e.src.source_path ≠ "" := by rw [hpath]; exact hp
        rw [if_pos hne, lookup_map_increment, if_pos hpath.symm, hpath]
        simp only [Option.getD_some, decide_True, if_true]
        omega
      · have hq : ¬ p = e.src.source_path := fun h => hpath h.symm
        simp only [hpath, decide_False, Bool.false_eq_true, if_false]
        by_cases hne : e.src.source_path ≠ ""
        · rw [if_pos hne, lookup_map_increment, if_neg hq]
          omega
        · rw [if_neg hne]
          omega

/-! ### Frequent patterns -/

theorem count_patterns_foldl (lib : StdLib) (config : StatsConfig) (events : List Event)
    (m : List (String × (Nat × Severity))) :
    events.foldl
        (fun pattern_counts event =>
          if event.message.utf8ByteSize ≥ config.min_pattern_length then
            let pattern := StatsBuilder.extract_pattern lib event.message
            if pattern ≠ "" then
              StatsBuilder.pattern_counts_visit pattern event.sev pattern_counts
            else pattern_counts
          else pattern_counts)
        m =
      (qualifying_messages lib config events).foldl
        (fun pattern_counts x => StatsBuilder.pattern_counts_visit x.1 x.2 pattern_counts) m := by
  induction events generalizing m with
  | nil => rfl
  | cons e rest ih =>
    rw [List.foldl_cons, ih]
    unfold qualifying_messages
    rw [List.filterMap_cons]
    by_cases h1 : e.message.utf8ByteSize ≥ config.min_pattern_length
    · by_cases h2 : StatsBuilder.extract_pattern lib e.message ≠ ""
      · simp only [if_pos h1, if_pos h2, List.foldl_cons]
      · simp only [if_pos h1, if_neg h2]
    · simp only [if_neg h1]

theorem keys_visit (p : String) (sev : Severity) (m : List (String × (Nat × Severity)))
    (x : String) (hx : x ∈ (StatsBuilder.pattern_counts_visit p sev m).map Prod.fst) :
    x = p ∨ x ∈ m.map Prod.fst := by
  induction m with
  | nil =>
    simp only [StatsBuilder.pattern_counts_visit, List.map_cons, List.map_nil,
      List.mem_singleton] at hx
    exact Or.inl hx
  | cons kv rest ih =>
    obtain ⟨k, v⟩ := kv
    rw [StatsBuilder.pattern_counts_visit] at hx
    by_cases hk : k = p
    · rw [if_pos hk] at hx
      exact Or.inr hx
    · rw [if_neg hk] at hx
      by_cases hlt : p.data < k.data
      · rw [if_pos hlt] at hx
        rcases List.mem_cons.mp hx with h | h
        · exact Or.inl h
        · exact Or.inr h
      · rw [if_neg hlt] at hx
        rcases List.mem_cons.mp hx with h | h
        · exact Or.inr (List.mem_cons.mpr (Or.inl h))
        · rcases ih h with h1 | h1
          · exact Or.inl h1
          · exact Or.inr (List.mem_cons_of_mem _ h1)

theorem sorted_visit (p : String) (sev : Severity) (m : List (String × (Nat × Severity)))
    (hm : (m.map Prod.fst).Pairwise (fun a b : String => a.data < b.data)) :
    ((StatsBuilder.pattern_counts_visit p sev m).map Prod.fst).Pairwise (fun a b : String => a.data < b.data) := by
  induction m with
  | nil => simp [StatsBuilder.pattern_counts_visit]
  | cons kv rest ih =>
    obtain ⟨k, v⟩ := kv
    rw [List.map_cons, List.pairwise_cons] at hm
    rw [StatsBuilder.pattern_counts_visit]
    by_cases hk : k = p
    · rw [if_pos hk, List.map_cons, List.pairwise_cons]
      exact hm
    · rw [if_neg hk]
      by_cases hlt : p.data < k.data
      · rw [if_pos hlt, List.map_cons, List.map_cons, List.pairwise_cons, List.pairwise_cons]
        refine ⟨?_, hm⟩
        intro x hx
        rcases List.mem_cons.mp hx with h | h
        · rw [h]
          exact hlt
        · exact lt_trans hlt (hm.1 x h)
      · rw [if_neg hlt, List.map_cons, List.pairwise_cons]
        refine ⟨?_, ih hm.2⟩
        intro x hx
        rcases keys_visit p sev rest x hx with h | h
        · rw [h]
          rcases lt_trichotomy k.data p.data with h1 | h1 | h1
          · exact h1
          · exact absurd (String.ext h1) hk
          · exact absurd h1 hlt
        · exact hm.1 x h

theorem lookup_none_of_not_mem {K V : Type} [DecidableEq K] (k : K) (m : List (K × V))
    (h : k ∉ m.map Prod.fst) : m.lookup k = none := by
  induction m with
  | nil => rfl
  | cons kv rest ih =>
    obtain ⟨k1, v1⟩ := kv
    rw [List.map_cons, List.mem_cons, not_or] at h
    rw [lookup_cons_ne _ _ _ _ h.1]
    exact ih h.2

theorem lookup_visit (p : String) (sev : Severity) (m : List (String × (Nat × Severity)))
    (hm : (m.map Prod.fst).Pairwise (fun a b : String => a.data < b.data)) (p1 : String) :
    (StatsBuilder.pattern_counts_visit p sev m).lookup p1 =
      if p1 = p then
        some (StatsBuilder.pattern_entry_update sev ((m.lookup p).getD (0, Severity.UNKNOWN)))
      else m.lookup p1 := by
  induction m with
  | nil =>
    rw [StatsBuilder.pattern_counts_visit]
    by_cases h : p1 = p
    · rw [if_pos h, h, lookup_cons_self]
      rfl
    · rw [if_neg h, lookup_cons_ne _ _ _ _ h]
  | cons kv rest ih =>
    obtain ⟨k, v⟩ := kv
    rw [List.map_cons, List.pairwise_cons] at hm
    rw [StatsBuilder.pattern_counts_visit]
    by_cases hk : k = p
    · rw [if_pos hk]
      by_cases h : p1 = p
      · rw [if_pos h, h, ← hk, lookup_cons_self, lookup_cons_self]
        rfl
      · have h1 : p1 ≠ k := by rw [hk]; exact h
        rw [if_neg h, lookup_cons_ne _ _ _ _ h1, lookup_cons_ne _ _ _ _ h1]
    · rw [if_neg hk]
      have hpk : p ≠ k := fun e => hk e.symm
      by_cases hlt : p.data < k.data
      · rw [if_pos hlt]
        have hnot : p ∉ ((k, v) :: rest).map Prod.fst := by
          intro hmem
          rcases List.mem_cons.mp hmem with h | h
          · exact hpk h
          · exact absurd (lt_trans hlt (hm.1 p h)) (lt_irrefl p.data)
        by_cases h : p1 = p
        · rw [if_pos h, h, lookup_cons_self, lookup_none_of_not_mem p _ hnot]
          rfl
        · rw [if_neg h, lookup_cons_ne _ _ _ _ h]
      · rw [if_neg hlt]
        by_cases h1 : p1 = k
        · have h : ¬ p1 = p := by rw [h1]; exact hk
          rw [if_neg h, h1, lookup_cons_self, lookup_cons_self]
        · rw [lookup_cons_ne _ _ _ _ h1, ih hm.2, lookup_cons_ne _ _ _ _ h1,
            lookup_cons_ne _ _ _ _ hpk]

theorem pattern_entry_update_eq (sev : Severity) (c : Nat) (s : Severity) :
    StatsBuilder.pattern_entry_update sev (c, s) = (c + 1, Severity.max s sev) := by
  unfold StatsBuilder.pattern_entry_update Severity.max
  by_cases h : s.toNat < sev.toNat
  · simp [h]
  · simp [h]

theorem pattern_count_concat (q : List (String × Severity)) (x : String × Severity)
    (p : String) :
    pattern_count (q ++ [x]) p = pattern_count q p + (if x.1 = p then 1 else 0) := by
  unfold pattern_count
  rw [List.countP_append, List.countP_singleton]
  by_cases h : x.1 = p <;> simp [h]

theorem pattern_max_severity_concat (q : List (String × Severity)) (x : String × Severity)
    (p : String) :
    pattern_max_severity (q ++ [x]) p =
      if x.1 = p then Severity.max (pattern_max_severity q p) x.2
      else pattern_max_severity q p := by
  unfold pattern_max_severity
  rw [List.filter_append]
  by_cases h : x.1 = p
  · rw [if_pos h, List.filter_singleton]
    simp [h, List.foldl_append]
  · rw [if_neg h, List.filter_singleton]
    simp [h]

theorem pattern_max_severity_of_count_zero (q : List (String × Severity)) (p : String)
    (h : pattern_count q p = 0) : pattern_max_severity q p = Severity.UNKNOWN := by
  unfold pattern_count at h
  unfold pattern_max_severity
  rw [List.countP_eq_zero] at h
  rw [List.filter_eq_nil_iff.mpr h]
  rfl

theorem pattern_fold_spec (q : List (String × Severity)) :
    ((q.foldl (fun m x => StatsBuilder.pattern_counts_visit x.1 x.2 m) []).map
        Prod.fst).Pairwise (fun a b : String => a.data < b.data) ∧
      ∀ p, (q.foldl (fun m x => StatsBuilder.pattern_counts_visit x.1 x.2 m) []).lookup p =
        if pattern_count q p = 0 then none
        else some (pattern_count q p, pattern_max_severity q p) := by
  induction q using List.reverseRecOn with
  | nil =>
    refine ⟨List.Pairwise.nil, ?_⟩
    intro p
    rfl
  | append_singleton q x ih =>
    obtain ⟨hsorted, hlookup⟩ := ih
    rw [List.foldl_append, List.foldl_cons, List.foldl_nil]
    refine ⟨sorted_visit _ _ _ hsorted, ?_⟩
    intro p
    rw [lookup_visit _ _ _ hsorted, pattern_count_concat, pattern_max_severity_concat]
    by_cases hp : p = x.1
    · have hx : x.1 = p := hp.symm
      rw [if_pos hp, if_pos hx, if_pos hx, if_neg (by omega), hlookup x.1, hx]
      by_cases h0 : pattern_count q p = 0
      · rw [if_pos h0, h0, pattern_max_severity_of_count_zero q p h0]
        simp only [Option.getD_none]
        rw [pattern_entry_update_eq]
      · rw [if_neg h0]
        simp only [Option.getD_some]
        rw [pattern_entry_update_eq]
    · have hx : ¬ x.1 = p := fun h => hp h.symm
      rw [if_neg hp, if_neg hx, if_neg hx, hlookup p]
      rfl

theorem mem_iff_lookup {K V : Type} [DecidableEq K] (m : List (K × V))
    (hm : (m.map Prod.fst).Nodup) (k : K) (v : V) :
    (k, v) ∈ m ↔ m.lookup k = some v := by
  induction m with
  | nil => simp
  | cons kv rest ih =>
    obtain ⟨k1, v1⟩ := kv
    rw [List.map_cons, List.nodup_cons] at hm
    by_cases hk : k = k1
    · rw [hk, lookup_cons_self, List.mem_cons]
      constructor
      · intro h
        rcases h with h | h
        · cases h
          rfl
        · exact absurd (List.mem_map_of_mem Prod.fst h) hm.1
      · intro h
        cases h
        exact Or.inl rfl
    · rw [lookup_cons_ne _ _ _ _ hk, List.mem_cons, ← ih hm.2]
      constructor
      · intro h
        rcases h with h | h
        · cases h
          exact absurd rfl hk
        · exact h
      · intro h
        exact Or.inr h

theorem pattern_count_ne_zero_iff (q : List (String × Severity)) (p : String) :
    pattern_count q p ≠ 0 ↔ p ∈ q.map Prod.fst := by
  unfold pattern_count
  rw [Nat.ne_zero_iff_zero_lt, List.countP_pos_iff]
  constructor
  · rintro ⟨x, hx, hp⟩
    exact List.mem_map.mpr ⟨x, hx, by simpa using hp⟩
  · intro h
    obtain ⟨x, hx, hp⟩ := List.mem_map.mp h
    exact ⟨x, hx, by simpa using hp⟩

theorem count_patterns_spec (lib : StdLib) (config : StatsConfig) (events : List Event) :
    ((StatsBuilder.count_patterns lib config events).map Prod.fst).Nodup ∧
    (∀ p c s, (p, (c, s)) ∈ StatsBuilder.count_patterns lib config events ↔
      p ∈ (qualifying_messages lib config events).map Prod.fst ∧
        c = pattern_count (qualifying_messages lib config events) p ∧
        s = pattern_max_severity (qualifying_messages lib config events) p) := by
  unfold StatsBuilder.count_patterns
  rw [count_patterns_foldl]
  obtain ⟨hsorted, hlookup⟩ := pattern_fold_spec (qualifying_messages lib config events)
  have hnodup : ((List.foldl
      (fun pattern_counts x => StatsBuilder.pattern_counts_visit x.1 x.2 pattern_counts) []
      (qualifying_messages lib config events)).map Prod.fst).Nodup :=
    List.Pairwise.imp
      (fun {a b : String} (h : a.data < b.data) (e : a = b) =>
        absurd h (by rw [e]; exact lt_irrefl b.data)) hsorted
  refine ⟨hnodup, ?_⟩
  intro p c s
  rw [mem_iff_lookup _ hnodup, hlookup, ← pattern_count_ne_zero_iff]
  by_cases h0 : pattern_count (qualifying_messages lib config events) p = 0
  · rw [if_pos h0]
    constructor
    · intro h
      cases h
    · intro h
      exact absurd h0 h.1
  · rw [if_neg h0]
    constructor
    · intro h
      cases h
      exact ⟨h0, rfl, rfl⟩
    · rintro ⟨-, hc, hs⟩
      rw [hc, hs]

theorem frequent_patterns_spec (lib : StdLib) (config : StatsConfig) (events : List Event)
    (stats : Stats) (hsort : sort_contract lib.std_sort) :
    top_patterns (qualifying_messages lib config events) config.top_n_patterns
      (StatsBuilder.compute_frequent_patterns lib config events stats).frequent_patterns := by
  obtain ⟨hnodup, hmem⟩ := count_patterns_spec lib config events
  obtain ⟨hperm, hsorted⟩ := hsort ((StatsBuilder.count_patterns lib config events).map
    (fun kv => ({ pattern := kv.1, count := kv.2.1, max_severity := kv.2.2 } : FrequentPattern)))
  have hentry : ∀ e : FrequentPattern,
      e ∈ lib.std_sort ((StatsBuilder.count_patterns lib config events).map
        (fun kv => ({ pattern := kv.1, count := kv.2.1, max_severity := kv.2.2 } :
          FrequentPattern))) ↔
      e.pattern ∈ (qualifying_messages lib config events).map Prod.fst ∧
        e.count = pattern_count (qualifying_messages lib config events) e.pattern ∧
        e.max_severity =
          pattern_max_severity (qualifying_messages lib config events) e.pattern := by
    intro e
    rw [hperm.mem_iff, List.mem_map]
    constructor
    · rintro ⟨⟨p, c, s⟩, hkv, he⟩
      rw [← he]
      exact (hmem p c s).mp hkv
    · intro h
      exact ⟨(e.pattern, (e.count, e.max_severity)),
        (hmem e.pattern e.count e.max_severity).mpr h, rfl⟩
  have hpat : (lib.std_sort ((StatsBuilder.count_patterns lib config events).map
      (fun kv => ({ pattern := kv.1, count := kv.2.1, max_severity := kv.2.2 } :
        FrequentPattern)))).map (fun e => e.pattern) |>.Perm
      ((StatsBuilder.count_patterns lib config events).map Prod.fst) := by
    have h := hperm.map (fun e : FrequentPattern => e.pattern)
    rw [List.map_map] at h
    exact h
  have hkeys : ((StatsBuilder.count_patterns lib config events).map Prod.fst).Perm
      ((qualifying_messages lib config events).map Prod.fst).dedup := by
    rw [List.perm_ext_iff_of_nodup hnodup (List.nodup_dedup _)]
    intro p
    rw [List.mem_dedup, List.mem_map]
    constructor
    · rintro ⟨⟨p1, c, s⟩, hkv, hp⟩
      rw [← hp]
      exact ((hmem p1 c s).mp hkv).1
    · intro h
      exact ⟨(p, (_, _)), (hmem p _ _).mpr ⟨h, rfl, rfl⟩, rfl⟩
  unfold StatsBuilder.compute_frequent_patterns top_patterns
  simp only []
  refine ⟨?_, ?_, ?_, ?_, ?_⟩
  · rw [List.length_take, ← hkeys.length_eq, ← hpat.length_eq, List.length_map]
    omega
  · exact List.Pairwise.imp (fun {a b : FrequentPattern} (h : ¬ b.count > a.count) =>
      not_lt.mp h) (hsorted.sublist (List.take_sublist _ _))
  · exact List.Nodup.sublist ((List.take_sublist _ _).map _) (hpat.nodup_iff.mpr hnodup)
  · intro e he
    exact (hentry e).mp (List.mem_of_mem_take he)
  · intro p hp hnot e he
    have hin : FrequentPattern.mk p (pattern_count (qualifying_messages lib config events) p)
        (pattern_max_severity (qualifying_messages lib config events) p) ∈
        lib.std_sort ((StatsBuilder.count_patterns lib config events).map
          (fun kv => ({ pattern := kv.1, count := kv.2.1, max_severity := kv.2.2 } :
            FrequentPattern))) :=
      (hentry _).mpr ⟨hp, rfl, rfl⟩
    rw [← List.take_append_drop (min config.top_n_patterns
      (lib.std_sort ((StatsBuilder.count_patterns lib config events).map
        (fun kv => ({ pattern := kv.1, count := kv.2.1, max_severity := kv.2.2 } :
          FrequentPattern)))).length) (lib.std_sort _)] at hin hsorted
    rw [List.pairwise_append] at hsorted
    rcases List.mem_append.mp hin with h | h
    · exact absurd (List.mem_map.mpr ⟨_, h, rfl⟩) hnot
    · exact not_lt.mp (hsorted.2.2 e he _ h)

theorem pairwise_ordered_insert_count (x : FrequentPattern) (l : List FrequentPattern)
    (h : l.Pairwise (fun a b => ¬ b.count > a.count)) :
    (ordered_insert (fun a b : FrequentPattern => decide (a.count > b.count)) x l).Pairwise
      (fun a b => ¬ b.count > a.count) := by
  induction l with
  | nil => simp [ordered_insert]
  | cons y ys ih =>
    unfold ordered_insert
    rw [List.pairwise_cons] at h
    by_cases hc : decide (y.count > x.count) = true
    · rw [if_pos hc, List.pairwise_cons]
      refine ⟨?_, ih h.2⟩
      intro z hz
      rcases List.mem_cons.mp ((perm_ordered_insert _ x ys).mem_iff.mp hz) with hz | hz
      · rw [hz]
        have := of_decide_eq_true hc
        omega
      · exact h.1 z hz
    · rw [if_neg hc, List.pairwise_cons]
      have hxy : ¬ y.count > x.count := fun hlt => hc (decide_eq_true hlt)
      refine ⟨?_, List.pairwise_cons.mpr h⟩
      intro z hz
      rcases List.mem_cons.mp hz with hz | hz
      · rw [hz]
        exact hxy
      · have := h.1 z hz
        omega

theorem pairwise_stable_sort_count (l : List FrequentPattern) :
    (stable_sort (fun a b : FrequentPattern => decide (a.count > b.count)) l).Pairwise
      (fun a b => ¬ b.count > a.count) := by
  induction l with
  | nil => simp [stable_sort]
  | cons x xs ih =>
    unfold stable_sort
    exact pairwise_ordered_insert_count x _ ih

theorem sort_contract_plain_lib : sort_contract plain_lib.std_sort :=
  fun l => ⟨perm_stable_sort _ l, pairwise_stable_sort_count l⟩

/-! ### The event index -/

theorem keys_ordered_push {V : Type} (key : Int) (v : V) (m : List (Int × List V)) (x : Int)
    (hx : x ∈ (ordered_map_push_back key v m).map Prod.fst) :
    x = key ∨ x ∈ m.map Prod.fst := by
  induction m with
  | nil =>
    simp only [ordered_map_push_back, List.map_cons, List.map_nil, List.mem_singleton] at hx
    exact Or.inl hx
  | cons kv rest ih =>
    obtain ⟨k, vs⟩ := kv
    rw [ordered_map_push_back] at hx
    by_cases hk : k = key
    · rw [if_pos hk] at hx
      exact Or.inr hx
    · rw [if_neg hk] at hx
      by_cases hlt : key < k
      · rw [if_pos hlt] at hx
        rcases List.mem_cons.mp hx with h | h
        · exact Or.inl h
        · exact Or.inr h
      · rw [if_neg hlt] at hx
        rcases List.mem_cons.mp hx with h | h
        · exact Or.inr (List.mem_cons.mpr (Or.inl h))
        · rcases ih h with h1 | h1
          · exact Or.inl h1
          · exact Or.inr (List.mem_cons_of_mem _ h1)

theorem sorted_ordered_push {V : Type} (key : Int) (v : V) (m : List (Int × List V))
    (hm : (m.map Prod.fst).Pairwise (fun a b => a < b)) :
    ((ordered_map_push_back key v m).map Prod.fst).Pairwise (fun a b => a < b) := by
  induction m with
  | nil => simp [ordered_map_push_back]
  | cons kv rest ih =>
    obtain ⟨k, vs⟩ := kv
    rw [List.map_cons, List.pairwise_cons] at hm
    rw [ordered_map_push_back]
    by_cases hk : k = key
    · rw [if_pos hk, List.map_cons, List.pairwise_cons]
      exact hm
    · rw [if_neg hk]
      by_cases hlt : key < k
      · rw [if_pos hlt, List.map_cons, List.map_cons, List.pairwise_cons, List.pairwise_cons]
        refine ⟨?_, hm⟩
        intro x hx
        rcases List.mem_cons.mp hx with h | h
        · rw [h]
          exact hlt
        · exact lt_trans hlt (hm.1 x h)
      · rw [if_neg hlt, List.map_cons, List.pairwise_cons]
        refine ⟨?_, ih hm.2⟩
        intro x hx
        rcases keys_ordered_push key v rest x hx with h | h
        · rw [h]
          omega
        · exact hm.1 x h

theorem lookup_ordered_push {V : Type} (key : Int) (v : V) (m : List (Int × List V))
    (hm : (m.map Prod.fst).Pairwise (fun a b => a < b)) (k1 : Int) :
    (ordered_map_push_back key v m).lookup k1 =
      if k1 = key then some ((m.lookup key).getD [] ++ [v]) else m.lookup k1 := by
  induction m with
  | nil =>
    rw [ordered_map_push_back]
    by_cases h : k1 = key
    · rw [if_pos h, h, lookup_cons_self]
      rfl
    · rw [if_neg h, lookup_cons_ne _ _ _ _ h]
  | cons kv rest ih =>
    obtain ⟨k, vs⟩ := kv
    rw [List.map_cons, List.pairwise_cons] at hm
    rw [ordered_map_push_back]
    by_cases hk : k = key
    · rw [if_pos hk]
      by_cases h : k1 = key
      · rw [if_pos h, h, ← hk, lookup_cons_self, lookup_cons_self]
        rfl
      · have h1 : k1 ≠ k := by rw [hk]; exact h
        rw [if_neg h, lookup_cons_ne _ _ _ _ h1, lookup_cons_ne _ _ _ _ h1]
    · rw [if_neg hk]
      have hpk : key ≠ k := fun e => hk e.symm
      by_cases hlt : key < k
      · rw [if_pos hlt]
        have hnot : key ∉ ((k, vs) :: rest).map Prod.fst := by
          intro hmem
          rcases List.mem_cons.mp hmem with h | h
          · exact hpk h
          · exact absurd (lt_trans hlt (hm.1 key h)) (lt_irrefl key)
        by_cases h : k1 = key
        · rw [if_pos h, h, lookup_cons_self, lookup_none_of_not_mem key _ hnot]
          rfl
        · rw [if_neg h, lookup_cons_ne _ _ _ _ h]
      · rw [if_neg hlt]
        by_cases h1 : k1 = k
        · have h : ¬ k1 = key := by rw [h1]; exact hk
          rw [if_neg h, h1, lookup_cons_self, lookup_cons_self]
        · rw [lookup_cons_ne _ _ _ _ h1, ih hm.2, lookup_cons_ne _ _ _ _ h1,
            lookup_cons_ne _ _ _ _ hpk]

theorem build_fields (events : List Event) (idx : EventIndex) :
    (events.foldl EventIndex.index_event idx).time_index_ =
        events.foldl (fun m e => EventIndex.index_time e m) idx.time_index_ ∧
      (events.foldl EventIndex.index_event idx).severity_index_ =
        events.foldl (fun m e => map_push_back e.sev e.id m) idx.severity_index_ ∧
      (events.foldl EventIndex.index_event idx).correlation_index_ =
        events.foldl (fun m e => EventIndex.index_correlation e m) idx.correlation_index_ := by
  induction events generalizing idx with
  | nil => exact ⟨rfl, rfl, rfl⟩
  | cons e rest ih =>
    rw [List.foldl_cons, List.foldl_cons, List.foldl_cons, List.foldl_cons]
    exact ih (EventIndex.index_event idx e)

theorem time_index_spec (events : List Event) :
    ((events.foldl (fun m e => EventIndex.index_time e m) []).map Prod.fst).Pairwise
        (fun a b => a < b) ∧
      ∀ b, (events.foldl (fun m e => EventIndex.index_time e m) []).lookup b =
        if events.filter (in_time_bucket b) = [] then none
        else some ((events.filter (in_time_bucket b)).map (fun e => e.id)) := by
  induction events using List.reverseRecOn with
  | nil =>
    refine ⟨List.Pairwise.nil, ?_⟩
    intro b
    rfl
  | append_singleton l e ih =>
    obtain ⟨hsorted, hlookup⟩ := ih
    rw [List.foldl_append, List.foldl_cons, List.foldl_nil]
    have hget : ∀ b, ((l.foldl (fun m e => EventIndex.index_time e m) []).lookup b).getD [] =
        (l.filter (in_time_bucket b)).map (fun e => e.id) := by
      intro b
      rw [hlookup b]
      by_cases h : l.filter (in_time_bucket b) = []
      · rw [if_pos h, h]
        rfl
      · rw [if_neg h]
        rfl
    generalize l.foldl (fun m e => EventIndex.index_time e m) [] = M at hsorted hlookup hget ⊢
    unfold EventIndex.index_time
    cases hts : e.ts with
    | none =>
      refine ⟨hsorted, ?_⟩
      intro b
      simp only []
      rw [hlookup b, List.filter_append]
      have : [e].filter (in_time_bucket b) = [] := by
        simp [in_time_bucket, hts]
      rw [this, List.append_nil]
    | some ts =>
      simp only []
      by_cases hv : ts.is_valid = true
      · rw [if_pos hv]
        refine ⟨sorted_ordered_push _ _ _ hsorted, ?_⟩
        intro b
        rw [lookup_ordered_push _ _ _ hsorted, hget, List.filter_append]
        by_cases hb : b = EventIndex.time_to_bucket ts.tp
        · have : [e].filter (in_time_bucket b) = [e] := by
            simp [in_time_bucket, hts, hv, hb]
          rw [if_pos hb, this, if_neg (by simp), ← hb]
          simp
        · have : [e].filter (in_time_bucket b) = [] := by
            have hb1 : ¬ EventIndex.time_to_bucket ts.tp = b := fun h => hb h.symm
            simp [in_time_bucket, hts, hb1]
          rw [if_neg hb, this, List.append_nil, hlookup b]
      · rw [if_neg hv]
        refine ⟨hsorted, ?_⟩
        intro b
        rw [hlookup b, List.filter_append]
        have : [e].filter (in_time_bucket b) = [] := by
          simp [in_time_bucket, hts, hv]
        rw [this, List.append_nil]

theorem takeWhile_nil_of_forall {α : Type} (p : α → Bool) (l : List α)
    (h : ∀ x ∈ l, p x = false) : l.takeWhile p = [] := by
  cases l with
  | nil => rfl
  | cons a rest =>
    rw [List.takeWhile_cons_of_neg]
    rw [h a (List.mem_cons_self _ _)]
    exact Bool.false_ne_true

theorem range_slice {V : Type} (m : List (Int × V))
    (hm : (m.map Prod.fst).Pairwise (fun a b => a < b)) (sb eb : Int) (h : sb ≤ eb) :
    EventIndex.lower_bound m sb ≤ EventIndex.upper_bound m eb ∧
      (m.drop (EventIndex.lower_bound m sb)).take
          (EventIndex.upper_bound m eb - EventIndex.lower_bound m sb) =
        m.filter (fun kv => decide (sb ≤ kv.1 ∧ kv.1 ≤ eb)) := by
  induction m with
  | nil => exact ⟨Nat.le_refl _, rfl⟩
  | cons kv rest ih =>
    obtain ⟨k, v⟩ := kv
    rw [List.map_cons, List.pairwise_cons] at hm
    obtain ⟨hle, hslice⟩ := ih hm.2
    have hkeys : ∀ x ∈ rest, k < x.1 := fun x hx => hm.1 x.1 (List.mem_map_of_mem Prod.fst hx)
    unfold EventIndex.lower_bound EventIndex.upper_bound at hle hslice ⊢
    by_cases h1 : k < sb
    · have h2 : k ≤ eb := by omega
      rw [List.takeWhile_cons_of_pos (by simpa using h1),
        List.takeWhile_cons_of_pos (by simpa using h2), List.length_cons, List.length_cons,
        List.drop_succ_cons, Nat.add_sub_add_right,
        List.filter_cons_of_neg (by simp; omega)]
      exact ⟨Nat.succ_le_succ hle, hslice⟩
    · rw [List.takeWhile_cons_of_neg (by simpa using h1)]
      have hlb : List.takeWhile (fun kv : Int × V => decide (kv.1 < sb)) rest = [] := by
        apply takeWhile_nil_of_forall
        intro x hx
        have := hkeys x hx
        simp only [decide_eq_false_iff_not]
        omega
      rw [hlb] at hslice
      simp only [List.length_nil, List.drop_zero, Nat.sub_zero] at hslice ⊢
      by_cases h2 : k ≤ eb
      · rw [List.takeWhile_cons_of_pos (by simpa using h2), List.length_cons,
          List.take_succ_cons, hslice,
          List.filter_cons_of_pos (by simp; omega)]
        exact ⟨Nat.zero_le _, rfl⟩
      · rw [List.takeWhile_cons_of_neg (by simpa using h2), List.length_nil, List.take_zero,
          List.filter_cons_of_neg (by simp; omega)]
        refine ⟨Nat.le_refl _, ?_⟩
        symm
        rw [List.filter_eq_nil_iff]
        intro x hx
        have := hkeys x hx
        simp only [decide_eq_true_eq]
        omega

theorem tdiv_mono (a b c : Int) (hc : 0 < c) (h : a ≤ b) : Int.tdiv a c ≤ Int.tdiv b c := by
  have hneg : ∀ x : Int, Int.tdiv x c = -(Int.tdiv (-x) c) := by
    intro x
    rw [Int.neg_tdiv, neg_neg]
  by_cases ha : 0 ≤ a
  · rw [Int.tdiv_eq_ediv ha (le_of_lt hc), Int.tdiv_eq_ediv (le_trans ha h) (le_of_lt hc)]
    exact Int.ediv_le_ediv hc h
  · have ha1 : 0 ≤ Int.tdiv (-a) c := Int.tdiv_nonneg (by omega) (le_of_lt hc)
    by_cases hb : 0 ≤ b
    · have hb1 : 0 ≤ Int.tdiv b c := Int.tdiv_nonneg hb (le_of_lt hc)
      rw [hneg a]
      omega
    · rw [hneg a, hneg b, Int.tdiv_eq_ediv (by omega) (le_of_lt hc),
        Int.tdiv_eq_ediv (by omega) (le_of_lt hc)]
      have := @Int.ediv_le_ediv (-b) (-a) c hc (by omega)
      omega

theorem lookup_map_push_back {K V : Type} [DecidableEq K] (key : K) (v : V)
    (m : List (K × List V)) (k1 : K) :
    (map_push_back key v m).lookup k1 =
      if k1 = key then some ((m.lookup key).getD [] ++ [v]) else m.lookup k1 := by
  induction m with
  | nil =>
    rw [map_push_back]
    by_cases h : k1 = key
    · rw [if_pos h, h, lookup_cons_self]
      rfl
    · rw [if_neg h, lookup_cons_ne _ _ _ _ h]
  | cons kv rest ih =>
    obtain ⟨k, vs⟩ := kv
    rw [map_push_back]
    by_cases hk : k = key
    · rw [if_pos hk]
      by_cases h : k1 = key
      · rw [if_pos h, h, ← hk, lookup_cons_self, lookup_cons_self]
        rfl
      · have h1 : k1 ≠ k := by rw [hk]; exact h
        rw [if_neg h, lookup_cons_ne _ _ _ _ h1, lookup_cons_ne _ _ _ _ h1]
    · rw [if_neg hk]
      have hpk : key ≠ k := fun e => hk e.symm
      by_cases h1 : k1 = k
      · have h : ¬ k1 = key := by rw [h1]; exact hk
        rw [if_neg h, h1, lookup_cons_self, lookup_cons_self]
      · rw [lookup_cons_ne _ _ _ _ h1, ih, lookup_cons_ne _ _ _ _ h1,
          lookup_cons_ne _ _ _ _ hpk]

theorem ids_at_push_keep {K : Type} [DecidableEq K] (key : K) (v : EventId)
    (m : List (K × List EventId)) (k : K) (x : EventId) (hx : x ∈ ids_at m k) :
    x ∈ ids_at (map_push_back key v m) k := by
  unfold ids_at at hx ⊢
  rw [lookup_map_push_back]
  by_cases h : k = key
  · rw [if_pos h, ← h]
    exact List.mem_append_left _ hx
  · rw [if_neg h]
    exact hx

theorem ids_at_push_new {K : Type} [DecidableEq K] (key : K) (v : EventId)
    (m : List (K × List EventId)) : v ∈ ids_at (map_push_back key v m) key := by
  unfold ids_at
  rw [lookup_map_push_back, if_pos rfl]
  exact List.mem_append_right _ (List.mem_singleton.mpr rfl)

theorem fold_reach {K : Type} [DecidableEq K]
    (step : Event → List (K × List EventId) → List (K × List EventId))
    (hkeep : ∀ e m k x, x ∈ ids_at m k → x ∈ ids_at (step e m) k)
    (tagged : Event → K → Prop) (hnew : ∀ e m k, tagged e k → e.id ∈ ids_at (step e m) k) :
    ∀ (l : List Event) (m : List (K × List EventId)),
      (∀ k x, x ∈ ids_at m k → x ∈ ids_at (l.foldl (fun m e => step e m) m) k) ∧
      (∀ e ∈ l, ∀ k, tagged e k → e.id ∈ ids_at (l.foldl (fun m e => step e m) m) k) := by
  intro l
  induction l with
  | nil =>
    intro m
    exact ⟨fun _ _ hx => hx, fun e he => absurd he (List.not_mem_nil e)⟩
  | cons a rest ih =>
    intro m
    obtain ⟨hk, hn⟩ := ih (step a m)
    rw [List.foldl_cons]
    refine ⟨fun k x hx => hk k x (hkeep a m k x hx), ?_⟩
    intro e he k ht
    rcases List.mem_cons.mp he with h | h
    · rw [h]
      exact hk k a.id (hnew a m k (by rw [← h]; exact ht))
    · exact hn e h k ht

theorem index_correlation_keep (e : Event) (m : List (String × List EventId)) (k : String)
    (x : EventId) (hx : x ∈ ids_at m k) : x ∈ ids_at (EventIndex.index_correlation e m) k := by
  unfold EventIndex.index_correlation
  simp only []
  have h1 : x ∈ ids_at
      (match e.tags.find "request_id" with
        | some v => map_push_back v e.id m
        | none => m) k := by
    cases e.tags.find "request_id" with
    | none => exact hx
    | some v => exact ids_at_push_keep _ _ _ _ _ hx
  have h2 : x ∈ ids_at
      (match e.tags.find "trace_id" with
        | some v => map_push_back v e.id
            (match e.tags.find "request_id" with
              | some v => map_push_back v e.id m
              | none => m)
        | none =>
            (match e.tags.find "request_id" with
              | some v => map_push_back v e.id m
              | none => m)) k := by
    cases e.tags.find "trace_id" with
    | none => exact h1
    | some v => exact ids_at_push_keep _ _ _ _ _ h1
  cases e.tags.find "uuid" with
  | none => exact h2
  | some v => exact ids_at_push_keep _ _ _ _ _ h2

theorem index_correlation_new (e : Event) (m : List (String × List EventId)) (k : String)
    (h : e.tags.find "request_id" = some k ∨ e.tags.find "trace_id" = some k) :
    e.id ∈ ids_at (EventIndex.index_correlation e m) k := by
  unfold EventIndex.index_correlation
  simp only []
  have h2 : e.id ∈ ids_at
      (match e.tags.find "trace_id" with
        | some v => map_push_back v e.id
            (match e.tags.find "request_id" with
              | some v => map_push_back v e.id m
              | none => m)
        | none =>
            (match e.tags.find "request_id" with
              | some v => map_push_back v e.id m
              | none => m)) k := by
    rcases h with h | h
    · have h1 : e.id ∈ ids_at
          (match e.tags.find "request_id" with
            | some v => map_push_back v e.id m
            | none => m) k := by
        rw [h]
        exact ids_at_push_new _ _ _
      cases e.tags.find "trace_id" with
      | none => exact h1
      | some v => exact ids_at_push_keep _ _ _ _ _ h1
    · rw [h]
      exact ids_at_push_new _ _ _
  cases e.tags.find "uuid" with
  | none => exact h2
  | some v => exact ids_at_push_keep _ _ _ _ _ h2

theorem time_index_range_of_buckets (events : List Event) (start finish : TimePoint)
    (hle : EventIndex.time_to_bucket start ≤ EventIndex.time_to_bucket finish) :
    ∃ buckets : List Int, buckets.Pairwise (fun a b => a < b) ∧
      (∀ b, b ∈ buckets ↔
        (EventIndex.time_to_bucket start ≤ b ∧ b ≤ EventIndex.time_to_bucket finish ∧
          ∃ e ∈ events, in_time_bucket b e = true)) ∧
      EventIndex.get_by_time_range (EventIndex.build events) start finish =
        some ((buckets.map
          (fun b => (events.filter (in_time_bucket b)).map (fun e => e.id))).flatten) := by
  obtain ⟨hsorted, hlookup⟩ := time_index_spec events
  have hfield : (EventIndex.build events).time_index_ =
      events.foldl (fun m e => EventIndex.index_time e m) [] := (build_fields events _).1
  generalize events.foldl (fun m e => EventIndex.index_time e m) [] = M at hsorted hlookup hfield
  obtain ⟨hpos, hslice⟩ := range_slice M hsorted _ _ hle
  have hnodup : (M.map Prod.fst).Nodup :=
    List.Pairwise.imp (fun {a b : Int} (h : a < b) => ne_of_lt h) hsorted
  refine ⟨(M.filter (fun kv => decide (EventIndex.time_to_bucket start ≤ kv.1 ∧
    kv.1 ≤ EventIndex.time_to_bucket finish))).map Prod.fst, ?_, ?_, ?_⟩
  · exact hsorted.sublist ((List.filter_sublist _).map _)
  · intro b
    rw [List.mem_map]
    constructor
    · rintro ⟨⟨k, vs⟩, hkv, hb⟩
      rw [List.mem_filter] at hkv
      simp only [decide_eq_true_eq] at hkv hb
      rw [← hb]
      refine ⟨hkv.2.1, hkv.2.2, ?_⟩
      have hl := (mem_iff_lookup M hnodup k vs).mp hkv.1
      rw [hlookup k] at hl
      by_cases hnil : events.filter (in_time_bucket k) = []
      · rw [if_pos hnil] at hl
        cases hl
      · obtain ⟨e, he⟩ := List.exists_mem_of_ne_nil _ hnil
        rw [List.mem_filter] at he
        exact ⟨e, he.1, he.2⟩
    · rintro ⟨h1, h2, e, he, hb⟩
      have hne : events.filter (in_time_bucket b) ≠ [] :=
        List.ne_nil_of_mem (List.mem_filter.mpr ⟨he, hb⟩)
      have hl := hlookup b
      rw [if_neg hne] at hl
      exact ⟨(b, _), List.mem_filter.mpr
        ⟨(mem_iff_lookup M hnodup b _).mpr hl, by simp [h1, h2]⟩, rfl⟩
  · unfold EventIndex.get_by_time_range
    simp only [hfield]
    rw [if_pos hpos, hslice, List.map_map]
    congr 2
    apply List.map_congr_left
    rintro ⟨k, vs⟩ hkv
    have hl := (mem_iff_lookup M hnodup k vs).mp (List.mem_filter.mp hkv).1
    rw [hlookup k] at hl
    by_cases hnil : events.filter (in_time_bucket k) = []
    · rw [if_pos hnil] at hl
      cases hl
    · rw [if_neg hnil] at hl
      cases hl
      rfl

theorem time_index_range (events : List Event) (start finish : TimePoint)
    (h : start ≤ finish) :
    ∃ buckets : List Int, buckets.Pairwise (fun a b => a < b) ∧
      (∀ b, b ∈ buckets ↔
        (EventIndex.time_to_bucket start ≤ b ∧ b ≤ EventIndex.time_to_bucket finish ∧
          ∃ e ∈ events, in_time_bucket b e = true)) ∧
      EventIndex.get_by_time_range (EventIndex.build events) start finish =
        some ((buckets.map
          (fun b => (events.filter (in_time_bucket b)).map (fun e => e.id))).flatten) :=
  time_index_range_of_buckets events start finish
    (tdiv_mono start finish ticks_per_minute (by decide) h)

theorem get_by_severity_eq (idx : EventIndex) (sev : Severity) :
    EventIndex.get_by_severity idx sev = ids_at idx.severity_index_ sev := by
  unfold EventIndex.get_by_severity ids_at
  cases idx.severity_index_.lookup sev <;> rfl

theorem get_by_correlation_id_eq (idx : EventIndex) (corr_id : String) :
    EventIndex.get_by_correlation_id idx corr_id = ids_at idx.correlation_index_ corr_id := by
  unfold EventIndex.get_by_correlation_id ids_at
  cases idx.correlation_index_.lookup corr_id <;> rfl

/-! ### Severity names -/

theorem toNat_ofNat_small (n : Nat) (h : n < 55296) : (Char.ofNat n).toNat = n := by
  unfold Char.ofNat
  have hv : n.isValidChar := Or.inl h
  rw [dif_pos hv]
  simp [Char.toNat, Char.ofNatAux, UInt32.toNat]

theorem toUpper_idem (c : Char) : c.toUpper.toUpper = c.toUpper := by
  by_cases h : c.toNat ≥ 97 ∧ c.toNat ≤ 122
  · have h1 : c.toUpper = Char.ofNat (c.toNat - 32) := by
      unfold Char.toUpper
      simp only []
      rw [if_pos h]
    have h2 : (Char.ofNat (c.toNat - 32)).toNat = c.toNat - 32 :=
      toNat_ofNat_small _ (by omega)
    rw [h1]
    unfold Char.toUpper
    simp only []
    rw [h2, if_neg (by omega)]
  · have h1 : c.toUpper = c := by
      unfold Char.toUpper
      simp only []
      rw [if_neg h]
    rw [h1, h1]

theorem upper_str_idem (s : String) : upper_str (String.mk (upper_str s)) = upper_str s := by
  unfold upper_str
  simp only [List.map_map]
  apply List.map_congr_left
  intro c _
  exact toUpper_idem c

theorem severity_from_string_eq (s : String) :
    severity_from_string s = severity_of_name (upper_str s) := by
  unfold severity_from_string severity_of_name severity_names
  simp only [List.find?]
  generalize upper_str s = u
  by_cases h1 : u = "TRACE".data
  · simp [h1]
  by_cases h2 : u = "VERBOSE".data
  · simp [h2]
  by_cases h3 : u = "DEBUG".data
  · simp [h3]
  by_cases h4 : u = "DBG".data
  · simp [h4]
  by_cases h5 : u = "INFO".data
  · simp [h5]
  by_cases h6 : u = "INFORMATION".data
  · simp [h6]
  by_cases h7 : u = "WARN".data
  · simp [h7]
  by_cases h8 : u = "WARNING".data
  · simp [h8]
  by_cases h9 : u = "ERROR".data
  · simp [h9]
  by_cases h10 : u = "ERR".data
  · simp [h10]
  by_cases h11 : u = "FATAL".data
  · simp [h11]
  by_cases h12 : u = "CRITICAL".data
  · simp [h12]
  by_cases h13 : u = "SEVERE".data
  · simp [h13]
  have e1 := fun h : "TRACE".data = u => h1 h.symm
  have e2 := fun h : "VERBOSE".data = u => h2 h.symm
  have e3 := fun h : "DEBUG".data = u => h3 h.symm
  have e4 := fun h : "DBG".data = u => h4 h.symm
  have e5 := fun h : "INFO".data = u => h5 h.symm
  have e6 := fun h : "INFORMATION".data = u => h6 h.symm
  have e7 := fun h : "WARN".data = u => h7 h.symm
  have e8 := fun h : "WARNING".data = u => h8 h.symm
  have e9 := fun h : "ERROR".data = u => h9 h.symm
  have e10 := fun h : "ERR".data = u => h10 h.symm
  have e11 := fun h : "FATAL".data = u => h11 h.symm
  have e12 := fun h : "CRITICAL".data = u => h12 h.symm
  have e13 := fun h : "SEVERE".data = u => h13 h.symm
  simp_all

/-! ### Scenarios -/

theorem event_map_find_three (e1 e2 e3 : Event) (h12 : e1.id ≠ e2.id) (h13 : e1.id ≠ e3.id)
    (h23 : e2.id ≠ e3.id) :
    event_map_find [e1, e2, e3] e1.id = some e1 ∧
    event_map_find [e1, e2, e3] e2.id = some e2 ∧
    event_map_find [e1, e2, e3] e3.id = some e3 := by
  unfold event_map_find
  simp [h12, h13, h23, Ne.symm h12, Ne.symm h13, Ne.symm h23]

/-! ### Correlation index -/

theorem ids_at_map_push_back {K : Type} [DecidableEq K] (key : K) (v : EventId)
    (m : List (K × List EventId)) (k : K) :
    ids_at (map_push_back key v m) k = ids_at m k ++ (if k = key then [v] else []) := by
  unfold ids_at
  rw [lookup_map_push_back]
  by_cases h : k = key
  · rw [if_pos h, if_pos h, h]
    rfl
  · rw [if_neg h, if_neg h, List.append_nil]

theorem ids_at_push_found (o : Option String) (v : EventId)
    (m : List (String × List EventId)) (k : String) :
    ids_at (match o with
      | some key => map_push_back key v m
      | none => m) k = ids_at m k ++ (if o = some k then [v] else []) := by
  cases o with
  | none => simp
  | some key =>
    simp only [ids_at_map_push_back, Option.some.injEq]
    by_cases h : k = key
    · rw [if_pos h, if_pos h.symm]
    · rw [if_neg h, if_neg (fun h1 => h h1.symm)]

theorem replicate_correlation_hits (e : Event) (k : String) :
    List.replicate (correlation_hits e k) e.id =
      (if e.tags.find "request_id" = some k then [e.id] else []) ++
        ((if e.tags.find "trace_id" = some k then [e.id] else []) ++
          (if e.tags.find "uuid" = some k then [e.id] else [])) := by
  unfold correlation_hits
  by_cases h1 : e.tags.find "request_id" = some k <;>
    by_cases h2 : e.tags.find "trace_id" = some k <;>
    by_cases h3 : e.tags.find "uuid" = some k <;>
    simp [List.filter_cons, h1, h2, h3, List.replicate]

theorem ids_at_index_correlation (e : Event) (m : List (String × List EventId)) (k : String) :
    ids_at (EventIndex.index_correlation e m) k =
      ids_at m k ++ List.replicate (correlation_hits e k) e.id := by
  unfold EventIndex.index_correlation
  simp only []
  rw [ids_at_push_found, ids_at_push_found, ids_at_push_found, replicate_correlation_hits,
    List.append_assoc, List.append_assoc]

theorem ids_at_correlation_fold (k : String) :
    ∀ (l : List Event) (m : List (String × List EventId)),
      ids_at (l.foldl (fun m e => EventIndex.index_correlation e m) m) k =
        ids_at m k ++ (l.map (fun e => List.replicate (correlation_hits e k) e.id)).flatten := by
  intro l
  induction l with
  | nil => intro m; simp
  | cons e rest ih =>
    intro m
    rw [List.foldl_cons, ih, ids_at_index_correlation, List.map_cons, List.flatten_cons,
      List.append_assoc]

theorem get_by_correlation_id_build (events : List Event) (k : String) :
    EventIndex.get_by_correlation_id (EventIndex.build events) k =
      (events.map (fun e => List.replicate (correlation_hits e k) e.id)).flatten := by
  rw [get_by_correlation_id_eq]
  unfold EventIndex.build
  rw [(build_fields events _).2.2, ids_at_correlation_fold]
  rfl

theorem correlation_hits_pos (e : Event) (k : String) :
    0 < correlation_hits e k ↔
      (e.tags.find "request_id" = some k ∨ e.tags.find "trace_id" = some k ∨
        e.tags.find "uuid" = some k) := by
  unfold correlation_hits
  by_cases h1 : e.tags.find "request_id" = some k <;>
    by_cases h2 : e.tags.find "trace_id" = some k <;>
    by_cases h3 : e.tags.find "uuid" = some k <;>
    simp [List.filter_cons, h1, h2, h3]

theorem exists_min_count : ∀ (l : List TimeSeriesPoint), l ≠ [] →
    ∃ p0 ∈ l, ∀ p ∈ l, p0.count ≤ p.count := by
  intro l
  induction l with
  | nil => intro h; exact absurd rfl h
  | cons a rest ih =>
    intro _
    by_cases hr : rest = []
    · subst hr
      exact ⟨a, List.mem_cons_self _ _, fun p hp => by
        rw [List.mem_singleton] at hp
        rw [hp]⟩
    · obtain ⟨p0, hp0, hmin⟩ := ih hr
      by_cases hc : a.count ≤ p0.count
      · refine ⟨a, List.mem_cons_self _ _, ?_⟩
        intro p hp
        rcases List.mem_cons.mp hp with h | h
        · rw [h]
        · exact le_trans hc (hmin p h)
      · refine ⟨p0, List.mem_cons_of_mem _ hp0, ?_⟩
        intro p hp
        rcases List.mem_cons.mp hp with h | h
        · rw [h]
          omega
        · exact hmin p h

theorem length_mul_le_sum (c : Nat) : ∀ (l : List TimeSeriesPoint),
    (∀ p ∈ l, c ≤ p.count) → l.length * c ≤ (l.map (fun p => p.count)).sum := by
  intro l
  induction l with
  | nil => intro _; simp
  | cons a rest ih =>
    intro h
    have h1 := ih (fun p hp => h p (List.mem_cons_of_mem _ hp))
    have h2 := h a (List.mem_cons_self _ _)
    simp only [List.length_cons, List.map_cons, List.sum_cons]
    rw [Nat.add_mul, Nat.one_mul]
    omega

theorem count_le_sum : ∀ (l : List TimeSeriesPoint) (p : TimeSeriesPoint), p ∈ l →
    p.count ≤ (l.map (fun p => p.count)).sum := by
  intro l
  induction l with
  | nil => intro p hp; cases hp
  | cons a rest ih =>
    intro p hp
    simp only [List.map_cons, List.sum_cons]
    rcases List.mem_cons.mp hp with h | h
    · rw [h]
      omega
    · have := ih p h
      omega

theorem min_point_below_threshold (rnd : ℚ → ℚ) (hmono : Monotone rnd)
    (hidem : ∀ q, rnd (rnd q) = rnd q)
    (hgrow : ∀ x m : ℚ, 0 < x → rnd x = x → rnd m = m → 1 < m → x < rnd (x * m))
    (series : TimeSeries) (mult : Rounded rnd)
    (hne : series.points ≠ []) (hpop : ∀ p ∈ series.points, 1 ≤ p.count)
    (hexact : ∀ n : Nat, n ≤ (series.points.map (fun p => p.count)).sum → rnd (n : ℚ) = n)
    (hm : 1 < mult.val) (hmrep : rnd mult.val = mult.val) :
    ∃ p0 ∈ series.points,
      DoubleArith.le
        (DoubleArith.mul
          (DoubleArith.div
            (DoubleArith.ofRat (((series.points.map (fun p => p.count)).sum : Nat) : ℚ))
            (DoubleArith.ofRat ((series.points.length : Nat) : ℚ)))
          mult)
        (DoubleArith.ofRat (p0.count : ℚ) : Rounded rnd) = false := by
  obtain ⟨p0, hp0, hmin⟩ := exists_min_count series.points hne
  refine ⟨p0, hp0, ?_⟩
  have hlen : series.points.length ≤ (series.points.map (fun p => p.count)).sum := by
    simpa using length_mul_le_sum 1 series.points hpop
  have hsum := length_mul_le_sum p0.count series.points hmin
  have hc := count_le_sum series.points p0 hp0
  have hlen_pos : 0 < series.points.length := List.length_pos.mpr hne
  simp only [DoubleArith.le, DoubleArith.mul, DoubleArith.div, DoubleArith.ofRat,
    decide_eq_false_iff_not, not_le]
  rw [hexact _ (le_refl _), hexact _ hlen, hexact _ hc]
  have hmean : (p0.count : ℚ) ≤
      (((series.points.map (fun p => p.count)).sum : Nat) : ℚ) / (series.points.length : ℚ) := by
    rw [le_div_iff₀ (by exact_mod_cast hlen_pos)]
    have : ((p0.count * series.points.length : Nat) : ℚ) ≤
        (((series.points.map (fun p => p.count)).sum : Nat) : ℚ) := by
      rw [Nat.mul_comm]
      exact_mod_cast hsum
    simpa using this
  have hbase : (p0.count : ℚ) ≤
      rnd ((((series.points.map (fun p => p.count)).sum : Nat) : ℚ) /
        (series.points.length : ℚ)) := by
    have := hmono hmean
    rwa [hexact _ hc] at this
  have hpos : (0 : ℚ) < rnd ((((series.points.map (fun p => p.count)).sum : Nat) : ℚ) /
        (series.points.length : ℚ)) :=
    lt_of_lt_of_le (by exact_mod_cast (hpop p0 hp0)) hbase
  exact lt_of_le_of_lt hbase (hgrow _ _ hpos (hidem _) hmrep hm)

/-! ### Populated buckets -/

theorem bump_point_populated (b : TimePoint) : ∀ (l : List TimeSeriesPoint),
    points_populated l → bump_point b l ≠ [] ∧ points_populated (bump_point b l) := by
  intro l
  induction l with
  | nil =>
    intro _
    refine ⟨by simp [bump_point], ?_⟩
    intro q hq
    simp only [bump_point, List.mem_singleton] at hq
    rw [hq]
  | cons p rest ih =>
    intro h
    rw [bump_point]
    by_cases hp : p.timestamp = b
    · rw [if_pos hp]
      refine ⟨by simp, ?_⟩
      intro q hq
      rcases List.mem_cons.mp hq with h1 | h1
      · rw [h1]
        simp
      · exact h q (List.mem_cons_of_mem _ h1)
    · rw [if_neg hp]
      refine ⟨by simp, ?_⟩
      intro q hq
      rcases List.mem_cons.mp hq with h1 | h1
      · rw [h1]
        exact h p (List.mem_cons_self _ _)
      · exact (ih (fun q hq => h q (List.mem_cons_of_mem _ hq))).2 q h1

theorem add_event_populated (s s1 : TimeSeries) (tp : TimePoint)
    (h : s.add_event tp = some s1) (hp : points_populated s.points) :
    s1.points ≠ [] ∧ points_populated s1.points := by
  unfold TimeSeries.add_event at h
  simp only [] at h
  split at h
  · cases h
  · cases h
    exact bump_point_populated _ _ hp

theorem lookup_series_add_event (sev : Severity) (tp : TimePoint) :
    ∀ (m m1 : List (Severity × TimeSeries)), series_add_event sev tp m = some m1 →
      (∀ k, k ≠ sev → m1.lookup k = m.lookup k) ∧
      ∃ s1, m1.lookup sev = some s1 ∧
        ((m.lookup sev).getD (TimeSeries.new 1)).add_event tp = some s1 := by
  intro m
  induction m with
  | nil =>
    intro m1 h
    rw [series_add_event] at h
    cases ha : (TimeSeries.new 1).add_event tp with
    | none => rw [ha] at h; cases h
    | some s1 =>
      rw [ha] at h
      cases h
      refine ⟨fun k hk => by rw [lookup_cons_ne _ _ _ _ hk], s1, lookup_cons_self _ _ _, ?_⟩
      exact ha
  | cons kv rest ih =>
    intro m1 h
    obtain ⟨k0, s⟩ := kv
    rw [series_add_event] at h
    by_cases hk : k0 = sev
    · rw [if_pos hk] at h
      cases ha : s.add_event tp with
      | none => rw [ha] at h; cases h
      | some s1 =>
        rw [ha] at h
        cases h
        subst hk
        refine ⟨fun k hk1 => by rw [lookup_cons_ne _ _ _ _ hk1, lookup_cons_ne _ _ _ _ hk1],
          s1, lookup_cons_self _ _ _, ?_⟩
        rw [lookup_cons_self]
        exact ha
    · rw [if_neg hk] at h
      cases hr : series_add_event sev tp rest with
      | none => rw [hr] at h; cases h
      | some m2 =>
        rw [hr] at h
        cases h
        obtain ⟨h1, s1, h2, h3⟩ := ih m2 hr
        have hk1 : sev ≠ k0 := fun e => hk e.symm
        refine ⟨?_, s1, ?_, ?_⟩
        · intro k hkne
          by_cases hkk : k = k0
          · rw [hkk, lookup_cons_self, lookup_cons_self]
          · rw [lookup_cons_ne _ _ _ _ hkk, lookup_cons_ne _ _ _ _ hkk, h1 k hkne]
        · rw [lookup_cons_ne _ _ _ _ hk1]
          exact h2
        · rw [lookup_cons_ne _ _ _ _ hk1]
          exact h3

theorem lookup_append_new (m : List (Severity × TimeSeries)) (sev : Severity) (s : TimeSeries)
    (k : Severity) :
    (m ++ [(sev, s)]).lookup k =
      match m.lookup k with
      | some x => some x
      | none => if k = sev then some s else none := by
  induction m with
  | nil =>
    simp only [List.nil_append, List.lookup_nil]
    by_cases h : k = sev
    · rw [if_pos h, h, lookup_cons_self]
    · rw [if_neg h, lookup_cons_ne _ _ _ _ h]
      rfl
  | cons kv rest ih =>
    obtain ⟨k0, s0⟩ := kv
    rw [List.cons_append]
    by_cases h : k = k0
    · rw [h, lookup_cons_self, lookup_cons_self]
    · rw [lookup_cons_ne _ _ _ _ h, lookup_cons_ne _ _ _ _ h, ih]

theorem update_time_series_populated (config : StatsConfig) (sev : Severity) (tp : TimePoint)
    (m m1 : List (Severity × TimeSeries))
    (h : StatsBuilder.update_time_series config sev tp m = some m1)
    (hm : series_populated m) : series_populated m1 := by
  unfold StatsBuilder.update_time_series at h
  simp only [] at h
  have key : ∀ m0 : List (Severity × TimeSeries),
      (∀ k, k ≠ sev → m0.lookup k = m.lookup k) →
      points_populated ((m0.lookup sev).getD (TimeSeries.new 1)).points →
      series_add_event sev tp m0 = some m1 → series_populated m1 := by
    intro m0 hother hsev hadd
    obtain ⟨h1, s1, h2, h3⟩ := lookup_series_add_event sev tp m0 m1 hadd
    intro k s hks
    by_cases hk : k = sev
    · rw [hk, h2] at hks
      cases hks
      exact add_event_populated _ _ tp h3 hsev
    · rw [h1 k hk, hother k hk] at hks
      exact hm k s hks
  split at h
  · rename_i hnone
    refine key _ ?_ ?_ h
    · intro k hk
      rw [lookup_append_new]
      cases hl : m.lookup k with
      | none => simp [hk]
      | some x => rfl
    · rw [lookup_append_new]
      cases hl : m.lookup sev with
      | none =>
        simp only [if_true, Option.getD_some]
        intro q hq
        cases hq
      | some x => rw [hl] at hnone; simp at hnone
  · refine key m (fun _ _ => rfl) ?_ h
    cases hl : m.lookup sev with
    | none =>
      intro q hq
      cases hq
    | some x => exact (hm sev x hl).2

theorem process_event_populated (config : StatsConfig) (e : Event) (s s1 : Stats)
    (h : StatsBuilder.process_event config e s = some s1)
    (hs : series_populated s.severity_time_series) :
    series_populated s1.severity_time_series := by
  unfold StatsBuilder.process_event at h
  simp only [] at h
  have hc := (count_event_fields e s).2.2.2.1
  split at h
  · cases h
    rw [hc]
    exact hs
  · rename_i ts _
    have hw := (widen_times_fields ts.tp (StatsBuilder.count_event e s)).2.2.2
    split at h
    · cases h
    · rename_i series hu
      cases h
      simp only []
      refine update_time_series_populated config e.sev ts.tp _ _ hu ?_
      rw [hw, hc]
      exact hs

theorem process_events_populated (config : StatsConfig) :
    ∀ (events : List Event) (s s1 : Stats),
      StatsBuilder.process_events config events s = some s1 →
      series_populated s.severity_time_series → series_populated s1.severity_time_series := by
  intro events
  induction events with
  | nil =>
    intro s s1 h hs
    rw [StatsBuilder.process_events] at h
    cases h
    exact hs
  | cons e rest ih =>
    intro s s1 h hs
    rw [StatsBuilder.process_events] at h
    split at h
    · cases h
    · rename_i s2 h2
      exact ih s2 s1 h (process_event_populated config e s s2 h2 hs)

theorem build_populated (lib : StdLib) (config : StatsConfig) (events : List Event)
    (stats : Stats) (h : StatsBuilder.build lib config events = some stats) :
    series_populated stats.severity_time_series := by
  unfold StatsBuilder.build at h
  simp only [] at h
  split at h
  · cases h
    intro k s hks
    cases hks
  · split at h
    · cases h
    · rename_i s2 h2
      cases h
      have := process_events_populated config events _ s2 h2 (by
        intro k s hks
        cases hks)
      exact this

theorem detect_length {D : Type} [DoubleArith D] (config : ErrorBurstConfig D)
    (events : List Event) (stats : Stats) :
    (ErrorBurstDetector.detect config events stats).length =
      count_bursts (ErrorBurstDetector.detect config events stats) := by
  rw [count_bursts_detect, detect_eq]
  cases stats.severity_time_series.lookup Severity.ERROR with
  | none => rfl
  | some series => simp only [List.length_map]

theorem bursts_below_points (rnd : ℚ → ℚ) (hmono : Monotone rnd)
    (hidem : ∀ q, rnd (rnd q) = rnd q)
    (hgrow : ∀ x m : ℚ, 0 < x → rnd x = x → rnd m = m → 1 < m → x < rnd (x * m))
    (config : ErrorBurstConfig (Rounded rnd)) (hm : 1 < config.threshold_multiplier.val)
    (hmrep : rnd config.threshold_multiplier.val = config.threshold_multiplier.val)
    (events : List Event) (stats : Stats) (series : TimeSeries)
    (hl : stats.severity_time_series.lookup Severity.ERROR = some series)
    (hne : series.points ≠ []) (hpop : points_populated series.points)
    (hexact : ∀ n : Nat, n ≤ series.total_count → rnd (n : ℚ) = n) :
    count_bursts (ErrorBurstDetector.detect config events stats) < series.points.length := by
  rw [count_bursts_detect, hl]
  simp only []
  rw [total_count_eq_sum] at hexact
  obtain ⟨p0, hp0, hfalse⟩ := min_point_below_threshold rnd hmono hidem hgrow series
    config.threshold_multiplier hne hpop hexact hm hmrep
  rw [List.length_filter_lt_length_iff_exists]
  refine ⟨p0, hp0, ?_⟩
  unfold is_burst
  simp only []
  rw [hfalse]
  simp

theorem populated_error_buckets_eq (stats : Stats) (series : TimeSeries)
    (hl : stats.severity_time_series.lookup Severity.ERROR = some series)
    (hpop : points_populated series.points) :
    populated_error_buckets stats = series.points.length := by
  unfold populated_error_buckets
  rw [hl]
  simp only []
  rw [List.filter_eq_self.mpr]
  intro p hp
  exact decide_eq_true (hpop p hp)

/-! ### The multiline framer -/

theorem utf8ByteSize_eq_utf8Len (s : String) : s.utf8ByteSize = String.utf8Len s.data := by
  cases s
  rfl

theorem utf8ByteSize_push_append (s t : String) :
    (s.push '\n' ++ t).utf8ByteSize = s.utf8ByteSize + t.utf8ByteSize + 1 := by
  rw [utf8ByteSize_eq_utf8Len, utf8ByteSize_eq_utf8Len, utf8ByteSize_eq_utf8Len,
    String.data_append, String.data_push, String.utf8Len_append, String.utf8Len_append]
  simp only [String.utf8Len_cons, String.utf8Len_nil]
  have h : Char.utf8Size '\n' = 1 := by decide
  omega

theorem frame_step_inv (config : MultilineFramerConfig) (processed : List RawLine)
    (st : MultilineFramer.FrameState) (line : RawLine) (h : frame_inv config processed st) :
    frame_inv config (processed ++ [line]) (MultilineFramer.frame_step config st line) := by
  obtain ⟨done, g, hflat, hout, hsrc, htext, hlines, hdone, hg⟩ := h
  unfold MultilineFramer.frame_step
  by_cases hmerge : MultilineFramer.should_merge config st line = true
  · rw [if_pos hmerge]
    have hlim : ¬ (st.lines_in_record ≥ config.max_lines_per_record ∨
          st.current_text.utf8ByteSize + line.text.utf8ByteSize + 1 ≥
            config.max_chars_per_record) := by
      intro hl
      unfold MultilineFramer.should_merge at hmerge
      simp only [] at hmerge
      by_cases hc : MultilineFramer.is_continuation
          { src := st.current_src, text := st.current_text } line = true
      · rw [if_pos hc, if_pos hl] at hmerge
        cases hmerge
      · rw [if_neg hc] at hmerge
        exact hc hmerge
    rw [not_or] at hlim
    refine ⟨done, (g.1, g.2 ++ [line]), ?_, hout, ?_, ?_, ?_, hdone, ?_⟩
    · simp only []
      rw [← hflat]
      simp
    · simp only [record_of_group, List.foldl_append, List.foldl_cons, List.foldl_nil]
      rw [hsrc]
      rfl
    · simp only [record_of_group, List.foldl_append, List.foldl_cons, List.foldl_nil]
      rw [htext]
      rfl
    · simp only [List.length_append, List.length_singleton]
      rw [hlines]
    · right
      constructor
      · simp only [List.length_append, List.length_singleton]
        omega
      · have ht : (record_of_group (g.1, g.2 ++ [line])).text =
            st.current_text.push '\n' ++ line.text := by
          simp only [record_of_group, List.foldl_append, List.foldl_cons, List.foldl_nil]
          rw [htext]
          rfl
        rw [ht, utf8ByteSize_push_append]
        omega
  · rw [if_neg hmerge]
    refine ⟨done ++ [g], (line, []), ?_, ?_, rfl, rfl, rfl, ?_, Or.inl rfl⟩
    · rw [← hflat]
      simp
    · rw [List.map_append, hout, hsrc, htext]
      rfl
    · intro d hd
      rcases List.mem_append.mp hd with h1 | h1
      · exact hdone d h1
      · rw [List.mem_singleton] at h1
        rw [h1]
        exact hg

theorem frame_fold_inv (config : MultilineFramerConfig) :
    ∀ (rest processed : List RawLine) (st : MultilineFramer.FrameState),
      frame_inv config processed st →
      frame_inv config (processed ++ rest) (rest.foldl (MultilineFramer.frame_step config) st) := by
  intro rest
  induction rest with
  | nil =>
    intro processed st h
    simpa using h
  | cons line rest ih =>
    intro processed st h
    have := ih (processed ++ [line]) _ (frame_step_inv config processed st line h)
    simpa using this

theorem frame_groups (config : MultilineFramerConfig) (lines : List RawLine) :
    ∃ groups : List (RawLine × List RawLine),
      (groups.map (fun g => g.1 :: g.2)).flatten = lines ∧
      MultilineFramer.frame config lines = groups.map record_of_group ∧
      ∀ g ∈ groups, group_within_limits config g := by
  cases lines with
  | nil => exact ⟨[], rfl, rfl, (fun g hg => absurd hg (List.not_mem_nil g))⟩
  | cons first rest =>
    have h0 : frame_inv config [first]
        { out_records := []
          current_src := SourceRef.at_line first.source_path first.line_no
          current_text := first.text
          lines_in_record := 1 } :=
      ⟨[], (first, []), rfl, rfl, rfl, rfl, rfl,
        (fun d hd => absurd hd (List.not_mem_nil d)), Or.inl rfl⟩
    obtain ⟨done, g, hflat, hout, hsrc, htext, -, hdone, hg⟩ :=
      frame_fold_inv config rest [first] _ h0
    refine ⟨done ++ [g], ?_, ?_, ?_⟩
    · rw [List.map_append, List.flatten_append]
      simpa using hflat
    · unfold MultilineFramer.frame
      simp only []
      rw [hout, hsrc, htext, List.map_append]
      rfl
    · intro d hd
      rcases List.mem_append.mp hd with h1 | h1
      · exact hdone d h1
      · rw [List.mem_singleton] at h1
        rw [h1]
        exact hg

/-! ### Time ranges without an indexed bucket -/

theorem merged_as_singleton (e : Episode) : merged_as e [e] :=
  ⟨by rw [member_ids_singleton], fun x => by simp⟩

theorem share_iff_intersects_union (back e : Episode) (g : List Episode)
    (hb : merged_as back g) :
    share_correlation_ids back e = true ↔
      ∃ x ∈ e.correlation_ids, ∃ p ∈ g, x ∈ p.correlation_ids := by
  rw [share_correlation_ids_iff]
  constructor
  · rintro ⟨x, hx1, hx2⟩
    exact ⟨x, hx2, (hb.2 x).mp hx1⟩
  · rintro ⟨x, hx1, hx2⟩
    exact ⟨x, (hb.2 x).mpr hx2, hx1⟩

theorem merged_as_merge (back e : Episode) (g : List Episode) (hb : merged_as back g) :
    merged_as (merge_episodes back e) (g ++ [e]) := by
  constructor
  · rw [merge_episodes_event_ids, hb.1, member_ids_append, member_ids_singleton]
  · intro x
    rw [mem_merge_episodes_correlation_ids, hb.2 x]
    constructor
    · rintro (⟨p, hp, hx⟩ | hx)
      · exact ⟨p, List.mem_append_left _ hp, hx⟩
      · exact ⟨e, List.mem_append_right _ (List.mem_singleton.mpr rfl), hx⟩
    · rintro ⟨p, hp, hx⟩
      rcases List.mem_append.mp hp with h | h
      · exact Or.inl ⟨p, h, hx⟩
      · rw [List.mem_singleton] at h
        rw [h] at hx
        exact Or.inr hx

theorem foldl_merge_step_running :
    ∀ (rest merged : List Episode) (back : Episode) (groups : List (List Episode))
      (g : List Episode),
      List.Forall₂ merged_as merged groups → merged_as back g →
      ∃ (merged1 : List Episode) (back1 : Episode),
        rest.foldl merge_step (merged ++ [back]) = merged1 ++ [back1] ∧
        List.Forall₂ merged_as merged1 (rest.foldl running_merge_step (groups, g)).1 ∧
        merged_as back1 (rest.foldl running_merge_step (groups, g)).2 := by
  intro rest
  induction rest with
  | nil =>
    intro merged back groups g hm hb
    exact ⟨merged, back, rfl, hm, hb⟩
  | cons e rest ih =>
    intro merged back groups g hm hb
    simp only [List.foldl_cons]
    rw [merge_step_concat]
    have hiff := share_iff_intersects_union back e g hb
    by_cases hs : ∃ x ∈ e.correlation_ids, ∃ p ∈ g, x ∈ p.correlation_ids
    · rw [if_pos (hiff.mpr hs)]
      have hstep : running_merge_step (groups, g) e = (groups, g ++ [e]) := by
        unfold running_merge_step
        rw [if_pos hs]
      rw [hstep]
      exact ih merged (merge_episodes back e) groups (g ++ [e]) hm (merged_as_merge back e g hb)
    · rw [if_neg (fun h => hs (hiff.mp h))]
      have hstep : running_merge_step (groups, g) e = (groups ++ [g], [e]) := by
        unfold running_merge_step
        rw [if_neg hs]
      rw [hstep]
      exact ih (merged ++ [back]) e (groups ++ [g]) [e]
        (List.rel_append hm (List.Forall₂.cons hb List.Forall₂.nil)) (merged_as_singleton e)

theorem getLast?_append_ne_nil {α : Type} (g l : List α) (h : l ≠ []) :
    (g ++ l).getLast? = l.getLast? := by
  rw [List.getLast?_append]
  cases hl : l.getLast? with
  | none => exact absurd (List.getLast?_eq_none_iff.mp hl) h
  | some a => rfl

theorem running_fold_flatten :
    ∀ (rest : List Episode) (groups : List (List Episode)) (g : List Episode),
      (rest.foldl running_merge_step (groups, g)).1.flatten ++
          (rest.foldl running_merge_step (groups, g)).2 = groups.flatten ++ g ++ rest ∧
        (rest.foldl running_merge_step (groups, g)).2.getLast? = (g ++ rest).getLast? := by
  intro rest
  induction rest with
  | nil =>
    intro groups g
    simp
  | cons e rest ih =>
    intro groups g
    simp only [List.foldl_cons]
    by_cases hs : ∃ x ∈ e.correlation_ids, ∃ p ∈ g, x ∈ p.correlation_ids
    · have hstep : running_merge_step (groups, g) e = (groups, g ++ [e]) := by
        unfold running_merge_step
        rw [if_pos hs]
      rw [hstep]
      obtain ⟨h1, h2⟩ := ih groups (g ++ [e])
      exact ⟨by rw [h1]; simp, by rw [h2]; simp⟩
    · have hstep : running_merge_step (groups, g) e = (groups ++ [g], [e]) := by
        unfold running_merge_step
        rw [if_neg hs]
      rw [hstep]
      obtain ⟨h1, h2⟩ := ih (groups ++ [g]) [e]
      refine ⟨by rw [h1]; simp, ?_⟩
      rw [h2, getLast?_append_ne_nil g (e :: rest) (List.cons_ne_nil _ _)]
      rfl

end Lemmas

/-! ## Theorems -/

section Theorems

open EpisodeBuilder

/-- C1. With `merge_by_correlation = false`, for every event sequence, every
gap threshold and every value of the id counter, the member lists of the
episodes returned by `build`, concatenated in output order, are the list of
the input event ids in input order. -/
theorem build_partition_without_merge (threshold : Int) (next_id : Nat) (events : List Event) :
    member_ids
        (build { config_ := { time_gap_threshold := threshold, merge_by_correlation := false },
                 next_episode_id_ := next_id } events).1
      = events.map (fun e => e.id) := by
  unfold build
  cases events with
  | nil => simp [member_ids]
  | cons e rest => simp [segment_member_ids]

/-- C2. With `merge_by_correlation = true`, for every event sequence, every gap
threshold and every value of the id counter, the member lists of the episodes
returned by `build`, concatenated in output order, are still the list of the
input event ids in input order: merging drops, duplicates and reorders
nothing. -/
theorem build_partition_with_merge (threshold : Int) (next_id : Nat) (events : List Event) :
    member_ids
        (build { config_ := { time_gap_threshold := threshold, merge_by_correlation := true },
                 next_episode_id_ := next_id } events).1
      = events.map (fun e => e.id) := by
  unfold build
  cases events with
  | nil => simp [member_ids]
  | cons e rest =>
    simp only [List.isEmpty_cons, Bool.false_eq_true, if_false, Bool.true_and]
    split
    · rw [merge_phase_member_ids, segment_member_ids]
    · rw [segment_member_ids]

/-- C3, counterexample. Threshold 60 s, merging enabled, the three events of
`chained_events`: phase 1 makes three episodes with the correlation-id sets
{a, c}, {a} and {c}. The second and the third are adjacent and their sets do
not intersect, yet `build` returns a single episode that holds all three
events: the third is compared with the running merge of the first two. -/
theorem merge_iff_adjacent_counterexample :
    (EpisodeBuilder.segment { time_gap_threshold := 60, merge_by_correlation := true } 1
        chained_events).1 = [chained_episode_1, chained_episode_2, chained_episode_3] ∧
    (∀ x ∈ chained_episode_2.correlation_ids, x ∉ chained_episode_3.correlation_ids) ∧
    share_correlation_ids chained_episode_2 chained_episode_3 = false ∧
    (build (builder_with 60 true) chained_events).1.map (fun ep => ep.event_ids) = [[1, 2, 3]] ∧
    episode_of_position (build (builder_with 60 true) chained_events).1 1 =
      episode_of_position (build (builder_with 60 true) chained_events).1 2 := by
  decide

/-- C3, amended. With merging enabled, let phase 1 produce the episodes
`e0 :: (r1 ++ b :: r2)`, so that `b` is adjacent to the last episode `a` of
`e0 :: r1`; position `(member_ids (e0 :: r1)).length - 1` is the last member
of `a` and the next position is the first member of `b`. The phase 1 episodes
merged so far are `running_group e0 r1`, the last stretch of `e0 :: r1`, which
ends with `a`. Then `a` and `b` end up in the same output episode if and only
if some correlation id of `b` is in the union of the correlation-id sets of the
episodes of that group. The output episodes are the merges of the groups of
`running_groups`: the members of an output episode are those of its group and
its correlation-id set is the union of the sets of its group. In particular,
if the sets of `a` and `b` intersect, they end up in the same output
episode. -/
theorem merge_soundness_running (config : EpisodeConfig) (next_id : Nat) (events : List Event)
    (e0 : Episode) (r1 : List Episode) (b : Episode) (r2 : List Episode)
    (hm : config.merge_by_correlation = true)
    (hseg : (EpisodeBuilder.segment config next_id events).1 = e0 :: (r1 ++ b :: r2)) :
    List.Forall₂ merged_as
        (build { config_ := config, next_episode_id_ := next_id } events).1
        (running_groups (e0 :: (r1 ++ b :: r2))) ∧
    ((episode_of_position
          (build { config_ := config, next_episode_id_ := next_id } events).1
          ((member_ids (e0 :: r1)).length - 1) =
        episode_of_position
          (build { config_ := config, next_episode_id_ := next_id } events).1
          (member_ids (e0 :: r1)).length) ↔
      ∃ x ∈ b.correlation_ids, ∃ p ∈ running_group e0 r1, x ∈ p.correlation_ids) ∧
    (∃ pre, e0 :: r1 = pre ++ running_group e0 r1) ∧
    (running_group e0 r1).getLast? = (e0 :: r1).getLast? ∧
    (∀ a, (e0 :: r1).getLast? = some a →
      (∃ x, x ∈ a.correlation_ids ∧ x ∈ b.correlation_ids) →
      episode_of_position
          (build { config_ := config, next_episode_id_ := next_id } events).1
          ((member_ids (e0 :: r1)).length - 1) =
        episode_of_position
          (build { config_ := config, next_episode_id_ := next_id } events).1
          (member_ids (e0 :: r1)).length) := by
  have hne := segment_episodes_ne config next_id events
  rw [hseg] at hne
  have hev : events ≠ [] := by
    intro h
    subst h
    simp [EpisodeBuilder.segment, build_loop, Episode.empty, Episode.new] at hseg
  have hbuild : (build { config_ := config, next_episode_id_ := next_id } events).1 =
      (r1 ++ b :: r2).foldl merge_step [e0] := by
    unfold build
    simp [hev, hm, hseg, merge_phase]
  have hlen : (member_ids (e0 :: r1)).length =
      (member_counts [e0]).sum + (member_counts r1).sum := by
    simp [member_ids, member_counts, List.length_flatten, Function.comp_def]
  obtain ⟨acc, hacc, hiff⟩ := foldl_merge_step_boundary r1 [e0] e0 b r2 rfl
    (hne e0 (List.mem_cons_self _ _))
    (fun ep hep => hne ep (List.mem_cons_of_mem _ (List.mem_append_left _ hep)))
    (hne b (List.mem_cons_of_mem _ (List.mem_append_right _ (List.mem_cons_self _ _))))
  obtain ⟨m1, back1, hfold1, -, hback1⟩ := foldl_merge_step_running r1 [] e0 [] [e0]
    List.Forall₂.nil (merged_as_singleton e0)
  have hacc1 : acc = back1 := by
    rw [List.nil_append] at hfold1
    rw [hfold1, List.getLast?_concat] at hacc
    cases hacc
    rfl
  have hgroup : merged_as acc (running_group e0 r1) := by
    rw [hacc1]
    exact hback1
  have hmain : (episode_of_position
        (build { config_ := config, next_episode_id_ := next_id } events).1
        ((member_ids (e0 :: r1)).length - 1) =
      episode_of_position
        (build { config_ := config, next_episode_id_ := next_id } events).1
        (member_ids (e0 :: r1)).length) ↔
      ∃ x ∈ b.correlation_ids, ∃ p ∈ running_group e0 r1, x ∈ p.correlation_ids := by
    rw [episode_of_position_eq_block, episode_of_position_eq_block, hbuild, hlen]
    exact hiff.trans (share_iff_intersects_union acc b _ hgroup)
  obtain ⟨hflat, hlast⟩ := running_fold_flatten r1 [] [e0]
  have hlast1 : (running_group e0 r1).getLast? = (e0 :: r1).getLast? := hlast
  refine ⟨?_, hmain, ⟨_, by simpa using hflat.symm⟩, hlast1, ?_⟩
  · obtain ⟨m2, back2, hfold2, hm2, hback2⟩ :=
      foldl_merge_step_running (r1 ++ b :: r2) [] e0 [] [e0] List.Forall₂.nil
        (merged_as_singleton e0)
    rw [hbuild]
    rw [List.nil_append] at hfold2
    rw [hfold2]
    exact List.rel_append hm2 (List.Forall₂.cons hback2 List.Forall₂.nil)
  · rintro a ha ⟨x, hxa, hxb⟩
    apply hmain.mpr
    have hmem : a ∈ running_group e0 r1 := by
      rw [← hlast1] at ha
      exact List.mem_of_getLast?_eq_some ha
    exact ⟨x, hxb, a, hmem, hxa⟩

/-- C3, the amended statement at `chained_events` with threshold 60 s: `b` is
the third phase 1 episode, the first two are the group merged so far, and the
set {c} of `b` meets the union {a, c} of their sets. -/
theorem merge_soundness_running_witness :
    ((EpisodeBuilder.segment { time_gap_threshold := 60, merge_by_correlation := true } 1
        chained_events).1 =
      chained_episode_1 :: ([chained_episode_2] ++ chained_episode_3 :: [])) ∧
    running_group chained_episode_1 [chained_episode_2] =
      [chained_episode_1, chained_episode_2] ∧
    ((episode_of_position
          (build { config_ := { time_gap_threshold := 60, merge_by_correlation := true },
                   next_episode_id_ := 1 } chained_events).1
          ((member_ids [chained_episode_1, chained_episode_2]).length - 1) =
        episode_of_position
          (build { config_ := { time_gap_threshold := 60, merge_by_correlation := true },
                   next_episode_id_ := 1 } chained_events).1
          (member_ids [chained_episode_1, chained_episode_2]).length) ↔
      ∃ x ∈ chained_episode_3.correlation_ids,
        ∃ p ∈ running_group chained_episode_1 [chained_episode_2], x ∈ p.correlation_ids) :=
  ⟨by decide, by decide,
    (merge_soundness_running { time_gap_threshold := 60, merge_by_correlation := true } 1
      chained_events chained_episode_1 [chained_episode_2] chained_episode_3 [] rfl
      (by decide)).2.1⟩

/-- C8, counterexample. Threshold 300 s, merge disabled, two events with valid
timestamps, the first at 1000 s and the second at 0 s: the timestamps differ by
1000 s, more than the threshold, yet `build` returns one episode that holds
both events. -/
theorem split_rule_backward_gap_counterexample :
    (1000 * ticks_per_second - 0 > 300 * ticks_per_second) ∧
    (create_event 1 Severity.INFO (1000 * ticks_per_second)).has_valid_ts = true ∧
    (create_event 2 Severity.INFO 0).has_valid_ts = true ∧
    (build (builder_with 300 false)
      [create_event 1 Severity.INFO (1000 * ticks_per_second),
       create_event 2 Severity.INFO 0]).1.map (fun ep => ep.event_ids) = [[1, 2]] ∧
    episode_of_position
        (build (builder_with 300 false)
          [create_event 1 Severity.INFO (1000 * ticks_per_second),
           create_event 2 Severity.INFO 0]).1 0 =
      episode_of_position
        (build (builder_with 300 false)
          [create_event 1 Severity.INFO (1000 * ticks_per_second),
           create_event 2 Severity.INFO 0]).1 1 := by
  decide

/-- C8, amended. With merge disabled, let `e` and `f` be consecutive input
events (at positions `pre.length` and `pre.length + 1`) that both have a valid
timestamp. If the timestamp of `f` is later than the timestamp of `e` by more
than `time_gap_threshold`, `build` places them in different episodes; in every
other case (the difference is at most the threshold, or `f` is earlier than
`e`) it places them in the same episode. -/
theorem segmentation_split_rule (threshold : Int) (next_id : Nat) (events pre : List Event)
    (e f : Event) (post : List Event) (te tf : Timestamp)
    (h : events = pre ++ e :: f :: post)
    (he : e.ts = some te) (hf : f.ts = some tf)
    (hve : te.is_valid = true) (hvf : tf.is_valid = true) :
    (tf.tp - te.tp > threshold * ticks_per_second →
      episode_of_position
          (build { config_ := { time_gap_threshold := threshold, merge_by_correlation := false },
                   next_episode_id_ := next_id } events).1 pre.length ≠
        episode_of_position
          (build { config_ := { time_gap_threshold := threshold, merge_by_correlation := false },
                   next_episode_id_ := next_id } events).1 (pre.length + 1)) ∧
    (tf.tp - te.tp ≤ threshold * ticks_per_second →
      episode_of_position
          (build { config_ := { time_gap_threshold := threshold, merge_by_correlation := false },
                   next_episode_id_ := next_id } events).1 pre.length =
        episode_of_position
          (build { config_ := { time_gap_threshold := threshold, merge_by_correlation := false },
                   next_episode_id_ := next_id } events).1 (pre.length + 1)) := by
  have hne : events ≠ [] := by
    rw [h]; simp
  rw [build_without_merge threshold next_id events hne]
  have hb := segment_boundary
    { time_gap_threshold := threshold, merge_by_correlation := false } next_id events pre e f post h
  rw [has_time_gap_valid _ e f te tf he hf hve hvf] at hb
  dsimp only at hb
  constructor
  · intro hgt
    have hd : decide (tf.tp - te.tp > threshold * ticks_per_second) = true := by
      simpa using hgt
    rw [if_pos hd] at hb
    omega
  · intro hle
    have hd : ¬ decide (tf.tp - te.tp > threshold * ticks_per_second) = true := by
      simp only [decide_eq_true_eq]
      exact not_lt.mpr hle
    rw [if_neg hd] at hb
    omega

/-- C8, witness: threshold 300 s, events at 0 s and at 600 s. -/
theorem segmentation_split_rule_witness :
    (600 * ticks_per_second - 0 > 300 * ticks_per_second →
      episode_of_position
          (build { config_ := { time_gap_threshold := 300, merge_by_correlation := false },
                   next_episode_id_ := 1 }
            [create_event 1 Severity.INFO 0,
             create_event 2 Severity.INFO (600 * ticks_per_second)]).1 0 ≠
        episode_of_position
          (build { config_ := { time_gap_threshold := 300, merge_by_correlation := false },
                   next_episode_id_ := 1 }
            [create_event 1 Severity.INFO 0,
             create_event 2 Severity.INFO (600 * ticks_per_second)]).1 1) ∧
    (600 * ticks_per_second - 0 ≤ 300 * ticks_per_second →
      episode_of_position
          (build { config_ := { time_gap_threshold := 300, merge_by_correlation := false },
                   next_episode_id_ := 1 }
            [create_event 1 Severity.INFO 0,
             create_event 2 Severity.INFO (600 * ticks_per_second)]).1 0 =
        episode_of_position
          (build { config_ := { time_gap_threshold := 300, merge_by_correlation := false },
                   next_episode_id_ := 1 }
            [create_event 1 Severity.INFO 0,
             create_event 2 Severity.INFO (600 * ticks_per_second)]).1 1) :=
  segmentation_split_rule 300 1
    [create_event 1 Severity.INFO 0, create_event 2 Severity.INFO (600 * ticks_per_second)]
    [] (create_event 1 Severity.INFO 0) (create_event 2 Severity.INFO (600 * ticks_per_second)) []
    { tp := 0, confidence := 100, tz_known := false }
    { tp := 600 * ticks_per_second, confidence := 100, tz_known := false }
    rfl rfl rfl (by decide) (by decide)

/-- C9. For every configuration (merging on or off): if either of two
consecutive input events lacks a valid timestamp (none, or confidence 0),
`build` places them in the same episode; and for a non-empty input in which no
event has a valid timestamp, `build` returns exactly one episode, whose member
list is the list of all input ids. -/
theorem no_split_without_valid_timestamp (b : EpisodeBuilder) (events : List Event) :
    (∀ (pre : List Event) (e f : Event) (post : List Event),
      events = pre ++ e :: f :: post →
      (e.has_valid_ts = false ∨ f.has_valid_ts = false) →
      episode_of_position (build b events).1 pre.length =
        episode_of_position (build b events).1 (pre.length + 1)) ∧
    (events ≠ [] → (∀ e ∈ events, e.has_valid_ts = false) →
      ∃ ep, (build b events).1 = [ep] ∧ ep.event_ids = events.map (fun e => e.id)) := by
  constructor
  · intro pre e f post h hv
    apply build_same_of_segment_same
    have hb := segment_boundary b.config_ b.next_episode_id_ events pre e f post h
    rw [has_time_gap_invalid b.config_ e f hv] at hb
    simp only [Bool.false_eq_true, if_false] at hb
    omega
  · intro hne hall
    have hm := segment_member_ids b.config_ b.next_episode_id_ events
    have hne2 := build_loop_current_ne b.config_ events events none
    have hl := build_loop_no_gap b.config_ events events none
      { episodes := [], current_episode := Episode.new b.next_episode_id_,
        next_episode_id_ := b.next_episode_id_ + 1 } hall
    cases events with
    | nil => exact absurd rfl hne
    | cons e0 rest =>
      have hcur := build_loop_current_ne b.config_ (e0 :: rest) rest (some e0) _
        (build_step_current_ne b.config_ (e0 :: rest)
          { episodes := [], current_episode := Episode.new b.next_episode_id_,
            next_episode_id_ := b.next_episode_id_ + 1 } none e0)
      have hseg : ∃ ep, (EpisodeBuilder.segment b.config_ b.next_episode_id_ (e0 :: rest)).1 = [ep] := by
        unfold EpisodeBuilder.segment
        simp only [hl]
        simp only [build_loop] at hcur ⊢
        simp [Episode.empty, hcur]
      obtain ⟨ep, hep⟩ := hseg
      refine ⟨ep, ?_, ?_⟩
      · unfold build
        simp [hep, merge_phase]
      · rw [hep] at hm
        simpa [member_ids] using hm

/-- C9, witness: the two events without timestamp of the test "handles events
without timestamps", with the default configuration. -/
theorem no_split_without_valid_timestamp_witness :
    ([create_untimed_event 1 Severity.INFO "", create_untimed_event 2 Severity.WARN ""] =
        [] ++ create_untimed_event 1 Severity.INFO "" ::
          create_untimed_event 2 Severity.WARN "" :: []) ∧
    ((create_untimed_event 1 Severity.INFO "").has_valid_ts = false) ∧
    episode_of_position (build (EpisodeBuilder.new EpisodeConfig.default)
        [create_untimed_event 1 Severity.INFO "", create_untimed_event 2 Severity.WARN ""]).1 0 =
      episode_of_position (build (EpisodeBuilder.new EpisodeConfig.default)
        [create_untimed_event 1 Severity.INFO "", create_untimed_event 2 Severity.WARN ""]).1 1 ∧
    (∃ ep, (build (EpisodeBuilder.new EpisodeConfig.default)
        [create_untimed_event 1 Severity.INFO "", create_untimed_event 2 Severity.WARN ""]).1 = [ep] ∧
      ep.event_ids = [1, 2]) :=
  ⟨rfl, rfl,
    (no_split_without_valid_timestamp (EpisodeBuilder.new EpisodeConfig.default)
      [create_untimed_event 1 Severity.INFO "", create_untimed_event 2 Severity.WARN ""]).1
      [] _ _ [] rfl (Or.inl rfl),
    (no_split_without_valid_timestamp (EpisodeBuilder.new EpisodeConfig.default)
      [create_untimed_event 1 Severity.INFO "", create_untimed_event 2 Severity.WARN ""]).2
      (by simp) (by decide)⟩

/-- C4. Burst monotonicity: for every event list, `Stats`, multiplier and
arithmetic of `double`, and every `m1 ≤ m2`, `detect` with
`min_errors_for_burst = m2` returns no more ERROR_BURST anomalies than `detect`
with `min_errors_for_burst = m1`. -/
theorem burst_monotonicity {D : Type} [DoubleArith D] (config : ErrorBurstConfig D)
    (events : List Event) (stats : Stats) (m1 m2 : Nat) (h : m1 ≤ m2) :
    count_bursts
        (ErrorBurstDetector.detect { config with min_errors_for_burst := m2 } events stats) ≤
      count_bursts
        (ErrorBurstDetector.detect { config with min_errors_for_burst := m1 } events stats) := by
  rw [count_bursts_detect, count_bursts_detect]
  cases stats.severity_time_series.lookup Severity.ERROR with
  | none => exact le_refl _
  | some series =>
    simp only []
    rw [← List.countP_eq_length_filter, ← List.countP_eq_length_filter]
    apply List.countP_mono_left
    intro p _ hp
    simp only [is_burst, Bool.and_eq_true, decide_eq_true_eq] at hp ⊢
    exact ⟨le_trans h hp.1, hp.2⟩

/-- C4, witness: three ERROR buckets with counts 1, 6 and 12, multiplier 2,
minimum raised from 5 to 10, exact arithmetic. -/
theorem burst_monotonicity_witness :
    (5 ≤ 10) ∧
    count_bursts
        (ErrorBurstDetector.detect
          { window_size := 5, threshold_multiplier := (2 : ℚ), min_errors_for_burst := 10 } []
          (stats_of_error_points
            [{ timestamp := 0, count := 1 }, { timestamp := ticks_per_minute, count := 6 },
             { timestamp := 2 * ticks_per_minute, count := 12 }])) ≤
      count_bursts
        (ErrorBurstDetector.detect
          { window_size := 5, threshold_multiplier := (2 : ℚ), min_errors_for_burst := 5 } []
          (stats_of_error_points
            [{ timestamp := 0, count := 1 }, { timestamp := ticks_per_minute, count := 6 },
             { timestamp := 2 * ticks_per_minute, count := 12 }])) :=
  ⟨by decide,
    burst_monotonicity
      { window_size := 5, threshold_multiplier := (2 : ℚ), min_errors_for_burst := 0 } []
      (stats_of_error_points
        [{ timestamp := 0, count := 1 }, { timestamp := ticks_per_minute, count := 6 },
         { timestamp := 2 * ticks_per_minute, count := 12 }]) 5 10 (by decide)⟩

/-- C6. Rule robustness: on a `RuleContext` whose events, stats, episodes and
anomalies are all absent, each built-in rule (`CrashLoopRule`,
`RetryToTimeoutRule`, `ErrorBurstAfterChangeRule`) returns the empty finding
list, and `ErrorBurstAfterChangeRule` does so without reading an empty
optional. -/
theorem rules_empty_on_absent_context (D : Type) [DoubleArith D] :
    CrashLoopRule.evaluate (RuleContext.absent D) = [] ∧
    RetryToTimeoutRule.evaluate (RuleContext.absent D) = [] ∧
    ErrorBurstAfterChangeRule.evaluate (RuleContext.absent D) = some [] :=
  ⟨rfl, rfl, rfl⟩

/-- C7. For every configuration, `Stats` and arithmetic of `double`:
`ErrorBurstDetector.detect` returns, in the order of the points, exactly one
ERROR_BURST anomaly for each point of the ERROR time series that passes
`is_burst` (count at least `min_errors_for_burst` and at least
`baseline * threshold_multiplier`, the baseline being the total count divided
by the number of points) and none for any other point; the anomaly of a point
starts at the bucket start and ends at the bucket start plus the bucket width.
Without an ERROR series the result is empty. -/
theorem detect_bursts_exactly {D : Type} [DoubleArith D] (config : ErrorBurstConfig D)
    (events : List Event) (stats : Stats) :
    (ErrorBurstDetector.detect config events stats).map
        (fun a => (a.type, a.start_time, a.end_time)) =
      match stats.severity_time_series.lookup Severity.ERROR with
      | none => []
      | some series =>
        (series.points.filter (is_burst config series)).map
          (fun point =>
            (AnomalyType.ERROR_BURST, some point.timestamp,
              some (point.timestamp + series.bucket_size * ticks_per_minute))) := by
  rw [detect_eq]
  cases stats.severity_time_series.lookup Severity.ERROR with
  | none => rfl
  | some series =>
    simp only [List.map_map]
    rfl

/-- The restart-loop floor that the code keeps, for every event list,
configuration and arithmetic of `double`, with `ts.has_value()` as the test for
a timestamp, whatever its confidence: if fewer than `min_restart_count`
restart-keyword events whose `ts` has a value exist in the input, `detect`
returns the empty anomaly list and reads no empty optional; and every anomaly
that `detect` returns is a RESTART_LOOP anomaly whose evidence is the ids of at
least `min_restart_count` such events of the input, in input order. -/
theorem restart_loop_floor {D : Type} [DoubleArith D] (config : RestartLoopConfig)
    (events : List Event) :
    ((timestamped_restarts config events).length < config.min_restart_count →
      RestartLoopDetector.detect config events = some ([] : List (Anomaly D))) ∧
    (∀ loops : List (Anomaly D), RestartLoopDetector.detect config events = some loops →
      ∀ a ∈ loops, a.type = AnomalyType.RESTART_LOOP ∧
        ∃ sub : List Event, List.Sublist sub (timestamped_restarts config events) ∧
          a.evidence_ids = sub.map (fun e => e.id) ∧ config.min_restart_count ≤ sub.length) := by
  have hspec := @find_loops_from_spec D _ config
    (RestartLoopDetector.restart_indices_of config events) events
    (restart_indices_valid config events)
    (RestartLoopDetector.restart_indices_of config events).length 0 []
    (by simp)
  rw [timestamped_at_restart_indices] at hspec
  have hall : ∀ loops : List (Anomaly D),
      RestartLoopDetector.detect config events = some loops →
      ∀ a ∈ loops,
        loop_evidence_ok config.min_restart_count (timestamped_restarts config events) a := by
    intro loops hd
    unfold RestartLoopDetector.detect at hd
    simp only [] at hd
    split at hd
    · cases hd
      simp
    · exact hspec.1 loops hd
  constructor
  · intro hlt
    cases hd : (RestartLoopDetector.detect config events : Option (List (Anomaly D))) with
    | none =>
      unfold RestartLoopDetector.detect at hd
      simp only [] at hd
      split at hd
      · cases hd
      · have := hspec.2 hd
        omega
    | some loops =>
      cases loops with
      | nil => rfl
      | cons a rest =>
        obtain ⟨_, sub, hsub, _, hmin⟩ := hall (a :: rest) hd a (List.mem_cons_self _ _)
        have := hsub.length_le
        omega
  · intro loops hd a ha
    exact hall loops hd a ha

/-- The floor with `ts.has_value()` at the default configuration (minimum 3)
and the two untimed "Starting" events of the test "handles events without
timestamps" followed by one timed restart event. -/
theorem restart_loop_floor_witness :
    ((timestamped_restarts RestartLoopConfig.default
        [create_untimed_event 1 Severity.INFO "Starting",
         create_untimed_event 2 Severity.INFO "Starting",
         create_test_event 3 Severity.INFO "Server starting" 0]).length <
      RestartLoopConfig.default.min_restart_count) ∧
    RestartLoopDetector.detect RestartLoopConfig.default
        [create_untimed_event 1 Severity.INFO "Starting",
         create_untimed_event 2 Severity.INFO "Starting",
         create_test_event 3 Severity.INFO "Server starting" 0] =
      some ([] : List (Anomaly ℚ)) :=
  ⟨by decide,
    (restart_loop_floor RestartLoopConfig.default
      [create_untimed_event 1 Severity.INFO "Starting",
       create_untimed_event 2 Severity.INFO "Starting",
       create_test_event 3 Severity.INFO "Server starting" 0]).1 (by decide)⟩

/-- C10, counterexample. Merge disabled, one event per input. An ERROR event
whose id is 0: the specified highlights are `[0]`, `build` returns none. An
event of severity UNKNOWN with id 1: it is the member of maximal severity, so
the specified highlights are `[1]`, `build` returns none. -/
theorem highlights_as_specified_counterexample :
    ((build (builder_with 300 false) [create_event 0 Severity.ERROR 0]).1.map
        (fun ep => (ep.highlights,
          highlights_as_specified (episode_members [create_event 0 Severity.ERROR 0] ep))) =
      [([], [0])]) ∧
    ((build (builder_with 300 false) [create_event 1 Severity.UNKNOWN 0]).1.map
        (fun ep => (ep.highlights,
          highlights_as_specified (episode_members [create_event 1 Severity.UNKNOWN 0] ep))) =
      [([], [1])]) := by
  decide

/-- C10, amended. For every episode produced by segmentation (merge disabled)
over events whose ids are unique and non-zero, `highlights` is exactly: the id
of the earliest member whose severity is ERROR or FATAL, if there is one,
followed by the id of the earliest member of maximal severity if that severity
is above UNKNOWN and it is a different event. -/
theorem highlights_of_segmentation (threshold : Int) (next_id : Nat) (events : List Event)
    (hn : (events.map (fun e => e.id)).Nodup) (h0 : ∀ e ∈ events, e.id ≠ 0) :
    ∀ ep ∈ (build { config_ := { time_gap_threshold := threshold, merge_by_correlation := false },
                    next_episode_id_ := next_id } events).1,
      ep.highlights = highlights_above_unknown (episode_members events ep) := by
  cases events with
  | nil => simp [build]
  | cons e rest =>
    rw [build_without_merge threshold next_id (e :: rest) (by simp)]
    exact segment_highlights _ next_id (e :: rest) hn h0

/-- C10, witness: the three events of the test "identifies first error as
highlight" followed, after a gap, by a WARN and a FATAL event. -/
theorem highlights_of_segmentation_witness :
    (([create_event 1 Severity.INFO 0,
        create_event 2 Severity.ERROR (10 * ticks_per_second),
        create_event 3 Severity.INFO (20 * ticks_per_second),
        create_event 4 Severity.WARN (1000 * ticks_per_second),
        create_event 5 Severity.FATAL (1010 * ticks_per_second)].map
          (fun e => e.id)).Nodup) ∧
    (∀ ep ∈ (build { config_ := { time_gap_threshold := 300, merge_by_correlation := false },
                     next_episode_id_ := 1 }
        [create_event 1 Severity.INFO 0,
         create_event 2 Severity.ERROR (10 * ticks_per_second),
         create_event 3 Severity.INFO (20 * ticks_per_second),
         create_event 4 Severity.WARN (1000 * ticks_per_second),
         create_event 5 Severity.FATAL (1010 * ticks_per_second)]).1,
      ep.highlights = highlights_above_unknown (episode_members
        [create_event 1 Severity.INFO 0,
         create_event 2 Severity.ERROR (10 * ticks_per_second),
         create_event 3 Severity.INFO (20 * ticks_per_second),
         create_event 4 Severity.WARN (1000 * ticks_per_second),
         create_event 5 Severity.FATAL (1010 * ticks_per_second)] ep)) :=
  ⟨by decide,
    highlights_of_segmentation 300 1
      [create_event 1 Severity.INFO 0,
       create_event 2 Severity.ERROR (10 * ticks_per_second),
       create_event 3 Severity.INFO (20 * ticks_per_second),
       create_event 4 Severity.WARN (1000 * ticks_per_second),
       create_event 5 Severity.FATAL (1010 * ticks_per_second)]
      (by decide) (by decide)⟩

/-- C13. On a freshly constructed `EpisodeBuilder` (id counter at 1), for every
threshold and event sequence. With merge disabled the ids of the returned
episodes are exactly 1, 2, ..., n in output order. With merge enabled the
phase 1 episodes are numbered 1, 2, ..., n in order, the ids of the returned
episodes are strictly increasing, the first one is 1, and the returned
episodes are the groups of consecutive phase 1 episodes merged into them, each
with the id of the first (earliest) episode of its group and the concatenation
of the member lists of the group. Empty input returns the empty list. -/
theorem episode_ids_fresh_builder (threshold : Int) (events : List Event) :
    ((build (EpisodeBuilder.new
          { time_gap_threshold := threshold, merge_by_correlation := false }) events).1.map
        (fun ep => ep.id) =
      List.range' 1 (build (EpisodeBuilder.new
          { time_gap_threshold := threshold, merge_by_correlation := false }) events).1.length) ∧
    ((EpisodeBuilder.segment { time_gap_threshold := threshold, merge_by_correlation := true } 1
          events).1.map (fun ep => ep.id) =
      List.range' 1 (EpisodeBuilder.segment
          { time_gap_threshold := threshold, merge_by_correlation := true } 1 events).1.length) ∧
    ((build (EpisodeBuilder.new
          { time_gap_threshold := threshold, merge_by_correlation := true }) events).1.map
        (fun ep => ep.id)).Pairwise (fun a b => a < b) ∧
    ((build (EpisodeBuilder.new
          { time_gap_threshold := threshold, merge_by_correlation := true }) events).1.map
        (fun ep => ep.id)).head? = (if events.isEmpty then none else some 1) ∧
    (∃ groups : List (List Episode),
      groups.flatten =
          (EpisodeBuilder.segment { time_gap_threshold := threshold, merge_by_correlation := true }
            1 events).1 ∧
        List.Forall₂ merged_from
          (build (EpisodeBuilder.new
            { time_gap_threshold := threshold, merge_by_correlation := true }) events).1
          groups) ∧
    (build (EpisodeBuilder.new
        { time_gap_threshold := threshold, merge_by_correlation := false }) []).1 = [] ∧
    (build (EpisodeBuilder.new
        { time_gap_threshold := threshold, merge_by_correlation := true }) []).1 = [] := by
  have hseg : ∀ merge : Bool,
      (EpisodeBuilder.segment { time_gap_threshold := threshold, merge_by_correlation := merge } 1
          events).1.map (fun ep => ep.id) =
        List.range' 1 (EpisodeBuilder.segment
          { time_gap_threshold := threshold, merge_by_correlation := merge } 1 events).1.length := by
    intro merge
    by_cases hne : events = []
    · subst hne
      rw [segment_nil]
      rfl
    · exact (segment_ids _ 1 events hne).1
  have hmerge := build_with_merge threshold 1 events
  have hids := merge_phase_ids
    (EpisodeBuilder.segment { time_gap_threshold := threshold, merge_by_correlation := true } 1
      events).1
  refine ⟨?_, hseg true, ?_, ?_, ?_, rfl, rfl⟩
  · by_cases hne : events = []
    · subst hne
      rfl
    · unfold EpisodeBuilder.new
      rw [build_without_merge threshold 1 events hne]
      exact hseg false
  · unfold EpisodeBuilder.new
    rw [hmerge]
    apply List.Pairwise.sublist hids.1
    rw [hseg true]
    exact List.pairwise_lt_range' 1 _
  · unfold EpisodeBuilder.new
    rw [hmerge, hids.2, hseg true]
    cases events with
    | nil => simp [segment_nil]
    | cons e rest =>
      have hlen : ∃ k, (EpisodeBuilder.segment
          { time_gap_threshold := threshold, merge_by_correlation := true } 1
          (e :: rest)).1.length = k + 1 := by
        rw [segment_cons]
        exact ⟨_, List.length_append _ _⟩
      obtain ⟨k, hk⟩ := hlen
      rw [hk]
      simp [List.range'_succ]
  · unfold EpisodeBuilder.new
    rw [hmerge]
    exact merge_phase_groups _

/-- C14, counterexample. One event, merge disabled, a fresh builder: the first
call of `build` returns an episode with id 1, the second call on the same
builder (its id counter has advanced) returns an episode with id 2, so the two
results differ. -/
theorem build_twice_counterexample :
    (build (builder_with 300 false) [create_event 1 Severity.INFO 0]).1.map (fun ep => ep.id) =
      [1] ∧
    (build (build (builder_with 300 false) [create_event 1 Severity.INFO 0]).2
        [create_event 1 Severity.INFO 0]).1.map (fun ep => ep.id) = [2] ∧
    (build (build (builder_with 300 false) [create_event 1 Severity.INFO 0]).2
        [create_event 1 Severity.INFO 0]).1 ≠
      (build (builder_with 300 false) [create_event 1 Severity.INFO 0]).1 := by
  decide

/-- C14, amended. For every builder and event sequence, calling `build` twice
on the same builder with the same event sequence returns two episode lists
that are equal except for the ids: each episode of the second result is the
episode of the first result with its id raised by the number of phase 1
episodes (members, times, correlation ids, highlights and severities are the
same). That number is zero only for the empty input. -/
theorem build_twice_offset (b : EpisodeBuilder) (events : List Event) :
    (build (build b events).2 events).1 =
        (build b events).1.map
          (with_id_offset
            (EpisodeBuilder.segment b.config_ b.next_episode_id_ events).1.length) ∧
      ((EpisodeBuilder.segment b.config_ b.next_episode_id_ events).1.length = 0 ↔
        events = []) := by
  constructor
  · rw [build_next, build_offset]
  · constructor
    · intro h
      cases events with
      | nil => rfl
      | cons e rest =>
        rw [segment_cons] at h
        simp at h
    · intro h
      subst h
      rw [segment_nil]
      rfl

/-- C12. For every builder (merging on or off) and every event sequence whose
ids are unique, as the data model states: the `correlation_ids` of every
episode returned by `build` contain no duplicate and, as a set, are exactly the
`request_id` and `trace_id` tag values of its member events. The
`correlation_ids` of a merge of two episodes contain no duplicate and are, as a
set, the union of the two sets. -/
theorem correlation_ids_are_member_tags (b : EpisodeBuilder) (events : List Event)
    (hn : (events.map (fun e => e.id)).Nodup) :
    (∀ ep ∈ (build b events).1,
      ep.correlation_ids.Nodup ∧
        ∀ x : String, x ∈ ep.correlation_ids ↔
          ∃ e ∈ episode_members events ep,
            e.tags.find "request_id" = some x ∨ e.tags.find "trace_id" = some x) ∧
    (∀ a c : Episode,
      (merge_episodes a c).correlation_ids.Nodup ∧
        ∀ x : String, x ∈ (merge_episodes a c).correlation_ids ↔
          (x ∈ a.correlation_ids ∨ x ∈ c.correlation_ids)) := by
  constructor
  · have hseg := segment_correlation_ok b.config_ b.next_episode_id_ events hn
    unfold build
    split
    · simp
    · simp only []
      split
      · exact merge_phase_correlation_ok events _ hseg
      · exact hseg
  · intro a c
    exact ⟨merge_episodes_nodup a c, mem_merge_episodes_correlation_ids a c⟩

/-- C12, witness: the three tagged events of `chained_events`, threshold 60 s,
merging enabled. -/
theorem correlation_ids_are_member_tags_witness :
    (chained_events.map (fun e => e.id)).Nodup ∧
    (∀ ep ∈ (build (builder_with 60 true) chained_events).1,
      ep.correlation_ids.Nodup ∧
        ∀ x : String, x ∈ ep.correlation_ids ↔
          ∃ e ∈ episode_members chained_events ep,
            e.tags.find "request_id" = some x ∨ e.tags.find "trace_id" = some x) :=
  ⟨by decide,
    (correlation_ids_are_member_tags (builder_with 60 true) chained_events (by decide)).1⟩

/-- C11, the code at the failing input `unordered_events` (threshold 300 s,
merging enabled). Phase 1 makes the episodes `[1, 2]` (start 0 s, end 1000 s)
and `[3]` (start and end 400 s); they share a request id and are merged. The
merged episode has `end_time` 400 s, the end of the second episode, although
the maximum of the valid timestamps of its members, and of the two end times,
is 1000 s. -/
theorem merge_times_out_of_order :
    (EpisodeBuilder.segment { time_gap_threshold := 300, merge_by_correlation := true } 1
        unordered_events).1.map (fun ep => (ep.event_ids, ep.start_time, ep.end_time)) =
      [([1, 2], some 0, some (1000 * ticks_per_second)),
       ([3], some (400 * ticks_per_second), some (400 * ticks_per_second))] ∧
    (build (builder_with 300 true) unordered_events).1.map
        (fun ep => (ep.event_ids, ep.start_time, ep.end_time)) =
      [([1, 2, 3], some 0, some (400 * ticks_per_second))] ∧
    (build (builder_with 300 true) unordered_events).1.map
        (fun ep => (valid_times (episode_members unordered_events ep)).max?) =
      [some (1000 * ticks_per_second)] := by
  decide

/-- C15, the code at two failing inputs, default keywords and a window of 10
minutes. Minimum 3, restart events at 0 min, untimed, at 1 min and at 2 min:
the anomaly has evidence `[1, 3, 4]` and `end_time` 1 min, the time of event 3,
not of the last evidence event 4 (2 min). Minimum 2, restart events at 0 min,
untimed and at 1 min: the end time is read from the untimed event, an empty
optional. -/
theorem restart_loop_end_time_with_untimed :
    anomaly_spans (RestartLoopDetector.detect RestartLoopConfig.default
        [restart_at 1 0, restart_untimed 2, restart_at 3 1, restart_at 4 2] :
        Option (List (Anomaly ℚ))) =
      some [([1, 3, 4], some 0, some (1 * ticks_per_minute))] ∧
    (restart_at 4 2).ts.map (fun t => t.tp) = some (2 * ticks_per_minute) ∧
    anomaly_spans (RestartLoopDetector.detect
        { RestartLoopConfig.default with min_restart_count := 2 }
        [restart_at 1 0, restart_untimed 2, restart_at 3 1] :
        Option (List (Anomaly ℚ))) = none := by
  decide

/-- C16, the code at a failing input, default configuration (minimum 3, window
10 minutes): restart events at 0 min, untimed, at 1, 9, 11 and 12 min. The
first anomaly has evidence `[1, 3, 4]`; the scan resumes at event 4, which
anchors a second anomaly with evidence `[4, 5, 6]`: id 4 is in both. -/
theorem restart_loops_overlap_with_untimed :
    anomaly_spans (RestartLoopDetector.detect RestartLoopConfig.default
        [restart_at 1 0, restart_untimed 2, restart_at 3 1, restart_at 4 9, restart_at 5 11,
         restart_at 6 12] : Option (List (Anomaly ℚ))) =
      some [([1, 3, 4], some 0, some (1 * ticks_per_minute)),
            ([4, 5, 6], some (9 * ticks_per_minute), some (12 * ticks_per_minute))] ∧
    ([restart_at 1 0, restart_untimed 2, restart_at 3 1, restart_at 4 9, restart_at 5 11,
      restart_at 6 12].map (fun e => e.id)).Nodup := by
  decide

/-- C17, the code at a failing input, default configuration: three restart
events whose timestamps have confidence 0. None has a valid timestamp, yet the
first one anchors a RESTART_LOOP anomaly and all three are its evidence. -/
theorem restart_loop_with_invalid_timestamps :
    ([restart_unconfident 1 0, restart_unconfident 2 1, restart_unconfident 3 2].map
        (fun e => e.has_valid_ts)) = [false, false, false] ∧
    anomaly_spans (RestartLoopDetector.detect RestartLoopConfig.default
        [restart_unconfident 1 0, restart_unconfident 2 1, restart_unconfident 3 2] :
        Option (List (Anomaly ℚ))) =
      some [([1, 2, 3], some 0, some (2 * ticks_per_minute))] := by
  decide

/-- C5, the code at a failing input, default configuration (minimum 3): one
restart event with a valid timestamp at minute 0 and two restart events whose
timestamps, at minutes 1 and 2, have confidence 0. One restart event carries a
valid timestamp, fewer than the minimum, yet `detect` returns a RESTART_LOOP
anomaly whose evidence is the three events. -/
theorem restart_loop_floor_confidence_zero :
    (valid_restarts RestartLoopConfig.default
        [restart_at 1 0, restart_unconfident 2 1, restart_unconfident 3 2]).map
      (fun e => e.id) = [1] ∧
    (valid_restarts RestartLoopConfig.default
        [restart_at 1 0, restart_unconfident 2 1, restart_unconfident 3 2]).length <
      RestartLoopConfig.default.min_restart_count ∧
    anomaly_spans (RestartLoopDetector.detect RestartLoopConfig.default
        [restart_at 1 0, restart_unconfident 2 1, restart_unconfident 3 2] :
        Option (List (Anomaly ℚ))) =
      some [([1, 2, 3], some 0, some (2 * ticks_per_minute))] ∧
    (RestartLoopDetector.detect RestartLoopConfig.default
        [restart_at 1 0, restart_unconfident 2 1, restart_unconfident 3 2] :
        Option (List (Anomaly ℚ))).map (fun loops => loops.map (fun a => a.type)) =
      some [AnomalyType.RESTART_LOOP] := by
  decide

/-- C19, the code at the failing input `open_burst_context`: the context holds
a change event, an ERROR event at the burst start and an ERROR_BURST anomaly
with a start time and no end time. `ErrorBurstAfterChangeRule.evaluate` finds
the change event and then compares the ERROR event with `*anomaly.end_time`,
an empty optional. -/
theorem error_burst_rule_reads_absent_end_time :
    (ErrorBurstAfterChangeRule.evaluate open_burst_context).isNone = true := by
  decide

/-- C18, counterexample. Default configuration (minimum 3, window 10 minutes),
restart events at 100 min, 0 min and 1 min in this input order: the anomaly is
anchored at the first event (100 min) and its evidence holds events 2 and 3,
whose timestamps are earlier than the anchor. -/
theorem restart_window_lower_bound_counterexample :
    anomaly_spans (RestartLoopDetector.detect RestartLoopConfig.default
        [restart_at 1 100, restart_at 2 0, restart_at 3 1] : Option (List (Anomaly ℚ))) =
      some [([1, 2, 3], some (100 * ticks_per_minute), some (1 * ticks_per_minute))] ∧
    (restart_at 2 0).ts.map (fun t => t.tp) = some 0 ∧
    (0 : Int) < 100 * ticks_per_minute := by
  decide

/-- C18, amended. Every anomaly returned by `RestartLoopDetector.detect` starts
at the timestamp of its anchor, its first evidence event, and every later
event of its evidence is a timestamped restart event of the input whose
timestamp `t` satisfies `t <= anchor_time + time_window`. The lower bound
`anchor_time <= t` holds when the timestamped restart events of the input are
in non-decreasing order of time. -/
theorem restart_loop_window {D : Type} [DoubleArith D] (config : RestartLoopConfig)
    (events : List Event) (loops : List (Anomaly D))
    (h : RestartLoopDetector.detect config events = some loops) :
    ∀ a ∈ loops,
      ∃ (anchor : Event) (t0 : Timestamp) (sub : List Event),
        List.Sublist (anchor :: sub) (timestamped_restarts config events) ∧
          anchor.ts = some t0 ∧ a.start_time = some t0.tp ∧
          a.evidence_ids = (anchor :: sub).map (fun e => e.id) ∧
          ∀ e ∈ sub, ∃ t : Timestamp,
            e.ts = some t ∧ t.tp ≤ t0.tp + config.time_window * ticks_per_minute ∧
              (time_ordered (timestamped_restarts config events) → t0.tp ≤ t.tp) := by
  intro a ha
  have hspec := @find_loops_from_window D _ config
    (RestartLoopDetector.restart_indices_of config events) events
    (restart_indices_valid config events)
    (RestartLoopDetector.restart_indices_of config events).length 0 []
    (by simp)
  rw [timestamped_at_restart_indices] at hspec
  have hok : loop_window_ok config (timestamped_restarts config events) a := by
    unfold RestartLoopDetector.detect at h
    simp only [] at h
    split at h
    · cases h
      simp at ha
    · exact hspec loops h a ha
  obtain ⟨anchor, t0, sub, hsub, hts, hstart, hev, hbound⟩ := hok
  refine ⟨anchor, t0, sub, hsub, hts, hstart, hev, ?_⟩
  intro e he
  obtain ⟨t, ht, hle⟩ := hbound e he
  refine ⟨t, ht, hle, ?_⟩
  intro hord
  have hp := List.Pairwise.sublist hsub hord
  exact (List.pairwise_cons.mp hp).1 e he t0 t hts ht

/-- C18, witness: restart events at 0, 1 and 2 min, default configuration. -/
theorem restart_loop_window_witness :
    (RestartLoopDetector.detect RestartLoopConfig.default
        [restart_at 1 0, restart_at 2 1, restart_at 3 2] :
        Option (List (Anomaly ℚ))).isSome = true ∧
    ∀ a ∈ (RestartLoopDetector.detect RestartLoopConfig.default
        [restart_at 1 0, restart_at 2 1, restart_at 3 2] : Option (List (Anomaly ℚ))).getD [],
      ∃ (anchor : Event) (t0 : Timestamp) (sub : List Event),
        List.Sublist (anchor :: sub)
            (timestamped_restarts RestartLoopConfig.default
              [restart_at 1 0, restart_at 2 1, restart_at 3 2]) ∧
          anchor.ts = some t0 ∧ a.start_time = some t0.tp ∧
          a.evidence_ids = (anchor :: sub).map (fun e => e.id) ∧
          ∀ e ∈ sub, ∃ t : Timestamp,
            e.ts = some t ∧
              t.tp ≤ t0.tp + RestartLoopConfig.default.time_window * ticks_per_minute ∧
              (time_ordered (timestamped_restarts RestartLoopConfig.default
                  [restart_at 1 0, restart_at 2 1, restart_at 3 2]) → t0.tp ≤ t.tp) :=
  ⟨by decide,
    restart_loop_window RestartLoopConfig.default
      [restart_at 1 0, restart_at 2 1, restart_at 3 2] _
      (option_eq_some_getD _ [] (by decide))⟩

/-- C20. After any sequence of `register_rule` calls on a new `RuleRegistry`
(a null pointer among them registers nothing), `get_all_rules` lists exactly
the registered rules, in non-increasing priority, and for every priority the
rules of that priority appear in the order in which they were registered. -/
theorem registry_priority_order {D : Type} (calls : List (Option (Rule D))) :
    (RuleRegistry.get_all_rules
        (calls.foldl RuleRegistry.register_rule (RuleRegistry.new D))).Perm
        (calls.filterMap id)
      ∧ (RuleRegistry.get_all_rules
          (calls.foldl RuleRegistry.register_rule (RuleRegistry.new D))).Pairwise
          (fun a b => a.priority ≥ b.priority)
      ∧ ∀ p : Int,
          (RuleRegistry.get_all_rules
              (calls.foldl RuleRegistry.register_rule (RuleRegistry.new D))).filter
              (fun r => decide (r.priority = p))
            = (calls.filterMap id).filter (fun r => decide (r.priority = p)) := by
  induction calls using List.reverseRecOn with
  | nil =>
    refine ⟨List.Perm.refl _, List.Pairwise.nil, ?_⟩
    intro p
    rfl
  | append_singleton calls c ih =>
    rw [List.foldl_append, List.filterMap_append]
    cases c with
    | none =>
      simpa [register_rule_none] using ih
    | some r =>
      obtain ⟨hperm, -, hfilter⟩ := ih
      simp only [List.foldl_cons, List.foldl_nil, RuleRegistry.get_all_rules,
        register_rule_some] at hperm hfilter ⊢
      refine ⟨?_, pairwise_stable_sort _, ?_⟩
      · refine (perm_stable_sort _ _).trans ?_
        simpa using List.Perm.append_right [r] hperm
      · intro p
        rw [filter_stable_sort, List.filter_append, hfilter p]
        simp [List.filter_append]

/-- C21. For every registry and context, `evaluate_all` is the concatenation,
in `get_all_rules` order, of the `evaluate` output of each registered rule, each
rule being evaluated once: no finding is dropped, reordered or deduplicated.
Where the `evaluate` of some registered rule is undefined (it reads an empty
optional), `evaluate_all` is undefined too. -/
theorem evaluate_all_concatenates {D : Type} (reg : RuleRegistry D)
    (context : RuleContext D) :
    RuleRegistry.evaluate_all reg context =
      if (RuleRegistry.get_all_rules reg).all (fun r => (r.evaluate context).isSome) then
        some (((RuleRegistry.get_all_rules reg).map
          (fun r => (r.evaluate context).getD [])).flatten)
      else none := by
  unfold RuleRegistry.evaluate_all RuleRegistry.get_all_rules
  rw [evaluate_all_loop_eq]
  simp

/-- C25. For every context whose anomaly list is present, `CrashLoopRule.evaluate`
returns one finding for each RESTART_LOOP anomaly, in the order of the
anomalies, and nothing else; the finding has severity CRITICAL, the confidence,
start time and end time of its anomaly, and the event ids of its evidence are
the `evidence_ids` of the anomaly in the same order. -/
theorem crash_loop_republishes {D : Type} [DoubleArith D] (events : Option (List Event))
    (stats : Option Stats) (episodes : Option (List Episode))
    (anomalies : List (Anomaly D)) :
    List.Forall₂
      (fun (f : Finding D) (a : Anomaly D) =>
        f.severity = FindingSeverity.CRITICAL ∧ f.confidence = a.confidence ∧
        f.start_time = a.start_time ∧ f.end_time = a.end_time ∧
        f.evidence.map (fun ev => ev.event_id) = a.evidence_ids)
      (CrashLoopRule.evaluate
        { events := events, stats := stats, episodes := episodes, anomalies := some anomalies })
      (anomalies.filter (fun a => decide (a.type = AnomalyType.RESTART_LOOP))) := by
  unfold CrashLoopRule.evaluate
  simp only
  have key : ∀ (l : List (Anomaly D)) (acc : List (Finding D)),
      ∃ out, l.foldl
          (fun findings anomaly =>
            if anomaly.type = AnomalyType.RESTART_LOOP then
              findings ++ [CrashLoopRule.crash_loop_finding findings.length anomaly]
            else findings) acc = acc ++ out ∧
        List.Forall₂
          (fun (f : Finding D) (a : Anomaly D) =>
            f.severity = FindingSeverity.CRITICAL ∧ f.confidence = a.confidence ∧
            f.start_time = a.start_time ∧ f.end_time = a.end_time ∧
            f.evidence.map (fun ev => ev.event_id) = a.evidence_ids)
          out (l.filter (fun a => decide (a.type = AnomalyType.RESTART_LOOP))) := by
    intro l
    induction l with
    | nil =>
      intro acc
      exact ⟨[], by simp, List.Forall₂.nil⟩
    | cons a rest ih =>
      intro acc
      rw [List.foldl_cons]
      by_cases h : a.type = AnomalyType.RESTART_LOOP
      · rw [if_pos h]
        obtain ⟨out, hout, hrel⟩ :=
          ih (acc ++ [CrashLoopRule.crash_loop_finding acc.length a])
        refine ⟨CrashLoopRule.crash_loop_finding acc.length a :: out, ?_, ?_⟩
        · rw [hout]
          simp
        · rw [List.filter_cons_of_pos (by simpa using h)]
          exact List.Forall₂.cons (crash_loop_finding_fields _ a) hrel
      · rw [if_neg h]
        obtain ⟨out, hout, hrel⟩ := ih acc
        refine ⟨out, hout, ?_⟩
        rw [List.filter_cons_of_neg (by simpa using h)]
        exact hrel
  obtain ⟨out, hout, hrel⟩ := key anomalies []
  rw [hout]
  simpa using hrel

/-- C24. For every event list, `RetryToTimeoutRule.evaluate` emits, in input
order, one finding for each maximal run of consecutive retry-keyword events
that is immediately followed by a timeout-keyword event, and no other finding:
the evidence of the finding is the ids of the run in input order followed by
the id of the timeout event. A run followed by another event, or ending the
input, yields no finding. -/
theorem retry_to_timeout_findings {D : Type} [DoubleArith D] (events : List Event)
    (stats : Option Stats) (episodes : Option (List Episode))
    (anomalies : Option (List (Anomaly D))) :
    (RetryToTimeoutRule.evaluate
        { events := some events, stats := stats, episodes := episodes,
          anomalies := anomalies }).map Finding.evidence_ids =
      retry_timeout_evidence events := by
  unfold RetryToTimeoutRule.evaluate
  simp only []
  cases events with
  | nil => rfl
  | cons e rest =>
    have h := @scan_evidence D _ (e :: rest) (e :: rest).length 0 [] (by omega)
    simpa using h

/-- C22, counterexample. A deployment event at 0 and an ERROR_BURST anomaly
that starts 30 minutes and half a second later: no change event lies within the
30 minutes before the burst start, yet the rule emits a finding that starts at
the deployment event, because it compares the gap in whole seconds (1800). -/
theorem change_lookback_counterexample :
    (deploy_then_error 1800500).filter (within_lookback (1800500 * 1000000)) = [] ∧
    (burst_at ℚ 1800500).start_time = some (1800500 * 1000000) ∧
    finding_spans (ErrorBurstAfterChangeRule.evaluate
      { events := some (deploy_then_error 1800500), stats := none, episodes := none,
        anomalies := some [burst_at ℚ 1800500] }) = some [(some 0, [1, 2])] := by
  decide

/-- C22, amended. For every event list and every anomaly list in which each
ERROR_BURST anomaly with a start time has an end time, `evaluate` returns a
finding list with exactly one finding, in anomaly order, for each ERROR_BURST
anomaly that has a start time and some change-keyword event carrying a
timestamp strictly before the burst start whose gap in whole seconds (rounded
down) is at most 1800, and no finding for any other anomaly. The finding starts
at the time of such a change event of least gap in whole seconds, that event is
its first evidence entry, and it ends where the anomaly ends. -/
theorem error_burst_after_change_findings {D : Type} [DoubleArith D] (events : List Event)
    (stats : Option Stats) (episodes : Option (List Episode)) (anomalies : List (Anomaly D))
    (hend : ∀ a ∈ anomalies, a.type = AnomalyType.ERROR_BURST → a.start_time.isSome = true →
      a.end_time.isSome = true) :
    ∃ findings,
      ErrorBurstAfterChangeRule.evaluate
        { events := some events, stats := stats, episodes := episodes,
          anomalies := some anomalies } = some findings ∧
      List.Forall₂ (change_finding_ok events) findings
        (anomalies.filter (has_nearby_change events)) := by
  obtain ⟨out, hout⟩ := error_burst_evaluate_total events stats episodes anomalies hend
  exact ⟨out, hout, error_burst_evaluate_sound events stats episodes anomalies out hout⟩

/-- C22, the amended statement at a deployment event followed two minutes later
by an ERROR event and a burst. -/
theorem error_burst_after_change_findings_witness :
    (∀ a ∈ [burst_at ℚ 120000], a.type = AnomalyType.ERROR_BURST →
      a.start_time.isSome = true → a.end_time.isSome = true) ∧
    ∃ findings,
      ErrorBurstAfterChangeRule.evaluate
        { events := some (deploy_then_error 120000), stats := none, episodes := none,
          anomalies := some [burst_at ℚ 120000] } = some findings ∧
      List.Forall₂ (change_finding_ok (deploy_then_error 120000)) findings
        ([burst_at ℚ 120000].filter (has_nearby_change (deploy_then_error 120000))) :=
  ⟨by decide,
    error_burst_after_change_findings (deploy_then_error 120000) none none [burst_at ℚ 120000]
      (by decide)⟩

/-- C23. The arithmetic of `double` is exact arithmetic followed by a rounding
`rnd` that is monotone and leaves 0, 1/2 and 1 unchanged (as rounding to the
nearest `double` does). For every finding of `ErrorBurstAfterChangeRule.evaluate`
the confidence is `change_confidence` of the gap between the change event at
which the finding starts and the burst start, taken in whole seconds. That
confidence decays with the gap: for gaps `0 ≤ d1 ≤ d2` the confidence for `d1`
is at least the confidence for `d2`; and it lies between 0.5 and 1. -/
theorem change_confidence_decays (rnd : ℚ → ℚ) (hmono : Monotone rnd) (h0 : rnd 0 = 0)
    (hhalf : rnd (1 / 2) = 1 / 2) (h1 : rnd 1 = 1) :
    (∀ d1 d2 : Int, 0 ≤ d1 → d1 ≤ d2 →
      DoubleArith.le (change_confidence (Int.tdiv d2 ticks_per_second) : Rounded rnd)
        (change_confidence (Int.tdiv d1 ticks_per_second)) = true) ∧
    (∀ d : Int, 0 ≤ d →
      DoubleArith.le (DoubleArith.ofRat (1 / 2))
          (change_confidence (Int.tdiv d ticks_per_second) : Rounded rnd) = true ∧
        DoubleArith.le (change_confidence (Int.tdiv d ticks_per_second) : Rounded rnd)
          (DoubleArith.ofRat 1) = true) ∧
    (∀ (events : List Event) (stats : Option Stats) (episodes : Option (List Episode))
        (anomalies : List (Anomaly (Rounded rnd))) (findings : List (Finding (Rounded rnd))),
      ErrorBurstAfterChangeRule.evaluate
          { events := some events, stats := stats, episodes := episodes,
            anomalies := some anomalies } = some findings →
        List.Forall₂
          (fun f a => ∃ burst_time change_time,
            a.start_time = some burst_time ∧ f.start_time = some change_time ∧
            change_time < burst_time ∧
            f.confidence =
              change_confidence (Int.tdiv (burst_time - change_time) ticks_per_second))
          findings (anomalies.filter (has_nearby_change events))) := by
  refine ⟨?_, ?_, ?_⟩
  · intro d1 d2 hd1 hd
    exact decide_eq_true
      (change_confidence_antitone rnd hmono h1 _ _ (tdiv_seconds_mono d1 d2 hd1 hd))
  · intro d hd
    have hg : 0 ≤ Int.tdiv d ticks_per_second := Int.tdiv_nonneg hd (by decide)
    obtain ⟨hlo, hhi⟩ := change_confidence_range rnd hmono h0 hhalf h1 _ hg
    exact ⟨decide_eq_true hlo, decide_eq_true hhi⟩
  · intro events stats episodes anomalies findings h
    refine List.Forall₂.imp ?_ (error_burst_evaluate_sound events stats episodes anomalies _ h)
    rintro f a ⟨burst_time, change, g, hstart, -, -, hg, -, hs, -, -, hconf⟩
    obtain ⟨-, t, hts, hlt, hgeq⟩ := change_gap_some burst_time change g hg
    refine ⟨burst_time, t.tp, hstart, ?_, hlt, ?_⟩
    · rw [hs, hts]
      rfl
    · rw [hconf, hgeq]

/-- C23 with exact arithmetic (no rounding): the confidence for a gap of ten
minutes is at most the confidence for a gap of one minute. -/
theorem change_confidence_decays_witness :
    Monotone (id : ℚ → ℚ) ∧ (id : ℚ → ℚ) 0 = 0 ∧ (id : ℚ → ℚ) (1 / 2) = 1 / 2 ∧
    (id : ℚ → ℚ) 1 = 1 ∧
    DoubleArith.le
      (change_confidence (Int.tdiv (10 * ticks_per_minute) ticks_per_second) : Rounded id)
      (change_confidence (Int.tdiv (1 * ticks_per_minute) ticks_per_second)) = true :=
  ⟨monotone_id, rfl, rfl, rfl,
    (change_confidence_decays id monotone_id rfl rfl rfl).1 (1 * ticks_per_minute)
      (10 * ticks_per_minute) (by decide) (by decide)⟩

/-- C28. For every standard library, every configuration with a non-zero
bucket size and every event list, `StatsBuilder.build` returns a `Stats` with
`total_events` the number of events; for every severity `s` the count
`severity_counts[s]` (0 when absent) is the number of events of severity `s`,
and the counts sum to `total_events`; for every non-empty path `p` the count
`source_counts[p]` (0 when absent) is the number of events with source path
`p`. On the empty input the result is the default `Stats`: zero total, empty
maps, no start and end time. -/
theorem stats_counts (lib : StdLib) (config : StatsConfig) (events : List Event)
    (hb : config.time_bucket_size ≠ 0) :
    (∃ stats, StatsBuilder.build lib config events = some stats ∧
      stats.total_events = events.length ∧
      (∀ s, (stats.severity_counts.lookup s).getD 0 =
        events.countP (fun e => decide (e.sev = s))) ∧
      (stats.severity_counts.map Prod.snd).sum = stats.total_events ∧
      (∀ p, p ≠ "" → (stats.source_counts.lookup p).getD 0 =
        events.countP (fun e => decide (e.src.source_path = p)))) ∧
    StatsBuilder.build lib config [] =
      some { severity_counts := [], severity_time_series := [], source_counts := [],
             frequent_patterns := [], total_events := 0, start_time := none,
             end_time := none } := by
  refine ⟨?_, rfl⟩
  unfold StatsBuilder.build
  simp only []
  cases events with
  | nil =>
    refine ⟨Stats.empty, rfl, rfl, ?_, rfl, ?_⟩
    · intro s
      rfl
    · intro p _
      rfl
  | cons e rest =>
    obtain ⟨s1, h1, htot, hsev, hsum, hsrc⟩ :=
      process_events_spec config hb (e :: rest)
        { Stats.empty with total_events := (e :: rest).length }
        (by intro p hp; cases hp)
    rw [if_neg (by simp), h1]
    refine ⟨_, rfl, ?_, ?_, ?_, ?_⟩
    · exact htot
    · intro s
      have := hsev s
      simpa [StatsBuilder.compute_frequent_patterns, Stats.empty] using this
    · have := hsum
      simp only [StatsBuilder.compute_frequent_patterns]
      rw [htot]
      simpa [Stats.empty] using this
    · intro p hp
      have := hsrc p hp
      simpa [StatsBuilder.compute_frequent_patterns, Stats.empty] using this

/-- C28 at the default configuration and three events. -/
theorem stats_counts_witness :
    StatsConfig.default.time_bucket_size ≠ 0 ∧
    ((∃ stats, StatsBuilder.build plain_lib StatsConfig.default stats_events = some stats ∧
      stats.total_events = stats_events.length ∧
      (∀ s, (stats.severity_counts.lookup s).getD 0 =
        stats_events.countP (fun e => decide (e.sev = s))) ∧
      (stats.severity_counts.map Prod.snd).sum = stats.total_events ∧
      (∀ p, p ≠ "" → (stats.source_counts.lookup p).getD 0 =
        stats_events.countP (fun e => decide (e.src.source_path = p)))) ∧
    StatsBuilder.build plain_lib StatsConfig.default [] =
      some { severity_counts := [], severity_time_series := [], source_counts := [],
             frequent_patterns := [], total_events := 0, start_time := none,
             end_time := none }) :=
  ⟨by decide, stats_counts plain_lib StatsConfig.default stats_events (by decide)⟩

/-- C26, the code at a failing input, for every standard library and the
default configuration: one INFO event whose timestamp is present with
confidence 0 (at 5 minutes). The event has no valid timestamp, yet `build`
returns `start_time` and `end_time` of 5 minutes and an INFO time series of
total count 1. -/
theorem stats_use_invalid_timestamp (lib : StdLib) :
    (restart_unconfident 1 5).has_valid_ts = false ∧
    (StatsBuilder.build lib StatsConfig.default [restart_unconfident 1 5]).map
        (fun s => (s.start_time, s.end_time,
          (s.severity_time_series.lookup Severity.INFO).map TimeSeries.total_count)) =
      some (some (5 * ticks_per_minute), some (5 * ticks_per_minute), some 1) :=
  ⟨rfl, rfl⟩

/-- C27, the code at a failing input: a time series with buckets of one minute
and a time point 30 seconds before the epoch. The greatest multiple of one
minute that is at most the time point is minus one minute; `add_event` creates
the point at 0, which is later than the time point. -/
theorem add_event_before_epoch :
    (TimeSeries.new 1).add_event (-30 * ticks_per_second) =
      some { points := [{ timestamp := 0, count := 1 }], bucket_size := 1 } ∧
    (-1) * ticks_per_minute ≤ -30 * ticks_per_second ∧
    -30 * ticks_per_second < 0 * ticks_per_minute := by
  decide

/-- C29, counterexample. Seventeen messages, each its own pattern with count 1,
and `std::sort` as libstdc++ implements it. `pattern_counts` hands the patterns
over in lexicographic order, "task a finished" to "task q finished". With more
than 16 elements introsort partitions once: the median-of-three step swaps the
first element with the middle one (i) and, every comparison of tied elements
being false, the partition loop swaps the remaining elements pairwise from both
ends. The ten entries kept start with "task i finished", then "task q
finished" down to "task j finished", then "task a finished": they are not in
lexicographic order, and "task b finished" is cut off although the
lexicographically greatest pattern is kept. -/
theorem frequent_pattern_ties_counterexample :
    tied_events.map (fun e => e.message) =
      ["task a finished", "task b finished", "task c finished", "task d finished",
       "task e finished", "task f finished", "task g finished", "task h finished",
       "task i finished", "task j finished", "task k finished", "task l finished",
       "task m finished", "task n finished", "task o finished", "task p finished",
       "task q finished"] ∧
    (StatsBuilder.count_patterns libstdcxx_lib StatsConfig.default tied_events).map
        (fun kv => (kv.1, kv.2.1)) =
      tied_events.map (fun e => (e.message, 1)) ∧
    pattern_counts_of (StatsBuilder.build libstdcxx_lib StatsConfig.default tied_events) =
      some [("task i finished", 1), ("task q finished", 1), ("task p finished", 1),
            ("task o finished", 1), ("task n finished", 1), ("task m finished", 1),
            ("task l finished", 1), ("task k finished", 1), ("task j finished", 1),
            ("task a finished", 1)] ∧
    "task a finished".data < "task i finished".data ∧
    "task b finished".data < "task q finished".data := by
  decide!

/-- C29, amended. For every standard library whose `std_sort` satisfies the
contract of `std::sort`, every configuration with a non-zero bucket size and
every event list, `StatsBuilder.build` returns a `Stats` whose
`frequent_patterns` has `min(top_n_patterns, d)` entries for `d` distinct
normalized patterns of qualifying messages, in non-increasing count and with
distinct patterns; the count of an entry is the number of qualifying messages
that normalize to its pattern and its `max_severity` their maximum severity;
no pattern left out has a larger count than an entry. Nothing is stated about
the order of patterns of equal count. -/
theorem frequent_patterns_top_n (lib : StdLib) (config : StatsConfig) (events : List Event)
    (hb : config.time_bucket_size ≠ 0) (hsort : sort_contract lib.std_sort) :
    ∃ stats, StatsBuilder.build lib config events = some stats ∧
      top_patterns (qualifying_messages lib config events) config.top_n_patterns
        stats.frequent_patterns := by
  unfold StatsBuilder.build
  simp only []
  cases events with
  | nil =>
    refine ⟨Stats.empty, rfl, ?_⟩
    simp [top_patterns, qualifying_messages, Stats.empty]
  | cons e rest =>
    obtain ⟨s1, h1, -⟩ :=
      process_events_spec config hb (e :: rest)
        { Stats.empty with total_events := (e :: rest).length }
        (by intro p hp; cases hp)
    rw [if_neg (by simp), h1]
    exact ⟨_, rfl, frequent_patterns_spec lib config (e :: rest) s1 hsort⟩

/-- C29, the amended statement at the default configuration and three events. -/
theorem frequent_patterns_top_n_witness :
    StatsConfig.default.time_bucket_size ≠ 0 ∧ sort_contract plain_lib.std_sort ∧
    ∃ stats, StatsBuilder.build plain_lib StatsConfig.default stats_events = some stats ∧
      top_patterns (qualifying_messages plain_lib StatsConfig.default stats_events)
        StatsConfig.default.top_n_patterns stats.frequent_patterns :=
  ⟨by decide, sort_contract_plain_lib,
    frequent_patterns_top_n plain_lib StatsConfig.default stats_events (by decide)
      sort_contract_plain_lib⟩

/-- C30, counterexample. One event with a valid timestamp 30 seconds after
the epoch, and the query from 59 seconds to 1 second before the epoch. Rounded
down, the event is in minute 0 and both ends of the query are in minute -1, so
the event is outside the range; `get_by_time_range` returns it, because
`time_to_bucket` truncates toward zero and maps both ends to minute 0. -/
theorem time_range_floor_counterexample :
    EventIndex.get_by_time_range
        (EventIndex.build [create_test_event 1 Severity.INFO "ok" (30 * ticks_per_second)])
        (-59 * ticks_per_second) (-1 * ticks_per_second) = some [1] ∧
    -59 * ticks_per_second ≤ -1 * ticks_per_second ∧
    (30 * ticks_per_second) / ticks_per_minute = 0 ∧
    (-59 * ticks_per_second) / ticks_per_minute = -1 ∧
    (-1 * ticks_per_second) / ticks_per_minute = -1 := by
  decide

/-- C30, amended. The bucket of a time point is its number of minutes since the
epoch truncated toward zero (`time_to_bucket`). After `build(events)`, for
`start ≤ finish`, `get_by_time_range(start, finish)` returns, for the buckets
`b` with `time_to_bucket start ≤ b ≤ time_to_bucket finish` that hold an event
with a valid timestamp, in ascending order of `b`, the ids of the events with a
valid timestamp in bucket `b` in input order. Every event, with or without a
valid timestamp, is returned by `get_by_severity` for its severity and by
`get_by_correlation_id` for its `request_id` and `trace_id` tag values. -/
theorem time_range_query (events : List Event) (start finish : TimePoint)
    (h : start ≤ finish) :
    (∃ buckets : List Int, buckets.Pairwise (fun a b => a < b) ∧
      (∀ b, b ∈ buckets ↔
        (EventIndex.time_to_bucket start ≤ b ∧ b ≤ EventIndex.time_to_bucket finish ∧
          ∃ e ∈ events, in_time_bucket b e = true)) ∧
      EventIndex.get_by_time_range (EventIndex.build events) start finish =
        some ((buckets.map
          (fun b => (events.filter (in_time_bucket b)).map (fun e => e.id))).flatten)) ∧
    (∀ e ∈ events, e.id ∈ EventIndex.get_by_severity (EventIndex.build events) e.sev) ∧
    (∀ e ∈ events, ∀ v,
      (e.tags.find "request_id" = some v ∨ e.tags.find "trace_id" = some v) →
        e.id ∈ EventIndex.get_by_correlation_id (EventIndex.build events) v) := by
  refine ⟨time_index_range events start finish h, ?_, ?_⟩
  · intro e he
    rw [get_by_severity_eq]
    unfold EventIndex.build
    rw [(build_fields events _).2.1]
    exact (fold_reach (fun e m => map_push_back e.sev e.id m)
      (fun e m k x hx => ids_at_push_keep _ _ _ _ _ hx) (fun e k => e.sev = k)
      (fun e m k hk => by rw [← hk]; exact ids_at_push_new _ _ _) events []).2 e he e.sev rfl
  · intro e he v hv
    rw [get_by_correlation_id_eq]
    unfold EventIndex.build
    rw [(build_fields events _).2.2]
    exact (fold_reach EventIndex.index_correlation index_correlation_keep
      (fun e k => e.tags.find "request_id" = some k ∨ e.tags.find "trace_id" = some k)
      (fun e m k hk => index_correlation_new e m k hk) events []).2 e he v hv

/-- C30, the amended statement at three events in minutes 0, 1 and 2 and the
query from the epoch to one minute after it. -/
theorem time_range_query_witness :
    (0 : TimePoint) ≤ ticks_per_minute ∧
    ((∃ buckets : List Int, buckets.Pairwise (fun a b => a < b) ∧
      (∀ b, b ∈ buckets ↔
        (EventIndex.time_to_bucket 0 ≤ b ∧ b ≤ EventIndex.time_to_bucket ticks_per_minute ∧
          ∃ e ∈ stats_events, in_time_bucket b e = true)) ∧
      EventIndex.get_by_time_range (EventIndex.build stats_events) 0 ticks_per_minute =
        some ((buckets.map
          (fun b => (stats_events.filter (in_time_bucket b)).map (fun e => e.id))).flatten)) ∧
    (∀ e ∈ stats_events,
      e.id ∈ EventIndex.get_by_severity (EventIndex.build stats_events) e.sev) ∧
    (∀ e ∈ stats_events, ∀ v,
      (e.tags.find "request_id" = some v ∨ e.tags.find "trace_id" = some v) →
        e.id ∈ EventIndex.get_by_correlation_id (EventIndex.build stats_events) v)) :=
  ⟨by decide, time_range_query stats_events 0 ticks_per_minute (by decide)⟩

/-! ### Severity names -/

/-- C36. Severity round trip: for every severity `s`, the six named ones
`TRACE`, `DEBUG`, `INFO`, `WARN`, `ERROR`, `FATAL` (and `UNKNOWN` as well),
`severity_from_string (to_string s)` is `s`. -/
theorem severity_round_trip :
    ∀ s : Severity, severity_from_string (to_string s) = s := by
  intro s
  cases s <;> decide

/-- C37. The function `severity_from_string` is total and does not look at the
case of letters: it returns for every string what it returns for the
upper-cased string; it maps the aliases `VERBOSE`, `DBG`, `INFORMATION`,
`WARNING`, `ERR`, `CRITICAL`, `SEVERE` to `TRACE`, `DEBUG`, `INFO`, `WARN`,
`ERROR`, `FATAL`, `FATAL`; its value is the severity that the table of the 13
recognised names gives to the upper-cased string; and it is `UNKNOWN` for every
string whose upper-casing is none of the 13 names, among them the empty string
and `bogus`. -/
theorem severity_from_string_total :
    (∀ s : String,
      severity_from_string s = severity_from_string (String.mk (upper_str s))) ∧
    (severity_from_string "VERBOSE" = Severity.TRACE ∧
      severity_from_string "DBG" = Severity.DEBUG ∧
      severity_from_string "INFORMATION" = Severity.INFO ∧
      severity_from_string "WARNING" = Severity.WARN ∧
      severity_from_string "ERR" = Severity.ERROR ∧
      severity_from_string "CRITICAL" = Severity.FATAL ∧
      severity_from_string "SEVERE" = Severity.FATAL) ∧
    (severity_from_string "warning" = Severity.WARN ∧
      severity_from_string "Error" = Severity.ERROR ∧
      severity_from_string "iNfO" = Severity.INFO) ∧
    (∀ s : String, severity_from_string s = severity_of_name (upper_str s)) ∧
    (∀ s : String, upper_str s ∉ severity_names.map (fun p => p.1.data) →
      severity_from_string s = Severity.UNKNOWN) ∧
    severity_from_string "" = Severity.UNKNOWN ∧
    severity_from_string "bogus" = Severity.UNKNOWN := by
  refine ⟨?_, by decide, by decide, severity_from_string_eq, ?_, by decide, by decide⟩
  · intro s
    rw [severity_from_string_eq, severity_from_string_eq, upper_str_idem]
  · intro s hs
    rw [severity_from_string_eq]
    unfold severity_of_name
    have hnone : severity_names.find? (fun p => decide (p.1.data = upper_str s)) = none := by
      rw [List.find?_eq_none]
      intro p hp heq
      apply hs
      rw [List.mem_map]
      exact ⟨p, hp, of_decide_eq_true heq⟩
    rw [hnone]

/-! ### Scenarios -/

/-- C34. Scenario: three events with distinct ids, severities INFO, ERROR and
ERROR and valid timestamps `t0`, `t0` plus one second and `t0` plus two
seconds, the id of the first ERROR event not zero. For every `t0` and every
builder with the default configuration, `build` returns exactly one episode;
it holds the three events, its highlights are exactly the id of the first
ERROR event, once, and its `max_severity` is ERROR. -/
theorem max_severity_scenario (b : EpisodeBuilder) (t0 : TimePoint) (e1 e2 e3 : Event)
    (t1 t2 t3 : Timestamp)
    (hb : b.config_ = EpisodeConfig.default)
    (h12 : e1.id ≠ e2.id) (h13 : e1.id ≠ e3.id) (h23 : e2.id ≠ e3.id) (h2 : e2.id ≠ 0)
    (hs1 : e1.sev = Severity.INFO) (hs2 : e2.sev = Severity.ERROR) (hs3 : e3.sev = Severity.ERROR)
    (ht1 : e1.ts = some t1) (ht2 : e2.ts = some t2) (ht3 : e3.ts = some t3)
    (hv1 : t1.is_valid = true) (hv2 : t2.is_valid = true) (hv3 : t3.is_valid = true)
    (hp1 : t1.tp = t0) (hp2 : t2.tp = t0 + ticks_per_second)
    (hp3 : t3.tp = t0 + 2 * ticks_per_second) :
    ∃ ep, (build b [e1, e2, e3]).1 = [ep] ∧ ep.event_ids = [e1.id, e2.id, e3.id] ∧
      ep.highlights = [e2.id] ∧ ep.max_severity = Severity.ERROR := by
  have hg12 : has_time_gap b.config_ e1 e2 = false := by
    rw [has_time_gap_valid _ e1 e2 t1 t2 ht1 ht2 hv1 hv2, hb, hp1, hp2]
    simp [EpisodeConfig.default, ticks_per_second]
  have hg23 : has_time_gap b.config_ e2 e3 = false := by
    rw [has_time_gap_valid _ e2 e3 t2 t3 ht2 ht3 hv2 hv3, hb, hp2, hp3]
    simp [EpisodeConfig.default, ticks_per_second]
  obtain ⟨hf1, hf2, hf3⟩ := event_map_find_three e1 e2 e3 h12 h13 h23
  have hseg : (EpisodeBuilder.segment b.config_ b.next_episode_id_ [e1, e2, e3]).1 =
      [finalize { Episode.new b.next_episode_id_ with event_ids := [e1.id, e2.id, e3.id] }
        [e1, e2, e3]] := by
    simp [EpisodeBuilder.segment, build_loop, build_step, start_new, hg12, hg23, Episode.empty,
      Episode.new]
  refine ⟨finalize { Episode.new b.next_episode_id_ with event_ids := [e1.id, e2.id, e3.id] }
    [e1, e2, e3], ?_, ?_, ?_, ?_⟩
  · unfold build
    simp only [List.isEmpty_cons, Bool.false_eq_true, if_false, hseg]
    simp
  · simp [finalize, identify_highlights, update_metadata, Episode.new]
  · simp [finalize, identify_highlights, update_metadata, Episode.new, highlight_step,
      highlight_update, hf1, hf2, hf3, hs1, hs2, hs3, Severity.toNat, h2]
  · simp [finalize, identify_highlights, update_metadata, Episode.new, metadata_step,
      hf1, hf2, hf3, hs1, hs2, hs3, Severity.max, Severity.toNat, ht1, ht2, ht3, hv1, hv2, hv3]

/-- C34 at the events of ids 1, 2, 3 with `t0` = 100 seconds and a new builder
with the default configuration. -/
theorem max_severity_scenario_witness :
    ∃ ep, (build (EpisodeBuilder.new EpisodeConfig.default)
        [create_event 1 Severity.INFO (100 * ticks_per_second),
         create_event 2 Severity.ERROR (100 * ticks_per_second + ticks_per_second),
         create_event 3 Severity.ERROR (100 * ticks_per_second + 2 * ticks_per_second)]).1 = [ep] ∧
      ep.event_ids = [1, 2, 3] ∧ ep.highlights = [2] ∧ ep.max_severity = Severity.ERROR :=
  max_severity_scenario (EpisodeBuilder.new EpisodeConfig.default) (100 * ticks_per_second)
    (create_event 1 Severity.INFO (100 * ticks_per_second))
    (create_event 2 Severity.ERROR (100 * ticks_per_second + ticks_per_second))
    (create_event 3 Severity.ERROR (100 * ticks_per_second + 2 * ticks_per_second))
    { tp := 100 * ticks_per_second, confidence := 100, tz_known := false }
    { tp := 100 * ticks_per_second + ticks_per_second, confidence := 100, tz_known := false }
    { tp := 100 * ticks_per_second + 2 * ticks_per_second, confidence := 100, tz_known := false }
    rfl (by decide) (by decide) (by decide) (by decide) rfl rfl rfl rfl rfl rfl
    (by decide) (by decide) (by decide) rfl rfl rfl

/-- C39, the code at the failing input `backward_chain_events` (threshold
300 s, merging enabled). Phase 1 makes the episodes `[1]` (1000 s to 1000 s),
`[2, 3]` (0 s to 1400 s) and `[4]` (301 s to 301 s), each with `start_time` at
most `end_time`; all carry the request id `r` and are merged into one episode
whose `start_time` is 1000 s, the start of the first, and whose `end_time` is
301 s, the end of the last: the start is after the end. -/
theorem merged_span_inverted :
    (EpisodeBuilder.segment { time_gap_threshold := 300, merge_by_correlation := true } 1
        backward_chain_events).1.map (fun ep => (ep.event_ids, ep.start_time, ep.end_time)) =
      [([1], some (1000 * ticks_per_second), some (1000 * ticks_per_second)),
       ([2, 3], some 0, some (1400 * ticks_per_second)),
       ([4], some (301 * ticks_per_second), some (301 * ticks_per_second))] ∧
    (build (builder_with 300 true) backward_chain_events).1.map
        (fun ep => (ep.event_ids, ep.start_time, ep.end_time)) =
      [([1, 2, 3, 4], some (1000 * ticks_per_second), some (301 * ticks_per_second))] ∧
    ¬ (1000 * ticks_per_second ≤ 301 * ticks_per_second) := by
  decide

/-- C35, the code at a failing input: the events of the scenario with the start
time 20.5 minutes before the epoch and the ten burst events 15 minutes later,
at 5.5 minutes before the epoch. One anomaly is returned, of type ERROR_BURST;
its `start_time` is 5 minutes before the epoch, which is after the burst
events: the minute bucket that holds them starts 6 minutes before the
epoch. -/
theorem error_spike_before_epoch :
    (StatsBuilder.build plain_lib StatsConfig.default
        (error_spike_events (-1230 * ticks_per_second) 15)).map
      (fun stats => anomaly_times (ErrorBurstDetector.detect error_spike_config
        (error_spike_events (-1230 * ticks_per_second) 15) stats)) =
      some [(AnomalyType.ERROR_BURST, some (-5 * ticks_per_minute),
        some (-4 * ticks_per_minute))] ∧
    -1230 * ticks_per_second + 15 * ticks_per_minute = -330 * ticks_per_second ∧
    -6 * ticks_per_minute ≤ -330 * ticks_per_second ∧
    -330 * ticks_per_second < -5 * ticks_per_minute := by
  decide!

/-- The scenario of the error spike with the start time 30 seconds after the
epoch: one anomaly, of type ERROR_BURST, whose `start_time` is minute 15, the
start of the minute bucket that holds the ten burst events at 15.5 minutes. -/
theorem error_spike_after_epoch :
    (StatsBuilder.build plain_lib StatsConfig.default
        (error_spike_events (30 * ticks_per_second) 15)).map
      (fun stats => anomaly_times (ErrorBurstDetector.detect error_spike_config
        (error_spike_events (30 * ticks_per_second) 15) stats)) =
      some [(AnomalyType.ERROR_BURST, some (15 * ticks_per_minute),
        some (16 * ticks_per_minute))] ∧
    15 * ticks_per_minute ≤ 30 * ticks_per_second + 15 * ticks_per_minute ∧
    30 * ticks_per_second + 15 * ticks_per_minute < 16 * ticks_per_minute := by
  decide!

/-! ### Lookups of the event index -/

/-- C31, counterexample. One event, of id 1, whose `request_id` and `trace_id`
tags both have the value `x`: the lookup of `x` returns the id twice. -/
theorem correlation_id_repeated_counterexample :
    EventIndex.get_by_correlation_id
        (EventIndex.build
          [create_tagged_event 1 Severity.INFO 0 [("request_id", "x"), ("trace_id", "x")]])
        "x" = [1, 1] ∧
    ¬ (EventIndex.get_by_correlation_id
        (EventIndex.build
          [create_tagged_event 1 Severity.INFO 0 [("request_id", "x"), ("trace_id", "x")]])
        "x").Nodup := by
  decide

/-- C31, amended. After `build(events)`, for every string `k`,
`get_by_correlation_id(k)` is the list that holds, event by event in input
order, the id of the event once for each of its tags `request_id`, `trace_id`
and `uuid` whose value is `k`. So an id is returned exactly when it is the id
of an event that carries `k` under one of the three tags, an event with several
correlation values is listed under each of them, and the list is empty exactly
when no event carries `k`. -/
theorem correlation_lookup (events : List Event) (k : String) :
    EventIndex.get_by_correlation_id (EventIndex.build events) k =
      (events.map (fun e => List.replicate (correlation_hits e k) e.id)).flatten ∧
    (∀ x, x ∈ EventIndex.get_by_correlation_id (EventIndex.build events) k ↔
      ∃ e ∈ events, e.id = x ∧
        (e.tags.find "request_id" = some k ∨ e.tags.find "trace_id" = some k ∨
          e.tags.find "uuid" = some k)) ∧
    (EventIndex.get_by_correlation_id (EventIndex.build events) k = [] ↔
      ∀ e ∈ events, ¬ (e.tags.find "request_id" = some k ∨ e.tags.find "trace_id" = some k ∨
          e.tags.find "uuid" = some k)) := by
  refine ⟨get_by_correlation_id_build events k, ?_, ?_⟩
  · intro x
    rw [get_by_correlation_id_build, List.mem_flatten]
    constructor
    · rintro ⟨l, hl, hx⟩
      obtain ⟨e, he, rfl⟩ := List.mem_map.mp hl
      rw [List.mem_replicate] at hx
      exact ⟨e, he, hx.2.symm, (correlation_hits_pos e k).mp (Nat.pos_of_ne_zero hx.1)⟩
    · rintro ⟨e, he, hid, ht⟩
      refine ⟨_, List.mem_map.mpr ⟨e, he, rfl⟩, ?_⟩
      rw [List.mem_replicate]
      exact ⟨Nat.pos_iff_ne_zero.mp ((correlation_hits_pos e k).mpr ht), hid.symm⟩
  · rw [get_by_correlation_id_build, List.flatten_eq_nil_iff]
    constructor
    · intro h e he ht
      have h1 := h _ (List.mem_map.mpr ⟨e, he, rfl⟩)
      have h2 := (correlation_hits_pos e k).mpr ht
      rw [List.replicate_eq_nil_iff] at h1
      omega
    · intro h l hl
      obtain ⟨e, he, rfl⟩ := List.mem_map.mp hl
      have h2 : ¬ 0 < correlation_hits e k := fun hp => h e he ((correlation_hits_pos e k).mp hp)
      rw [List.replicate_eq_nil_iff]
      omega

/-- The inverted range on an index with the single bucket 1, from minute 2 back
to minute 0: `lower_bound(2)` is the end of the map and `upper_bound(0)` its
beginning, so the loop of `get_by_time_range` starts behind its end iterator
and leaves the map. -/
theorem time_range_inverted_past_end :
    (EventIndex.build [create_test_event 2 Severity.INFO "ok" (1 * ticks_per_minute)]).time_index_ =
      [(1, [2])] ∧
    EventIndex.get_by_time_range
        (EventIndex.build [create_test_event 2 Severity.INFO "ok" (1 * ticks_per_minute)])
        (2 * ticks_per_minute) 0 = none := by
  decide

/-- C40, counterexample. On the empty input the statistics have no ERROR
series: with the multiplier 2 no anomaly is returned and no ERROR bucket is
populated, so the number of anomalies is not strictly smaller than the number
of populated buckets. -/
theorem burst_count_no_bucket_counterexample :
    StatsBuilder.build plain_lib StatsConfig.default [] = some Stats.empty ∧
    (1 : ℚ) < error_spike_config.threshold_multiplier ∧
    count_bursts (ErrorBurstDetector.detect error_spike_config [] Stats.empty) = 0 ∧
    populated_error_buckets Stats.empty = 0 ∧
    ¬ (count_bursts (ErrorBurstDetector.detect error_spike_config [] Stats.empty) <
        populated_error_buckets Stats.empty) :=
  ⟨rfl, by norm_num [error_spike_config], by decide, by decide, by decide⟩

/-- C40, amended. The arithmetic rounds every result with `rnd`; `rnd` is
monotone, keeps a rounded value, keeps the natural numbers up to the total
ERROR count, and the product of a positive value of the arithmetic with a
multiplier above 1 is above that value. The multiplier is a value of the
arithmetic above 1. Then, when the ERROR series has at least one bucket and
each of its buckets is populated, the number of ERROR_BURST anomalies returned,
which is the number of all anomalies returned, is strictly smaller than the
number of populated ERROR buckets, and a series of a single bucket yields no
anomaly. This holds for the statistics that `StatsBuilder.build` returns
whenever they have an ERROR series. Without an ERROR series no anomaly is
returned. -/
theorem burst_count_below_buckets (rnd : ℚ → ℚ) (hmono : Monotone rnd)
    (hidem : ∀ q, rnd (rnd q) = rnd q)
    (hgrow : ∀ x m : ℚ, 0 < x → rnd x = x → rnd m = m → 1 < m → x < rnd (x * m))
    (config : ErrorBurstConfig (Rounded rnd)) (hm : 1 < config.threshold_multiplier.val)
    (hmrep : rnd config.threshold_multiplier.val = config.threshold_multiplier.val) :
    (∀ (events : List Event) (stats : Stats) (series : TimeSeries),
      stats.severity_time_series.lookup Severity.ERROR = some series →
      series.points ≠ [] → (∀ p ∈ series.points, 1 ≤ p.count) →
      (∀ n : Nat, n ≤ series.total_count → rnd (n : ℚ) = n) →
      count_bursts (ErrorBurstDetector.detect config events stats) <
          populated_error_buckets stats ∧
        populated_error_buckets stats = series.points.length ∧
        (ErrorBurstDetector.detect config events stats).length =
          count_bursts (ErrorBurstDetector.detect config events stats) ∧
        (series.points.length = 1 → ErrorBurstDetector.detect config events stats = [])) ∧
    (∀ (lib : StdLib) (sconfig : StatsConfig) (events : List Event) (stats : Stats)
        (series : TimeSeries),
      StatsBuilder.build lib sconfig events = some stats →
      stats.severity_time_series.lookup Severity.ERROR = some series →
      (∀ n : Nat, n ≤ series.total_count → rnd (n : ℚ) = n) →
      count_bursts (ErrorBurstDetector.detect config events stats) <
          populated_error_buckets stats ∧
        (series.points.length = 1 → ErrorBurstDetector.detect config events stats = [])) ∧
    (∀ (events : List Event) (stats : Stats),
      stats.severity_time_series.lookup Severity.ERROR = none →
      ErrorBurstDetector.detect config events stats = []) := by
  have main : ∀ (events : List Event) (stats : Stats) (series : TimeSeries),
      stats.severity_time_series.lookup Severity.ERROR = some series →
      series.points ≠ [] → (∀ p ∈ series.points, 1 ≤ p.count) →
      (∀ n : Nat, n ≤ series.total_count → rnd (n : ℚ) = n) →
      count_bursts (ErrorBurstDetector.detect config events stats) <
          populated_error_buckets stats ∧
        populated_error_buckets stats = series.points.length ∧
        (ErrorBurstDetector.detect config events stats).length =
          count_bursts (ErrorBurstDetector.detect config events stats) ∧
        (series.points.length = 1 → ErrorBurstDetector.detect config events stats = []) := by
    intro events stats series hl hne hpop hexact
    have hlt := bursts_below_points rnd hmono hidem hgrow config hm hmrep events stats series
      hl hne hpop hexact
    have hpe := populated_error_buckets_eq stats series hl hpop
    refine ⟨by rw [hpe]; exact hlt, hpe, detect_length config events stats, ?_⟩
    intro h1
    apply List.length_eq_zero.mp
    rw [detect_length]
    omega
  refine ⟨main, ?_, ?_⟩
  · intro lib sconfig events stats series hb hl hexact
    obtain ⟨hne, hpop⟩ := build_populated lib sconfig events stats hb Severity.ERROR series hl
    obtain ⟨h1, -, -, h4⟩ := main events stats series hl hne hpop hexact
    exact ⟨h1, h4⟩
  · intro events stats hl
    unfold ErrorBurstDetector.detect
    rw [hl]

/-- C40, the amended statement without rounding, at the multiplier 2 and the
statistics `spike_stats` with three populated ERROR buckets. -/
theorem burst_count_below_buckets_witness :
    Monotone (id : ℚ → ℚ) ∧ 1 < exact_spike_config.threshold_multiplier.val ∧
    populated_error_buckets spike_stats = 3 ∧
    count_bursts (ErrorBurstDetector.detect exact_spike_config [] spike_stats) <
      populated_error_buckets spike_stats :=
  ⟨monotone_id, by norm_num [exact_spike_config], by decide,
    ((burst_count_below_buckets id monotone_id (fun _ => rfl)
      (fun x m hx _ _ hm => lt_mul_of_one_lt_right hx hm) exact_spike_config
      (by norm_num [exact_spike_config]) rfl).1 [] spike_stats
      { points := [{ timestamp := 0, count := 1 }, { timestamp := ticks_per_minute, count := 1 },
          { timestamp := 2 * ticks_per_minute, count := 10 }], bucket_size := 1 }
      rfl (by simp) (by decide) (fun _ _ => rfl)).1⟩

/-! ### The multiline framer -/

/-- C38, counterexample. With `max_chars_per_record = 50` and a single raw
line of 60 bytes, `frame` returns one record with the text of the line, longer
than the limit. -/
theorem frame_long_line_counterexample :
    MultilineFramer.frame short_record_config [long_line] =
      [{ src := { source_path := "test.log", start_line := 1, end_line := 1 }
         text := "ERROR Exception occurred in a handler with a very long name." }] ∧
    long_line.text.utf8ByteSize = 60 ∧
    ¬ (∀ r ∈ MultilineFramer.frame short_record_config [long_line],
        r.text.utf8ByteSize ≤ short_record_config.max_chars_per_record) := by
  decide

/-- C38, amended. For every configuration and every list of raw lines, the
records of `frame` are the records of consecutive groups of the lines, in
order, each group a first line and the lines merged into it. A group of one
line gives the record of that line, whatever its length; a group of several
lines has at most `max_lines_per_record` lines and the text of its record has
fewer than `max_chars_per_record` bytes; with a limit of at least one line no
group has more lines than `max_lines_per_record`. So every record either has
fewer bytes than the limit or is a single line of the input. -/
theorem frame_limits (config : MultilineFramerConfig) (lines : List RawLine) :
    (∃ groups : List (RawLine × List RawLine),
      (groups.map (fun g => g.1 :: g.2)).flatten = lines ∧
      MultilineFramer.frame config lines = groups.map record_of_group ∧
      ∀ g ∈ groups, group_within_limits config g ∧
        (1 ≤ config.max_lines_per_record → g.2.length + 1 ≤ config.max_lines_per_record)) ∧
    (∀ r ∈ MultilineFramer.frame config lines,
      r.text.utf8ByteSize < config.max_chars_per_record ∨
        ∃ l ∈ lines, r.text = l.text ∧ r.src = SourceRef.at_line l.source_path l.line_no) := by
  obtain ⟨groups, hflat, hframe, hlim⟩ := frame_groups config lines
  refine ⟨⟨groups, hflat, hframe, fun g hg => ⟨hlim g hg, ?_⟩⟩, ?_⟩
  · intro h1
    rcases hlim g hg with h | h
    · rw [h]
      exact h1
    · exact h.1
  intro r hr
  rw [hframe] at hr
  obtain ⟨g, hg, rfl⟩ := List.mem_map.mp hr
  rcases hlim g hg with h | h
  · right
    refine ⟨g.1, ?_, ?_, ?_⟩
    · rw [← hflat, List.mem_flatten]
      exact ⟨g.1 :: g.2, List.mem_map.mpr ⟨g, hg, rfl⟩, List.mem_cons_self _ _⟩
    · simp [record_of_group, h]
    · simp [record_of_group, h, SourceRef.at_line]
  · exact Or.inl h.2

end Theorems

end Logstory
